import Mathlib

/-!
# Hierarchical state machine engine (package hsm)

A shallow embedding of `processor.go`, `generic.go`, `types.go` and `errors.go`.

Modelling conventions:

* An entity is a node of a finite tree: a dynamic type tag, opaque business fields and the
  sub-entity map.  `SubEntities` is the structural projection; `Copy` and `UpdateSubEntity`
  are supplied by the application (`EntityOps`) and are not assumed lawful.
* A Go map is the association list of its entries, in the order in which a `range` loop
  visits them.  `m[k]` is `List.lookup`.  A Go map has no duplicate keys (`Entity.WF`).
* Methods that take a `context.Context` (Validate, Do, Sync, Save) may have effects: they read
  and update a world state `W`.  `CanProcess`, `NeedSync` and `HasAction` are pure.
* A Go result `(value, err)` is a pair; `err = none` is the nil error.  A pointer `*E` is an
  `Option`.  A failed unchecked type assertion is `Ctl.panic`.
* Every collaborator call and every entry of a processor or wrapper method is recorded in the
  trace of the run, tagged with the path (from the root) of the entity it concerns.
* The recursion into sub-entities is defined with fuel; the operations proper instantiate the
  fuel with the depth of the tree, and `processor.syncAndValidate_eq`, `processor.act_eq` and
  `processor.save_eq` prove that they satisfy the recursive equations of the source.
-/

namespace HSM

/-! ## errors.go -/

/-- Go `error` values: the four sentinels of errors.go and any other error of a collaborator. -/
inductive GoError where
  | unprocessableEntity
  | invalidState
  | invalidEntityType
  | processorNotFound
  | other (code : Nat)
  deriving DecidableEq, Repr

abbrev ErrorUnprocessableEntity : GoError := GoError.unprocessableEntity
abbrev ErrorInvalidState : GoError := GoError.invalidState
abbrev ErrorInvalidEntityType : GoError := GoError.invalidEntityType
abbrev ErrorProcessorNotFound : GoError := GoError.processorNotFound

/-! ## types.go -/

abbrev Action := String

/-- The payload `actionParams interface{}`: opaque to the engine. -/
abbrev ActionParams := Nat

/-- A non-nil value of interface type `Entity`: dynamic type, business fields, sub-entity map. -/
inductive Entity where
  | mk (typ : Nat) (fields : Nat) (subs : List (String × List (String × Entity)))

/-- The dynamic (concrete) type of an entity. -/
def Entity.typ : Entity → Nat
  | .mk t _ _ => t

def Entity.fields : Entity → Nat
  | .mk _ f _ => f

/-- The method `SubEntities()`. -/
def Entity.SubEntities : Entity → List (String × List (String × Entity))
  | .mk _ _ s => s

mutual
def Entity.decEq : (a b : Entity) → Decidable (a = b)
  | .mk t f s, .mk t2 f2 s2 =>
    if h1 : t = t2 then
      if h2 : f = f2 then
        match Entity.decEqTypes s s2 with
        | isTrue h3 => isTrue (by rw [h1, h2, h3])
        | isFalse h3 => isFalse (by intro h; cases h; exact h3 rfl)
      else isFalse (by intro h; cases h; exact h2 rfl)
    else isFalse (by intro h; cases h; exact h1 rfl)
def Entity.decEqTypes : (a b : List (String × List (String × Entity))) → Decidable (a = b)
  | [], [] => isTrue rfl
  | [], _ :: _ => isFalse (by intro h; cases h)
  | _ :: _, [] => isFalse (by intro h; cases h)
  | (k, m) :: r, (k2, m2) :: r2 =>
    if h1 : k = k2 then
      match Entity.decEqEnts m m2 with
      | isTrue h2 =>
        match Entity.decEqTypes r r2 with
        | isTrue h3 => isTrue (by rw [h1, h2, h3])
        | isFalse h3 => isFalse (by intro h; cases h; exact h3 rfl)
      | isFalse h2 => isFalse (by intro h; cases h; exact h2 rfl)
    else isFalse (by intro h; cases h; exact h1 rfl)
def Entity.decEqEnts : (a b : List (String × Entity)) → Decidable (a = b)
  | [], [] => isTrue rfl
  | [], _ :: _ => isFalse (by intro h; cases h)
  | _ :: _, [] => isFalse (by intro h; cases h)
  | (k, e) :: r, (k2, e2) :: r2 =>
    if h1 : k = k2 then
      match Entity.decEq e e2 with
      | isTrue h2 =>
        match Entity.decEqEnts r r2 with
        | isTrue h3 => isTrue (by rw [h1, h2, h3])
        | isFalse h3 => isFalse (by intro h; cases h; exact h3 rfl)
      | isFalse h2 => isFalse (by intro h; cases h; exact h2 rfl)
    else isFalse (by intro h; cases h; exact h1 rfl)
end

instance : DecidableEq Entity := Entity.decEq

mutual
/-- Height of the entity tree (a leaf has depth 1). -/
def Entity.depth : Entity → Nat
  | .mk _ _ subs => Entity.depthTypes subs + 1
def Entity.depthTypes : List (String × List (String × Entity)) → Nat
  | [] => 0
  | (_, m) :: rest => max (Entity.depthEnts m) (Entity.depthTypes rest)
def Entity.depthEnts : List (String × Entity) → Nat
  | [] => 0
  | (_, e) :: rest => max (Entity.depth e) (Entity.depthEnts rest)
end

/-- The entries `(typeKey, subEntityKey, subEntity)` of a sub-entity map in the order in which
the nested loops `for typeKey, typed := range m { for key, sub := range typed { .. } }` visit
them. -/
def entries (m : List (String × List (String × Entity))) : List (String × String × Entity) :=
  m.flatMap (fun tm => tm.2.map (fun ke => (tm.1, ke.1, ke.2)))

/-- The value `m[typeKey][entityKey]`, if present. -/
def lookup2 (m : List (String × List (String × Entity))) (typeKey entityKey : String) :
    Option Entity :=
  (m.lookup typeKey).bind (fun typed => typed.lookup entityKey)

/-- The child of an entity at `(typeKey, entityKey)`. -/
def Entity.child (e : Entity) (typeKey entityKey : String) : Option Entity :=
  lookup2 e.SubEntities typeKey entityKey

/-- The keys of a map, in iteration order. -/
def keys {α : Type} (m : List (String × α)) : List String := m.map Prod.fst

mutual
/-- Go maps have pairwise distinct keys, at every level of the tree. -/
def Entity.WF : Entity → Prop
  | .mk _ _ subs => (keys subs).Nodup ∧ Entity.WFTypes subs
def Entity.WFTypes : List (String × List (String × Entity)) → Prop
  | [] => True
  | (_, m) :: rest => ((keys m).Nodup ∧ Entity.WFEnts m) ∧ Entity.WFTypes rest
def Entity.WFEnts : List (String × Entity) → Prop
  | [] => True
  | (_, e) :: rest => Entity.WF e ∧ Entity.WFEnts rest
end

/-- The methods `Copy` and `UpdateSubEntity` of the `Entity` interface, as implemented by the
application.  `UpdateSubEntity` receives an interface value (possibly nil) and returns
`(Entity, error)`; the engine never looks at the entity of a failing call.  A nil result of
either method makes the following type assertion panic exactly as a result of a foreign
dynamic type does, so it is not modelled separately. -/
structure EntityOps where
  Copy : Entity → Entity
  UpdateSubEntity : Entity → String → String → Option Entity → Except GoError Entity

/-- The interface `StateMachina[E]`. -/
structure StateMachina (W : Type) where
  Do : Entity → Action → ActionParams → Option GoError → W → (Entity × Option GoError) × W
  Validate : Entity → Action → ActionParams → W → Option GoError × W
  CanProcess : Entity → Bool

/-- The interface `Syncer[E]`. -/
structure Syncer (W : Type) where
  Sync : Entity → W → (Entity × Option GoError) × W
  CanProcess : Entity → Bool
  NeedSync : Entity → Action → Bool
  Do : Entity → Action → ActionParams → W → (Entity × Option GoError) × W
  HasAction : Action → Bool

/-- The interface `Repository[E]`. -/
structure Repository (W : Type) where
  Save : Option Entity → Option Entity → W → (Option Entity × Option GoError) × W

/-- A value of interface type `Processor[Entity]` as returned by `GetProcessorFunc`: the nil
interface, a nil pointer stored in the interface, or `WrapProcessor(p)` for the processor `p`
registered under `id`. -/
inductive ProcessorRef where
  | nilInterface
  | nilPointer
  | wrapper (id : Nat)
  deriving DecidableEq, Repr

/-- The struct `ProcessorConfig[E]`; `E` is the type argument, given as the set of dynamic
types assignable to it.  `GetProcessorFunc` takes an interface value, which may be nil. -/
structure ProcessorConfig (W : Type) where
  E : Nat → Bool
  GetProcessorFunc : Option Entity → ProcessorRef
  StateMachines : List (StateMachina W)
  Repository : Option (Repository W)
  Syncers : List (Syncer W)

/-- The processors of an application (a processor may resolve a sub-entity to itself, so they
are named by an index), and its entity methods. -/
structure System (W : Type) where
  ops : EntityOps
  processors : Nat → ProcessorConfig W

/-! ## Runs and traces -/

abbrev Path := List (String × String)

/-- The four methods of the `Processor` interface, with their arguments. -/
inductive Call where
  | Process (entity : Entity) (action : Action) (actionParams : ActionParams)
  | syncAndValidate (entity : Entity) (action : Action) (actionParams : ActionParams)
  | act (entity : Entity) (action : Action) (actionParams : ActionParams)
  | save (oldEntity newEntity : Option Entity)
  deriving DecidableEq

/-- What a run does, in order; `loc` is the path of the entity concerned, `i` the index of the
collaborator in the candidate list of the configuration.  `call` and `ret` are the call of a
method on a `Processor[Entity]` value and its return, `processor` is the entry of a method of
a `processor[E]`, the others are the calls of the collaborators' methods. -/
inductive Event where
  | call (loc : Path) (c : Call)
  | ret (loc : Path) (value : Option Entity) (err : Option GoError)
  | processor (loc : Path) (c : Call)
  | smCanProcess (loc : Path) (i : Nat) (entity : Entity)
  | smValidate (loc : Path) (i : Nat) (entity : Entity) (action : Action) (p : ActionParams)
  | smDo (loc : Path) (i : Nat) (entity : Entity) (action : Action) (p : ActionParams)
      (syncerErr : Option GoError)
  | syncerCanProcess (loc : Path) (i : Nat) (entity : Entity)
  | syncerNeedSync (loc : Path) (i : Nat) (entity : Entity) (action : Action)
  | syncerHasAction (loc : Path) (i : Nat) (action : Action)
  | syncerSync (loc : Path) (i : Nat) (entity : Entity)
  | syncerDo (loc : Path) (i : Nat) (entity : Entity) (action : Action) (p : ActionParams)
  | repositorySave (loc : Path) (oldEntity newEntity : Option Entity)
  deriving DecidableEq

/-- How a call ends: it returns a value, panics, or (fuelled recursion only) runs out of fuel. -/
inductive Ctl (α : Type) where
  | val (a : α)
  | panic
  | outOfFuel
  deriving DecidableEq

/-- The outcome of a run: how it ended, the final world and the events it produced. -/
structure Run (W α : Type) where
  res : Ctl α
  world : W
  trace : List Event

/-- Engine computations. -/
def Eng (W α : Type) : Type := W → Run W α

def Eng.pure {W α : Type} (a : α) : Eng W α := fun w => ⟨.val a, w, []⟩

def Eng.bind {W α β : Type} (x : Eng W α) (f : α → Eng W β) : Eng W β := fun w =>
  match x w with
  | ⟨.val a, w1, t1⟩ => ⟨(f a w1).res, (f a w1).world, t1 ++ (f a w1).trace⟩
  | ⟨.panic, w1, t1⟩ => ⟨.panic, w1, t1⟩
  | ⟨.outOfFuel, w1, t1⟩ => ⟨.outOfFuel, w1, t1⟩

instance (W : Type) : Monad (Eng W) where
  pure := Eng.pure
  bind := Eng.bind

/-- Record an event. -/
def emit {W : Type} (e : Event) : Eng W Unit := fun w => ⟨.val (), w, [e]⟩

/-- Invoke an effectful collaborator method. -/
def invoke {W α : Type} (f : W → α × W) : Eng W α := fun w => ⟨.val (f w).1, (f w).2, []⟩

def goPanic {W α : Type} : Eng W α := fun w => ⟨.panic, w, []⟩

def outOfFuel {W α : Type} : Eng W α := fun w => ⟨.outOfFuel, w, []⟩

/-- The unchecked type assertion `x.(E)`. -/
def assertType {W : Type} (E : Nat → Bool) (x : Entity) : Eng W Entity :=
  if E x.typ then Eng.pure x else goPanic

/-! ## generic.go -/

section Wrapper

variable {W : Type}

/-- The method `genericProcessorWrapper[E].Process`; `processor` is the wrapped `Process`. -/
def genericProcessorWrapper.Process (E : Nat → Bool)
    (processor : Path → Entity → Action → ActionParams → Eng W (Entity × Option GoError))
    (loc : Path) (entity : Entity) (action : Action) (actionParams : ActionParams) :
    Eng W (Option Entity × Option GoError) :=
  if E entity.typ then do
    let r ← processor loc entity action actionParams
    pure (some r.1, r.2)
  else
    pure (none, some ErrorInvalidEntityType)

/-- The method `genericProcessorWrapper[E].syncAndValidate`. -/
def genericProcessorWrapper.syncAndValidate (E : Nat → Bool)
    (processor : Path → Entity → Action → ActionParams → Eng W (Entity × Option GoError))
    (loc : Path) (entity : Entity) (action : Action) (actionParams : ActionParams) :
    Eng W (Option Entity × Option GoError) :=
  if E entity.typ then do
    let r ← processor loc entity action actionParams
    pure (some r.1, r.2)
  else
    pure (none, some ErrorInvalidEntityType)

/-- The method `genericProcessorWrapper[E].act`. -/
def genericProcessorWrapper.act (E : Nat → Bool)
    (processor : Path → Entity → Action → ActionParams → Eng W (Entity × Option GoError))
    (loc : Path) (entity : Entity) (action : Action) (actionParams : ActionParams) :
    Eng W (Option Entity × Option GoError) :=
  if E entity.typ then do
    let r ← processor loc entity action actionParams
    pure (some r.1, r.2)
  else
    pure (none, some ErrorInvalidEntityType)

/-- The checked narrowing of a pointer argument of the wrapper's `save`: `none` when the
pointer is non-nil and its target is not of type `E`. -/
def narrowPtr (E : Nat → Bool) : Option Entity → Option (Option Entity)
  | none => some none
  | some e => if E e.typ then some (some e) else none

/-- The method `genericProcessorWrapper[E].save`. -/
def genericProcessorWrapper.save (E : Nat → Bool)
    (processor : Path → Option Entity → Option Entity → Eng W (Option Entity × Option GoError))
    (loc : Path) (oldEntity newEntity : Option Entity) :
    Eng W (Option Entity × Option GoError) :=
  match narrowPtr E oldEntity with
  | none => pure (none, some ErrorInvalidEntityType)
  | some typedOldEntity =>
    match narrowPtr E newEntity with
    | none => pure (none, some ErrorInvalidEntityType)
    | some typedNewEntity => do
      let r ← processor loc typedOldEntity typedNewEntity
      match r.2 with
      | some err => pure (newEntity, some err)
      | none =>
        match r.1 with
        | none => pure (none, none)
        | some savedTypeEntityValue => pure (some savedTypeEntityValue, none)

end Wrapper

/-! ## processor.go -/

/-- The function `isNilProcessor`. -/
def isNilProcessor : ProcessorRef → Bool
  | .nilInterface => true
  | .nilPointer => true
  | .wrapper _ => false

section Processor

variable {W : Type}

/-- The loop of `getStateMachineForEntity`, from candidate number `i` on. -/
def getStateMachineForEntityFrom (loc : Path) (entity : Entity) :
    Nat → List (StateMachina W) → Eng W (Option (Nat × StateMachina W) × Option GoError)
  | _, [] => pure (none, some ErrorUnprocessableEntity)
  | i, sm :: rest => do
    emit (.smCanProcess loc i entity)
    if sm.CanProcess entity then
      pure (some (i, sm), none)
    else
      getStateMachineForEntityFrom loc entity (i + 1) rest

/-- The method `processor.getStateMachineForEntity`. -/
def getStateMachineForEntity (cfg : ProcessorConfig W) (loc : Path) (entity : Entity) :
    Eng W (Option (Nat × StateMachina W) × Option GoError) :=
  getStateMachineForEntityFrom loc entity 0 cfg.StateMachines

def getSyncerForEntityFrom (loc : Path) (entity : Entity) :
    Nat → List (Syncer W) → Eng W (Option (Nat × Syncer W))
  | _, [] => pure none
  | i, syncer :: rest => do
    emit (.syncerCanProcess loc i entity)
    if syncer.CanProcess entity then
      pure (some (i, syncer))
    else
      getSyncerForEntityFrom loc entity (i + 1) rest

/-- The method `processor.getSyncerForEntity`. -/
def getSyncerForEntity (cfg : ProcessorConfig W) (loc : Path) (entity : Entity) :
    Eng W (Option (Nat × Syncer W)) :=
  getSyncerForEntityFrom loc entity 0 cfg.Syncers

def getSyncerForEntityAndActionFrom (loc : Path) (entity : Entity) (action : Action) :
    Nat → List (Syncer W) → Eng W (Option (Nat × Syncer W))
  | _, [] => pure none
  | i, syncer :: rest => do
    emit (.syncerCanProcess loc i entity)
    if syncer.CanProcess entity then do
      emit (.syncerHasAction loc i action)
      if syncer.HasAction action then
        pure (some (i, syncer))
      else
        getSyncerForEntityAndActionFrom loc entity action (i + 1) rest
    else
      getSyncerForEntityAndActionFrom loc entity action (i + 1) rest

/-- The method `processor.getSyncerForEntityAndAction`. -/
def getSyncerForEntityAndAction (cfg : ProcessorConfig W) (loc : Path) (entity : Entity)
    (action : Action) : Eng W (Option (Nat × Syncer W)) :=
  getSyncerForEntityAndActionFrom loc entity action 0 cfg.Syncers

/-- A method call on a `Processor[Entity]` value, with its call and return recorded. -/
def traced (loc : Path) (c : Call) (m : Eng W (Option Entity × Option GoError)) :
    Eng W (Option Entity × Option GoError) := do
  emit (.call loc c)
  let out ← m
  emit (.ret loc out.1 out.2)
  pure out

/-- The call `subProcessor.syncAndValidate(ctx, subEntity, action, actionParams)` on a value
returned by `GetProcessorFunc`; `self id` is the method of the processor registered as `id`.
A method call on a nil value panics. -/
def ProcessorRef.syncAndValidate (sys : System W)
    (self : Nat → Path → Entity → Action → ActionParams → Eng W (Entity × Option GoError))
    (ref : ProcessorRef) (loc : Path) (entity : Entity) (action : Action)
    (actionParams : ActionParams) : Eng W (Option Entity × Option GoError) :=
  traced loc (.syncAndValidate entity action actionParams)
    (match ref with
    | .wrapper id =>
      genericProcessorWrapper.syncAndValidate (sys.processors id).E (self id) loc entity action
        actionParams
    | _ => goPanic)

/-- The call `subProcessor.act(ctx, subEntity, action, actionParams)`. -/
def ProcessorRef.act (sys : System W)
    (self : Nat → Path → Entity → Action → ActionParams → Eng W (Entity × Option GoError))
    (ref : ProcessorRef) (loc : Path) (entity : Entity) (action : Action)
    (actionParams : ActionParams) : Eng W (Option Entity × Option GoError) :=
  traced loc (.act entity action actionParams)
    (match ref with
    | .wrapper id =>
      genericProcessorWrapper.act (sys.processors id).E (self id) loc entity action actionParams
    | _ => goPanic)

/-- The call `subProcessor.save(ctx, old, new)`. -/
def ProcessorRef.save (sys : System W)
    (self : Nat → Path → Option Entity → Option Entity →
      Eng W (Option Entity × Option GoError))
    (ref : ProcessorRef) (loc : Path) (oldEntity newEntity : Option Entity) :
    Eng W (Option Entity × Option GoError) :=
  traced loc (.save oldEntity newEntity)
    (match ref with
    | .wrapper id =>
      genericProcessorWrapper.save (sys.processors id).E (self id) loc oldEntity newEntity
    | _ => goPanic)

/-- The loop over the sub-entities shared by `syncAndValidate` and `act` (the two loops are
the same text up to the method called on `subProcessor`): `sub` is that call. -/
def childLoop (sys : System W) (cfg : ProcessorConfig W)
    (sub : ProcessorRef → Path → Entity → Action → ActionParams →
      Eng W (Option Entity × Option GoError))
    (loc : Path) (action : Action) (actionParams : ActionParams) :
    List (String × String × Entity) → Entity → Eng W (Entity × Option GoError)
  | [], changedEntity => pure (changedEntity, none)
  | (typeKey, subEntityKey, subEntity) :: rest, changedEntity =>
    let subProcessor := cfg.GetProcessorFunc (some subEntity)
    if isNilProcessor subProcessor then
      pure (changedEntity, some ErrorProcessorNotFound)
    else do
      let r ← sub subProcessor (loc ++ [(typeKey, subEntityKey)]) subEntity action actionParams
      match r.2 with
      | some err => pure (changedEntity, some err)
      | none =>
        match sys.ops.UpdateSubEntity changedEntity typeKey subEntityKey r.1 with
        | .error err => pure (changedEntity, some err)
        | .ok updatedEntity => do
          let changedEntity ← assertType cfg.E updatedEntity
          childLoop sys cfg sub loc action actionParams rest changedEntity

/-- The first part of `syncAndValidate` (lines 50-69) and of `act` (lines 93-113): the copy
of the entity and the loop over its sub-entities. -/
def childrenPhase (sys : System W) (cfg : ProcessorConfig W)
    (sub : ProcessorRef → Path → Entity → Action → ActionParams →
      Eng W (Option Entity × Option GoError))
    (loc : Path) (entity : Entity) (action : Action) (actionParams : ActionParams) :
    Eng W (Entity × Option GoError) := do
  let changedEntity ← assertType cfg.E (sys.ops.Copy entity)
  childLoop sys cfg sub loc action actionParams (entries entity.SubEntities) changedEntity

/-- Lines 71-77 of `syncAndValidate`: the selection of the syncer and the sync. -/
def syncPhase (cfg : ProcessorConfig W) (loc : Path) (entity changedEntity : Entity)
    (action : Action) : Eng W (Entity × Option GoError) := do
  let syncer ← getSyncerForEntity cfg loc changedEntity
  match syncer with
  | none => pure (changedEntity, none)
  | some (i, syncer) => do
    emit (.syncerNeedSync loc i entity action)
    if syncer.NeedSync entity action then do
      emit (.syncerSync loc i changedEntity)
      invoke (syncer.Sync changedEntity)
    else
      pure (changedEntity, none)

/-- Lines 79-89 of `syncAndValidate`: the selection of the state machine and `Validate`. -/
def validatePhase (cfg : ProcessorConfig W) (loc : Path) (entity changedEntity : Entity)
    (action : Action) (actionParams : ActionParams) : Eng W (Entity × Option GoError) := do
  let sm ← getStateMachineForEntity cfg loc entity
  match sm.2, sm.1 with
  | some err, _ => pure (changedEntity, some err)
  | none, none => goPanic
  | none, some (i, sm) => do
    emit (.smValidate loc i changedEntity action actionParams)
    let err ← invoke (sm.Validate changedEntity action actionParams)
    match err with
    | some err => pure (changedEntity, some err)
    | none => pure (changedEntity, none)

/-- Lines 71-89 of `syncAndValidate`: what it does with the collaborators of the entity
itself, once the sub-entities are done. -/
def ownSyncAndValidate (cfg : ProcessorConfig W) (loc : Path) (entity changedEntity : Entity)
    (action : Action) (actionParams : ActionParams) : Eng W (Entity × Option GoError) := do
  let synced ← syncPhase cfg loc entity changedEntity action
  match synced.2 with
  | some err => pure (synced.1, some err)
  | none => validatePhase cfg loc entity synced.1 action actionParams

/-- The body of `processor.syncAndValidate`, given the call into a sub-processor. -/
def syncAndValidateBody (sys : System W) (cfg : ProcessorConfig W)
    (sub : ProcessorRef → Path → Entity → Action → ActionParams →
      Eng W (Option Entity × Option GoError))
    (loc : Path) (entity : Entity) (action : Action) (actionParams : ActionParams) :
    Eng W (Entity × Option GoError) := do
  emit (.processor loc (.syncAndValidate entity action actionParams))
  let r ← childrenPhase sys cfg sub loc entity action actionParams
  match r.2 with
  | some err => pure (r.1, some err)
  | none => ownSyncAndValidate cfg loc entity r.1 action actionParams

/-- Lines 115-131 of `act`: the selection of the state machine and of the action syncer,
`Syncer.Do` and `StateMachine.Do`. -/
def transitionPhase (cfg : ProcessorConfig W) (loc : Path) (changedEntity : Entity)
    (action : Action) (actionParams : ActionParams) : Eng W (Entity × Option GoError) := do
  let sm ← getStateMachineForEntity cfg loc changedEntity
  match sm.2, sm.1 with
  | some err, _ => pure (changedEntity, some err)
  | none, none => goPanic
  | none, some (i, sm) => do
    let actSyncer ← getSyncerForEntityAndAction cfg loc changedEntity action
    let synced ← (match actSyncer with
      | none => (pure (changedEntity, none) : Eng W (Entity × Option GoError))
      | some (j, actSyncer) => do
        emit (.syncerDo loc j changedEntity action actionParams)
        invoke (actSyncer.Do changedEntity action actionParams))
    let changedEntity := synced.1
    let syncerErr := synced.2
    emit (.smDo loc i changedEntity action actionParams syncerErr)
    let done ← invoke (sm.Do changedEntity action actionParams syncerErr)
    match done.2 with
    | some err => pure (done.1, some err)
    | none => pure (done.1, none)

/-- The body of `processor.act`, given the call into a sub-processor. -/
def actBody (sys : System W) (cfg : ProcessorConfig W)
    (sub : ProcessorRef → Path → Entity → Action → ActionParams →
      Eng W (Option Entity × Option GoError))
    (loc : Path) (entity : Entity) (action : Action) (actionParams : ActionParams) :
    Eng W (Entity × Option GoError) := do
  emit (.processor loc (.act entity action actionParams))
  let r ← childrenPhase sys cfg sub loc entity action actionParams
  match r.2 with
  | some err => pure (r.1, some err)
  | none => transitionPhase cfg loc r.1 action actionParams

/-- The sub-entity map read through a pointer that may be nil (a nil map has no entries). -/
def subEntitiesOf : Option Entity → List (String × List (String × Entity))
  | none => []
  | some e => e.SubEntities

/-- The statements `updatedEntity, err := changedNewEntity.UpdateSubEntity(typeKey, entityKey,
*saved); if err != nil { return nil, err }; changedNewEntity = updatedEntity.(E)` of `save`.
`changedNewEntity` is `none` while it holds the zero value of `E` (when `newEntity` is nil);
the statements are then not reached, and are given as a panic. -/
def foldBack (sys : System W) (cfg : ProcessorConfig W) (changedNewEntity : Option Entity)
    (typeKey entityKey : String) (saved : Entity) : Eng W (Option Entity × Option GoError) :=
  match changedNewEntity with
  | none => goPanic
  | some c =>
    match sys.ops.UpdateSubEntity c typeKey entityKey (some saved) with
    | .error err => pure (changedNewEntity, some err)
    | .ok updatedEntity => do
      let c2 ← assertType cfg.E updatedEntity
      pure (some c2, none)

/-- Case 1 of `save`: the loop over the entities of a type key present in the old entity
only.  The result is the error that makes `save` return, if any. -/
def saveOldOnly (cfg : ProcessorConfig W)
    (sub : ProcessorRef → Path → Option Entity → Option Entity →
      Eng W (Option Entity × Option GoError))
    (loc : Path) (typeKey : String) : List (String × Entity) → Eng W (Option GoError)
  | [] => pure none
  | (entityKey, oldSubEntity) :: rest =>
    let subProcessor := cfg.GetProcessorFunc (some oldSubEntity)
    if isNilProcessor subProcessor then
      pure (some ErrorProcessorNotFound)
    else do
      let r ← sub subProcessor (loc ++ [(typeKey, entityKey)]) (some oldSubEntity) none
      match r.2 with
      | some err => pure (some err)
      | none => saveOldOnly cfg sub loc typeKey rest

/-- Case 2 of `save`: the loop over the entities of a type key present in the new entity
only.  The result is the current `changedNewEntity` and the error that makes `save` return. -/
def saveNewOnly (sys : System W) (cfg : ProcessorConfig W)
    (sub : ProcessorRef → Path → Option Entity → Option Entity →
      Eng W (Option Entity × Option GoError))
    (loc : Path) (typeKey : String) :
    List (String × Entity) → Option Entity → Eng W (Option Entity × Option GoError)
  | [], changedNewEntity => pure (changedNewEntity, none)
  | (entityKey, newSubEntity) :: rest, changedNewEntity =>
    let subProcessor := cfg.GetProcessorFunc (some newSubEntity)
    if isNilProcessor subProcessor then
      pure (changedNewEntity, some ErrorProcessorNotFound)
    else do
      let r ← sub subProcessor (loc ++ [(typeKey, entityKey)]) none (some newSubEntity)
      match r.2 with
      | some err => pure (changedNewEntity, some err)
      | none =>
        match r.1 with
        | some savedNewSubEntity => do
          let u ← foldBack sys cfg changedNewEntity typeKey entityKey savedNewSubEntity
          match u.2 with
          | some err => pure (u.1, some err)
          | none => saveNewOnly sys cfg sub loc typeKey rest u.1
        | none => saveNewOnly sys cfg sub loc typeKey rest changedNewEntity

/-- Case 3 of `save`: the loop over `allEntityKeys` of a type key present in both. -/
def saveBoth (sys : System W) (cfg : ProcessorConfig W)
    (sub : ProcessorRef → Path → Option Entity → Option Entity →
      Eng W (Option Entity × Option GoError))
    (loc : Path) (typeKey : String) (oldTypedEntities newTypedEntities : List (String × Entity)) :
    List String → Option Entity → Eng W (Option Entity × Option GoError)
  | [], changedNewEntity => pure (changedNewEntity, none)
  | entityKey :: rest, changedNewEntity =>
    let oldSubEntity := oldTypedEntities.lookup entityKey
    let newSubEntity := newTypedEntities.lookup entityKey
    let subProcessor :=
      if oldSubEntity.isSome then cfg.GetProcessorFunc oldSubEntity
      else cfg.GetProcessorFunc newSubEntity
    if isNilProcessor subProcessor then
      pure (changedNewEntity, some ErrorProcessorNotFound)
    else do
      let r ← sub subProcessor (loc ++ [(typeKey, entityKey)]) oldSubEntity newSubEntity
      match r.2 with
      | some err => pure (changedNewEntity, some err)
      | none =>
        match newSubEntity.isSome, r.1 with
        | true, some savedNewSubEntity => do
          let u ← foldBack sys cfg changedNewEntity typeKey entityKey savedNewSubEntity
          match u.2 with
          | some err => pure (u.1, some err)
          | none =>
            saveBoth sys cfg sub loc typeKey oldTypedEntities newTypedEntities rest u.1
        | _, _ =>
          saveBoth sys cfg sub loc typeKey oldTypedEntities newTypedEntities rest
            changedNewEntity

/-- The loop `for typeKey := range allTypeKeys` of `save`. -/
def saveTypes (sys : System W) (cfg : ProcessorConfig W)
    (sub : ProcessorRef → Path → Option Entity → Option Entity →
      Eng W (Option Entity × Option GoError))
    (loc : Path) (oldSubEntities newSubEntities : List (String × List (String × Entity))) :
    List String → Option Entity → Eng W (Option Entity × Option GoError)
  | [], changedNewEntity => pure (changedNewEntity, none)
  | typeKey :: rest, changedNewEntity =>
    match oldSubEntities.lookup typeKey, newSubEntities.lookup typeKey with
    | some oldTypedEntities, none => do
      let err ← saveOldOnly cfg sub loc typeKey oldTypedEntities
      match err with
      | some err => pure (changedNewEntity, some err)
      | none => saveTypes sys cfg sub loc oldSubEntities newSubEntities rest changedNewEntity
    | none, some newTypedEntities => do
      let r ← saveNewOnly sys cfg sub loc typeKey newTypedEntities changedNewEntity
      match r.2 with
      | some err => pure (r.1, some err)
      | none => saveTypes sys cfg sub loc oldSubEntities newSubEntities rest r.1
    | some oldTypedEntities, some newTypedEntities => do
      let r ← saveBoth sys cfg sub loc typeKey oldTypedEntities newTypedEntities
        (keys oldTypedEntities ∪ keys newTypedEntities) changedNewEntity
      match r.2 with
      | some err => pure (r.1, some err)
      | none => saveTypes sys cfg sub loc oldSubEntities newSubEntities rest r.1
    | none, none =>
      saveTypes sys cfg sub loc oldSubEntities newSubEntities rest changedNewEntity

/-- Lines 140-252 of `save`: the copy of the new entity and the reconciliation of the
sub-entities.  The key sets `allTypeKeys` and `allEntityKeys`, over which Go ranges in an
unspecified order, are visited old keys first here: one of the orders that a run may take.
`saveIn` below takes the order of the calls as a parameter. -/
def reconcilePhase (sys : System W) (cfg : ProcessorConfig W)
    (sub : ProcessorRef → Path → Option Entity → Option Entity →
      Eng W (Option Entity × Option GoError))
    (loc : Path) (oldEntity newEntity : Option Entity) :
    Eng W (Option Entity × Option GoError) := do
  let changedNewEntity ← (match newEntity with
    | some n => do
      let c ← assertType cfg.E (sys.ops.Copy n)
      pure (some c)
    | none => (pure none : Eng W (Option Entity)))
  let oldSubEntities := subEntitiesOf oldEntity
  let newSubEntities := subEntitiesOf newEntity
  let allTypeKeys := keys oldSubEntities ∪ keys newSubEntities
  saveTypes sys cfg sub loc oldSubEntities newSubEntities allTypeKeys changedNewEntity

/-- Lines 254-273 of `save`: the call of the repository, or the return of the reconciled
entity when there is none. -/
def persistPhase (cfg : ProcessorConfig W) (loc : Path) (oldEntity newEntity : Option Entity)
    (changedNewEntity : Option Entity) : Eng W (Option Entity × Option GoError) :=
  match cfg.Repository with
  | some repository => do
    let entityToSave := if newEntity.isSome then changedNewEntity else none
    emit (.repositorySave loc oldEntity entityToSave)
    let s ← invoke (repository.Save oldEntity entityToSave)
    match s.2 with
    | some err => pure (none, some err)
    | none => pure (s.1, none)
  | none =>
    if newEntity.isNone then pure (none, none)
    else pure (changedNewEntity, none)

/-- The body of `processor.save`, given the call into a sub-processor. -/
def saveBody (sys : System W) (cfg : ProcessorConfig W)
    (sub : ProcessorRef → Path → Option Entity → Option Entity →
      Eng W (Option Entity × Option GoError))
    (loc : Path) (oldEntity newEntity : Option Entity) :
    Eng W (Option Entity × Option GoError) := do
  emit (.processor loc (.save oldEntity newEntity))
  if oldEntity.isNone && newEntity.isNone then
    pure (none, none)
  else do
    let r ← reconcilePhase sys cfg sub loc oldEntity newEntity
    match r.2 with
    | some err => pure (none, some err)
    | none => persistPhase cfg loc oldEntity newEntity r.1

/-! ### Tying the recursion -/

/-- The method `processor.syncAndValidate` of processor `id` with recursion depth `fuel`. -/
def syncAndValidateFuel (sys : System W) :
    Nat → Nat → Path → Entity → Action → ActionParams → Eng W (Entity × Option GoError)
  | 0, _ => fun _ _ _ _ => outOfFuel
  | fuel + 1, id =>
    syncAndValidateBody sys (sys.processors id)
      (ProcessorRef.syncAndValidate sys (syncAndValidateFuel sys fuel))

/-- The method `processor.act` of processor `id` with recursion depth `fuel`. -/
def actFuel (sys : System W) :
    Nat → Nat → Path → Entity → Action → ActionParams → Eng W (Entity × Option GoError)
  | 0, _ => fun _ _ _ _ => outOfFuel
  | fuel + 1, id =>
    actBody sys (sys.processors id)
      (ProcessorRef.act sys (actFuel sys fuel))

/-- The method `processor.save` of processor `id` with recursion depth `fuel`. -/
def saveFuel (sys : System W) :
    Nat → Nat → Path → Option Entity → Option Entity → Eng W (Option Entity × Option GoError)
  | 0, _ => fun _ _ _ => outOfFuel
  | fuel + 1, id =>
    saveBody sys (sys.processors id) (ProcessorRef.save sys (saveFuel sys fuel))

/-- Depth of an entity behind a pointer; a nil pointer has depth 0. -/
def depthOf : Option Entity → Nat
  | none => 0
  | some e => e.depth

/-- The method `processor.syncAndValidate` of the processor registered as `id`. -/
def processor.syncAndValidate (sys : System W) (id : Nat) (loc : Path) (entity : Entity)
    (action : Action) (actionParams : ActionParams) : Eng W (Entity × Option GoError) :=
  syncAndValidateFuel sys entity.depth id loc entity action actionParams

/-- The method `processor.act` of the processor registered as `id`. -/
def processor.act (sys : System W) (id : Nat) (loc : Path) (entity : Entity)
    (action : Action) (actionParams : ActionParams) : Eng W (Entity × Option GoError) :=
  actFuel sys entity.depth id loc entity action actionParams

/-- The method `processor.save` of the processor registered as `id`. -/
def processor.save (sys : System W) (id : Nat) (loc : Path) (oldEntity newEntity : Option Entity) :
    Eng W (Option Entity × Option GoError) :=
  saveFuel sys (max (depthOf oldEntity) (depthOf newEntity) + 1) id loc oldEntity newEntity

/-- The method `processor.Process` of the processor registered as `id`. -/
def processor.Process (sys : System W) (id : Nat) (loc : Path) (entity : Entity)
    (action : Action) (actionParams : ActionParams) : Eng W (Entity × Option GoError) := do
  emit (.processor loc (.Process entity action actionParams))
  let synced ← processor.syncAndValidate sys id loc entity action actionParams
  match synced.2 with
  | some err => pure (entity, some err)
  | none => do
    let syncedEntity := synced.1
    let changed ← processor.act sys id loc syncedEntity action actionParams
    match changed.2 with
    | some err => pure (syncedEntity, some err)
    | none => do
      let changedEntity := changed.1
      let saved ← processor.save sys id loc (some entity) (some changedEntity)
      match saved.2 with
      | some err => pure (changedEntity, some err)
      | none =>
        match saved.1 with
        | none => pure (changedEntity, none)
        | some savedEntity => pure (savedEntity, none)

/-- The four methods of `WrapProcessor(p)` for the processor `p` registered as `id`, called
from outside the engine. -/
def WrapProcessor.Process (sys : System W) (id : Nat) (loc : Path) (entity : Entity)
    (action : Action) (actionParams : ActionParams) : Eng W (Option Entity × Option GoError) :=
  traced loc (.Process entity action actionParams)
    (genericProcessorWrapper.Process (sys.processors id).E (processor.Process sys id) loc entity
      action actionParams)

def WrapProcessor.syncAndValidate (sys : System W) (id : Nat) :
    Path → Entity → Action → ActionParams → Eng W (Option Entity × Option GoError) :=
  ProcessorRef.syncAndValidate sys (processor.syncAndValidate sys) (.wrapper id)

def WrapProcessor.act (sys : System W) (id : Nat) :
    Path → Entity → Action → ActionParams → Eng W (Option Entity × Option GoError) :=
  ProcessorRef.act sys (processor.act sys) (.wrapper id)

def WrapProcessor.save (sys : System W) (id : Nat) :
    Path → Option Entity → Option Entity → Eng W (Option Entity × Option GoError) :=
  ProcessorRef.save sys (processor.save sys) (.wrapper id)

/-! ## The phases of the processor registered as `id` -/

/-- Lines 50-69 of `syncAndValidate` for the processor registered as `id`. -/
def processor.syncChildren (sys : System W) (id : Nat) (loc : Path) (entity : Entity)
    (action : Action) (actionParams : ActionParams) : Eng W (Entity × Option GoError) :=
  childrenPhase sys (sys.processors id)
    (ProcessorRef.syncAndValidate sys (processor.syncAndValidate sys)) loc entity action
    actionParams

/-- Lines 93-113 of `act` for the processor registered as `id`. -/
def processor.actChildren (sys : System W) (id : Nat) (loc : Path) (entity : Entity)
    (action : Action) (actionParams : ActionParams) : Eng W (Entity × Option GoError) :=
  childrenPhase sys (sys.processors id) (ProcessorRef.act sys (processor.act sys)) loc entity
    action actionParams

/-- Lines 140-252 of `save` for the processor registered as `id`. -/
def processor.reconcile (sys : System W) (id : Nat) (loc : Path)
    (oldEntity newEntity : Option Entity) : Eng W (Option Entity × Option GoError) :=
  reconcilePhase sys (sys.processors id) (ProcessorRef.save sys (processor.save sys)) loc
    oldEntity newEntity

/-! ## Auxiliary notions for the proofs -/

/-- Agreement of two sub-processor calls on the pointers satisfying `Q`. -/
def AgreeOn (Q : Option Entity → Prop)
    (sub sub2 : ProcessorRef → Path → Option Entity → Option Entity →
      Eng W (Option Entity × Option GoError)) : Prop :=
  ∀ ref loc2 o n, Q o → Q n → sub ref loc2 o n = sub2 ref loc2 o n

/-- Every sub-entity of the map satisfies `Q`. -/
def AllSub (Q : Option Entity → Prop) (s : List (String × List (String × Entity))) : Prop :=
  ∀ t m, (t, m) ∈ s → ∀ k x, (k, x) ∈ m → Q (some x)

/-- The path of the entity an event concerns. -/
def Event.loc : Event → Path
  | .call l _ => l
  | .ret l _ _ => l
  | .processor l _ => l
  | .smCanProcess l _ _ => l
  | .smValidate l _ _ _ _ => l
  | .smDo l _ _ _ _ _ => l
  | .syncerCanProcess l _ _ => l
  | .syncerNeedSync l _ _ _ => l
  | .syncerHasAction l _ _ => l
  | .syncerSync l _ _ => l
  | .syncerDo l _ _ _ _ => l
  | .repositorySave l _ _ => l

/-- The event is the call of a method on a `Processor[Entity]` value, or its return. -/
def Event.isCallRet : Event → Bool
  | .call _ _ => true
  | .ret _ _ _ => true
  | _ => false

/-- The event is a call of `StateMachine.Do`, `Syncer.Do` or `Repository.Save`. -/
def Event.isDoOrSave : Event → Bool
  | .smDo _ _ _ _ _ _ => true
  | .syncerDo _ _ _ _ _ => true
  | .repositorySave _ _ _ => true
  | _ => false

/-- The call is one of `act` or `save`. -/
def Call.isActOrSave : Call → Bool
  | .act _ _ _ => true
  | .save _ _ => true
  | _ => false

/-- The event is the call or the entry of an `act` or a `save` method. -/
def Event.isActOrSave : Event → Bool
  | .call _ c => c.isActOrSave
  | .processor _ c => c.isActOrSave
  | _ => false

/-- The event is the invocation of a method of a StateMachine or of a Syncer. -/
def Event.isCollaborator : Event → Bool
  | .smCanProcess _ _ _ => true
  | .smValidate _ _ _ _ _ => true
  | .smDo _ _ _ _ _ _ => true
  | .syncerCanProcess _ _ _ => true
  | .syncerNeedSync _ _ _ _ => true
  | .syncerHasAction _ _ _ => true
  | .syncerSync _ _ _ => true
  | .syncerDo _ _ _ _ _ => true
  | _ => false

/-- The events that occur in a `syncAndValidate`. -/
def Event.inSyncAndValidate : Event → Bool
  | .call _ (.syncAndValidate _ _ _) => true
  | .ret _ _ _ => true
  | .processor _ (.syncAndValidate _ _ _) => true
  | .smCanProcess _ _ _ => true
  | .smValidate _ _ _ _ _ => true
  | .syncerCanProcess _ _ _ => true
  | .syncerNeedSync _ _ _ _ => true
  | .syncerSync _ _ _ => true
  | _ => false

/-- The events that occur in an `act`. -/
def Event.inAct : Event → Bool
  | .call _ (.act _ _ _) => true
  | .ret _ _ _ => true
  | .processor _ (.act _ _ _) => true
  | .smCanProcess _ _ _ => true
  | .smDo _ _ _ _ _ _ => true
  | .syncerCanProcess _ _ _ => true
  | .syncerHasAction _ _ _ => true
  | .syncerDo _ _ _ _ _ => true
  | _ => false

/-- The events that occur in a `save`. -/
def Event.inSave : Event → Bool
  | .call _ (.save _ _) => true
  | .ret _ _ _ => true
  | .processor _ (.save _ _) => true
  | .repositorySave _ _ _ => true
  | _ => false

/-- An event of kind `K` of the method running on the entity at `loc` itself. -/
def Own (K : Event → Bool) (loc : Path) (ev : Event) : Prop :=
  ev.loc = loc ∧ K ev = true ∧ ev.isCallRet = false

/-- An event of kind `K` that concerns a proper descendant of the entity at `loc`. -/
def Below (K : Event → Bool) (loc : Path) (ev : Event) : Prop :=
  ∃ k rest, ev.loc = loc ++ k :: rest ∧ K ev = true

/-- An event of kind `K` of a method running on the entity at `loc`. -/
def Within (K : Event → Bool) (loc : Path) (ev : Event) : Prop :=
  Own K loc ev ∨ Below K loc ev

/-- Every event of every run of `x` satisfies `P`. -/
def Emits (P : Event → Prop) {α : Type} (x : Eng W α) : Prop :=
  ∀ w, ∀ ev ∈ (x w).trace, P ev

/-- The pair of keys of an entry of a sub-entity map. -/
def entryKey (x : String × String × Entity) : String × String := (x.1, x.2.1)

/-- One turn of the loop over the sub-entities, `next` being the remaining turns. -/
def childStep (sys : System W) (cfg : ProcessorConfig W)
    (sub : ProcessorRef → Path → Entity → Action → ActionParams →
      Eng W (Option Entity × Option GoError))
    (loc : Path) (action : Action) (actionParams : ActionParams)
    (typeKey subEntityKey : String) (subEntity changedEntity : Entity)
    (next : Entity → Eng W (Entity × Option GoError)) : Eng W (Entity × Option GoError) :=
  if isNilProcessor (cfg.GetProcessorFunc (some subEntity)) then
    pure (changedEntity, some ErrorProcessorNotFound)
  else do
    let r ← sub (cfg.GetProcessorFunc (some subEntity)) (loc ++ [(typeKey, subEntityKey)])
      subEntity action actionParams
    match r.2 with
    | some err => pure (changedEntity, some err)
    | none =>
      match sys.ops.UpdateSubEntity changedEntity typeKey subEntityKey r.1 with
      | .error err => pure (changedEntity, some err)
      | .ok updatedEntity => do
        let changedEntity ← assertType cfg.E updatedEntity
        next changedEntity

/-! ### The reconciliation of `save` as one loop

The three cases of `save` treat a pair of keys alike: resolve the processor on the old
sub-entity if there is one and on the new one otherwise, call its `save` on the two pointers,
and fold the result back when the new sub-entity exists and the result is non-nil.  The
loops of `save` are therefore a single loop over the list of the calls to make (`saveJobs`);
`saveTypes_eq_jobLoop` proves it. -/

/-- A call to make: the pair of keys and the two pointers. -/
abbrev Job := String × String × Option Entity × Option Entity

/-- The pair of keys of a call. -/
def Job.key (j : Job) : String × String := (j.1, j.2.1)

/-- The processor of a call: resolved on the old sub-entity if there is one, on the new one
otherwise. -/
def jobProcessor (cfg : ProcessorConfig W) (j : Job) : ProcessorRef :=
  if j.2.2.1.isSome then cfg.GetProcessorFunc j.2.2.1 else cfg.GetProcessorFunc j.2.2.2

/-- The relation between the new entity before (`c`) and after (`c2`) a call that returned
`v` without error: the value is folded back when the new sub-entity exists and `v` is
non-nil, and otherwise nothing changes. -/
def Folded (sys : System W) (cfg : ProcessorConfig W) (j : Job) (c v c2 : Option Entity) :
    Prop :=
  match j.2.2.2.isSome, v with
  | true, some s =>
    ∃ c0 u, c = some c0 ∧ sys.ops.UpdateSubEntity c0 j.1 j.2.1 (some s) = .ok u
      ∧ cfg.E u.typ = true ∧ c2 = some u
  | _, _ => c2 = c

/-- One call of the reconciliation, `next` being what follows. -/
def jobStep (sys : System W) (cfg : ProcessorConfig W)
    (sub : ProcessorRef → Path → Option Entity → Option Entity →
      Eng W (Option Entity × Option GoError))
    (loc : Path) (j : Job) (changedNewEntity : Option Entity)
    (next : Option Entity → Eng W (Option Entity × Option GoError)) :
    Eng W (Option Entity × Option GoError) :=
  let subProcessor := jobProcessor cfg j
  if isNilProcessor subProcessor then
    pure (changedNewEntity, some ErrorProcessorNotFound)
  else do
    let r ← sub subProcessor (loc ++ [(j.1, j.2.1)]) j.2.2.1 j.2.2.2
    match r.2 with
    | some err => pure (changedNewEntity, some err)
    | none =>
      match j.2.2.2.isSome, r.1 with
      | true, some savedNewSubEntity => do
        let u ← foldBack sys cfg changedNewEntity j.1 j.2.1 savedNewSubEntity
        match u.2 with
        | some err => pure (u.1, some err)
        | none => next u.1
      | _, _ => next changedNewEntity

/-- The calls of a list, in order, then `next`. -/
def jobLoop (sys : System W) (cfg : ProcessorConfig W)
    (sub : ProcessorRef → Path → Option Entity → Option Entity →
      Eng W (Option Entity × Option GoError))
    (loc : Path) : List Job → Option Entity →
      (Option Entity → Eng W (Option Entity × Option GoError)) →
      Eng W (Option Entity × Option GoError)
  | [], c, next => next c
  | j :: rest, c, next => jobStep sys cfg sub loc j c (fun c2 => jobLoop sys cfg sub loc rest c2 next)

/-- The calls that `save` makes for one type key. -/
def typeJobs (oldSubEntities newSubEntities : List (String × List (String × Entity)))
    (typeKey : String) : List Job :=
  match oldSubEntities.lookup typeKey, newSubEntities.lookup typeKey with
  | some oldTyped, none => oldTyped.map (fun ke => (typeKey, ke.1, some ke.2, none))
  | none, some newTyped => newTyped.map (fun ke => (typeKey, ke.1, none, some ke.2))
  | some oldTyped, some newTyped =>
    (keys oldTyped ∪ keys newTyped).map
      (fun k => (typeKey, k, oldTyped.lookup k, newTyped.lookup k))
  | none, none => []

/-- The calls that `save` makes for a list of type keys. -/
def saveJobs (oldSubEntities newSubEntities : List (String × List (String × Entity)))
    (typeKeys : List String) : List Job :=
  typeKeys.flatMap (typeJobs oldSubEntities newSubEntities)

/-- The calls that `save(old, new)` makes, in the order in which `reconcilePhase` makes them.
A run of the code makes them in some enumeration of this list (`SaveOrder` below). -/
def jobsOf (oldEntity newEntity : Option Entity) : List Job :=
  saveJobs (subEntitiesOf oldEntity) (subEntitiesOf newEntity)
    (keys (subEntitiesOf oldEntity) ∪ keys (subEntitiesOf newEntity))

/-- The continuation that ends a loop of `save`. -/
def done (c : Option Entity) : Eng W (Option Entity × Option GoError) := pure (c, none)

/-- How the callers in `save` go on after one of its loops. -/
def andThen (m : Eng W (Option Entity × Option GoError))
    (next : Option Entity → Eng W (Option Entity × Option GoError)) :
    Eng W (Option Entity × Option GoError) := do
  let r ← m
  match r.2 with
  | some err => pure (r.1, some err)
  | none => next r.1

/-- The child at a pair of keys of the entity behind a pointer; none for a nil pointer. -/
def childOf (o : Option Entity) (typeKey entityKey : String) : Option Entity :=
  lookup2 (subEntitiesOf o) typeKey entityKey

/-- Well-formedness of the entity behind a pointer. -/
def WFOpt : Option Entity → Prop
  | none => True
  | some e => e.WF

/-- The entity at a path below the entity behind a pointer. -/
def descend : Option Entity → Path → Option Entity
  | o, [] => o
  | o, (typeKey, entityKey) :: rest => descend (childOf o typeKey entityKey) rest

/-- The copy of the new entity, with which the reconciliation starts (lines 141-144). -/
def copyNew (sys : System W) (cfg : ProcessorConfig W) (newEntity : Option Entity) :
    Eng W (Option Entity) :=
  match newEntity with
  | some n => do
    let c ← assertType cfg.E (sys.ops.Copy n)
    pure (some c)
  | none => pure none

/-- What holds of a call of `Repository.Save` recorded in the run of a `save` on the pointers
`(o, n)` at `loc`: one argument is non-nil; and, the maps being well formed, the call
concerns an entity at some path below `loc`, with the old argument the old entity at that
path (nil if there is none) and the new argument nil exactly when the new tree has no entity
at that path. -/
def SaveArgsOK (loc : Path) (o n : Option Entity) (ev : Event) : Prop :=
  ∀ l x y, ev = .repositorySave l x y →
    (x.isSome = true ∨ y.isSome = true)
      ∧ (WFOpt o → WFOpt n →
          ∃ rest, l = loc ++ rest ∧ x = descend o rest ∧ y.isSome = (descend n rest).isSome)

/-- The call of `save` on a direct sub-entity of the entity at `loc` that an event records,
if it records one: the pair of keys of the sub-entity and the two pointers. -/
def directSaveCall (loc : Path) : Event → Option Job
  | .call l (.save o n) =>
    match l.drop loc.length with
    | [(typeKey, entityKey)] =>
      if l.take loc.length = loc then some (typeKey, entityKey, o, n) else none
    | _ => none
  | _ => none

/-- The calls of `save` on the direct sub-entities of the entity at `loc` that a trace
records, in order. -/
def directSaveCalls (loc : Path) (t : List Event) : List Job :=
  t.filterMap (directSaveCall loc)

/-- What the fold-back of `save` expects of `Copy`: the copy has the sub-entity map of the
original. -/
def CopyPreservesSubEntities (ops : EntityOps) : Prop :=
  ∀ e, (ops.Copy e).SubEntities = e.SubEntities

/-- What the fold-back of `save` expects of `UpdateSubEntity`: a successful call replaces the
value at the pair of keys if the pair exists, and changes no other child. -/
def UpdateReplacesExisting (ops : EntityOps) : Prop :=
  ∀ e typeKey entityKey s u, ops.UpdateSubEntity e typeKey entityKey (some s) = .ok u →
    ∀ tk ek, u.child tk ek
      = if tk = typeKey ∧ ek = entityKey then (e.child typeKey entityKey).map (fun _ => s)
        else e.child tk ek

/-- The child at a pair of keys after the call of `save` for that pair returned `saved`: the
returned value if the new sub-entity exists and the value is non-nil, the child as it was
otherwise. -/
def foldedChild (newExists : Bool) (saved old : Option Entity) : Option Entity :=
  match newExists, saved with
  | true, some s => old.map (fun _ => s)
  | _, _ => old

/-! ## A small application, used in the examples -/

/-- Replace the value at an existing key of a typed collection. -/
def replaceTyped (entityKey : String) (c : Entity) :
    List (String × Entity) → Option (List (String × Entity))
  | [] => none
  | (k, e) :: rest =>
    if k = entityKey then some ((k, c) :: rest)
    else (replaceTyped entityKey c rest).map (fun r => (k, e) :: r)

/-- Replace the value at an existing pair of keys of a sub-entity map. -/
def replaceSub (typeKey entityKey : String) (c : Entity) :
    List (String × List (String × Entity)) → Option (List (String × List (String × Entity)))
  | [] => none
  | (t, m) :: rest =>
    if t = typeKey then (replaceTyped entityKey c m).map (fun m2 => (t, m2) :: rest)
    else (replaceSub typeKey entityKey c rest).map (fun r => (t, m) :: r)

/-- Entity methods as the contract of the interface describes them: `Copy` duplicates,
`UpdateSubEntity` replaces the child at an existing pair and fails with ErrorInvalidState
otherwise. -/
def demoOps : EntityOps where
  Copy := fun e => e
  UpdateSubEntity := fun e typeKey entityKey c =>
    match c with
    | none => .error ErrorInvalidState
    | some c =>
      match replaceSub typeKey entityKey c e.SubEntities with
      | none => .error ErrorInvalidState
      | some s => .ok (Entity.mk e.typ e.fields s)

/-- A state machine that accepts "approve" and "cancel"; approving adds 10 to the fields,
cancelling drops the sub-entities; a failed action-specific sync is recorded as 99. -/
def demoStateMachine : StateMachina Nat where
  Do := fun e a _ syncerErr w =>
    match syncerErr with
    | some _ => ((Entity.mk e.typ 99 e.SubEntities, none), w)
    | none =>
      if a = "cancel" then ((Entity.mk e.typ e.fields [], none), w)
      else ((Entity.mk e.typ (e.fields + 10) e.SubEntities, none), w)
  Validate := fun _ a _ w =>
    (if a = "approve" ∨ a = "cancel" ∨ a = "push" then none else some ErrorInvalidState, w)
  CanProcess := fun _ => true

/-- A repository that counts its calls in the world and returns the new entity. -/
def demoRepository : Repository Nat where
  Save := fun _ n w => ((n, none), w + 1)

/-- A syncer whose action-specific `Do` handles "push" and fails. -/
def demoSyncer : Syncer Nat where
  Sync := fun e w => ((e, none), w)
  CanProcess := fun _ => true
  NeedSync := fun _ _ => false
  Do := fun e _ _ w => ((e, some (GoError.other 7)), w)
  HasAction := fun a => a = "push"

/-- Resolution: type 1 (orders) to processor 0, type 2 (line items) to processor 1. -/
def demoResolve : Option Entity → ProcessorRef
  | none => .nilInterface
  | some e => if e.typ = 1 then .wrapper 0 else if e.typ = 2 then .wrapper 1 else .nilPointer

def demoConfig (t : Nat) : ProcessorConfig Nat where
  E := fun x => x == t
  GetProcessorFunc := demoResolve
  StateMachines := [demoStateMachine]
  Repository := some demoRepository
  Syncers := [demoSyncer]

/-- Processor `i` handles the entities of type `i + 1`. -/
def demo : System Nat where
  ops := demoOps
  processors := fun i => demoConfig (i + 1)

/-- An order with one line item. -/
def demoOrder : Entity := .mk 1 0 [("items", [("1", .mk 2 5 [])])]

/-- A syncer whose unconditional `Sync` is triggered and fails. -/
def failingSyncer : Syncer Nat where
  Sync := fun e w => ((e, some (GoError.other 5)), w)
  CanProcess := fun _ => true
  NeedSync := fun _ _ => true
  Do := fun e _ _ w => ((e, none), w)
  HasAction := fun _ => false

/-- A processor with no state machine and a syncer whose `Sync` fails. -/
def syncFails : System Nat where
  ops := demoOps
  processors := fun _ =>
    { E := fun x => x == 1
      GetProcessorFunc := demoResolve
      StateMachines := []
      Repository := none
      Syncers := [failingSyncer] }

/-- An entity without sub-entities. -/
def leafOrder : Entity := .mk 1 0 []

/-- An order with a line item and a sub-entity of a type (3) that has no processor. -/
def mixedOrder : Entity := .mk 1 0 [("items", [("1", .mk 2 5 []), ("2", .mk 3 0 [])])]

/-- An order whose only sub-entity is of a type (3) that has no processor. -/
def strayOrder : Entity := .mk 1 0 [("items", [("9", .mk 3 0 [])])]

/-- A repository whose `Save` reports an error together with a non-nil entity. -/
def failingRepository : Repository Nat where
  Save := fun _ n w => ((n, some (GoError.other 3)), w)

/-- The demo application, the repository of the orders being the failing one. -/
def saveFails : System Nat where
  ops := demoOps
  processors := fun i =>
    if i = 0 then
      { E := fun x => x == 1
        GetProcessorFunc := demoResolve
        StateMachines := [demoStateMachine]
        Repository := some failingRepository
        Syncers := [] }
    else demoConfig (i + 1)

/-- The demo order with a second line item. -/
def grownOrder : Entity := .mk 1 10 [("items", [("1", .mk 2 5 []), ("2", .mk 2 7 [])])]

/-! ## Further example applications -/

/-- A state machine whose `Do` fails and returns, with the error, an entity it has changed. -/
def rejectingStateMachine : StateMachina Nat where
  Do := fun e _ _ _ w => ((Entity.mk e.typ 77 e.SubEntities, some (GoError.other 9)), w)
  Validate := fun _ _ _ w => (none, w)
  CanProcess := fun _ => true

/-- An application whose only state machine is the rejecting one. -/
def actFails : System Nat where
  ops := demoOps
  processors := fun i =>
    { E := fun x => x == i + 1
      GetProcessorFunc := demoResolve
      StateMachines := [rejectingStateMachine]
      Repository := some demoRepository
      Syncers := [] }

/-- A syncer whose unconditional `Sync` is triggered and marks the entity (fields 1). -/
def markingSyncer : Syncer Nat where
  Sync := fun e w => ((Entity.mk e.typ 1 e.SubEntities, none), w)
  CanProcess := fun _ => true
  NeedSync := fun _ _ => true
  Do := fun e _ _ w => ((e, none), w)
  HasAction := fun _ => false

/-- A state machine for unmarked entities (fields 0), which accepts every action. -/
def draftStateMachine : StateMachina Nat where
  Do := fun e _ _ _ w => ((e, none), w)
  Validate := fun _ _ _ w => (none, w)
  CanProcess := fun e => e.fields == 0

/-- A state machine for marked entities (fields 1), which rejects every action. -/
def markedStateMachine : StateMachina Nat where
  Do := fun e _ _ _ w => ((e, none), w)
  Validate := fun _ _ _ w => (some ErrorInvalidState, w)
  CanProcess := fun e => e.fields == 1

/-- An application whose sync marks the entity before the validation. -/
def syncMarks : System Nat where
  ops := demoOps
  processors := fun i =>
    { E := fun x => x == i + 1
      GetProcessorFunc := demoResolve
      StateMachines := [draftStateMachine, markedStateMachine]
      Repository := none
      Syncers := [markingSyncer] }

/-- The demo application with a syncer for the line items whose unconditional `Sync` fails. -/
def itemSyncFails : System Nat where
  ops := demoOps
  processors := fun i =>
    { E := fun x => x == i + 1
      GetProcessorFunc := demoResolve
      StateMachines := [demoStateMachine]
      Repository := some demoRepository
      Syncers := if i = 1 then [failingSyncer] else [] }

/-- The demo application, the repository of the line items being the failing one. -/
def itemSaveFails : System Nat where
  ops := demoOps
  processors := fun i =>
    { E := fun x => x == i + 1
      GetProcessorFunc := demoResolve
      StateMachines := [demoStateMachine]
      Repository := if i = 1 then some failingRepository else some demoRepository
      Syncers := [] }

/-- Two entities have the same sub-entity type keys and, under each of them, the same entity
keys. -/
def SameKeys (a b : Entity) : Prop :=
  (∀ typeKey, (a.SubEntities.lookup typeKey).isSome = (b.SubEntities.lookup typeKey).isSome)
    ∧ ∀ typeKey entityKey,
        (a.child typeKey entityKey).isSome = (b.child typeKey entityKey).isSome

/-- What the preservation of the shape expects of `UpdateSubEntity`: a successful call adds
and removes no key. -/
def UpdateKeepsKeys (ops : EntityOps) : Prop :=
  ∀ e typeKey entityKey v u, ops.UpdateSubEntity e typeKey entityKey v = .ok u → SameKeys u e

/-- A syncer whose unconditional `Sync` is triggered and drops the sub-entities. -/
def droppingSyncer : Syncer Nat where
  Sync := fun e w => ((Entity.mk e.typ e.fields [], none), w)
  CanProcess := fun _ => true
  NeedSync := fun _ _ => true
  Do := fun e _ _ w => ((e, none), w)
  HasAction := fun _ => false

/-- The demo application with the dropping syncer for the orders. -/
def syncDrops : System Nat where
  ops := demoOps
  processors := fun i =>
    { E := fun x => x == i + 1
      GetProcessorFunc := demoResolve
      StateMachines := [demoStateMachine]
      Repository := none
      Syncers := if i = 0 then [droppingSyncer] else [] }

/-- The event is a call of `Syncer.Do`. -/
def Event.isSyncerDo : Event → Bool
  | .syncerDo _ _ _ _ _ => true
  | _ => false


/-- Lawfulness of `Copy`: the copy has the concrete type of its receiver and the same
sub-entity keys. -/
def CopyKeepsTypeAndKeys (ops : EntityOps) : Prop :=
  ∀ e, (ops.Copy e).typ = e.typ ∧ SameKeys (ops.Copy e) e

/-- Lawfulness of `UpdateSubEntity`: the call succeeds whenever the pair of keys exists, and
returns an entity of the same concrete type with the same sub-entity keys. -/
def UpdateSucceedsAtExisting (ops : EntityOps) : Prop :=
  ∀ e typeKey entityKey s, (e.child typeKey entityKey).isSome = true →
    ∃ u, ops.UpdateSubEntity e typeKey entityKey (some s) = .ok u
      ∧ u.typ = e.typ ∧ SameKeys u e

/-- The run of a method on the entity at `loc` ends with the call of a collaborator of the
processor that returned the error `err`: the last event of the run, which leaves the world in
the state `world`, is the call of `Sync` of a configured Syncer, of `Validate` or of `Do` of
a configured StateMachine, or of `Save` of the configured Repository; and that call, made on
the recorded arguments in some state `w0` of the world, returned `err` and left the world in
the state `world`. -/
def CollaboratorError (cfg : ProcessorConfig W) (loc : Path) (trace : List Event) (world : W)
    (err : GoError) : Prop :=
  ∃ (pre : List Event) (w0 : W),
    (∃ k s c, cfg.Syncers[k]? = some s ∧ trace = pre ++ [.syncerSync loc k c]
        ∧ (s.Sync c w0).1.2 = some err ∧ (s.Sync c w0).2 = world)
      ∨ (∃ k sm c a p, cfg.StateMachines[k]? = some sm
          ∧ trace = pre ++ [.smValidate loc k c a p]
          ∧ (sm.Validate c a p w0).1 = some err ∧ (sm.Validate c a p w0).2 = world)
      ∨ (∃ k sm c a p se, cfg.StateMachines[k]? = some sm
          ∧ trace = pre ++ [.smDo loc k c a p se]
          ∧ (sm.Do c a p se w0).1.2 = some err ∧ (sm.Do c a p se w0).2 = world)
      ∨ (∃ r o n, cfg.Repository = some r ∧ trace = pre ++ [.repositorySave loc o n]
          ∧ (r.Save o n w0).1.2 = some err ∧ (r.Save o n w0).2 = world)

/-- Where an error returned by a method of the processor `cfg` running on the entity at `loc`
comes from, given the trace of the run and the state in which it leaves the world: it is
ErrorProcessorNotFound or ErrorUnprocessableEntity, it is the error that the call into the
processor of a direct sub-entity returned, or it is the error that the collaborator whose
call ends the run returned. -/
def ErrorSource (cfg : ProcessorConfig W) (loc : Path) (trace : List Event) (world : W)
    (err : GoError) : Prop :=
  err = ErrorProcessorNotFound ∨ err = ErrorUnprocessableEntity
    ∨ (∃ k v, Event.ret (loc ++ [k]) v (some err) ∈ trace)
    ∨ CollaboratorError cfg loc trace world err

/-- What the fold-backs of `save` at the pairs of keys `S` need of the new entity `c`: it is
there, it has the type of the processor, and it has a sub-entity at each of the pairs. -/
def FoldReady (cfg : ProcessorConfig W) (c : Option Entity) (S : List (String × String)) :
    Prop :=
  ∀ k ∈ S, ∃ c0, c = some c0 ∧ cfg.E c0.typ = true ∧ (c0.child k.1 k.2).isSome = true

/-- The pairs of keys at which `save(old, new)` may fold a result back: those of its calls
whose new sub-entity exists. -/
def foldKeys (oldEntity newEntity : Option Entity) : List (String × String) :=
  ((jobsOf oldEntity newEntity).filter (fun j => j.2.2.2.isSome)).map Job.key

/-- No processor of the system has a Repository. -/
def NoRepository (sys : System W) : Prop :=
  ∀ i, (sys.processors i).Repository = none

/-- Every sub-entity of the tree behind the pointer, at whatever depth, resolves in every
processor to a wrapped processor of its concrete type. -/
def SubEntitiesResolve (sys : System W) (o : Option Entity) : Prop :=
  ∀ (i : Nat) (path : Path) (x : Entity), path ≠ [] → descend o path = some x →
    ∃ j, (sys.processors i).GetProcessorFunc (some x) = .wrapper j
      ∧ (sys.processors j).E x.typ = true

/-- Lawfulness of `Copy`: the copy is structurally equal to its receiver. -/
def CopyIsIdentity (ops : EntityOps) : Prop :=
  ∀ e, ops.Copy e = e

/-- Lawfulness of `UpdateSubEntity`: replacing a child by an equal child yields an equal
parent. -/
def UpdateWithSameChild (ops : EntityOps) : Prop :=
  ∀ e typeKey entityKey x, e.child typeKey entityKey = some x →
    ops.UpdateSubEntity e typeKey entityKey (some x) = .ok e

/-- The sub-entities that the two trees have at the same path have the same concrete
type. -/
def SameTypes (o n : Option Entity) : Prop :=
  ∀ (path : Path) (x y : Entity), path ≠ [] → descend o path = some x →
    descend n path = some y → x.typ = y.typ

/-- The demo application without repositories and without syncers. -/
def noRepository : System Nat where
  ops := demoOps
  processors := fun i =>
    { E := fun x => x == i + 1
      GetProcessorFunc := demoResolve
      StateMachines := [demoStateMachine]
      Repository := none
      Syncers := [] }

/-- The demo order with, in the place of its line item, an entity of the concrete type of
the orders. -/
def retypedOrder : Entity := .mk 1 0 [("items", [("1", .mk 1 0 [])])]

/-- The demo order after "approve": the state machines have added 10 to the fields of the
order and of its line item. -/
def approvedOrder : Entity := .mk 1 10 [("items", [("1", .mk 2 15 [])])]

/-! ### The visiting order of the sub-entities

The source visits the sub-entities with `range` over two nested maps, in an order that Go
leaves unspecified.  The definitions above visit them in the order of `entries`; the ones
below take the order as a parameter, so that two orders can be compared. -/

/-- The first part of `syncAndValidate` and of `act`, the sub-entities being visited in the
order `order`. -/
def childrenPhaseIn (sys : System W) (cfg : ProcessorConfig W)
    (sub : ProcessorRef → Path → Entity → Action → ActionParams →
      Eng W (Option Entity × Option GoError))
    (loc : Path) (order : List (String × String × Entity)) (entity : Entity) (action : Action)
    (actionParams : ActionParams) : Eng W (Entity × Option GoError) := do
  let changedEntity ← assertType cfg.E (sys.ops.Copy entity)
  childLoop sys cfg sub loc action actionParams order changedEntity

/-- The body of `processor.syncAndValidate`, the sub-entities being visited in the order
`order`. -/
def syncAndValidateBodyIn (sys : System W) (cfg : ProcessorConfig W)
    (sub : ProcessorRef → Path → Entity → Action → ActionParams →
      Eng W (Option Entity × Option GoError))
    (loc : Path) (order : List (String × String × Entity)) (entity : Entity) (action : Action)
    (actionParams : ActionParams) : Eng W (Entity × Option GoError) := do
  emit (.processor loc (.syncAndValidate entity action actionParams))
  let r ← childrenPhaseIn sys cfg sub loc order entity action actionParams
  match r.2 with
  | some err => pure (r.1, some err)
  | none => ownSyncAndValidate cfg loc entity r.1 action actionParams

/-- The body of `processor.act`, the sub-entities being visited in the order `order`. -/
def actBodyIn (sys : System W) (cfg : ProcessorConfig W)
    (sub : ProcessorRef → Path → Entity → Action → ActionParams →
      Eng W (Option Entity × Option GoError))
    (loc : Path) (order : List (String × String × Entity)) (entity : Entity) (action : Action)
    (actionParams : ActionParams) : Eng W (Entity × Option GoError) := do
  emit (.processor loc (.act entity action actionParams))
  let r ← childrenPhaseIn sys cfg sub loc order entity action actionParams
  match r.2 with
  | some err => pure (r.1, some err)
  | none => transitionPhase cfg loc r.1 action actionParams

/-- The method `processor.syncAndValidate` of processor `id` with recursion depth `fuel`,
the sub-entities of the entity at `loc` being visited in the order `ord loc entity`. -/
def syncAndValidateIn (sys : System W) (ord : Path → Entity → List (String × String × Entity)) :
    Nat → Nat → Path → Entity → Action → ActionParams → Eng W (Entity × Option GoError)
  | 0, _ => fun _ _ _ _ => outOfFuel
  | fuel + 1, id => fun loc entity action actionParams =>
    syncAndValidateBodyIn sys (sys.processors id)
      (ProcessorRef.syncAndValidate sys (syncAndValidateIn sys ord fuel)) loc (ord loc entity)
      entity action actionParams

/-- The method `processor.act` of processor `id` with recursion depth `fuel`, the
sub-entities of the entity at `loc` being visited in the order `ord loc entity`. -/
def actIn (sys : System W) (ord : Path → Entity → List (String × String × Entity)) :
    Nat → Nat → Path → Entity → Action → ActionParams → Eng W (Entity × Option GoError)
  | 0, _ => fun _ _ _ _ => outOfFuel
  | fuel + 1, id => fun loc entity action actionParams =>
    actBodyIn sys (sys.processors id) (ProcessorRef.act sys (actIn sys ord fuel)) loc
      (ord loc entity) entity action actionParams

/-- The order in which the definitions of `processor.syncAndValidate` and `processor.act`
above visit the sub-entities. -/
def entriesOrder : Path → Entity → List (String × String × Entity) :=
  fun _ entity => entries entity.SubEntities

/-- A visiting order: at every entity, an enumeration of its sub-entities. -/
def VisitingOrder (ord : Path → Entity → List (String × String × Entity)) : Prop :=
  ∀ loc entity, (ord loc entity).Perm (entries entity.SubEntities)

/-- The loop over the sub-entities of `syncAndValidate` for the processor registered as `id`,
the sub-entities being visited as `ord` says, with recursion depth `fuel` below. -/
def syncChildrenIn (sys : System W) (ord : Path → Entity → List (String × String × Entity))
    (fuel id : Nat) (loc : Path) (entity : Entity) (action : Action)
    (actionParams : ActionParams) : Eng W (Entity × Option GoError) :=
  childrenPhaseIn sys (sys.processors id)
    (ProcessorRef.syncAndValidate sys (syncAndValidateIn sys ord fuel)) loc (ord loc entity)
    entity action actionParams

/-- The loop over the sub-entities of `act` for the processor registered as `id`, the
sub-entities being visited as `ord` says, with recursion depth `fuel` below. -/
def actChildrenIn (sys : System W) (ord : Path → Entity → List (String × String × Entity))
    (fuel id : Nat) (loc : Path) (entity : Entity) (action : Action)
    (actionParams : ActionParams) : Eng W (Entity × Option GoError) :=
  childrenPhaseIn sys (sys.processors id) (ProcessorRef.act sys (actIn sys ord fuel)) loc
    (ord loc entity) entity action actionParams

/-- Deterministic collaborators: what `Validate`, `StateMachine.Do`, `Sync` and `Syncer.Do`
return depends on their arguments only, not on the state of the world in which they are
called. -/
def DeterministicConfig (cfg : ProcessorConfig W) : Prop :=
  (∀ sm ∈ cfg.StateMachines,
      (∀ e a p w w2, (sm.Validate e a p w).1 = (sm.Validate e a p w2).1)
        ∧ ∀ e a p err w w2, (sm.Do e a p err w).1 = (sm.Do e a p err w2).1)
    ∧ ∀ s ∈ cfg.Syncers,
      (∀ e w w2, (s.Sync e w).1 = (s.Sync e w2).1)
        ∧ ∀ e a p w w2, (s.Do e a p w).1 = (s.Do e a p w2).1

/-- Every processor of the system has deterministic collaborators. -/
def Deterministic (sys : System W) : Prop :=
  ∀ i, DeterministicConfig (sys.processors i)

/-- The calls of `UpdateSubEntity` at distinct pairs of keys commute: when two calls in a
row succeed, so do they in the other order, with the same result. -/
def UpdatesCommute (ops : EntityOps) : Prop :=
  ∀ e typeKey1 entityKey1 v1 typeKey2 entityKey2 v2 a b,
    (typeKey1, entityKey1) ≠ (typeKey2, entityKey2) →
    ops.UpdateSubEntity e typeKey1 entityKey1 v1 = .ok a →
    ops.UpdateSubEntity a typeKey2 entityKey2 v2 = .ok b →
    ∃ a2, ops.UpdateSubEntity e typeKey2 entityKey2 v2 = .ok a2
      ∧ ops.UpdateSubEntity a2 typeKey1 entityKey1 v1 = .ok b

/-- The fold-backs of the loop over the sub-entities, one after the other: the entity after
the calls of `UpdateSubEntity` of the list, if they all succeed. -/
def foldUpdates (ops : EntityOps) :
    Entity → List (String × String × Option Entity) → Option Entity
  | c, [] => some c
  | c, (typeKey, entityKey, v) :: rest =>
    match ops.UpdateSubEntity c typeKey entityKey v with
    | .ok u => foldUpdates ops u rest
    | .error _ => none

/-- The method `processor.syncAndValidate` of the processor registered as `id`, the
sub-entities being visited as `ord` says. -/
def processor.syncAndValidateIn (sys : System W)
    (ord : Path → Entity → List (String × String × Entity)) (id : Nat) (loc : Path)
    (entity : Entity) (action : Action) (actionParams : ActionParams) :
    Eng W (Entity × Option GoError) :=
  HSM.syncAndValidateIn sys ord entity.depth id loc entity action actionParams

/-- The method `processor.act` of the processor registered as `id`, the sub-entities being
visited as `ord` says. -/
def processor.actIn (sys : System W)
    (ord : Path → Entity → List (String × String × Entity)) (id : Nat) (loc : Path)
    (entity : Entity) (action : Action) (actionParams : ActionParams) :
    Eng W (Entity × Option GoError) :=
  HSM.actIn sys ord entity.depth id loc entity action actionParams

/-- Lines 50-69 of `syncAndValidate` for the processor registered as `id`, the sub-entities
being visited as `ord` says. -/
def processor.syncChildrenIn (sys : System W)
    (ord : Path → Entity → List (String × String × Entity)) (id : Nat) (loc : Path)
    (entity : Entity) (action : Action) (actionParams : ActionParams) :
    Eng W (Entity × Option GoError) :=
  HSM.syncChildrenIn sys ord (entity.depth - 1) id loc entity action actionParams

/-- Lines 93-113 of `act` for the processor registered as `id`, the sub-entities being
visited as `ord` says. -/
def processor.actChildrenIn (sys : System W)
    (ord : Path → Entity → List (String × String × Entity)) (id : Nat) (loc : Path)
    (entity : Entity) (action : Action) (actionParams : ActionParams) :
    Eng W (Entity × Option GoError) :=
  HSM.actChildrenIn sys ord (entity.depth - 1) id loc entity action actionParams

/-- The order of `entries`, reversed at every entity. -/
def reverseOrder : Path → Entity → List (String × String × Entity) :=
  fun _ entity => (entries entity.SubEntities).reverse

/-- The result of a successful `UpdateSubEntity` has the concrete type of its receiver. -/
def UpdateKeepsType (ops : EntityOps) : Prop :=
  ∀ e typeKey entityKey v u, ops.UpdateSubEntity e typeKey entityKey v = .ok u → u.typ = e.typ

/-! ### The visiting order of `save`

`save` ranges over the fresh maps `allTypeKeys` and `allEntityKeys` and over the typed maps
of the old and of the new entity, in an order that Go leaves unspecified.  Whatever the
order, a run makes the calls of `jobsOf`, each at most once and one after the other, and
stops at the first that fails.  The definitions above make them in the order of `jobsOf`;
the ones below take the list of the calls as a parameter, so that a statement can be made
for every order in which Go may visit the keys: each such order is an enumeration of
`jobsOf`. -/

/-- Lines 140-252 of `save`, the calls being made in the order of the list `jobs`. -/
def reconcilePhaseIn (sys : System W) (cfg : ProcessorConfig W)
    (sub : ProcessorRef → Path → Option Entity → Option Entity →
      Eng W (Option Entity × Option GoError))
    (loc : Path) (jobs : List Job) (newEntity : Option Entity) :
    Eng W (Option Entity × Option GoError) := do
  let changedNewEntity ← copyNew sys cfg newEntity
  jobLoop sys cfg sub loc jobs changedNewEntity done

/-- The body of `processor.save`, the calls on the sub-entities being made in the order of
the list `jobs`. -/
def saveBodyIn (sys : System W) (cfg : ProcessorConfig W)
    (sub : ProcessorRef → Path → Option Entity → Option Entity →
      Eng W (Option Entity × Option GoError))
    (loc : Path) (jobs : List Job) (oldEntity newEntity : Option Entity) :
    Eng W (Option Entity × Option GoError) := do
  emit (.processor loc (.save oldEntity newEntity))
  if oldEntity.isNone && newEntity.isNone then
    pure (none, none)
  else do
    let r ← reconcilePhaseIn sys cfg sub loc jobs newEntity
    match r.2 with
    | some err => pure (none, some err)
    | none => persistPhase cfg loc oldEntity newEntity r.1

/-- The method `processor.save` of processor `id` with recursion depth `fuel`, the calls on
the sub-entities of the entities at `loc` being made in the order `sord loc old new`. -/
def saveIn (sys : System W) (sord : Path → Option Entity → Option Entity → List Job) :
    Nat → Nat → Path → Option Entity → Option Entity → Eng W (Option Entity × Option GoError)
  | 0, _ => fun _ _ _ => outOfFuel
  | fuel + 1, id => fun loc oldEntity newEntity =>
    saveBodyIn sys (sys.processors id) (ProcessorRef.save sys (saveIn sys sord fuel)) loc
      (sord loc oldEntity newEntity) oldEntity newEntity

/-- The order in which the definition of `processor.save` above makes the calls. -/
def jobsOrder : Path → Option Entity → Option Entity → List Job :=
  fun _ oldEntity newEntity => jobsOf oldEntity newEntity

/-- An order of `save`: for every pair of entities, an enumeration of the calls to make. -/
def SaveOrder (sord : Path → Option Entity → Option Entity → List Job) : Prop :=
  ∀ loc oldEntity newEntity, (sord loc oldEntity newEntity).Perm (jobsOf oldEntity newEntity)

/-- The method `processor.save` of the processor registered as `id`, the calls on the
sub-entities being made as `sord` says. -/
def processor.saveIn (sys : System W)
    (sord : Path → Option Entity → Option Entity → List Job) (id : Nat) (loc : Path)
    (oldEntity newEntity : Option Entity) : Eng W (Option Entity × Option GoError) :=
  HSM.saveIn sys sord (max (depthOf oldEntity) (depthOf newEntity) + 1) id loc oldEntity
    newEntity

/-- The call `subProcessor.save(ctx, old, new)` made by the run of
`processor.saveIn sys sord id loc oldEntity newEntity` on a sub-entity. -/
def processor.saveCallIn (sys : System W)
    (sord : Path → Option Entity → Option Entity → List Job)
    (oldEntity newEntity : Option Entity) :
    ProcessorRef → Path → Option Entity → Option Entity →
      Eng W (Option Entity × Option GoError) :=
  ProcessorRef.save sys (HSM.saveIn sys sord (max (depthOf oldEntity) (depthOf newEntity)))

/-- Lines 140-252 of `save` for the processor registered as `id`, the calls on the
sub-entities being made as `sord` says. -/
def processor.reconcileIn (sys : System W)
    (sord : Path → Option Entity → Option Entity → List Job) (id : Nat) (loc : Path)
    (oldEntity newEntity : Option Entity) : Eng W (Option Entity × Option GoError) :=
  reconcilePhaseIn sys (sys.processors id) (processor.saveCallIn sys sord oldEntity newEntity)
    loc (sord loc oldEntity newEntity) newEntity

/-- The method `processor.Process` of the processor registered as `id`, the sub-entities
being visited as `ord` says in `syncAndValidate` and `act`, and the calls of `save` being made
as `sord` says. -/
def processor.ProcessIn (sys : System W)
    (ord : Path → Entity → List (String × String × Entity))
    (sord : Path → Option Entity → Option Entity → List Job) (id : Nat) (loc : Path)
    (entity : Entity) (action : Action) (actionParams : ActionParams) :
    Eng W (Entity × Option GoError) := do
  emit (.processor loc (.Process entity action actionParams))
  let synced ← processor.syncAndValidateIn sys ord id loc entity action actionParams
  match synced.2 with
  | some err => pure (entity, some err)
  | none => do
    let syncedEntity := synced.1
    let changed ← processor.actIn sys ord id loc syncedEntity action actionParams
    match changed.2 with
    | some err => pure (syncedEntity, some err)
    | none => do
      let changedEntity := changed.1
      let saved ← processor.saveIn sys sord id loc (some entity) (some changedEntity)
      match saved.2 with
      | some err => pure (changedEntity, some err)
      | none =>
        match saved.1 with
        | none => pure (changedEntity, none)
        | some savedEntity => pure (savedEntity, none)

/-! ## Example applications for the fold-back and the visiting order -/

/-- Entity methods whose `UpdateSubEntity` rejects every call with ErrorInvalidState. -/
def rejectingOps : EntityOps where
  Copy := fun e => e
  UpdateSubEntity := fun _ _ _ _ => .error ErrorInvalidState

/-- The demo application over entities whose `UpdateSubEntity` rejects every call. -/
def foldFails : System Nat where
  ops := rejectingOps
  processors := fun i => demoConfig (i + 1)

/-- The demo application with the marking syncer for the orders only. -/
def rootSyncs : System Nat where
  ops := demoOps
  processors := fun i =>
    { E := fun x => x == i + 1
      GetProcessorFunc := demoResolve
      StateMachines := [demoStateMachine]
      Repository := some demoRepository
      Syncers := if i = 0 then [markingSyncer] else [] }

/-- The demo application with the marking syncer for the line items only. -/
def itemMarks : System Nat where
  ops := demoOps
  processors := fun i =>
    { E := fun x => x == i + 1
      GetProcessorFunc := demoResolve
      StateMachines := [demoStateMachine]
      Repository := some demoRepository
      Syncers := if i = 1 then [markingSyncer] else [] }

/-- The event is a call of `Syncer.Sync`. -/
def Event.isSyncerSync : Event → Bool
  | .syncerSync _ _ _ => true
  | _ => false

/-- The event is a call of `StateMachine.Do`. -/
def Event.isSmDo : Event → Bool
  | .smDo _ _ _ _ _ _ => true
  | _ => false

/-- The calls of `save`, the keys being visited in the reverse of the order of `jobsOf`
within each type key and the type keys in reverse. -/
def reverseJobs : Path → Option Entity → Option Entity → List Job :=
  fun _ oldEntity newEntity => (jobsOf oldEntity newEntity).reverse

/-- The event records a return with an error. -/
def Event.isFailedReturn : Event → Bool
  | .ret _ _ (some _) => true
  | _ => false
end Processor

section Theorems

variable {W : Type}

/-! ## The fuel is enough -/

theorem lookup_mem {α : Type} (m : List (String × α)) (k : String) (x : α)
    (h : m.lookup k = some x) : (k, x) ∈ m := by
  induction m with
  | nil => simp at h
  | cons kv rest ih =>
    obtain ⟨k2, v⟩ := kv
    by_cases hk : k = k2
    · subst hk
      simp [List.lookup] at h
      simp [h]
    · have : (k == k2) = false := by simpa using hk
      simp [List.lookup, this] at h
      exact List.mem_cons_of_mem _ (ih h)

theorem depthEnts_ge (m : List (String × Entity)) (k : String) (x : Entity)
    (h : (k, x) ∈ m) : x.depth ≤ Entity.depthEnts m := by
  induction m with
  | nil => simp at h
  | cons kv rest ih =>
    obtain ⟨k2, v⟩ := kv
    simp only [Entity.depthEnts]
    rcases List.mem_cons.1 h with h1 | h1
    · cases h1
      exact le_max_left _ _
    · exact le_trans (ih h1) (le_max_right _ _)

theorem depthTypes_ge (s : List (String × List (String × Entity))) (t : String)
    (m : List (String × Entity)) (h : (t, m) ∈ s) :
    Entity.depthEnts m ≤ Entity.depthTypes s := by
  induction s with
  | nil => simp at h
  | cons tm rest ih =>
    obtain ⟨t2, m2⟩ := tm
    simp only [Entity.depthTypes]
    rcases List.mem_cons.1 h with h1 | h1
    · cases h1
      exact le_max_left _ _
    · exact le_trans (ih h1) (le_max_right _ _)

theorem Entity.depth_eq (e : Entity) : e.depth = Entity.depthTypes e.SubEntities + 1 := by
  cases e
  simp [Entity.depth, Entity.SubEntities]

theorem mem_entries {s : List (String × List (String × Entity))} {tk ek : String} {x : Entity} :
    (tk, ek, x) ∈ entries s ↔ ∃ m, (tk, m) ∈ s ∧ (ek, x) ∈ m := by
  simp only [entries, List.mem_flatMap, List.mem_map, Prod.mk.injEq, Prod.exists]
  constructor
  · rintro ⟨t, m, hm, k, y, hy, rfl, rfl, rfl⟩
    exact ⟨m, hm, hy⟩
  · rintro ⟨m, hm, hx⟩
    exact ⟨tk, m, hm, ek, x, hx, rfl, rfl, rfl⟩

theorem depth_lt_of_mem_entries (e x : Entity) (tk ek : String)
    (h : (tk, ek, x) ∈ entries e.SubEntities) : x.depth < e.depth := by
  obtain ⟨m, hm, hx⟩ := mem_entries.1 h
  rw [Entity.depth_eq e]
  exact Nat.lt_succ_of_le (le_trans (depthEnts_ge m ek x hx) (depthTypes_ge _ tk m hm))

theorem childLoop_congr (sys : System W) (cfg : ProcessorConfig W)
    (sub sub2 : ProcessorRef → Path → Entity → Action → ActionParams →
      Eng W (Option Entity × Option GoError))
    (loc : Path) (a : Action) (p : ActionParams) (l : List (String × String × Entity))
    (h : ∀ x ∈ l, ∀ ref loc2, sub ref loc2 x.2.2 a p = sub2 ref loc2 x.2.2 a p) (c : Entity) :
    childLoop sys cfg sub loc a p l c = childLoop sys cfg sub2 loc a p l c := by
  induction l generalizing c with
  | nil => rfl
  | cons x rest ih =>
    obtain ⟨tk, ek, e⟩ := x
    simp only [childLoop]
    rw [h (tk, ek, e) (List.mem_cons_self _ _)]
    have ih2 := fun c => ih (fun x hx => h x (List.mem_cons_of_mem _ hx)) c
    simp only [ih2]

theorem syncAndValidateBody_congr (sys : System W) (cfg : ProcessorConfig W)
    (sub sub2 : ProcessorRef → Path → Entity → Action → ActionParams →
      Eng W (Option Entity × Option GoError))
    (loc : Path) (e : Entity) (a : Action) (p : ActionParams)
    (h : ∀ x ∈ entries e.SubEntities, ∀ ref loc2,
      sub ref loc2 x.2.2 a p = sub2 ref loc2 x.2.2 a p) :
    syncAndValidateBody sys cfg sub loc e a p = syncAndValidateBody sys cfg sub2 loc e a p := by
  have key := childLoop_congr sys cfg sub sub2 loc a p (entries e.SubEntities) h
  simp only [syncAndValidateBody, childrenPhase, key]

theorem actBody_congr (sys : System W) (cfg : ProcessorConfig W)
    (sub sub2 : ProcessorRef → Path → Entity → Action → ActionParams →
      Eng W (Option Entity × Option GoError))
    (loc : Path) (e : Entity) (a : Action) (p : ActionParams)
    (h : ∀ x ∈ entries e.SubEntities, ∀ ref loc2,
      sub ref loc2 x.2.2 a p = sub2 ref loc2 x.2.2 a p) :
    actBody sys cfg sub loc e a p = actBody sys cfg sub2 loc e a p := by
  have key := childLoop_congr sys cfg sub sub2 loc a p (entries e.SubEntities) h
  simp only [actBody, childrenPhase, key]

theorem syncAndValidateFuel_irrel (sys : System W) (f1 : Nat) :
    ∀ (f2 id : Nat) (loc : Path) (e : Entity) (a : Action) (p : ActionParams),
      e.depth ≤ f1 → e.depth ≤ f2 →
      syncAndValidateFuel sys f1 id loc e a p = syncAndValidateFuel sys f2 id loc e a p := by
  induction f1 with
  | zero =>
    intro f2 id loc e a p h1
    rw [Entity.depth_eq] at h1
    omega
  | succ n ih =>
    intro f2 id loc e a p h1 h2
    cases f2 with
    | zero =>
      rw [Entity.depth_eq] at h2
      omega
    | succ m =>
      simp only [syncAndValidateFuel]
      apply syncAndValidateBody_congr
      intro x hx ref loc2
      have hlt := depth_lt_of_mem_entries e x.2.2 x.1 x.2.1 hx
      cases ref with
      | wrapper id2 =>
        simp only [ProcessorRef.syncAndValidate, genericProcessorWrapper.syncAndValidate]
        rw [ih m id2 loc2 x.2.2 a p (by omega) (by omega)]
      | nilInterface => rfl
      | nilPointer => rfl

theorem processor.syncAndValidate_eq (sys : System W) (id : Nat) (loc : Path) (e : Entity)
    (a : Action) (p : ActionParams) :
    processor.syncAndValidate sys id loc e a p =
      syncAndValidateBody sys (sys.processors id)
        (ProcessorRef.syncAndValidate sys (processor.syncAndValidate sys)) loc e a p := by
  unfold processor.syncAndValidate
  obtain ⟨n, hn⟩ : ∃ n, e.depth = n + 1 := ⟨_, Entity.depth_eq e⟩
  rw [hn]
  simp only [syncAndValidateFuel]
  apply syncAndValidateBody_congr
  intro x hx ref loc2
  have hlt := depth_lt_of_mem_entries e x.2.2 x.1 x.2.1 hx
  cases ref with
  | wrapper id2 =>
    simp only [ProcessorRef.syncAndValidate, genericProcessorWrapper.syncAndValidate]
    rw [syncAndValidateFuel_irrel sys n x.2.2.depth id2 loc2 x.2.2 a p (by omega) (le_refl _)]
  | nilInterface => rfl
  | nilPointer => rfl

theorem actFuel_irrel (sys : System W) (f1 : Nat) :
    ∀ (f2 id : Nat) (loc : Path) (e : Entity) (a : Action) (p : ActionParams),
      e.depth ≤ f1 → e.depth ≤ f2 →
      actFuel sys f1 id loc e a p = actFuel sys f2 id loc e a p := by
  induction f1 with
  | zero =>
    intro f2 id loc e a p h1
    rw [Entity.depth_eq] at h1
    omega
  | succ n ih =>
    intro f2 id loc e a p h1 h2
    cases f2 with
    | zero =>
      rw [Entity.depth_eq] at h2
      omega
    | succ m =>
      simp only [actFuel]
      apply actBody_congr
      intro x hx ref loc2
      have hlt := depth_lt_of_mem_entries e x.2.2 x.1 x.2.1 hx
      cases ref with
      | wrapper id2 =>
        simp only [ProcessorRef.act, genericProcessorWrapper.act]
        rw [ih m id2 loc2 x.2.2 a p (by omega) (by omega)]
      | nilInterface => rfl
      | nilPointer => rfl

theorem processor.act_eq (sys : System W) (id : Nat) (loc : Path) (e : Entity)
    (a : Action) (p : ActionParams) :
    processor.act sys id loc e a p =
      actBody sys (sys.processors id) (ProcessorRef.act sys (processor.act sys)) loc e a p := by
  unfold processor.act
  obtain ⟨n, hn⟩ : ∃ n, e.depth = n + 1 := ⟨_, Entity.depth_eq e⟩
  rw [hn]
  simp only [actFuel]
  apply actBody_congr
  intro x hx ref loc2
  have hlt := depth_lt_of_mem_entries e x.2.2 x.1 x.2.1 hx
  cases ref with
  | wrapper id2 =>
    simp only [ProcessorRef.act, genericProcessorWrapper.act]
    rw [actFuel_irrel sys n x.2.2.depth id2 loc2 x.2.2 a p (by omega) (le_refl _)]
  | nilInterface => rfl
  | nilPointer => rfl

theorem saveOldOnly_congr (cfg : ProcessorConfig W) (Q : Option Entity → Prop) (hQ : Q none)
    (sub sub2 : ProcessorRef → Path → Option Entity → Option Entity →
      Eng W (Option Entity × Option GoError))
    (h : AgreeOn Q sub sub2) (loc : Path) (tk : String) (l : List (String × Entity))
    (hl : ∀ k x, (k, x) ∈ l → Q (some x)) :
    saveOldOnly cfg sub loc tk l = saveOldOnly cfg sub2 loc tk l := by
  induction l with
  | nil => rfl
  | cons kx rest ih =>
    obtain ⟨k, x⟩ := kx
    simp only [saveOldOnly]
    rw [h _ _ _ _ (hl k x (List.mem_cons_self _ _)) hQ,
      ih (fun k2 x2 h2 => hl k2 x2 (List.mem_cons_of_mem _ h2))]

theorem saveNewOnly_congr (sys : System W) (cfg : ProcessorConfig W)
    (Q : Option Entity → Prop) (hQ : Q none)
    (sub sub2 : ProcessorRef → Path → Option Entity → Option Entity →
      Eng W (Option Entity × Option GoError))
    (h : AgreeOn Q sub sub2) (loc : Path) (tk : String) (l : List (String × Entity))
    (hl : ∀ k x, (k, x) ∈ l → Q (some x)) (c : Option Entity) :
    saveNewOnly sys cfg sub loc tk l c = saveNewOnly sys cfg sub2 loc tk l c := by
  induction l generalizing c with
  | nil => rfl
  | cons kx rest ih =>
    obtain ⟨k, x⟩ := kx
    simp only [saveNewOnly]
    have ih2 := fun c => ih (fun k2 x2 h2 => hl k2 x2 (List.mem_cons_of_mem _ h2)) c
    rw [h _ _ _ _ hQ (hl k x (List.mem_cons_self _ _))]
    simp only [ih2]

theorem lookup_Q (Q : Option Entity → Prop) (hQ : Q none) (m : List (String × Entity))
    (hm : ∀ k x, (k, x) ∈ m → Q (some x)) (k : String) : Q (m.lookup k) := by
  cases hk : m.lookup k with
  | none => exact hQ
  | some x => exact hm k x (lookup_mem m k x hk)

theorem saveBoth_congr (sys : System W) (cfg : ProcessorConfig W)
    (Q : Option Entity → Prop) (hQ : Q none)
    (sub sub2 : ProcessorRef → Path → Option Entity → Option Entity →
      Eng W (Option Entity × Option GoError))
    (h : AgreeOn Q sub sub2) (loc : Path) (tk : String) (mo mn : List (String × Entity))
    (ho : ∀ k x, (k, x) ∈ mo → Q (some x)) (hn : ∀ k x, (k, x) ∈ mn → Q (some x))
    (l : List String) (c : Option Entity) :
    saveBoth sys cfg sub loc tk mo mn l c = saveBoth sys cfg sub2 loc tk mo mn l c := by
  induction l generalizing c with
  | nil => rfl
  | cons k rest ih =>
    simp only [saveBoth]
    rw [h _ _ _ _ (lookup_Q Q hQ mo ho k) (lookup_Q Q hQ mn hn k)]
    simp only [ih]

theorem saveTypes_congr (sys : System W) (cfg : ProcessorConfig W)
    (Q : Option Entity → Prop) (hQ : Q none)
    (sub sub2 : ProcessorRef → Path → Option Entity → Option Entity →
      Eng W (Option Entity × Option GoError))
    (h : AgreeOn Q sub sub2) (loc : Path) (so sn : List (String × List (String × Entity)))
    (ho : AllSub Q so) (hn : AllSub Q sn) (l : List String) (c : Option Entity) :
    saveTypes sys cfg sub loc so sn l c = saveTypes sys cfg sub2 loc so sn l c := by
  induction l generalizing c with
  | nil => rfl
  | cons tk rest ih =>
    simp only [saveTypes]
    cases hlo : so.lookup tk with
    | none =>
      cases hln : sn.lookup tk with
      | none => simp only [ih]
      | some mn =>
        simp only [ih]
        rw [saveNewOnly_congr sys cfg Q hQ sub sub2 h loc tk mn
          (hn tk mn (lookup_mem _ _ _ hln))]
    | some mo =>
      cases hln : sn.lookup tk with
      | none =>
        simp only [ih]
        rw [saveOldOnly_congr cfg Q hQ sub sub2 h loc tk mo (ho tk mo (lookup_mem _ _ _ hlo))]
      | some mn =>
        simp only [ih]
        rw [saveBoth_congr sys cfg Q hQ sub sub2 h loc tk mo mn
          (ho tk mo (lookup_mem _ _ _ hlo)) (hn tk mn (lookup_mem _ _ _ hln))]

theorem saveBody_congr (sys : System W) (cfg : ProcessorConfig W)
    (Q : Option Entity → Prop)
    (sub sub2 : ProcessorRef → Path → Option Entity → Option Entity →
      Eng W (Option Entity × Option GoError))
    (h : AgreeOn Q sub sub2) (loc : Path) (o n : Option Entity)
    (hQ : o.isSome ∨ n.isSome → Q none)
    (ho : AllSub Q (subEntitiesOf o)) (hn : AllSub Q (subEntitiesOf n)) :
    saveBody sys cfg sub loc o n = saveBody sys cfg sub2 loc o n := by
  by_cases hb : o.isSome ∨ n.isSome
  · have key := saveTypes_congr sys cfg Q (hQ hb) sub sub2 h loc (subEntitiesOf o)
      (subEntitiesOf n) ho hn
    simp only [saveBody, reconcilePhase, key]
  · have h1 : o = none := by
      cases o with
      | none => rfl
      | some x => exact absurd (Or.inl rfl) hb
    have h2 : n = none := by
      cases n with
      | none => rfl
      | some x => exact absurd (Or.inr rfl) hb
    subst h1
    subst h2
    simp [saveBody]

theorem allSub_lt (o : Option Entity) :
    AllSub (fun x => depthOf x < depthOf o) (subEntitiesOf o) := by
  intro t m hm k x hx
  cases o with
  | none => simp [subEntitiesOf] at hm
  | some e => exact depth_lt_of_mem_entries e x t k (mem_entries.2 ⟨m, hm, hx⟩)

theorem depthOf_pos (o : Option Entity) (h : o.isSome) : 0 < depthOf o := by
  cases o with
  | none => simp at h
  | some e =>
    simp only [depthOf]
    rw [Entity.depth_eq]
    omega

theorem narrowPtr_some (E : Nat → Bool) (o t : Option Entity) (h : narrowPtr E o = some t) :
    t = o := by
  cases o with
  | none =>
    simp only [narrowPtr, Option.some.injEq] at h
    exact h.symm
  | some e =>
    simp only [narrowPtr] at h
    split at h
    · simp only [Option.some.injEq] at h
      exact h.symm
    · simp at h

theorem genericProcessorWrapper.save_congr (E : Nat → Bool)
    (f g : Path → Option Entity → Option Entity → Eng W (Option Entity × Option GoError))
    (loc : Path) (o n : Option Entity) (h : f loc o n = g loc o n) :
    genericProcessorWrapper.save E f loc o n = genericProcessorWrapper.save E g loc o n := by
  unfold genericProcessorWrapper.save
  cases h1 : narrowPtr E o with
  | none => rfl
  | some t1 =>
    cases h2 : narrowPtr E n with
    | none => rfl
    | some t2 =>
      have e1 := narrowPtr_some E o t1 h1
      have e2 := narrowPtr_some E n t2 h2
      subst e1
      subst e2
      simp only [h]

theorem saveFuel_irrel (sys : System W) (f1 : Nat) :
    ∀ (f2 id : Nat) (loc : Path) (o n : Option Entity),
      depthOf o < f1 → depthOf n < f1 → depthOf o < f2 → depthOf n < f2 →
      saveFuel sys f1 id loc o n = saveFuel sys f2 id loc o n := by
  induction f1 with
  | zero =>
    intro f2 id loc o n h1
    omega
  | succ a ih =>
    intro f2 id loc o n h1 h2 h3 h4
    cases f2 with
    | zero => omega
    | succ b =>
      simp only [saveFuel]
      apply saveBody_congr sys _ (fun x => depthOf x < a ∧ depthOf x < b)
      · intro ref loc2 o2 n2 ho2 hn2
        cases ref with
        | wrapper id2 =>
          simp only [ProcessorRef.save]
          rw [genericProcessorWrapper.save_congr _ _ (saveFuel sys b id2) loc2 o2 n2
            (ih b id2 loc2 o2 n2 ho2.1 hn2.1 ho2.2 hn2.2)]
        | nilInterface => rfl
        | nilPointer => rfl
      · intro hb
        have : 0 < depthOf o ∨ 0 < depthOf n := hb.imp (depthOf_pos o) (depthOf_pos n)
        simp only [depthOf]
        omega
      · intro t m hm k x hx
        have := allSub_lt o t m hm k x hx
        simp only at this ⊢
        omega
      · intro t m hm k x hx
        have := allSub_lt n t m hm k x hx
        simp only at this ⊢
        omega

theorem processor.save_eq (sys : System W) (id : Nat) (loc : Path) (o n : Option Entity) :
    processor.save sys id loc o n =
      saveBody sys (sys.processors id) (ProcessorRef.save sys (processor.save sys)) loc o n := by
  have e1 : processor.save sys id loc o n =
      saveBody sys (sys.processors id)
        (ProcessorRef.save sys (saveFuel sys (max (depthOf o) (depthOf n)))) loc o n := rfl
  rw [e1]
  apply saveBody_congr sys _ (fun x => depthOf x < max (depthOf o) (depthOf n))
  · intro ref loc2 o2 n2 ho2 hn2
    cases ref with
    | wrapper id2 =>
      simp only [ProcessorRef.save]
      rw [genericProcessorWrapper.save_congr _ _ (processor.save sys id2) loc2 o2 n2]
      exact saveFuel_irrel sys _ _ id2 loc2 o2 n2 ho2 hn2
        (Nat.lt_succ_of_le (le_max_left _ _)) (Nat.lt_succ_of_le (le_max_right _ _))
    | nilInterface => rfl
    | nilPointer => rfl
  · intro hb
    have : 0 < depthOf o ∨ 0 < depthOf n := hb.imp (depthOf_pos o) (depthOf_pos n)
    exact lt_max_iff.2 this
  · intro t m hm k x hx
    exact lt_max_iff.2 (Or.inl (allSub_lt o t m hm k x hx))
  · intro t m hm k x hx
    exact lt_max_iff.2 (Or.inr (allSub_lt n t m hm k x hx))

/-! ## Runs -/

theorem run_pure {α : Type} (a : α) (w : W) : (pure a : Eng W α) w = ⟨.val a, w, []⟩ := rfl

theorem run_bind {α β : Type} (x : Eng W α) (f : α → Eng W β) (w : W) :
    (x >>= f) w = Eng.bind x f w := rfl

theorem bind_of_val {α β : Type} {x : Eng W α} {f : α → Eng W β} {w : W} {a : α}
    (h : (x w).res = .val a) :
    (x >>= f) w = ⟨(f a (x w).world).res, (f a (x w).world).world,
      (x w).trace ++ (f a (x w).world).trace⟩ := by
  rw [run_bind]
  unfold Eng.bind
  rcases hx : x w with ⟨r, w1, t1⟩
  rw [hx] at h
  simp only at h
  subst h
  rfl

theorem bind_of_panic {α β : Type} {x : Eng W α} {f : α → Eng W β} {w : W}
    (h : (x w).res = .panic) : (x >>= f) w = ⟨.panic, (x w).world, (x w).trace⟩ := by
  rw [run_bind]
  unfold Eng.bind
  rcases hx : x w with ⟨r, w1, t1⟩
  rw [hx] at h
  simp only at h
  subst h
  rfl

theorem bind_of_outOfFuel {α β : Type} {x : Eng W α} {f : α → Eng W β} {w : W}
    (h : (x w).res = .outOfFuel) : (x >>= f) w = ⟨.outOfFuel, (x w).world, (x w).trace⟩ := by
  rw [run_bind]
  unfold Eng.bind
  rcases hx : x w with ⟨r, w1, t1⟩
  rw [hx] at h
  simp only at h
  subst h
  rfl

theorem run_emit_bind {β : Type} (e : Event) (f : Unit → Eng W β) (w : W) :
    (emit e >>= f) w = ⟨(f () w).res, (f () w).world, e :: (f () w).trace⟩ := rfl

theorem run_invoke_bind {α β : Type} (g : W → α × W) (f : α → Eng W β) (w : W) :
    (invoke g >>= f) w = ⟨(f (g w).1 (g w).2).res, (f (g w).1 (g w).2).world,
      (f (g w).1 (g w).2).trace⟩ := rfl

theorem run_pure_bind {α β : Type} (a : α) (f : α → Eng W β) (w : W) :
    ((pure a : Eng W α) >>= f) w = f a w := rfl

/-- The trace of a sequence starts with the trace of its first part. -/
theorem bind_trace_prefix {α β : Type} (x : Eng W α) (f : α → Eng W β) (w : W) :
    (x w).trace <+: ((x >>= f) w).trace := by
  rcases hr : (x w).res with a | _ | _
  · rw [bind_of_val hr]
    exact List.prefix_append _ _
  · rw [bind_of_panic hr]
  · rw [bind_of_outOfFuel hr]

/-! ## Process -/

/-- C1: when syncAndValidate, act and save all succeed, Process returns with a nil error the
entity that save points to when that is non-nil, and otherwise the entity produced by act;
save runs on the original input entity (old) and the result of act (new), and the run of
Process consists of the runs of the three phases, each started in the world the previous one
left. -/
theorem process_returns_saved_or_acted (sys : System W) (id : Nat) (loc : Path)
    (entity : Entity) (action : Action) (actionParams : ActionParams) (w : W)
    (synced changed : Entity) (saved : Option Entity)
    (hsync : (processor.syncAndValidate sys id loc entity action actionParams w).res
      = .val (synced, none))
    (hact : (processor.act sys id loc synced action actionParams
      (processor.syncAndValidate sys id loc entity action actionParams w).world).res
      = .val (changed, none))
    (hsave : (processor.save sys id loc (some entity) (some changed)
      (processor.act sys id loc synced action actionParams
        (processor.syncAndValidate sys id loc entity action actionParams w).world).world).res
      = .val (saved, none)) :
    (processor.Process sys id loc entity action actionParams w).res
        = .val (saved.getD changed, none)
      ∧ (processor.Process sys id loc entity action actionParams w).world
        = (processor.save sys id loc (some entity) (some changed)
            (processor.act sys id loc synced action actionParams
              (processor.syncAndValidate sys id loc entity action actionParams w).world).world).world
      ∧ (processor.Process sys id loc entity action actionParams w).trace
        = Event.processor loc (.Process entity action actionParams)
          :: ((processor.syncAndValidate sys id loc entity action actionParams w).trace
            ++ ((processor.act sys id loc synced action actionParams
                (processor.syncAndValidate sys id loc entity action actionParams w).world).trace
              ++ (processor.save sys id loc (some entity) (some changed)
                  (processor.act sys id loc synced action actionParams
                    (processor.syncAndValidate sys id loc entity action actionParams
                      w).world).world).trace)) := by
  unfold processor.Process
  rw [run_emit_bind, bind_of_val hsync]
  simp only []
  rw [bind_of_val hact]
  simp only []
  rw [bind_of_val hsave]
  cases saved with
  | none =>
    refine ⟨rfl, rfl, ?_⟩
    simp only [List.cons.injEq, true_and]
    change _ ++ (_ ++ (_ ++ [])) = _
    rw [List.append_nil]
  | some s =>
    refine ⟨rfl, rfl, ?_⟩
    simp only [List.cons.injEq, true_and]
    change _ ++ (_ ++ (_ ++ [])) = _
    rw [List.append_nil]

/-! ## What a method emits -/

theorem pure_trace {α : Type} (a : α) (w : W) : ((pure a : Eng W α) w).trace = [] := rfl

theorem pure_res {α : Type} (a : α) (w : W) : ((pure a : Eng W α) w).res = .val a := rfl

theorem pure_world {α : Type} (a : α) (w : W) : ((pure a : Eng W α) w).world = w := rfl

theorem emits_pure (P : Event → Prop) {α : Type} (a : α) : Emits P (pure a : Eng W α) := by
  intro w ev h
  simp [pure_trace] at h

theorem emits_goPanic (P : Event → Prop) {α : Type} : Emits P (goPanic : Eng W α) := by
  intro w ev h
  simp [goPanic] at h

theorem emits_outOfFuel (P : Event → Prop) {α : Type} : Emits P (outOfFuel : Eng W α) := by
  intro w ev h
  simp [outOfFuel] at h

theorem emits_invoke (P : Event → Prop) {α : Type} (g : W → α × W) :
    Emits P (invoke g : Eng W α) := by
  intro w ev h
  simp [invoke] at h

theorem emits_emit (P : Event → Prop) (e : Event) (h : P e) : Emits P (emit e : Eng W Unit) := by
  intro w ev hev
  simp only [emit, List.mem_singleton] at hev
  rw [hev]
  exact h

theorem emits_assertType (P : Event → Prop) (E : Nat → Bool) (x : Entity) :
    Emits P (assertType E x : Eng W Entity) := by
  intro w ev h
  unfold assertType at h
  split at h
  · simp [Eng.pure] at h
  · simp [goPanic] at h

theorem emits_bind (P : Event → Prop) {α β : Type} {x : Eng W α} {f : α → Eng W β}
    (hx : Emits P x) (hf : ∀ a, Emits P (f a)) : Emits P (x >>= f) := by
  intro w ev h
  rcases hr : (x w).res with a | _ | _
  · rw [bind_of_val hr] at h
    rcases List.mem_append.1 h with h1 | h1
    · exact hx w ev h1
    · exact hf a _ ev h1
  · rw [bind_of_panic hr] at h
    exact hx w ev h
  · rw [bind_of_outOfFuel hr] at h
    exact hx w ev h

theorem emits_mono {P Q : Event → Prop} (h : ∀ ev, P ev → Q ev) {α : Type} {x : Eng W α}
    (hx : Emits P x) : Emits Q x :=
  fun w ev hev => h ev (hx w ev hev)

theorem below_of_within (K : Event → Bool) (loc : Path) (k : String × String) (ev : Event)
    (h : Within K (loc ++ [k]) ev) : Below K loc ev := by
  rcases h with ⟨h1, h2, _⟩ | ⟨k2, rest, h1, h2⟩
  · exact ⟨k, [], h1, h2⟩
  · exact ⟨k, k2 :: rest, by simp [h1], h2⟩

theorem below_self (K : Event → Bool) (loc : Path) (k : String × String) (ev : Event)
    (h1 : ev.loc = loc ++ [k]) (h2 : K ev = true) : Below K loc ev :=
  ⟨k, [], h1, h2⟩

theorem emits_getStateMachineForEntityFrom (P : Event → Prop) (loc : Path) (e : Entity)
    (hP : ∀ i, P (.smCanProcess loc i e)) (l : List (StateMachina W)) (i : Nat) :
    Emits P (getStateMachineForEntityFrom loc e i l) := by
  induction l generalizing i with
  | nil => exact emits_pure P _
  | cons sm rest ih =>
    unfold getStateMachineForEntityFrom
    apply emits_bind
    · exact emits_emit P _ (hP i)
    · intro _
      split
      · exact emits_pure P _
      · exact ih (i + 1)

theorem emits_getSyncerForEntityFrom (P : Event → Prop) (loc : Path) (e : Entity)
    (hP : ∀ i, P (.syncerCanProcess loc i e)) (l : List (Syncer W)) (i : Nat) :
    Emits P (getSyncerForEntityFrom loc e i l) := by
  induction l generalizing i with
  | nil => exact emits_pure P _
  | cons sm rest ih =>
    unfold getSyncerForEntityFrom
    apply emits_bind
    · exact emits_emit P _ (hP i)
    · intro _
      split
      · exact emits_pure P _
      · exact ih (i + 1)

theorem emits_getSyncerForEntityAndActionFrom (P : Event → Prop) (loc : Path) (e : Entity)
    (a : Action) (hP : ∀ i, P (.syncerCanProcess loc i e))
    (hQ : ∀ i, P (.syncerHasAction loc i a)) (l : List (Syncer W)) (i : Nat) :
    Emits P (getSyncerForEntityAndActionFrom loc e a i l) := by
  induction l generalizing i with
  | nil => exact emits_pure P _
  | cons sm rest ih =>
    unfold getSyncerForEntityAndActionFrom
    apply emits_bind
    · exact emits_emit P _ (hP i)
    · intro _
      split
      · apply emits_bind
        · exact emits_emit P _ (hQ i)
        · intro _
          split
          · exact emits_pure P _
          · exact ih (i + 1)
      · exact ih (i + 1)

theorem emits_childLoop (P : Event → Prop) (sys : System W) (cfg : ProcessorConfig W)
    (sub : ProcessorRef → Path → Entity → Action → ActionParams →
      Eng W (Option Entity × Option GoError))
    (loc : Path) (a : Action) (p : ActionParams) (l : List (String × String × Entity))
    (hsub : ∀ x ∈ l, ∀ ref, Emits P (sub ref (loc ++ [(x.1, x.2.1)]) x.2.2 a p))
    (c : Entity) : Emits P (childLoop sys cfg sub loc a p l c) := by
  induction l generalizing c with
  | nil => exact emits_pure P _
  | cons x rest ih =>
    obtain ⟨tk, ek, e⟩ := x
    unfold childLoop
    simp only []
    split
    · exact emits_pure P _
    · apply emits_bind
      · exact hsub (tk, ek, e) (List.mem_cons_self _ _) _
      · intro r
        split
        · exact emits_pure P _
        · split
          · exact emits_pure P _
          · apply emits_bind
            · exact emits_assertType P _ _
            · intro c2
              exact ih (fun x hx => hsub x (List.mem_cons_of_mem _ hx)) c2

theorem emits_traced (P : Event → Prop) (loc : Path) (c : Call)
    (m : Eng W (Option Entity × Option GoError)) (h1 : P (.call loc c))
    (h2 : ∀ v err, P (.ret loc v err)) (hm : Emits P m) : Emits P (traced loc c m) := by
  unfold traced
  apply emits_bind
  · exact emits_emit P _ h1
  · intro _
    apply emits_bind
    · exact hm
    · intro out
      apply emits_bind
      · exact emits_emit P _ (h2 _ _)
      · intro _
        exact emits_pure P _

/-! ### syncAndValidate -/

theorem emits_wrapper_syncAndValidate (P : Event → Prop) (E : Nat → Bool)
    (f : Path → Entity → Action → ActionParams → Eng W (Entity × Option GoError))
    (loc : Path) (e : Entity) (a : Action) (p : ActionParams) (hf : Emits P (f loc e a p)) :
    Emits P (genericProcessorWrapper.syncAndValidate E f loc e a p) := by
  unfold genericProcessorWrapper.syncAndValidate
  split
  · exact emits_bind P hf (fun _ => emits_pure P _)
  · exact emits_pure P _

theorem emits_wrapper_act (P : Event → Prop) (E : Nat → Bool)
    (f : Path → Entity → Action → ActionParams → Eng W (Entity × Option GoError))
    (loc : Path) (e : Entity) (a : Action) (p : ActionParams) (hf : Emits P (f loc e a p)) :
    Emits P (genericProcessorWrapper.act E f loc e a p) := by
  unfold genericProcessorWrapper.act
  split
  · exact emits_bind P hf (fun _ => emits_pure P _)
  · exact emits_pure P _

theorem emits_wrapper_save (P : Event → Prop) (E : Nat → Bool)
    (f : Path → Option Entity → Option Entity → Eng W (Option Entity × Option GoError))
    (loc : Path) (o n : Option Entity) (hf : ∀ o2 n2, Emits P (f loc o2 n2)) :
    Emits P (genericProcessorWrapper.save E f loc o n) := by
  unfold genericProcessorWrapper.save
  split
  · exact emits_pure P _
  · split
    · exact emits_pure P _
    · apply emits_bind P (hf _ _)
      intro r
      split
      · exact emits_pure P _
      · split
        · exact emits_pure P _
        · exact emits_pure P _

theorem emits_ref_syncAndValidate (sys : System W)
    (self : Nat → Path → Entity → Action → ActionParams → Eng W (Entity × Option GoError))
    (ref : ProcessorRef) (loc : Path) (k : String × String) (e : Entity) (a : Action)
    (p : ActionParams)
    (h : ∀ id, Emits (Within Event.inSyncAndValidate (loc ++ [k])) (self id (loc ++ [k]) e a p)) :
    Emits (Below Event.inSyncAndValidate loc)
      (ProcessorRef.syncAndValidate sys self ref (loc ++ [k]) e a p) := by
  unfold ProcessorRef.syncAndValidate
  apply emits_traced
  · exact below_self _ loc k _ rfl rfl
  · intro v err
    exact below_self _ loc k _ rfl rfl
  · split
    · apply emits_wrapper_syncAndValidate
      exact emits_mono (below_of_within _ loc k) (h _)
    · exact emits_goPanic _

theorem emits_childrenPhase (P : Event → Prop) (sys : System W) (cfg : ProcessorConfig W)
    (sub : ProcessorRef → Path → Entity → Action → ActionParams →
      Eng W (Option Entity × Option GoError))
    (loc : Path) (e : Entity) (a : Action) (p : ActionParams)
    (hsub : ∀ x ∈ entries e.SubEntities, ∀ ref,
      Emits P (sub ref (loc ++ [(x.1, x.2.1)]) x.2.2 a p)) :
    Emits P (childrenPhase sys cfg sub loc e a p) := by
  unfold childrenPhase
  apply emits_bind
  · exact emits_assertType _ _ _
  intro c
  exact emits_childLoop _ sys cfg sub loc a p _ hsub c

theorem emits_syncPhase (P : Event → Prop) (cfg : ProcessorConfig W) (loc : Path)
    (e c : Entity) (a : Action)
    (hP : ∀ ev : Event, ev.loc = loc → ev.inSyncAndValidate = true → ev.isCallRet = false →
      ev.isCollaborator = true → P ev) : Emits P (syncPhase cfg loc e c a) := by
  unfold syncPhase
  apply emits_bind
  · exact emits_getSyncerForEntityFrom _ loc _ (fun i => hP _ rfl rfl rfl rfl) _ 0
  intro syncer
  split
  · exact emits_pure _ _
  · apply emits_bind
    · exact emits_emit _ _ (hP _ rfl rfl rfl rfl)
    intro _
    split
    · apply emits_bind
      · exact emits_emit _ _ (hP _ rfl rfl rfl rfl)
      · exact fun _ => emits_invoke _ _
    · exact emits_pure _ _

theorem emits_validatePhase (P : Event → Prop) (cfg : ProcessorConfig W) (loc : Path)
    (e c : Entity) (a : Action) (p : ActionParams)
    (hP : ∀ ev : Event, ev.loc = loc → ev.inSyncAndValidate = true → ev.isCallRet = false →
      ev.isCollaborator = true → P ev) : Emits P (validatePhase cfg loc e c a p) := by
  unfold validatePhase
  apply emits_bind
  · exact emits_getStateMachineForEntityFrom _ loc _ (fun i => hP _ rfl rfl rfl rfl) _ 0
  intro sm
  split
  · exact emits_pure _ _
  · exact emits_goPanic _
  · apply emits_bind
    · exact emits_emit _ _ (hP _ rfl rfl rfl rfl)
    intro _
    apply emits_bind
    · exact emits_invoke _ _
    intro err
    split
    · exact emits_pure _ _
    · exact emits_pure _ _

theorem emits_ownSyncAndValidate (P : Event → Prop) (cfg : ProcessorConfig W) (loc : Path)
    (e c : Entity) (a : Action) (p : ActionParams)
    (hP : ∀ ev : Event, ev.loc = loc → ev.inSyncAndValidate = true → ev.isCallRet = false →
      ev.isCollaborator = true → P ev) : Emits P (ownSyncAndValidate cfg loc e c a p) := by
  unfold ownSyncAndValidate
  apply emits_bind
  · exact emits_syncPhase _ cfg loc e _ a hP
  intro synced
  split
  · exact emits_pure _ _
  · exact emits_validatePhase _ cfg loc e _ a p hP

theorem emits_syncAndValidateBody (sys : System W) (cfg : ProcessorConfig W)
    (sub : ProcessorRef → Path → Entity → Action → ActionParams →
      Eng W (Option Entity × Option GoError))
    (loc : Path) (e : Entity) (a : Action) (p : ActionParams)
    (hsub : ∀ x ∈ entries e.SubEntities, ∀ ref,
      Emits (Below Event.inSyncAndValidate loc) (sub ref (loc ++ [(x.1, x.2.1)]) x.2.2 a p)) :
    Emits (Within Event.inSyncAndValidate loc) (syncAndValidateBody sys cfg sub loc e a p) := by
  have own : ∀ ev : Event, ev.loc = loc → ev.inSyncAndValidate = true → ev.isCallRet = false →
      Within Event.inSyncAndValidate loc ev := fun ev h1 h2 h3 => Or.inl ⟨h1, h2, h3⟩
  unfold syncAndValidateBody
  apply emits_bind
  · exact emits_emit _ _ (own _ rfl rfl rfl)
  intro _
  apply emits_bind
  · exact emits_mono (fun ev h => Or.inr h) (emits_childrenPhase _ sys cfg sub loc e a p hsub)
  intro r
  split
  · exact emits_pure _ _
  · exact emits_ownSyncAndValidate _ cfg loc e _ a p (fun ev h1 h2 h3 _ => own ev h1 h2 h3)

theorem emits_syncAndValidateFuel (sys : System W) (fuel : Nat) :
    ∀ (id : Nat) (loc : Path) (e : Entity) (a : Action) (p : ActionParams),
      Emits (Within Event.inSyncAndValidate loc) (syncAndValidateFuel sys fuel id loc e a p) := by
  induction fuel with
  | zero =>
    intro id loc e a p
    exact emits_outOfFuel _
  | succ n ih =>
    intro id loc e a p
    simp only [syncAndValidateFuel]
    apply emits_syncAndValidateBody
    intro x _ ref
    exact emits_ref_syncAndValidate sys _ ref loc _ _ a p (fun id2 => ih id2 _ _ a p)

theorem emits_syncAndValidate (sys : System W) (id : Nat) (loc : Path) (e : Entity)
    (a : Action) (p : ActionParams) :
    Emits (Within Event.inSyncAndValidate loc) (processor.syncAndValidate sys id loc e a p) :=
  emits_syncAndValidateFuel sys _ id loc e a p

/-! ### act -/

theorem emits_ref_act (sys : System W)
    (self : Nat → Path → Entity → Action → ActionParams → Eng W (Entity × Option GoError))
    (ref : ProcessorRef) (loc : Path) (k : String × String) (e : Entity) (a : Action)
    (p : ActionParams)
    (h : ∀ id, Emits (Within Event.inAct (loc ++ [k])) (self id (loc ++ [k]) e a p)) :
    Emits (Below Event.inAct loc) (ProcessorRef.act sys self ref (loc ++ [k]) e a p) := by
  unfold ProcessorRef.act
  apply emits_traced
  · exact below_self _ loc k _ rfl rfl
  · intro v err
    exact below_self _ loc k _ rfl rfl
  · split
    · apply emits_wrapper_act
      exact emits_mono (below_of_within _ loc k) (h _)
    · exact emits_goPanic _

theorem emits_transitionPhase (P : Event → Prop) (cfg : ProcessorConfig W) (loc : Path)
    (c : Entity) (a : Action) (p : ActionParams)
    (hP : ∀ ev : Event, ev.loc = loc → ev.inAct = true → ev.isCallRet = false →
      ev.isCollaborator = true → P ev) :
    Emits P (transitionPhase cfg loc c a p) := by
  unfold transitionPhase
  apply emits_bind
  · exact emits_getStateMachineForEntityFrom _ loc _ (fun i => hP _ rfl rfl rfl rfl) _ 0
  intro sm
  split
  · exact emits_pure _ _
  · exact emits_goPanic _
  · apply emits_bind
    · exact emits_getSyncerForEntityAndActionFrom _ loc _ a (fun i => hP _ rfl rfl rfl rfl)
        (fun i => hP _ rfl rfl rfl rfl) _ 0
    intro actSyncer
    apply emits_bind
    · split
      · exact emits_pure _ _
      · apply emits_bind
        · exact emits_emit _ _ (hP _ rfl rfl rfl rfl)
        · exact fun _ => emits_invoke _ _
    intro synced
    apply emits_bind
    · exact emits_emit _ _ (hP _ rfl rfl rfl rfl)
    intro _
    apply emits_bind
    · exact emits_invoke _ _
    intro done
    split
    · exact emits_pure _ _
    · exact emits_pure _ _

theorem emits_actBody (sys : System W) (cfg : ProcessorConfig W)
    (sub : ProcessorRef → Path → Entity → Action → ActionParams →
      Eng W (Option Entity × Option GoError))
    (loc : Path) (e : Entity) (a : Action) (p : ActionParams)
    (hsub : ∀ x ∈ entries e.SubEntities, ∀ ref,
      Emits (Below Event.inAct loc) (sub ref (loc ++ [(x.1, x.2.1)]) x.2.2 a p)) :
    Emits (Within Event.inAct loc) (actBody sys cfg sub loc e a p) := by
  have own : ∀ ev : Event, ev.loc = loc → ev.inAct = true → ev.isCallRet = false →
      Within Event.inAct loc ev := fun ev h1 h2 h3 => Or.inl ⟨h1, h2, h3⟩
  unfold actBody
  apply emits_bind
  · exact emits_emit _ _ (own _ rfl rfl rfl)
  intro _
  apply emits_bind
  · exact emits_mono (fun ev h => Or.inr h) (emits_childrenPhase _ sys cfg sub loc e a p hsub)
  intro r
  split
  · exact emits_pure _ _
  · exact emits_transitionPhase _ cfg loc _ a p (fun ev h1 h2 h3 _ => own ev h1 h2 h3)

theorem emits_actFuel (sys : System W) (fuel : Nat) :
    ∀ (id : Nat) (loc : Path) (e : Entity) (a : Action) (p : ActionParams),
      Emits (Within Event.inAct loc) (actFuel sys fuel id loc e a p) := by
  induction fuel with
  | zero =>
    intro id loc e a p
    exact emits_outOfFuel _
  | succ n ih =>
    intro id loc e a p
    simp only [actFuel]
    apply emits_actBody
    intro x _ ref
    exact emits_ref_act sys _ ref loc _ _ a p (fun id2 => ih id2 _ _ a p)

theorem emits_act (sys : System W) (id : Nat) (loc : Path) (e : Entity)
    (a : Action) (p : ActionParams) :
    Emits (Within Event.inAct loc) (processor.act sys id loc e a p) :=
  emits_actFuel sys _ id loc e a p

theorem emits_actChildren (sys : System W) (id : Nat) (loc : Path) (e : Entity)
    (a : Action) (p : ActionParams) :
    Emits (Below Event.inAct loc) (processor.actChildren sys id loc e a p) := by
  apply emits_childrenPhase
  intro x _ ref
  exact emits_ref_act sys _ ref loc _ _ a p (fun id2 => emits_act sys id2 _ _ a p)

theorem emits_syncChildren (sys : System W) (id : Nat) (loc : Path) (e : Entity)
    (a : Action) (p : ActionParams) :
    Emits (Below Event.inSyncAndValidate loc) (processor.syncChildren sys id loc e a p) := by
  apply emits_childrenPhase
  intro x _ ref
  exact emits_ref_syncAndValidate sys _ ref loc _ _ a p
    (fun id2 => emits_syncAndValidate sys id2 _ _ a p)

theorem below_loc_ne {K : Event → Bool} {loc : Path} {ev : Event} (h : Below K loc ev) :
    ev.loc ≠ loc := by
  obtain ⟨k, rest, h1, _⟩ := h
  intro h2
  rw [h2] at h1
  have := congrArg List.length h1
  simp at this

/-! ### save -/

theorem emits_ref_save (sys : System W)
    (self : Nat → Path → Option Entity → Option Entity →
      Eng W (Option Entity × Option GoError))
    (ref : ProcessorRef) (loc : Path) (k : String × String) (o n : Option Entity)
    (h : ∀ id o2 n2, Emits (Within Event.inSave (loc ++ [k])) (self id (loc ++ [k]) o2 n2)) :
    Emits (Below Event.inSave loc) (ProcessorRef.save sys self ref (loc ++ [k]) o n) := by
  unfold ProcessorRef.save
  apply emits_traced
  · exact below_self _ loc k _ rfl rfl
  · intro v err
    exact below_self _ loc k _ rfl rfl
  · split
    · apply emits_wrapper_save
      intro o2 n2
      exact emits_mono (below_of_within _ loc k) (h _ o2 n2)
    · exact emits_goPanic _

theorem emits_foldBack (P : Event → Prop) (sys : System W) (cfg : ProcessorConfig W)
    (c : Option Entity) (tk ek : String) (saved : Entity) :
    Emits P (foldBack sys cfg c tk ek saved) := by
  unfold foldBack
  split
  · exact emits_goPanic _
  · split
    · exact emits_pure _ _
    · apply emits_bind
      · exact emits_assertType _ _ _
      · exact fun _ => emits_pure _ _

theorem emits_saveOldOnly (P : Event → Prop) (cfg : ProcessorConfig W)
    (sub : ProcessorRef → Path → Option Entity → Option Entity →
      Eng W (Option Entity × Option GoError))
    (loc : Path) (tk : String) (hsub : ∀ ref k o n, Emits P (sub ref (loc ++ [k]) o n))
    (l : List (String × Entity)) : Emits P (saveOldOnly cfg sub loc tk l) := by
  induction l with
  | nil => exact emits_pure _ _
  | cons kx rest ih =>
    obtain ⟨k, x⟩ := kx
    unfold saveOldOnly
    simp only []
    split
    · exact emits_pure _ _
    · apply emits_bind
      · exact hsub _ _ _ _
      intro r
      split
      · exact emits_pure _ _
      · exact ih

theorem emits_saveNewOnly (P : Event → Prop) (sys : System W) (cfg : ProcessorConfig W)
    (sub : ProcessorRef → Path → Option Entity → Option Entity →
      Eng W (Option Entity × Option GoError))
    (loc : Path) (tk : String) (hsub : ∀ ref k o n, Emits P (sub ref (loc ++ [k]) o n))
    (l : List (String × Entity)) (c : Option Entity) :
    Emits P (saveNewOnly sys cfg sub loc tk l c) := by
  induction l generalizing c with
  | nil => exact emits_pure _ _
  | cons kx rest ih =>
    obtain ⟨k, x⟩ := kx
    unfold saveNewOnly
    simp only []
    split
    · exact emits_pure _ _
    · apply emits_bind
      · exact hsub _ _ _ _
      intro r
      split
      · exact emits_pure _ _
      · split
        · apply emits_bind
          · exact emits_foldBack _ _ _ _ _ _ _
          intro u
          split
          · exact emits_pure _ _
          · exact ih _
        · exact ih _

theorem emits_saveBoth (P : Event → Prop) (sys : System W) (cfg : ProcessorConfig W)
    (sub : ProcessorRef → Path → Option Entity → Option Entity →
      Eng W (Option Entity × Option GoError))
    (loc : Path) (tk : String) (mo mn : List (String × Entity))
    (hsub : ∀ ref k o n, Emits P (sub ref (loc ++ [k]) o n))
    (l : List String) (c : Option Entity) :
    Emits P (saveBoth sys cfg sub loc tk mo mn l c) := by
  induction l generalizing c with
  | nil => exact emits_pure _ _
  | cons k rest ih =>
    unfold saveBoth
    simp only []
    generalize (if (List.lookup k mo).isSome = true then cfg.GetProcessorFunc (List.lookup k mo)
      else cfg.GetProcessorFunc (List.lookup k mn)) = sp
    split
    · exact emits_pure _ _
    · apply emits_bind
      · exact hsub _ _ _ _
      intro r
      split
      · exact emits_pure _ _
      · split
        · apply emits_bind
          · exact emits_foldBack _ _ _ _ _ _ _
          intro u
          split
          · exact emits_pure _ _
          · exact ih _
        · exact ih _

theorem emits_saveTypes (P : Event → Prop) (sys : System W) (cfg : ProcessorConfig W)
    (sub : ProcessorRef → Path → Option Entity → Option Entity →
      Eng W (Option Entity × Option GoError))
    (loc : Path) (so sn : List (String × List (String × Entity)))
    (hsub : ∀ ref k o n, Emits P (sub ref (loc ++ [k]) o n))
    (l : List String) (c : Option Entity) :
    Emits P (saveTypes sys cfg sub loc so sn l c) := by
  induction l generalizing c with
  | nil => exact emits_pure _ _
  | cons tk rest ih =>
    unfold saveTypes
    split
    · apply emits_bind
      · exact emits_saveOldOnly _ _ _ _ _ hsub _
      intro err
      split
      · exact emits_pure _ _
      · exact ih _
    · apply emits_bind
      · exact emits_saveNewOnly _ _ _ _ _ _ hsub _ _
      intro r
      split
      · exact emits_pure _ _
      · exact ih _
    · apply emits_bind
      · exact emits_saveBoth _ _ _ _ _ _ _ _ hsub _ _
      intro r
      split
      · exact emits_pure _ _
      · exact ih _
    · exact ih _

theorem emits_reconcilePhase (P : Event → Prop) (sys : System W) (cfg : ProcessorConfig W)
    (sub : ProcessorRef → Path → Option Entity → Option Entity →
      Eng W (Option Entity × Option GoError))
    (loc : Path) (o n : Option Entity)
    (hsub : ∀ ref k o n, Emits P (sub ref (loc ++ [k]) o n)) :
    Emits P (reconcilePhase sys cfg sub loc o n) := by
  unfold reconcilePhase
  apply emits_bind
  · split
    · apply emits_bind
      · exact emits_assertType _ _ _
      · exact fun _ => emits_pure _ _
    · exact emits_pure _ _
  intro c
  exact emits_saveTypes _ _ _ _ _ _ _ hsub _ _

theorem emits_persistPhase (P : Event → Prop) (cfg : ProcessorConfig W) (loc : Path)
    (o n c : Option Entity) (hP : ∀ x y, P (.repositorySave loc x y)) :
    Emits P (persistPhase cfg loc o n c) := by
  unfold persistPhase
  split
  · apply emits_bind
    · exact emits_emit _ _ (hP _ _)
    intro _
    apply emits_bind
    · exact emits_invoke _ _
    intro s
    split
    · exact emits_pure _ _
    · exact emits_pure _ _
  · split
    · exact emits_pure _ _
    · exact emits_pure _ _

theorem emits_saveBody (sys : System W) (cfg : ProcessorConfig W)
    (sub : ProcessorRef → Path → Option Entity → Option Entity →
      Eng W (Option Entity × Option GoError))
    (loc : Path) (o n : Option Entity)
    (hsub : ∀ ref k o n, Emits (Below Event.inSave loc) (sub ref (loc ++ [k]) o n)) :
    Emits (Within Event.inSave loc) (saveBody sys cfg sub loc o n) := by
  have own : ∀ ev : Event, ev.loc = loc → ev.inSave = true → ev.isCallRet = false →
      Within Event.inSave loc ev := fun ev h1 h2 h3 => Or.inl ⟨h1, h2, h3⟩
  unfold saveBody
  apply emits_bind
  · exact emits_emit _ _ (own _ rfl rfl rfl)
  intro _
  split
  · exact emits_pure _ _
  · apply emits_bind
    · exact emits_mono (fun ev h => Or.inr h) (emits_reconcilePhase _ sys cfg sub loc o n hsub)
    intro r
    split
    · exact emits_pure _ _
    · exact emits_persistPhase _ cfg loc o n _ (fun x y => own _ rfl rfl rfl)

theorem emits_saveFuel (sys : System W) (fuel : Nat) :
    ∀ (id : Nat) (loc : Path) (o n : Option Entity),
      Emits (Within Event.inSave loc) (saveFuel sys fuel id loc o n) := by
  induction fuel with
  | zero =>
    intro id loc o n
    exact emits_outOfFuel _
  | succ m ih =>
    intro id loc o n
    simp only [saveFuel]
    apply emits_saveBody
    intro ref k o2 n2
    exact emits_ref_save sys _ ref loc k o2 n2 (fun id2 o3 n3 => ih id2 _ o3 n3)

theorem emits_save (sys : System W) (id : Nat) (loc : Path) (o n : Option Entity) :
    Emits (Within Event.inSave loc) (processor.save sys id loc o n) :=
  emits_saveFuel sys _ id loc o n

theorem emits_reconcile (sys : System W) (id : Nat) (loc : Path) (o n : Option Entity) :
    Emits (Below Event.inSave loc) (processor.reconcile sys id loc o n) := by
  apply emits_reconcilePhase
  intro ref k o2 n2
  exact emits_ref_save sys _ ref loc k o2 n2 (fun id2 o3 n3 => emits_save sys id2 _ o3 n3)

theorem process_returns_saved_or_acted_witness :
    (processor.syncAndValidate demo 0 [] demoOrder "approve" 0 0).res
        = .val (demoOrder, none)
      ∧ (processor.act demo 0 [] demoOrder "approve" 0
          (processor.syncAndValidate demo 0 [] demoOrder "approve" 0 0).world).res
        = .val (.mk 1 10 [("items", [("1", .mk 2 15 [])])], none)
      ∧ (processor.Process demo 0 [] demoOrder "approve" 0 0).res
        = .val (.mk 1 10 [("items", [("1", .mk 2 15 [])])], none) :=
  ⟨by decide, by decide,
    (process_returns_saved_or_acted demo 0 [] demoOrder "approve" 0 0 demoOrder
      (.mk 1 10 [("items", [("1", .mk 2 15 [])])])
      (some (.mk 1 10 [("items", [("1", .mk 2 15 [])])]))
      (by decide) (by decide) (by decide)).1⟩

theorem inSyncAndValidate_not_do (ev : Event) (h : ev.inSyncAndValidate = true) :
    ev.isDoOrSave = false ∧ ev.isActOrSave = false := by
  cases ev with
  | call l c => cases c <;> simp_all [Event.inSyncAndValidate, Event.isDoOrSave, Event.isActOrSave, Call.isActOrSave]
  | processor l c => cases c <;> simp_all [Event.inSyncAndValidate, Event.isDoOrSave, Event.isActOrSave, Call.isActOrSave]
  | _ => simp_all [Event.inSyncAndValidate, Event.isDoOrSave, Event.isActOrSave]

theorem within_kind {K : Event → Bool} {loc : Path} {ev : Event} (h : Within K loc ev) :
    K ev = true := by
  rcases h with ⟨_, h2, _⟩ | ⟨_, _, _, h2⟩
  · exact h2
  · exact h2

/-- C2: if syncAndValidate of the root fails with error e (in particular when the root
StateMachine's Validate rejects the action), Process returns exactly the original input
entity together with e; its run is the entry of Process followed by the run of
syncAndValidate, so neither act nor save is called or entered and no StateMachine.Do,
Syncer.Do or Repository.Save is invoked at any level of the tree. -/
theorem process_stops_on_validation_error (sys : System W) (id : Nat) (loc : Path)
    (entity : Entity) (action : Action) (actionParams : ActionParams) (w : W)
    (partialEntity : Entity) (e : GoError)
    (hsync : (processor.syncAndValidate sys id loc entity action actionParams w).res
      = .val (partialEntity, some e)) :
    (processor.Process sys id loc entity action actionParams w).res = .val (entity, some e)
      ∧ (processor.Process sys id loc entity action actionParams w).world
        = (processor.syncAndValidate sys id loc entity action actionParams w).world
      ∧ (processor.Process sys id loc entity action actionParams w).trace
        = Event.processor loc (.Process entity action actionParams)
          :: (processor.syncAndValidate sys id loc entity action actionParams w).trace
      ∧ ∀ ev ∈ (processor.Process sys id loc entity action actionParams w).trace,
          ev.isDoOrSave = false ∧ ev.isActOrSave = false := by
  have key : (processor.Process sys id loc entity action actionParams w).trace
      = Event.processor loc (.Process entity action actionParams)
        :: (processor.syncAndValidate sys id loc entity action actionParams w).trace := by
    unfold processor.Process
    rw [run_emit_bind, bind_of_val hsync]
    simp only [List.cons.injEq, true_and]
    change _ ++ [] = _
    rw [List.append_nil]
  refine ⟨?_, ?_, key, ?_⟩
  · unfold processor.Process
    rw [run_emit_bind, bind_of_val hsync]
    rfl
  · unfold processor.Process
    rw [run_emit_bind, bind_of_val hsync]
    rfl
  · intro ev hev
    rw [key] at hev
    rcases List.mem_cons.1 hev with h | h
    · subst h
      exact ⟨rfl, rfl⟩
    · exact inSyncAndValidate_not_do ev
        (within_kind (emits_syncAndValidate sys id loc entity action actionParams w ev h))

theorem process_stops_on_validation_error_witness :
    (processor.syncAndValidate demo 0 [] demoOrder "ship" 0 0).res
        = .val (demoOrder, some ErrorInvalidState)
      ∧ (processor.Process demo 0 [] demoOrder "ship" 0 0).res
        = .val (demoOrder, some ErrorInvalidState) :=
  ⟨by decide,
    (process_stops_on_validation_error demo 0 [] demoOrder "ship" 0 0 demoOrder
      ErrorInvalidState (by decide)).1⟩

/-! ## The type-erasure adapter -/

theorem run_traced_pure (loc : Path) (c : Call) (out : Option Entity × Option GoError) (w : W) :
    traced loc c (pure out) w = ⟨.val out, w, [.call loc c, .ret loc out.1 out.2]⟩ := rfl

theorem narrowPtr_mismatch (E : Nat → Bool) (o : Option Entity)
    (h : ∃ e, o = some e ∧ E e.typ = false) : narrowPtr E o = none := by
  obtain ⟨e, rfl, he⟩ := h
  simp [narrowPtr, he]

theorem narrowPtr_cases (E : Nat → Bool) (o : Option Entity) :
    narrowPtr E o = none ∨ narrowPtr E o = some o := by
  cases o with
  | none => exact Or.inr rfl
  | some e =>
    by_cases he : E e.typ = true
    · exact Or.inr (by simp [narrowPtr, he])
    · exact Or.inl (by simp [narrowPtr, he])

/-- C8: when the concrete type of the entity is not `E`, the methods Process,
syncAndValidate and act of `WrapProcessor(p)` return a nil entity with
ErrorInvalidEntityType, and `save` does so whenever its non-nil old pointer or its non-nil
new pointer refers to an entity that is not of type `E`; in each case the run consists of
the call and its return only (no method of `p` is entered, no collaborator is invoked) and
the world is unchanged. -/
theorem wrapper_rejects_type_mismatch (sys : System W) (id : Nat) (loc : Path) (w : W) :
    (∀ (entity : Entity) (action : Action) (actionParams : ActionParams),
      (sys.processors id).E entity.typ = false →
        WrapProcessor.Process sys id loc entity action actionParams w
            = ⟨.val (none, some ErrorInvalidEntityType), w,
                [.call loc (.Process entity action actionParams),
                 .ret loc none (some ErrorInvalidEntityType)]⟩
          ∧ WrapProcessor.syncAndValidate sys id loc entity action actionParams w
            = ⟨.val (none, some ErrorInvalidEntityType), w,
                [.call loc (.syncAndValidate entity action actionParams),
                 .ret loc none (some ErrorInvalidEntityType)]⟩
          ∧ WrapProcessor.act sys id loc entity action actionParams w
            = ⟨.val (none, some ErrorInvalidEntityType), w,
                [.call loc (.act entity action actionParams),
                 .ret loc none (some ErrorInvalidEntityType)]⟩)
      ∧ ∀ (oldEntity newEntity : Option Entity),
        ((∃ e, oldEntity = some e ∧ (sys.processors id).E e.typ = false)
          ∨ (∃ e, newEntity = some e ∧ (sys.processors id).E e.typ = false)) →
        WrapProcessor.save sys id loc oldEntity newEntity w
          = ⟨.val (none, some ErrorInvalidEntityType), w,
              [.call loc (.save oldEntity newEntity),
               .ret loc none (some ErrorInvalidEntityType)]⟩ := by
  refine ⟨fun entity action actionParams h => ⟨?_, ?_, ?_⟩, fun o n h => ?_⟩
  · simp only [WrapProcessor.Process, genericProcessorWrapper.Process, h]
    exact run_traced_pure _ _ _ _
  · simp only [WrapProcessor.syncAndValidate, ProcessorRef.syncAndValidate,
      genericProcessorWrapper.syncAndValidate, h]
    exact run_traced_pure _ _ _ _
  · simp only [WrapProcessor.act, ProcessorRef.act, genericProcessorWrapper.act, h]
    exact run_traced_pure _ _ _ _
  · simp only [WrapProcessor.save, ProcessorRef.save, genericProcessorWrapper.save]
    rcases h with h | h
    · rw [narrowPtr_mismatch _ _ h]
      exact run_traced_pure _ _ _ _
    · rw [narrowPtr_mismatch _ _ h]
      rcases narrowPtr_cases (sys.processors id).E o with h1 | h1
      · rw [h1]
        exact run_traced_pure _ _ _ _
      · rw [h1]
        exact run_traced_pure _ _ _ _

theorem wrapper_rejects_type_mismatch_witness :
    (demo.processors 1).E demoOrder.typ = false
      ∧ WrapProcessor.act demo 1 [] demoOrder "approve" 0 0
        = ⟨.val (none, some ErrorInvalidEntityType), 0,
            [.call [] (.act demoOrder "approve" 0),
             .ret [] none (some ErrorInvalidEntityType)]⟩ :=
  ⟨by decide,
    ((wrapper_rejects_type_mismatch demo 1 [] 0).1 demoOrder "approve" 0 (by decide)).2.2⟩

/-! ## Selection of the collaborators -/

theorem getStateMachineForEntityFrom_world (loc : Path) (e : Entity) (l : List (StateMachina W))
    (i : Nat) (w : W) : (getStateMachineForEntityFrom loc e i l w).world = w := by
  induction l generalizing i with
  | nil => rfl
  | cons sm rest ih =>
    unfold getStateMachineForEntityFrom
    rw [run_emit_bind]
    split
    · rfl
    · exact ih (i + 1)

theorem getSyncerForEntityFrom_world (loc : Path) (e : Entity) (l : List (Syncer W))
    (i : Nat) (w : W) : (getSyncerForEntityFrom loc e i l w).world = w := by
  induction l generalizing i with
  | nil => rfl
  | cons sm rest ih =>
    unfold getSyncerForEntityFrom
    rw [run_emit_bind]
    split
    · rfl
    · exact ih (i + 1)

theorem getSyncerForEntityAndActionFrom_world (loc : Path) (e : Entity) (a : Action)
    (l : List (Syncer W)) (i : Nat) (w : W) :
    (getSyncerForEntityAndActionFrom loc e a i l w).world = w := by
  induction l generalizing i with
  | nil => rfl
  | cons sm rest ih =>
    unfold getSyncerForEntityAndActionFrom
    rw [run_emit_bind]
    split
    · rw [run_emit_bind]
      split
      · rfl
      · exact ih (i + 1)
    · exact ih (i + 1)

/-- The loop of the selection returns the first candidate that accepts the entity. -/
theorem getStateMachineForEntityFrom_spec (loc : Path) (e : Entity)
    (l : List (StateMachina W)) (i0 : Nat) (w : W) :
    (∃ k sm, (getStateMachineForEntityFrom loc e i0 l w).res = .val (some (i0 + k, sm), none)
        ∧ l[k]? = some sm ∧ sm.CanProcess e = true
        ∧ ∀ j sm2, j < k → l[j]? = some sm2 → sm2.CanProcess e = false)
      ∨ ((getStateMachineForEntityFrom loc e i0 l w).res
          = .val (none, some ErrorUnprocessableEntity)
        ∧ ∀ sm ∈ l, sm.CanProcess e = false) := by
  induction l generalizing i0 with
  | nil => exact Or.inr ⟨rfl, by simp⟩
  | cons sm rest ih =>
    unfold getStateMachineForEntityFrom
    rw [run_emit_bind]
    by_cases hc : sm.CanProcess e = true
    · left
      refine ⟨0, sm, ?_, by simp, hc, ?_⟩
      · simp only [hc, if_true]
        rfl
      · intro j sm2 hj
        omega
    · simp only [hc]
      rcases ih (i0 + 1) with ⟨k, sm1, h1, h2, h3, h4⟩ | ⟨h1, h2⟩
      · left
        refine ⟨k + 1, sm1, ?_, by simpa using h2, h3, ?_⟩
        · simp only [Bool.false_eq_true, if_false]
          rw [h1]
          congr 4
          omega
        · intro j sm2 hj hget
          cases j with
          | zero =>
            simp only [List.getElem?_cons_zero, Option.some.injEq] at hget
            subst hget
            simpa using hc
          | succ j2 =>
            simp only [List.getElem?_cons_succ] at hget
            exact h4 j2 sm2 (by omega) hget
      · right
        refine ⟨?_, ?_⟩
        · simp only [Bool.false_eq_true, if_false]
          exact h1
        · intro sm2 hm
          rcases List.mem_cons.1 hm with h | h
          · subst h
            simpa using hc
          · exact h2 sm2 h

theorem processor.act_unfold (sys : System W) (id : Nat) (loc : Path) (e : Entity) (a : Action)
    (p : ActionParams) :
    processor.act sys id loc e a p = (do
      emit (.processor loc (.act e a p))
      let r ← processor.actChildren sys id loc e a p
      match r.2 with
      | some err => pure (r.1, some err)
      | none => transitionPhase (sys.processors id) loc r.1 a p) := by
  rw [processor.act_eq]
  rfl

theorem processor.syncAndValidate_unfold (sys : System W) (id : Nat) (loc : Path) (e : Entity)
    (a : Action) (p : ActionParams) :
    processor.syncAndValidate sys id loc e a p = (do
      emit (.processor loc (.syncAndValidate e a p))
      let r ← processor.syncChildren sys id loc e a p
      match r.2 with
      | some err => pure (r.1, some err)
      | none => do
        let synced ← syncPhase (sys.processors id) loc e r.1 a
        match synced.2 with
        | some err => pure (synced.1, some err)
        | none => validatePhase (sys.processors id) loc e synced.1 a p) := by
  rw [processor.syncAndValidate_eq]
  rfl

/-- The run of `act` when the loop over the sub-entities succeeds. -/
theorem processor.act_of_children (sys : System W) (id : Nat) (loc : Path) (e : Entity)
    (a : Action) (p : ActionParams) (w : W) (c : Entity)
    (h : (processor.actChildren sys id loc e a p w).res = .val (c, none)) :
    processor.act sys id loc e a p w =
      ⟨(transitionPhase (sys.processors id) loc c a p
          (processor.actChildren sys id loc e a p w).world).res,
        (transitionPhase (sys.processors id) loc c a p
          (processor.actChildren sys id loc e a p w).world).world,
        Event.processor loc (.act e a p) :: ((processor.actChildren sys id loc e a p w).trace
          ++ (transitionPhase (sys.processors id) loc c a p
            (processor.actChildren sys id loc e a p w).world).trace)⟩ := by
  rw [processor.act_unfold, run_emit_bind, bind_of_val h]

/-- The run of `act` when the loop over the sub-entities fails. -/
theorem processor.act_of_children_error (sys : System W) (id : Nat) (loc : Path) (e : Entity)
    (a : Action) (p : ActionParams) (w : W) (c : Entity) (err : GoError)
    (h : (processor.actChildren sys id loc e a p w).res = .val (c, some err)) :
    processor.act sys id loc e a p w =
      ⟨.val (c, some err), (processor.actChildren sys id loc e a p w).world,
        Event.processor loc (.act e a p) :: (processor.actChildren sys id loc e a p w).trace⟩ := by
  rw [processor.act_unfold, run_emit_bind, bind_of_val h]
  simp only [run_pure, List.append_nil]

/-- The run of `syncAndValidate` when the loop over the sub-entities fails. -/
theorem processor.syncAndValidate_of_children_error (sys : System W) (id : Nat) (loc : Path)
    (e : Entity) (a : Action) (p : ActionParams) (w : W) (c : Entity) (err : GoError)
    (h : (processor.syncChildren sys id loc e a p w).res = .val (c, some err)) :
    processor.syncAndValidate sys id loc e a p w =
      ⟨.val (c, some err), (processor.syncChildren sys id loc e a p w).world,
        Event.processor loc (.syncAndValidate e a p)
          :: (processor.syncChildren sys id loc e a p w).trace⟩ := by
  rw [processor.syncAndValidate_unfold, run_emit_bind, bind_of_val h]
  simp only [run_pure, List.append_nil]

/-- The run of `syncAndValidate` when the loop over the sub-entities and the sync succeed. -/
theorem processor.syncAndValidate_of_children (sys : System W) (id : Nat) (loc : Path)
    (e : Entity) (a : Action) (p : ActionParams) (w : W) (c s : Entity)
    (h : (processor.syncChildren sys id loc e a p w).res = .val (c, none))
    (hs : (syncPhase (sys.processors id) loc e c a
      (processor.syncChildren sys id loc e a p w).world).res = .val (s, none)) :
    processor.syncAndValidate sys id loc e a p w =
      ⟨(validatePhase (sys.processors id) loc e s a p
          (syncPhase (sys.processors id) loc e c a
            (processor.syncChildren sys id loc e a p w).world).world).res,
        (validatePhase (sys.processors id) loc e s a p
          (syncPhase (sys.processors id) loc e c a
            (processor.syncChildren sys id loc e a p w).world).world).world,
        Event.processor loc (.syncAndValidate e a p)
          :: ((processor.syncChildren sys id loc e a p w).trace
            ++ ((syncPhase (sys.processors id) loc e c a
                (processor.syncChildren sys id loc e a p w).world).trace
              ++ (validatePhase (sys.processors id) loc e s a p
                (syncPhase (sys.processors id) loc e c a
                  (processor.syncChildren sys id loc e a p w).world).world).trace))⟩ := by
  rw [processor.syncAndValidate_unfold, run_emit_bind, bind_of_val h]
  simp only []
  rw [bind_of_val hs]

/-- The run of `syncAndValidate` when the loop over the sub-entities succeeds and the sync
fails. -/
theorem processor.syncAndValidate_of_sync_error (sys : System W) (id : Nat) (loc : Path)
    (e : Entity) (a : Action) (p : ActionParams) (w : W) (c s : Entity) (err : GoError)
    (h : (processor.syncChildren sys id loc e a p w).res = .val (c, none))
    (hs : (syncPhase (sys.processors id) loc e c a
      (processor.syncChildren sys id loc e a p w).world).res = .val (s, some err)) :
    (processor.syncAndValidate sys id loc e a p w).res = .val (s, some err) := by
  rw [processor.syncAndValidate_unfold, run_emit_bind, bind_of_val h]
  simp only []
  rw [bind_of_val hs]
  rfl

theorem transitionPhase_unprocessable (cfg : ProcessorConfig W) (loc : Path) (c : Entity)
    (a : Action) (p : ActionParams) (w : W)
    (h : ∀ sm ∈ cfg.StateMachines, sm.CanProcess c = false) :
    (transitionPhase cfg loc c a p w).res = .val (c, some ErrorUnprocessableEntity) := by
  unfold transitionPhase getStateMachineForEntity
  rcases getStateMachineForEntityFrom_spec loc c cfg.StateMachines 0 w with
    ⟨k, sm, _, h2, h3, _⟩ | ⟨h1, _⟩
  · have := h sm (List.getElem?_mem h2)
    rw [this] at h3
    exact absurd h3 (by simp)
  · rw [bind_of_val h1]
    rfl

theorem validatePhase_unprocessable (cfg : ProcessorConfig W) (loc : Path) (e c : Entity)
    (a : Action) (p : ActionParams) (w : W)
    (h : ∀ sm ∈ cfg.StateMachines, sm.CanProcess e = false) :
    (validatePhase cfg loc e c a p w).res = .val (c, some ErrorUnprocessableEntity) := by
  unfold validatePhase getStateMachineForEntity
  rcases getStateMachineForEntityFrom_spec loc e cfg.StateMachines 0 w with
    ⟨k, sm, _, h2, h3, _⟩ | ⟨h1, _⟩
  · have := h sm (List.getElem?_mem h2)
    rw [this] at h3
    exact absurd h3 (by simp)
  · rw [bind_of_val h1]
    rfl

/-- C6 (as amended): `getStateMachineForEntity` returns the earliest candidate in list order
whose CanProcess is true, and ErrorUnprocessableEntity exactly when no candidate's CanProcess
is true (the empty list included).  When no candidate accepts the child-updated entity,
`act` of an entity whose children succeed fails with ErrorUnprocessableEntity; when no
candidate accepts the input entity, `syncAndValidate` of an entity whose children succeed
fails with ErrorUnprocessableEntity provided the sync step that precedes the selection does
not fail, and returns the error of the sync step when it does. -/
theorem state_machine_selection_first_match (sys : System W) (id : Nat) (loc : Path)
    (e : Entity) (a : Action) (p : ActionParams) (w : W) :
    ((∃ i sm, (getStateMachineForEntity (sys.processors id) loc e w).res
            = .val (some (i, sm), none)
          ∧ (sys.processors id).StateMachines[i]? = some sm ∧ sm.CanProcess e = true
          ∧ ∀ j sm2, j < i → (sys.processors id).StateMachines[j]? = some sm2 →
              sm2.CanProcess e = false)
        ∨ (getStateMachineForEntity (sys.processors id) loc e w).res
            = .val (none, some ErrorUnprocessableEntity))
      ∧ ((getStateMachineForEntity (sys.processors id) loc e w).res
            = .val (none, some ErrorUnprocessableEntity)
          ↔ ∀ sm ∈ (sys.processors id).StateMachines, sm.CanProcess e = false)
      ∧ (∀ c, (processor.actChildren sys id loc e a p w).res = .val (c, none) →
          (∀ sm ∈ (sys.processors id).StateMachines, sm.CanProcess c = false) →
          (processor.act sys id loc e a p w).res = .val (c, some ErrorUnprocessableEntity))
      ∧ (∀ c s, (processor.syncChildren sys id loc e a p w).res = .val (c, none) →
          (∀ sm ∈ (sys.processors id).StateMachines, sm.CanProcess e = false) →
          ((syncPhase (sys.processors id) loc e c a
              (processor.syncChildren sys id loc e a p w).world).res = .val (s, none) →
            (processor.syncAndValidate sys id loc e a p w).res
              = .val (s, some ErrorUnprocessableEntity))
          ∧ ∀ err, (syncPhase (sys.processors id) loc e c a
              (processor.syncChildren sys id loc e a p w).world).res = .val (s, some err) →
            (processor.syncAndValidate sys id loc e a p w).res = .val (s, some err)) := by
  have spec := getStateMachineForEntityFrom_spec loc e (sys.processors id).StateMachines 0 w
  refine ⟨?_, ?_, ?_, ?_⟩
  · rcases spec with ⟨k, sm, h1, h2, h3, h4⟩ | ⟨h1, _⟩
    · left
      refine ⟨k, sm, ?_, h2, h3, h4⟩
      unfold getStateMachineForEntity
      rw [h1, Nat.zero_add]
    · exact Or.inr h1
  · unfold getStateMachineForEntity
    constructor
    · intro hres
      rcases spec with ⟨k, sm, h1, _, _, _⟩ | ⟨_, h2⟩
      · rw [h1] at hres
        simp at hres
      · exact h2
    · intro hno
      rcases spec with ⟨k, sm, _, h2, h3, _⟩ | ⟨h1, _⟩
      · have := hno sm (List.getElem?_mem h2)
        rw [this] at h3
        exact absurd h3 (by simp)
      · exact h1
  · intro c hc hno
    rw [processor.act_of_children sys id loc e a p w c hc]
    exact transitionPhase_unprocessable _ loc c a p _ hno
  · intro c s hc hno
    refine ⟨fun hs => ?_, fun err hs => ?_⟩
    · rw [processor.syncAndValidate_of_children sys id loc e a p w c s hc hs]
      exact validatePhase_unprocessable _ loc e s a p _ hno
    · exact processor.syncAndValidate_of_sync_error sys id loc e a p w c s err hc hs

/-- C6, counterexample: no candidate state machine at all, the children succeed, and yet
`syncAndValidate` does not fail with ErrorUnprocessableEntity: the triggered Sync fails
first and its error is returned. -/
theorem state_machine_selection_counterexample :
    (∀ sm ∈ (syncFails.processors 0).StateMachines, sm.CanProcess leafOrder = false)
      ∧ (processor.syncChildren syncFails 0 [] leafOrder "approve" 0 0).res
          = .val (leafOrder, none)
      ∧ (processor.syncAndValidate syncFails 0 [] leafOrder "approve" 0 0).res
          = .val (leafOrder, some (GoError.other 5))
      ∧ (processor.syncAndValidate syncFails 0 [] leafOrder "approve" 0 0).res
          ≠ .val (leafOrder, some ErrorUnprocessableEntity) := by
  refine ⟨?_, ?_, ?_, ?_⟩
  · intro sm hsm
    simp [syncFails] at hsm
  · decide
  · decide
  · decide

theorem state_machine_selection_first_match_witness :
    (processor.actChildren syncFails 0 [] leafOrder "approve" 0 0).res = .val (leafOrder, none)
      ∧ (∀ sm ∈ (syncFails.processors 0).StateMachines, sm.CanProcess leafOrder = false)
      ∧ (processor.act syncFails 0 [] leafOrder "approve" 0 0).res
          = .val (leafOrder, some ErrorUnprocessableEntity) :=
  ⟨by decide, by intro sm hsm; simp [syncFails] at hsm,
    (state_machine_selection_first_match syncFails 0 [] leafOrder "approve" 0 0).2.2.1
      leafOrder (by decide) (by intro sm hsm; simp [syncFails] at hsm)⟩

/-! ## The transition -/

theorem getStateMachineForEntity_world (cfg : ProcessorConfig W) (loc : Path) (e : Entity)
    (w : W) : (getStateMachineForEntity cfg loc e w).world = w :=
  getStateMachineForEntityFrom_world loc e _ 0 w

theorem getSyncerForEntity_world (cfg : ProcessorConfig W) (loc : Path) (e : Entity)
    (w : W) : (getSyncerForEntity cfg loc e w).world = w :=
  getSyncerForEntityFrom_world loc e _ 0 w

theorem getSyncerForEntityAndAction_world (cfg : ProcessorConfig W) (loc : Path) (e : Entity)
    (a : Action) (w : W) : (getSyncerForEntityAndAction cfg loc e a w).world = w :=
  getSyncerForEntityAndActionFrom_world loc e a _ 0 w

theorem eng_bind_assoc {α β γ : Type} (x : Eng W α) (f : α → Eng W β) (g : β → Eng W γ) :
    (x >>= f) >>= g = x >>= fun a => f a >>= g := by
  funext w
  rcases hx : (x w).res with a | _ | _
  · rw [bind_of_val hx]
    rcases hf : (f a (x w).world).res with b | _ | _
    · have h1 : ((x >>= f) w).res = .val b := by rw [bind_of_val hx]; exact hf
      rw [bind_of_val h1, bind_of_val hx, bind_of_val hf]
      simp only [List.append_assoc]
    · have h1 : ((x >>= f) w).res = .panic := by rw [bind_of_val hx]; exact hf
      rw [bind_of_panic h1, bind_of_val hx, bind_of_panic hf]
    · have h1 : ((x >>= f) w).res = .outOfFuel := by rw [bind_of_val hx]; exact hf
      rw [bind_of_outOfFuel h1, bind_of_val hx, bind_of_outOfFuel hf]
  · have h1 : ((x >>= f) w).res = .panic := by rw [bind_of_panic hx]
    rw [bind_of_panic h1, bind_of_panic hx, bind_of_panic hx]
  · have h1 : ((x >>= f) w).res = .outOfFuel := by rw [bind_of_outOfFuel hx]
    rw [bind_of_outOfFuel h1, bind_of_outOfFuel hx, bind_of_outOfFuel hx]

/-- The transition when no syncer handles the action. -/
theorem transitionPhase_without_syncer (cfg : ProcessorConfig W) (loc : Path) (c : Entity)
    (a : Action) (p : ActionParams) (w : W) (i : Nat) (sm : StateMachina W)
    (hsm : (getStateMachineForEntity cfg loc c w).res = .val (some (i, sm), none))
    (hsel : (getSyncerForEntityAndAction cfg loc c a w).res = .val none) :
    transitionPhase cfg loc c a p w =
      ⟨.val (sm.Do c a p none w).1, (sm.Do c a p none w).2,
        (getStateMachineForEntity cfg loc c w).trace
          ++ ((getSyncerForEntityAndAction cfg loc c a w).trace
            ++ [.smDo loc i c a p none])⟩ := by
  unfold transitionPhase
  rw [bind_of_val hsm]
  simp only [getStateMachineForEntity_world]
  rw [bind_of_val hsel]
  simp only [getSyncerForEntityAndAction_world, run_pure_bind, run_emit_bind, run_invoke_bind]
  generalize sm.Do c a p none w = d
  obtain ⟨⟨e1, err⟩, w2⟩ := d
  cases err <;> rfl

/-- The transition when a syncer handles the action: `StateMachine.Do` runs on what
`Syncer.Do` returned, error included. -/
theorem transitionPhase_with_syncer (cfg : ProcessorConfig W) (loc : Path) (c : Entity)
    (a : Action) (p : ActionParams) (w : W) (i j : Nat) (sm : StateMachina W) (s : Syncer W)
    (hsm : (getStateMachineForEntity cfg loc c w).res = .val (some (i, sm), none))
    (hsel : (getSyncerForEntityAndAction cfg loc c a w).res = .val (some (j, s))) :
    transitionPhase cfg loc c a p w =
      ⟨.val (sm.Do (s.Do c a p w).1.1 a p (s.Do c a p w).1.2 (s.Do c a p w).2).1,
        (sm.Do (s.Do c a p w).1.1 a p (s.Do c a p w).1.2 (s.Do c a p w).2).2,
        (getStateMachineForEntity cfg loc c w).trace
          ++ ((getSyncerForEntityAndAction cfg loc c a w).trace
            ++ [.syncerDo loc j c a p,
                .smDo loc i (s.Do c a p w).1.1 a p (s.Do c a p w).1.2])⟩ := by
  unfold transitionPhase
  rw [bind_of_val hsm]
  simp only [getStateMachineForEntity_world]
  rw [bind_of_val hsel]
  simp only [getSyncerForEntityAndAction_world, eng_bind_assoc, run_pure_bind, run_emit_bind,
    run_invoke_bind]
  generalize s.Do c a p w = d0
  obtain ⟨⟨e0, err0⟩, w0⟩ := d0
  simp only []
  generalize sm.Do e0 a p err0 w0 = d
  obtain ⟨⟨e1, err⟩, w2⟩ := d
  cases err <;> rfl

theorem getStateMachineForEntityFrom_first (loc : Path) (e : Entity)
    (l : List (StateMachina W)) (i0 k : Nat) (sm : StateMachina W) (w : W)
    (hk : l[k]? = some sm) (hsm : sm.CanProcess e = true)
    (hfirst : ∀ j sm2, j < k → l[j]? = some sm2 → sm2.CanProcess e = false) :
    (getStateMachineForEntityFrom loc e i0 l w).res = .val (some (i0 + k, sm), none) := by
  induction l generalizing i0 k with
  | nil => simp at hk
  | cons x rest ih =>
    unfold getStateMachineForEntityFrom
    rw [run_emit_bind]
    cases k with
    | zero =>
      simp only [List.getElem?_cons_zero, Option.some.injEq] at hk
      subst hk
      simp only [hsm, if_true]
      rfl
    | succ k2 =>
      have hx : x.CanProcess e = false := hfirst 0 x (by omega) (by simp)
      simp only [hx, Bool.false_eq_true, if_false]
      rw [ih (i0 + 1) k2 (by simpa using hk)
        (fun j sm2 hj hget => hfirst (j + 1) sm2 (by omega) (by simpa using hget))]
      congr 4
      omega

theorem getSyncerForEntityAndActionFrom_first (loc : Path) (e : Entity) (a : Action)
    (l : List (Syncer W)) (i0 k : Nat) (s : Syncer W) (w : W)
    (hk : l[k]? = some s) (hs : (s.CanProcess e && s.HasAction a) = true)
    (hfirst : ∀ j s2, j < k → l[j]? = some s2 → (s2.CanProcess e && s2.HasAction a) = false) :
    (getSyncerForEntityAndActionFrom loc e a i0 l w).res = .val (some (i0 + k, s)) := by
  induction l generalizing i0 k with
  | nil => simp at hk
  | cons x rest ih =>
    unfold getSyncerForEntityAndActionFrom
    rw [run_emit_bind]
    cases k with
    | zero =>
      simp only [List.getElem?_cons_zero, Option.some.injEq] at hk
      subst hk
      simp only [Bool.and_eq_true] at hs
      simp only [hs.1, hs.2, if_true, run_emit_bind]
      rfl
    | succ k2 =>
      have hx : (x.CanProcess e && x.HasAction a) = false := hfirst 0 x (by omega) (by simp)
      have hrec := ih (i0 + 1) k2 (by simpa using hk)
        (fun j s2 hj hget => hfirst (j + 1) s2 (by omega) (by simpa using hget))
      have hidx : i0 + 1 + k2 = i0 + (k2 + 1) := by omega
      rw [hidx] at hrec
      by_cases hc : x.CanProcess e = true
      · have hh : x.HasAction a = false := by simpa [hc] using hx
        simp only [hc, hh, if_true, run_emit_bind, Bool.false_eq_true, if_false]
        exact hrec
      · simp only [hc, if_false]
        exact hrec

theorem getSyncerForEntityAndActionFrom_none (loc : Path) (e : Entity) (a : Action)
    (l : List (Syncer W)) (i0 : Nat) (w : W)
    (hno : ∀ s ∈ l, (s.CanProcess e && s.HasAction a) = false) :
    (getSyncerForEntityAndActionFrom loc e a i0 l w).res = .val none := by
  induction l generalizing i0 with
  | nil => rfl
  | cons x rest ih =>
    unfold getSyncerForEntityAndActionFrom
    rw [run_emit_bind]
    have hx := hno x (List.mem_cons_self _ _)
    have hrec := ih (i0 + 1) (fun s hs => hno s (List.mem_cons_of_mem _ hs))
    by_cases hc : x.CanProcess e = true
    · have hh : x.HasAction a = false := by simpa [hc] using hx
      simp only [hc, hh, if_true, run_emit_bind, Bool.false_eq_true, if_false]
      exact hrec
    · simp only [hc, if_false]
      exact hrec

/-- C7 (as amended): in `act`, for an entity whose loop over the sub-entities returns
without error (every sub-entity resolves to a processor, its `act` returns no error and
UpdateSubEntity folds its result back without error, which gives the child-updated entity
`c`) and for which a state machine matches (`sm`, the first candidate accepting `c`),
StateMachine.Do is invoked last;
it receives nil as syncerErr when no syncer matches the entity and action, and otherwise the
entity and exactly the error returned by the Do of the first matching syncer; `act` returns
what StateMachine.Do returns, so it succeeds when Syncer.Do fails and StateMachine.Do
returns nil. -/
theorem act_forwards_syncer_error (sys : System W) (id : Nat) (loc : Path) (e : Entity)
    (a : Action) (p : ActionParams) (w : W) (c : Entity) (i : Nat) (sm : StateMachina W)
    (hchildren : (processor.actChildren sys id loc e a p w).res = .val (c, none))
    (hi : (sys.processors id).StateMachines[i]? = some sm) (hsm : sm.CanProcess c = true)
    (hfirst : ∀ j sm2, j < i → (sys.processors id).StateMachines[j]? = some sm2 →
      sm2.CanProcess c = false) :
    ((∀ s ∈ (sys.processors id).Syncers, (s.CanProcess c && s.HasAction a) = false) →
        (processor.act sys id loc e a p w).res
            = .val (sm.Do c a p none (processor.actChildren sys id loc e a p w).world).1
          ∧ (processor.act sys id loc e a p w).world
            = (sm.Do c a p none (processor.actChildren sys id loc e a p w).world).2
          ∧ ∃ pre, (processor.act sys id loc e a p w).trace
              = pre ++ [.smDo loc i c a p none]
            ∧ ∀ ev ∈ pre, ev.isDoOrSave = true → ev.loc ≠ loc)
      ∧ ∀ (j : Nat) (s : Syncer W), (sys.processors id).Syncers[j]? = some s →
          (s.CanProcess c && s.HasAction a) = true →
          (∀ k s2, k < j → (sys.processors id).Syncers[k]? = some s2 →
            (s2.CanProcess c && s2.HasAction a) = false) →
          (processor.act sys id loc e a p w).res
              = .val (sm.Do (s.Do c a p (processor.actChildren sys id loc e a p w).world).1.1
                  a p (s.Do c a p (processor.actChildren sys id loc e a p w).world).1.2
                  (s.Do c a p (processor.actChildren sys id loc e a p w).world).2).1
            ∧ (∃ pre, (processor.act sys id loc e a p w).trace
                = pre ++ [.syncerDo loc j c a p,
                    .smDo loc i
                      (s.Do c a p (processor.actChildren sys id loc e a p w).world).1.1 a p
                      (s.Do c a p (processor.actChildren sys id loc e a p w).world).1.2]
              ∧ ∀ ev ∈ pre, ev.isDoOrSave = true → ev.loc ≠ loc)
            ∧ ((sm.Do (s.Do c a p (processor.actChildren sys id loc e a p w).world).1.1
                  a p (s.Do c a p (processor.actChildren sys id loc e a p w).world).1.2
                  (s.Do c a p (processor.actChildren sys id loc e a p w).world).2).1.2 = none →
                ∃ v, (processor.act sys id loc e a p w).res = .val (v, none)) := by
  have hsel_sm : (getStateMachineForEntity (sys.processors id) loc c
      (processor.actChildren sys id loc e a p w).world).res = .val (some (i, sm), none) := by
    have := getStateMachineForEntityFrom_first loc c (sys.processors id).StateMachines 0 i sm
      (processor.actChildren sys id loc e a p w).world hi hsm hfirst
    rw [Nat.zero_add] at this
    exact this
  have hpre : ∀ ev ∈ Event.processor loc (.act e a p)
      :: ((processor.actChildren sys id loc e a p w).trace
        ++ ((getStateMachineForEntity (sys.processors id) loc c
              (processor.actChildren sys id loc e a p w).world).trace
          ++ (getSyncerForEntityAndAction (sys.processors id) loc c a
              (processor.actChildren sys id loc e a p w).world).trace)),
      ev.isDoOrSave = true → ev.loc ≠ loc := by
    intro ev hev hdo
    rcases List.mem_cons.1 hev with h | h
    · subst h
      simp [Event.isDoOrSave] at hdo
    rcases List.mem_append.1 h with h | h
    · exact below_loc_ne (emits_actChildren sys id loc e a p w ev h)
    rcases List.mem_append.1 h with h | h
    · have := emits_getStateMachineForEntityFrom (fun ev => ev.isDoOrSave = false) loc c
        (fun _ => rfl) (sys.processors id).StateMachines 0 _ ev h
      simp only at this
      rw [this] at hdo
      exact absurd hdo (by simp)
    · have := emits_getSyncerForEntityAndActionFrom (fun ev => ev.isDoOrSave = false) loc c a
        (fun _ => rfl) (fun _ => rfl) (sys.processors id).Syncers 0 _ ev h
      simp only at this
      rw [this] at hdo
      exact absurd hdo (by simp)
  rw [processor.act_of_children sys id loc e a p w c hchildren]
  refine ⟨fun hno => ?_, fun j s hj hs hjfirst => ?_⟩
  · have hsel : (getSyncerForEntityAndAction (sys.processors id) loc c a
        (processor.actChildren sys id loc e a p w).world).res = .val none :=
      getSyncerForEntityAndActionFrom_none loc c a _ 0 _ hno
    rw [transitionPhase_without_syncer _ loc c a p _ i sm hsel_sm hsel]
    refine ⟨rfl, rfl, _, ?_, hpre⟩
    simp only [List.cons_append, List.append_assoc]
  · have hsel : (getSyncerForEntityAndAction (sys.processors id) loc c a
        (processor.actChildren sys id loc e a p w).world).res = .val (some (j, s)) := by
      have := getSyncerForEntityAndActionFrom_first loc c a (sys.processors id).Syncers 0 j s
        (processor.actChildren sys id loc e a p w).world hj hs hjfirst
      rw [Nat.zero_add] at this
      exact this
    rw [transitionPhase_with_syncer _ loc c a p _ i j sm s hsel_sm hsel]
    refine ⟨rfl, ⟨_, ?_, hpre⟩, fun hnil =>
      ⟨(sm.Do (s.Do c a p (processor.actChildren sys id loc e a p w).world).1.1 a p
        (s.Do c a p (processor.actChildren sys id loc e a p w).world).1.2
        (s.Do c a p (processor.actChildren sys id loc e a p w).world).2).1.1, ?_⟩⟩
    · simp only [List.cons_append, List.append_assoc]
    · simp only []
      rw [← hnil]

/-- A processor for orders whose only syncer handles "push" and fails, with the demo state
machine; see `demoSyncer` and `demoStateMachine`. -/
theorem act_forwards_syncer_error_witness :
    (processor.actChildren demo 0 [] leafOrder "push" 0 0).res = .val (leafOrder, none)
      ∧ (demo.processors 0).StateMachines[0]? = some demoStateMachine
      ∧ demoStateMachine.CanProcess leafOrder = true
      ∧ (demo.processors 0).Syncers[0]? = some demoSyncer
      ∧ (demoSyncer.Do leafOrder "push" 0 0).1.2 = some (GoError.other 7)
      ∧ (processor.act demo 0 [] leafOrder "push" 0 0).res = .val (.mk 1 99 [], none) :=
  ⟨by decide, rfl, rfl, rfl, rfl,
    ((act_forwards_syncer_error demo 0 [] leafOrder "push" 0 0 leafOrder 0 demoStateMachine
      (by decide) rfl rfl (fun j sm2 hj => absurd hj (by omega))).2 0 demoSyncer rfl
      (by decide) (fun k s2 hk => absurd hk (by omega))).1⟩


/-- C7, counterexample: the `act` of the line item succeeds and the state machine of the
order accepts every entity, yet the StateMachine.Do of the order is not invoked and `act`
returns ErrorInvalidState: the fold-back of the line item by UpdateSubEntity fails. -/
theorem act_forwards_counterexample :
    Event.ret [("items", "1")] (some (.mk 2 15 [])) none
        ∈ (processor.act foldFails 0 [] demoOrder "approve" 0 0).trace
      ∧ (foldFails.processors 0).StateMachines = [demoStateMachine]
      ∧ (∀ x, demoStateMachine.CanProcess x = true)
      ∧ (processor.act foldFails 0 [] demoOrder "approve" 0 0).res
          = .val (demoOrder, some ErrorInvalidState)
      ∧ ∀ i x a p se, Event.smDo [] i x a p se
          ∉ (processor.act foldFails 0 [] demoOrder "approve" 0 0).trace := by
  refine ⟨by decide, rfl, fun _ => rfl, by decide, fun i x a p se h => ?_⟩
  have hfilter : ((processor.act foldFails 0 [] demoOrder "approve" 0 0).trace).filter
      (fun ev => ev.isSmDo && (ev.loc == [])) = [] := by decide
  have h2 : Event.smDo [] i x a p se
      ∈ ((processor.act foldFails 0 [] demoOrder "approve" 0 0).trace).filter
        (fun ev => ev.isSmDo && (ev.loc == [])) := List.mem_filter.2 ⟨h, rfl⟩
  rw [hfilter] at h2
  cases h2
/-! ## Children first -/

theorem traced_of_val (loc : Path) (c : Call) (m : Eng W (Option Entity × Option GoError))
    (w : W) (out : Option Entity × Option GoError) (h : (m w).res = .val out) :
    traced loc c m w
      = ⟨.val out, (m w).world, .call loc c :: ((m w).trace ++ [.ret loc out.1 out.2])⟩ := by
  unfold traced
  rw [run_emit_bind, bind_of_val h]
  rfl

theorem traced_of_panic (loc : Path) (c : Call) (m : Eng W (Option Entity × Option GoError))
    (w : W) (h : (m w).res = .panic) :
    traced loc c m w = ⟨.panic, (m w).world, .call loc c :: (m w).trace⟩ := by
  unfold traced
  rw [run_emit_bind, bind_of_panic h]

theorem traced_of_outOfFuel (loc : Path) (c : Call)
    (m : Eng W (Option Entity × Option GoError)) (w : W) (h : (m w).res = .outOfFuel) :
    traced loc c m w = ⟨.outOfFuel, (m w).world, .call loc c :: (m w).trace⟩ := by
  unfold traced
  rw [run_emit_bind, bind_of_outOfFuel h]

/-- A traced call that returns records its return. -/
theorem traced_ret_of_val (loc : Path) (c : Call) (m : Eng W (Option Entity × Option GoError))
    (w : W) (out : Option Entity × Option GoError) (h : (traced loc c m w).res = .val out) :
    Event.ret loc out.1 out.2 ∈ (traced loc c m w).trace := by
  rcases hm : (m w).res with o | _ | _
  · rw [traced_of_val loc c m w o hm] at h ⊢
    simp only [Ctl.val.injEq] at h
    subst h
    simp
  · rw [traced_of_panic loc c m w hm] at h
    simp at h
  · rw [traced_of_outOfFuel loc c m w hm] at h
    simp at h

/-- The only return recorded at a child path by a traced call whose body runs below that
path is its own. -/
theorem traced_val_of_ret (loc : Path) (k0 : String × String) (c : Call)
    (m : Eng W (Option Entity × Option GoError)) (w : W)
    (hm : ∀ ev ∈ (m w).trace, ev.isCallRet = true → ∃ k2 rest, ev.loc = loc ++ k0 :: k2 :: rest)
    (k : String × String) (v : Option Entity) (err : Option GoError)
    (h : Event.ret (loc ++ [k]) v err ∈ (traced (loc ++ [k0]) c m w).trace) :
    (traced (loc ++ [k0]) c m w).res = .val (v, err) ∧ k = k0 := by
  have inner : Event.ret (loc ++ [k]) v err ∉ (m w).trace → 
      Event.ret (loc ++ [k]) v err ∈ (traced (loc ++ [k0]) c m w).trace →
      ∃ out, (m w).res = .val out ∧ Event.ret (loc ++ [k]) v err = .ret (loc ++ [k0]) out.1 out.2 := by
    intro hn hin
    rcases hr : (m w).res with o | _ | _
    · rw [traced_of_val _ c m w o hr] at hin
      simp only [List.mem_cons, List.mem_append, List.mem_singleton] at hin
      rcases hin with h1 | h1 | h1
      · cases h1
      · exact absurd h1 hn
      · exact ⟨o, rfl, by simpa using h1⟩
    · rw [traced_of_panic _ c m w hr] at hin
      simp only [List.mem_cons] at hin
      rcases hin with h1 | h1
      · cases h1
      · exact absurd h1 hn
    · rw [traced_of_outOfFuel _ c m w hr] at hin
      simp only [List.mem_cons] at hin
      rcases hin with h1 | h1
      · cases h1
      · exact absurd h1 hn
  by_cases hin : Event.ret (loc ++ [k]) v err ∈ (m w).trace
  · exfalso
    obtain ⟨k2, rest, h2⟩ := hm _ hin rfl
    simp only [Event.loc] at h2
    have h3 := List.append_cancel_left h2
    simp at h3
  · obtain ⟨out, h1, h2⟩ := inner hin h
    simp only [Event.ret.injEq] at h2
    obtain ⟨h3, h4, h5⟩ := h2
    have hk : k = k0 := by
      have := List.append_cancel_left h3
      simpa using this
    rw [traced_of_val _ c m w out h1]
    exact ⟨by rw [h4, h5], hk⟩

theorem run_assertType_bind {β : Type} (E : Nat → Bool) (x : Entity) (f : Entity → Eng W β)
    (w : W) :
    (assertType E x >>= f) w = if E x.typ then f x w else ⟨.panic, w, []⟩ := by
  unfold assertType
  split
  · rfl
  · rfl

/-- One turn of the loop over the sub-entities: it stops (no processor, the call into the
sub-processor does not return or fails, the fold-back fails) or goes on with the updated
entity. -/
theorem childLoop_cons (sys : System W) (cfg : ProcessorConfig W)
    (sub : ProcessorRef → Path → Entity → Action → ActionParams →
      Eng W (Option Entity × Option GoError))
    (loc : Path) (a : Action) (p : ActionParams) (tk ek : String) (x : Entity)
    (rest : List (String × String × Entity)) (c : Entity) (w : W) :
    (isNilProcessor (cfg.GetProcessorFunc (some x)) = true
        ∧ childLoop sys cfg sub loc a p ((tk, ek, x) :: rest) c w
          = ⟨.val (c, some ErrorProcessorNotFound), w, []⟩)
      ∨ (isNilProcessor (cfg.GetProcessorFunc (some x)) = false
        ∧ (childLoop sys cfg sub loc a p ((tk, ek, x) :: rest) c w).trace
            = (sub (cfg.GetProcessorFunc (some x)) (loc ++ [(tk, ek)]) x a p w).trace
        ∧ (childLoop sys cfg sub loc a p ((tk, ek, x) :: rest) c w).world
            = (sub (cfg.GetProcessorFunc (some x)) (loc ++ [(tk, ek)]) x a p w).world
        ∧ (((sub (cfg.GetProcessorFunc (some x)) (loc ++ [(tk, ek)]) x a p w).res = .panic
            ∧ (childLoop sys cfg sub loc a p ((tk, ek, x) :: rest) c w).res = .panic)
          ∨ ((sub (cfg.GetProcessorFunc (some x)) (loc ++ [(tk, ek)]) x a p w).res = .outOfFuel
            ∧ (childLoop sys cfg sub loc a p ((tk, ek, x) :: rest) c w).res = .outOfFuel)
          ∨ (∃ v err,
              (sub (cfg.GetProcessorFunc (some x)) (loc ++ [(tk, ek)]) x a p w).res
                = .val (v, some err)
            ∧ (childLoop sys cfg sub loc a p ((tk, ek, x) :: rest) c w).res
                = .val (c, some err))
          ∨ (∃ v err,
              (sub (cfg.GetProcessorFunc (some x)) (loc ++ [(tk, ek)]) x a p w).res
                = .val (v, none)
            ∧ sys.ops.UpdateSubEntity c tk ek v = .error err
            ∧ (childLoop sys cfg sub loc a p ((tk, ek, x) :: rest) c w).res
                = .val (c, some err))
          ∨ (∃ v u,
              (sub (cfg.GetProcessorFunc (some x)) (loc ++ [(tk, ek)]) x a p w).res
                = .val (v, none)
            ∧ sys.ops.UpdateSubEntity c tk ek v = .ok u ∧ cfg.E u.typ = false
            ∧ (childLoop sys cfg sub loc a p ((tk, ek, x) :: rest) c w).res = .panic)))
      ∨ (isNilProcessor (cfg.GetProcessorFunc (some x)) = false
        ∧ ∃ v u,
            (sub (cfg.GetProcessorFunc (some x)) (loc ++ [(tk, ek)]) x a p w).res
              = .val (v, none)
          ∧ sys.ops.UpdateSubEntity c tk ek v = .ok u ∧ cfg.E u.typ = true
          ∧ childLoop sys cfg sub loc a p ((tk, ek, x) :: rest) c w
            = ⟨(childLoop sys cfg sub loc a p rest u
                  (sub (cfg.GetProcessorFunc (some x)) (loc ++ [(tk, ek)]) x a p w).world).res,
                (childLoop sys cfg sub loc a p rest u
                  (sub (cfg.GetProcessorFunc (some x)) (loc ++ [(tk, ek)]) x a p w).world).world,
                (sub (cfg.GetProcessorFunc (some x)) (loc ++ [(tk, ek)]) x a p w).trace
                  ++ (childLoop sys cfg sub loc a p rest u
                    (sub (cfg.GetProcessorFunc (some x)) (loc ++ [(tk, ek)]) x a p
                      w).world).trace⟩) := by
  by_cases hnil : isNilProcessor (cfg.GetProcessorFunc (some x)) = true
  · left
    refine ⟨hnil, ?_⟩
    unfold childLoop
    simp only [hnil, if_true]
    rfl
  · have hnil2 : isNilProcessor (cfg.GetProcessorFunc (some x)) = false := by simpa using hnil
    right
    have hdef : childLoop sys cfg sub loc a p ((tk, ek, x) :: rest) c
        = (sub (cfg.GetProcessorFunc (some x)) (loc ++ [(tk, ek)]) x a p >>= fun r =>
          match r.2 with
          | some err => pure (c, some err)
          | none =>
            match sys.ops.UpdateSubEntity c tk ek r.1 with
            | .error err => pure (c, some err)
            | .ok updatedEntity =>
              assertType cfg.E updatedEntity >>= fun c2 =>
                childLoop sys cfg sub loc a p rest c2) := by
      conv_lhs => unfold childLoop
      simp only [hnil2, Bool.false_eq_true, if_false]
    rw [hdef]
    rcases hS : (sub (cfg.GetProcessorFunc (some x)) (loc ++ [(tk, ek)]) x a p w).res with
      out | _ | _
    · rw [bind_of_val hS]
      obtain ⟨v, err⟩ := out
      cases err with
      | some err =>
        left
        refine ⟨hnil2, ?_, rfl, ?_⟩
        · simp only [pure_trace, List.append_nil]
        · right; right; left
          exact ⟨v, err, rfl, rfl⟩
      | none =>
        simp only []
        cases hU : sys.ops.UpdateSubEntity c tk ek v with
        | error err =>
          left
          refine ⟨hnil2, ?_, rfl, ?_⟩
          · simp only [pure_trace, List.append_nil]
          · right; right; right; left
            exact ⟨v, err, rfl, hU, rfl⟩
        | ok u =>
          simp only [run_assertType_bind]
          by_cases hE : cfg.E u.typ = true
          · right
            refine ⟨hnil2, v, u, rfl, hU, hE, ?_⟩
            simp only [hE, if_true]
          · have hE2 : cfg.E u.typ = false := by simpa using hE
            left
            refine ⟨hnil2, ?_, ?_, ?_⟩
            · simp only [hE2, Bool.false_eq_true, if_false, List.append_nil]
            · simp only [hE2, Bool.false_eq_true, if_false]
            · right; right; right; right
              refine ⟨v, u, rfl, hU, hE2, ?_⟩
              simp only [hE2, Bool.false_eq_true, if_false]
    · rw [bind_of_panic hS]
      left
      exact ⟨hnil2, rfl, rfl, Or.inl ⟨rfl, rfl⟩⟩
    · rw [bind_of_outOfFuel hS]
      left
      exact ⟨hnil2, rfl, rfl, Or.inr (Or.inl ⟨rfl, rfl⟩)⟩

theorem within_callRet_below {K : Event → Bool} {loc : Path} {k0 : String × String}
    {ev : Event} (h : Within K (loc ++ [k0]) ev) (hc : ev.isCallRet = true) :
    ∃ k2 rest, ev.loc = loc ++ k0 :: k2 :: rest := by
  rcases h with ⟨_, _, h3⟩ | ⟨k2, rest, h1, _⟩
  · rw [hc] at h3
    exact absurd h3 (by simp)
  · exact ⟨k2, rest, by simp [h1]⟩

/-- A call into a sub-processor that returns records its return. -/
theorem ref_syncAndValidate_ret_of_val (sys : System W)
    (self : Nat → Path → Entity → Action → ActionParams → Eng W (Entity × Option GoError))
    (ref : ProcessorRef) (loc : Path) (e : Entity) (a : Action) (p : ActionParams) (w : W)
    (out : Option Entity × Option GoError)
    (h : (ProcessorRef.syncAndValidate sys self ref loc e a p w).res = .val out) :
    Event.ret loc out.1 out.2 ∈ (ProcessorRef.syncAndValidate sys self ref loc e a p w).trace :=
  traced_ret_of_val _ _ _ w out h

theorem ref_act_ret_of_val (sys : System W)
    (self : Nat → Path → Entity → Action → ActionParams → Eng W (Entity × Option GoError))
    (ref : ProcessorRef) (loc : Path) (e : Entity) (a : Action) (p : ActionParams) (w : W)
    (out : Option Entity × Option GoError)
    (h : (ProcessorRef.act sys self ref loc e a p w).res = .val out) :
    Event.ret loc out.1 out.2 ∈ (ProcessorRef.act sys self ref loc e a p w).trace :=
  traced_ret_of_val _ _ _ w out h

/-- The only return that the call into the sub-processor at `loc ++ [k0]` records at a
child path of `loc` is its own. -/
theorem ref_syncAndValidate_val_of_ret (sys : System W)
    (self : Nat → Path → Entity → Action → ActionParams → Eng W (Entity × Option GoError))
    (ref : ProcessorRef) (loc : Path) (k0 : String × String) (e : Entity) (a : Action)
    (p : ActionParams) (w : W)
    (hself : ∀ id, Emits (Within Event.inSyncAndValidate (loc ++ [k0]))
      (self id (loc ++ [k0]) e a p))
    (k : String × String) (v : Option Entity) (err : Option GoError)
    (h : Event.ret (loc ++ [k]) v err
      ∈ (ProcessorRef.syncAndValidate sys self ref (loc ++ [k0]) e a p w).trace) :
    (ProcessorRef.syncAndValidate sys self ref (loc ++ [k0]) e a p w).res = .val (v, err)
      ∧ k = k0 := by
  unfold ProcessorRef.syncAndValidate at h ⊢
  refine traced_val_of_ret loc k0 _ _ w ?_ k v err h
  intro ev hev hc
  refine within_callRet_below (K := Event.inSyncAndValidate) ?_ hc
  revert ev
  have : Emits (Within Event.inSyncAndValidate (loc ++ [k0]))
      (match ref with
      | .wrapper id =>
        genericProcessorWrapper.syncAndValidate (sys.processors id).E (self id) (loc ++ [k0]) e
          a p
      | _ => goPanic) := by
    split
    · exact emits_wrapper_syncAndValidate _ _ _ _ _ _ _ (hself _)
    · exact emits_goPanic _
  exact fun ev hev _ => this w ev hev

theorem ref_act_val_of_ret (sys : System W)
    (self : Nat → Path → Entity → Action → ActionParams → Eng W (Entity × Option GoError))
    (ref : ProcessorRef) (loc : Path) (k0 : String × String) (e : Entity) (a : Action)
    (p : ActionParams) (w : W)
    (hself : ∀ id, Emits (Within Event.inAct (loc ++ [k0])) (self id (loc ++ [k0]) e a p))
    (k : String × String) (v : Option Entity) (err : Option GoError)
    (h : Event.ret (loc ++ [k]) v err
      ∈ (ProcessorRef.act sys self ref (loc ++ [k0]) e a p w).trace) :
    (ProcessorRef.act sys self ref (loc ++ [k0]) e a p w).res = .val (v, err) ∧ k = k0 := by
  unfold ProcessorRef.act at h ⊢
  refine traced_val_of_ret loc k0 _ _ w ?_ k v err h
  intro ev hev hc
  refine within_callRet_below (K := Event.inAct) ?_ hc
  revert ev
  have : Emits (Within Event.inAct (loc ++ [k0]))
      (match ref with
      | .wrapper id =>
        genericProcessorWrapper.act (sys.processors id).E (self id) (loc ++ [k0]) e a p
      | _ => goPanic) := by
    split
    · exact emits_wrapper_act _ _ _ _ _ _ _ (hself _)
    · exact emits_goPanic _
  exact fun ev hev _ => this w ev hev

/-- When the loop over the sub-entities succeeds, the call into the sub-processor has
returned without error for every sub-entity. -/
theorem childLoop_returned (sys : System W) (cfg : ProcessorConfig W)
    (sub : ProcessorRef → Path → Entity → Action → ActionParams →
      Eng W (Option Entity × Option GoError))
    (loc : Path) (a : Action) (p : ActionParams)
    (hA : ∀ ref loc2 x w out, (sub ref loc2 x a p w).res = .val out →
      Event.ret loc2 out.1 out.2 ∈ (sub ref loc2 x a p w).trace)
    (l : List (String × String × Entity)) (c c2 : Entity) (w : W)
    (h : (childLoop sys cfg sub loc a p l c w).res = .val (c2, none)) :
    ∀ x ∈ l, ∃ v, Event.ret (loc ++ [(x.1, x.2.1)]) v none
      ∈ (childLoop sys cfg sub loc a p l c w).trace := by
  induction l generalizing c w with
  | nil => intro x hx; simp at hx
  | cons y rest ih =>
    obtain ⟨tk, ek, x⟩ := y
    rcases childLoop_cons sys cfg sub loc a p tk ek x rest c w with
      ⟨_, hR⟩ | ⟨_, _, _, hcase⟩ | ⟨_, v, u, hS, _, _, hR⟩
    · rw [hR] at h
      simp at h
    · rcases hcase with ⟨_, h2⟩ | ⟨_, h2⟩ | ⟨_, _, _, h2⟩ | ⟨_, _, _, _, h2⟩ | ⟨_, _, _, _, _, h2⟩
      all_goals (rw [h2] at h; simp at h)
    · rw [hR] at h ⊢
      simp only at h
      intro z hz
      rcases List.mem_cons.1 hz with hz | hz
      · subst hz
        exact ⟨v, List.mem_append_left _ (hA _ _ _ _ _ hS)⟩
      · obtain ⟨v2, hv2⟩ := ih u _ h z hz
        exact ⟨v2, List.mem_append_right _ hv2⟩

/-- When the call into the sub-processor returns an error for a sub-entity, the loop over the
sub-entities returns that error. -/
theorem childLoop_error_of_ret (sys : System W) (cfg : ProcessorConfig W)
    (sub : ProcessorRef → Path → Entity → Action → ActionParams →
      Eng W (Option Entity × Option GoError))
    (loc : Path) (a : Action) (p : ActionParams)
    (hB : ∀ ref k0 x w k v err, Event.ret (loc ++ [k]) v err
        ∈ (sub ref (loc ++ [k0]) x a p w).trace →
      (sub ref (loc ++ [k0]) x a p w).res = .val (v, err))
    (l : List (String × String × Entity)) (c : Entity) (w : W)
    (k : String × String) (v : Option Entity) (err : GoError)
    (h : Event.ret (loc ++ [k]) v (some err) ∈ (childLoop sys cfg sub loc a p l c w).trace) :
    ∃ c2, (childLoop sys cfg sub loc a p l c w).res = .val (c2, some err) := by
  induction l generalizing c w with
  | nil => simp [childLoop, pure_trace] at h
  | cons y rest ih =>
    obtain ⟨tk, ek, x⟩ := y
    rcases childLoop_cons sys cfg sub loc a p tk ek x rest c w with
      ⟨_, hR⟩ | ⟨_, ht, _, hcase⟩ | ⟨_, v2, u, hS, _, _, hR⟩
    · rw [hR] at h
      simp at h
    · rw [ht] at h
      have hval := hB _ _ _ _ _ _ _ h
      rcases hcase with ⟨h1, _⟩ | ⟨h1, _⟩ | ⟨v3, err3, h1, h2⟩ | ⟨_, _, h1, _⟩ | ⟨_, _, h1, _⟩
      · rw [h1] at hval; simp at hval
      · rw [h1] at hval; simp at hval
      · rw [h1] at hval
        simp only [Ctl.val.injEq, Prod.mk.injEq, Option.some.injEq] at hval
        rw [← hval.2]
        exact ⟨c, h2⟩
      · rw [h1] at hval; simp at hval
      · rw [h1] at hval; simp at hval
    · rw [hR] at h ⊢
      simp only at h ⊢
      rcases List.mem_append.1 h with h1 | h1
      · have hval := hB _ _ _ _ _ _ _ h1
        rw [hS] at hval
        simp at hval
      · exact ih u _ h1

theorem childrenPhase_run (sys : System W) (cfg : ProcessorConfig W)
    (sub : ProcessorRef → Path → Entity → Action → ActionParams →
      Eng W (Option Entity × Option GoError))
    (loc : Path) (e : Entity) (a : Action) (p : ActionParams) (w : W) :
    (cfg.E (sys.ops.Copy e).typ = false
        ∧ childrenPhase sys cfg sub loc e a p w = ⟨.panic, w, []⟩)
      ∨ (cfg.E (sys.ops.Copy e).typ = true
        ∧ childrenPhase sys cfg sub loc e a p w
          = childLoop sys cfg sub loc a p (entries e.SubEntities) (sys.ops.Copy e) w) := by
  unfold childrenPhase
  rw [run_assertType_bind]
  by_cases h : cfg.E (sys.ops.Copy e).typ = true
  · right
    exact ⟨h, by simp only [h, if_true]⟩
  · left
    have h2 : cfg.E (sys.ops.Copy e).typ = false := by simpa using h
    exact ⟨h2, by simp only [h2, Bool.false_eq_true, if_false]⟩

/-- The loop over the sub-entities uses of the configuration only the type `E` and the
resolution function. -/
theorem childLoop_cfg_congr (sys : System W) (cfg cfg2 : ProcessorConfig W)
    (hE : cfg2.E = cfg.E) (hG : cfg2.GetProcessorFunc = cfg.GetProcessorFunc)
    (sub : ProcessorRef → Path → Entity → Action → ActionParams →
      Eng W (Option Entity × Option GoError))
    (loc : Path) (a : Action) (p : ActionParams) (l : List (String × String × Entity))
    (c : Entity) :
    childLoop sys cfg2 sub loc a p l c = childLoop sys cfg sub loc a p l c := by
  induction l generalizing c with
  | nil => rfl
  | cons x rest ih =>
    obtain ⟨tk, ek, e⟩ := x
    simp only [childLoop, hE, hG, ih]

theorem childrenPhase_cfg_congr (sys : System W) (cfg cfg2 : ProcessorConfig W)
    (hE : cfg2.E = cfg.E) (hG : cfg2.GetProcessorFunc = cfg.GetProcessorFunc)
    (sub : ProcessorRef → Path → Entity → Action → ActionParams →
      Eng W (Option Entity × Option GoError))
    (loc : Path) (e : Entity) (a : Action) (p : ActionParams) :
    childrenPhase sys cfg2 sub loc e a p = childrenPhase sys cfg sub loc e a p := by
  have key := childLoop_cfg_congr sys cfg cfg2 hE hG sub loc a p (entries e.SubEntities)
  simp only [childrenPhase, hE, key]

/-- When the first part of `syncAndValidate` succeeds, the call into the sub-processor has
returned without error for every sub-entity. -/
theorem syncChildren_returned (sys : System W) (id : Nat) (loc : Path) (e : Entity)
    (a : Action) (p : ActionParams) (w : W) (c : Entity)
    (h : (processor.syncChildren sys id loc e a p w).res = .val (c, none)) :
    ∀ x ∈ entries e.SubEntities, ∃ v, Event.ret (loc ++ [(x.1, x.2.1)]) v none
      ∈ (processor.syncChildren sys id loc e a p w).trace := by
  unfold processor.syncChildren at h ⊢
  rcases childrenPhase_run sys (sys.processors id)
    (ProcessorRef.syncAndValidate sys (processor.syncAndValidate sys)) loc e a p w with
    ⟨_, hR⟩ | ⟨_, hR⟩
  · rw [hR] at h
    simp at h
  · rw [hR] at h ⊢
    exact childLoop_returned sys _ _ loc a p
      (fun ref loc2 x w out => ref_syncAndValidate_ret_of_val sys _ ref loc2 x a p w out)
      _ _ c w h

theorem actChildren_returned (sys : System W) (id : Nat) (loc : Path) (e : Entity)
    (a : Action) (p : ActionParams) (w : W) (c : Entity)
    (h : (processor.actChildren sys id loc e a p w).res = .val (c, none)) :
    ∀ x ∈ entries e.SubEntities, ∃ v, Event.ret (loc ++ [(x.1, x.2.1)]) v none
      ∈ (processor.actChildren sys id loc e a p w).trace := by
  unfold processor.actChildren at h ⊢
  rcases childrenPhase_run sys (sys.processors id)
    (ProcessorRef.act sys (processor.act sys)) loc e a p w with ⟨_, hR⟩ | ⟨_, hR⟩
  · rw [hR] at h
    simp at h
  · rw [hR] at h ⊢
    exact childLoop_returned sys _ _ loc a p
      (fun ref loc2 x w out => ref_act_ret_of_val sys _ ref loc2 x a p w out) _ _ c w h

/-- When the call into the sub-processor returns an error for a sub-entity, the first part
of `syncAndValidate` returns that error. -/
theorem syncChildren_error_of_ret (sys : System W) (id : Nat) (loc : Path) (e : Entity)
    (a : Action) (p : ActionParams) (w : W) (k : String × String) (v : Option Entity)
    (err : GoError)
    (h : Event.ret (loc ++ [k]) v (some err)
      ∈ (processor.syncChildren sys id loc e a p w).trace) :
    ∃ c, (processor.syncChildren sys id loc e a p w).res = .val (c, some err) := by
  unfold processor.syncChildren at h ⊢
  rcases childrenPhase_run sys (sys.processors id)
    (ProcessorRef.syncAndValidate sys (processor.syncAndValidate sys)) loc e a p w with
    ⟨_, hR⟩ | ⟨_, hR⟩
  · rw [hR] at h
    simp at h
  · rw [hR] at h ⊢
    exact childLoop_error_of_ret sys _ _ loc a p
      (fun ref k0 x w k v err hin =>
        (ref_syncAndValidate_val_of_ret sys _ ref loc k0 x a p w
          (fun id2 => emits_syncAndValidate sys id2 _ x a p) k v err hin).1)
      _ _ w k v err h

theorem actChildren_error_of_ret (sys : System W) (id : Nat) (loc : Path) (e : Entity)
    (a : Action) (p : ActionParams) (w : W) (k : String × String) (v : Option Entity)
    (err : GoError)
    (h : Event.ret (loc ++ [k]) v (some err)
      ∈ (processor.actChildren sys id loc e a p w).trace) :
    ∃ c, (processor.actChildren sys id loc e a p w).res = .val (c, some err) := by
  unfold processor.actChildren at h ⊢
  rcases childrenPhase_run sys (sys.processors id)
    (ProcessorRef.act sys (processor.act sys)) loc e a p w with ⟨_, hR⟩ | ⟨_, hR⟩
  · rw [hR] at h
    simp at h
  · rw [hR] at h ⊢
    exact childLoop_error_of_ret sys _ _ loc a p
      (fun ref k0 x w k v err hin =>
        (ref_act_val_of_ret sys _ ref loc k0 x a p w
          (fun id2 => emits_act sys id2 _ x a p) k v err hin).1)
      _ _ w k v err h

theorem syncAndValidateBody_of_children (sys : System W) (cfg : ProcessorConfig W)
    (sub : ProcessorRef → Path → Entity → Action → ActionParams →
      Eng W (Option Entity × Option GoError))
    (loc : Path) (e : Entity) (a : Action) (p : ActionParams) (w : W) (c : Entity)
    (h : (childrenPhase sys cfg sub loc e a p w).res = .val (c, none)) :
    syncAndValidateBody sys cfg sub loc e a p w
      = ⟨(ownSyncAndValidate cfg loc e c a p (childrenPhase sys cfg sub loc e a p w).world).res,
          (ownSyncAndValidate cfg loc e c a p (childrenPhase sys cfg sub loc e a p w).world).world,
          Event.processor loc (.syncAndValidate e a p)
            :: ((childrenPhase sys cfg sub loc e a p w).trace
              ++ (ownSyncAndValidate cfg loc e c a p
                  (childrenPhase sys cfg sub loc e a p w).world).trace)⟩ := by
  unfold syncAndValidateBody
  rw [run_emit_bind, bind_of_val h]

theorem syncAndValidateBody_of_children_failed (sys : System W) (cfg : ProcessorConfig W)
    (sub : ProcessorRef → Path → Entity → Action → ActionParams →
      Eng W (Option Entity × Option GoError))
    (loc : Path) (e : Entity) (a : Action) (p : ActionParams) (w : W)
    (h : ∀ c, (childrenPhase sys cfg sub loc e a p w).res ≠ .val (c, none)) :
    syncAndValidateBody sys cfg sub loc e a p w
      = ⟨(childrenPhase sys cfg sub loc e a p w).res,
          (childrenPhase sys cfg sub loc e a p w).world,
          Event.processor loc (.syncAndValidate e a p)
            :: (childrenPhase sys cfg sub loc e a p w).trace⟩ := by
  unfold syncAndValidateBody
  rw [run_emit_bind]
  rcases hr : (childrenPhase sys cfg sub loc e a p w).res with ⟨c, err⟩ | _ | _
  · cases err with
    | none => exact absurd hr (h c)
    | some err =>
      rw [bind_of_val hr]
      simp only [run_pure, List.append_nil]
  · rw [bind_of_panic hr]
  · rw [bind_of_outOfFuel hr]

theorem actBody_of_children (sys : System W) (cfg : ProcessorConfig W)
    (sub : ProcessorRef → Path → Entity → Action → ActionParams →
      Eng W (Option Entity × Option GoError))
    (loc : Path) (e : Entity) (a : Action) (p : ActionParams) (w : W) (c : Entity)
    (h : (childrenPhase sys cfg sub loc e a p w).res = .val (c, none)) :
    actBody sys cfg sub loc e a p w
      = ⟨(transitionPhase cfg loc c a p (childrenPhase sys cfg sub loc e a p w).world).res,
          (transitionPhase cfg loc c a p (childrenPhase sys cfg sub loc e a p w).world).world,
          Event.processor loc (.act e a p)
            :: ((childrenPhase sys cfg sub loc e a p w).trace
              ++ (transitionPhase cfg loc c a p
                  (childrenPhase sys cfg sub loc e a p w).world).trace)⟩ := by
  unfold actBody
  rw [run_emit_bind, bind_of_val h]

theorem actBody_of_children_failed (sys : System W) (cfg : ProcessorConfig W)
    (sub : ProcessorRef → Path → Entity → Action → ActionParams →
      Eng W (Option Entity × Option GoError))
    (loc : Path) (e : Entity) (a : Action) (p : ActionParams) (w : W)
    (h : ∀ c, (childrenPhase sys cfg sub loc e a p w).res ≠ .val (c, none)) :
    actBody sys cfg sub loc e a p w
      = ⟨(childrenPhase sys cfg sub loc e a p w).res,
          (childrenPhase sys cfg sub loc e a p w).world,
          Event.processor loc (.act e a p) :: (childrenPhase sys cfg sub loc e a p w).trace⟩ := by
  unfold actBody
  rw [run_emit_bind]
  rcases hr : (childrenPhase sys cfg sub loc e a p w).res with ⟨c, err⟩ | _ | _
  · cases err with
    | none => exact absurd hr (h c)
    | some err =>
      rw [bind_of_val hr]
      simp only [run_pure, List.append_nil]
  · rw [bind_of_panic hr]
  · rw [bind_of_outOfFuel hr]

/-- The sync-and-validate half of the ordering invariant. -/
theorem syncAndValidate_children_first (sys : System W) (id : Nat) (loc : Path) (e : Entity)
    (a : Action) (p : ActionParams) (w : W) :
    (∃ own, (processor.syncAndValidate sys id loc e a p w).trace
          = Event.processor loc (.syncAndValidate e a p)
            :: ((processor.syncChildren sys id loc e a p w).trace ++ own)
        ∧ (∀ ev ∈ (processor.syncChildren sys id loc e a p w).trace, ev.loc ≠ loc)
        ∧ (∀ ev ∈ own, ev.loc = loc ∧ ev.isCollaborator = true)
        ∧ (own ≠ [] → ∃ c, (processor.syncChildren sys id loc e a p w).res = .val (c, none)
            ∧ ∀ x ∈ entries e.SubEntities, ∃ v, Event.ret (loc ++ [(x.1, x.2.1)]) v none
                ∈ (processor.syncChildren sys id loc e a p w).trace))
      ∧ ∀ k v err, Event.ret (loc ++ [k]) v (some err)
            ∈ (processor.syncAndValidate sys id loc e a p w).trace →
          (∃ c, (processor.syncAndValidate sys id loc e a p w).res = .val (c, some err))
            ∧ (∀ ev ∈ (processor.syncAndValidate sys id loc e a p w).trace,
                ev.loc = loc → ev.isCollaborator = false)
            ∧ ∀ sms syncers,
                syncAndValidateBody sys
                    { sys.processors id with StateMachines := sms, Syncers := syncers }
                    (ProcessorRef.syncAndValidate sys (processor.syncAndValidate sys))
                    loc e a p w
                  = processor.syncAndValidate sys id loc e a p w := by
  have hbelow : ∀ ev ∈ (processor.syncChildren sys id loc e a p w).trace, ev.loc ≠ loc :=
    fun ev hev => below_loc_ne (emits_syncChildren sys id loc e a p w ev hev)
  have hsplit : ∃ own, (processor.syncAndValidate sys id loc e a p w).trace
          = Event.processor loc (.syncAndValidate e a p)
            :: ((processor.syncChildren sys id loc e a p w).trace ++ own)
        ∧ (∀ ev ∈ own, ev.loc = loc ∧ ev.isCollaborator = true)
        ∧ (own ≠ [] → ∃ c, (processor.syncChildren sys id loc e a p w).res = .val (c, none)) := by
    rw [processor.syncAndValidate_eq]
    by_cases hc : ∃ c, (processor.syncChildren sys id loc e a p w).res = .val (c, none)
    · obtain ⟨c, hc⟩ := hc
      refine ⟨(ownSyncAndValidate (sys.processors id) loc e c a p
        (processor.syncChildren sys id loc e a p w).world).trace, ?_, ?_, fun _ => ⟨c, hc⟩⟩
      · rw [syncAndValidateBody_of_children sys _ _ loc e a p w c hc]
        rfl
      · intro ev hev
        exact emits_ownSyncAndValidate (fun ev => ev.loc = loc ∧ ev.isCollaborator = true)
          _ loc e c a p (fun ev h1 _ _ h4 => ⟨h1, h4⟩) _ ev hev
    · refine ⟨[], ?_, ?_, fun h => absurd rfl h⟩
      · rw [syncAndValidateBody_of_children_failed sys _ _ loc e a p w
          (fun c h => hc ⟨c, h⟩), List.append_nil]
        rfl
      · intro ev hev
        simp at hev
  obtain ⟨own, htrace, hown, hne⟩ := hsplit
  refine ⟨⟨own, htrace, hbelow, hown, fun h => ?_⟩, ?_⟩
  · obtain ⟨c, hc⟩ := hne h
    exact ⟨c, hc, syncChildren_returned sys id loc e a p w c hc⟩
  · intro k v err hret
    have hin : Event.ret (loc ++ [k]) v (some err)
        ∈ (processor.syncChildren sys id loc e a p w).trace := by
      rw [htrace] at hret
      rcases List.mem_cons.1 hret with h | h
      · cases h
      rcases List.mem_append.1 h with h | h
      · exact h
      · have := (hown _ h).2
        simp [Event.isCollaborator] at this
    obtain ⟨c, hc⟩ := syncChildren_error_of_ret sys id loc e a p w k v err hin
    have hR := processor.syncAndValidate_of_children_error sys id loc e a p w c err hc
    refine ⟨⟨c, by rw [hR]⟩, ?_, ?_⟩
    · intro ev hev hloc
      rw [hR] at hev
      rcases List.mem_cons.1 hev with h | h
      · subst h
        rfl
      · exact absurd hloc (hbelow ev h)
    · intro sms syncers
      have hcfg := childrenPhase_cfg_congr sys (sys.processors id)
        { sys.processors id with StateMachines := sms, Syncers := syncers } rfl rfl
        (ProcessorRef.syncAndValidate sys (processor.syncAndValidate sys)) loc e a p
      have hc2 : (childrenPhase sys
          { sys.processors id with StateMachines := sms, Syncers := syncers }
          (ProcessorRef.syncAndValidate sys (processor.syncAndValidate sys)) loc e a p w).res
          = .val (c, some err) := by
        rw [hcfg]
        exact hc
      rw [syncAndValidateBody_of_children_failed sys _ _ loc e a p w
        (fun c2 h => by rw [hc2] at h; simp at h), hR, hcfg]
      congr 1


/-- The act half of the ordering invariant. -/
theorem act_children_first (sys : System W) (id : Nat) (loc : Path) (e : Entity)
    (a : Action) (p : ActionParams) (w : W) :
    (∃ own, (processor.act sys id loc e a p w).trace
          = Event.processor loc (.act e a p)
            :: ((processor.actChildren sys id loc e a p w).trace ++ own)
        ∧ (∀ ev ∈ (processor.actChildren sys id loc e a p w).trace, ev.loc ≠ loc)
        ∧ (∀ ev ∈ own, ev.loc = loc ∧ ev.isCollaborator = true)
        ∧ (own ≠ [] → ∃ c, (processor.actChildren sys id loc e a p w).res = .val (c, none)
            ∧ ∀ x ∈ entries e.SubEntities, ∃ v, Event.ret (loc ++ [(x.1, x.2.1)]) v none
                ∈ (processor.actChildren sys id loc e a p w).trace))
      ∧ ∀ k v err, Event.ret (loc ++ [k]) v (some err)
            ∈ (processor.act sys id loc e a p w).trace →
          (∃ c, (processor.act sys id loc e a p w).res = .val (c, some err))
            ∧ (∀ ev ∈ (processor.act sys id loc e a p w).trace,
                ev.loc = loc → ev.isCollaborator = false)
            ∧ ∀ sms syncers,
                actBody sys
                    { sys.processors id with StateMachines := sms, Syncers := syncers }
                    (ProcessorRef.act sys (processor.act sys))
                    loc e a p w
                  = processor.act sys id loc e a p w := by
  have hbelow : ∀ ev ∈ (processor.actChildren sys id loc e a p w).trace, ev.loc ≠ loc :=
    fun ev hev => below_loc_ne (emits_actChildren sys id loc e a p w ev hev)
  have hsplit : ∃ own, (processor.act sys id loc e a p w).trace
          = Event.processor loc (.act e a p)
            :: ((processor.actChildren sys id loc e a p w).trace ++ own)
        ∧ (∀ ev ∈ own, ev.loc = loc ∧ ev.isCollaborator = true)
        ∧ (own ≠ [] → ∃ c, (processor.actChildren sys id loc e a p w).res = .val (c, none)) := by
    rw [processor.act_eq]
    by_cases hc : ∃ c, (processor.actChildren sys id loc e a p w).res = .val (c, none)
    · obtain ⟨c, hc⟩ := hc
      refine ⟨(transitionPhase (sys.processors id) loc c a p
        (processor.actChildren sys id loc e a p w).world).trace, ?_, ?_, fun _ => ⟨c, hc⟩⟩
      · rw [actBody_of_children sys _ _ loc e a p w c hc]
        rfl
      · intro ev hev
        exact emits_transitionPhase (fun ev => ev.loc = loc ∧ ev.isCollaborator = true)
          _ loc c a p (fun ev h1 _ _ h4 => ⟨h1, h4⟩) _ ev hev
    · refine ⟨[], ?_, ?_, fun h => absurd rfl h⟩
      · rw [actBody_of_children_failed sys _ _ loc e a p w
          (fun c h => hc ⟨c, h⟩), List.append_nil]
        rfl
      · intro ev hev
        simp at hev
  obtain ⟨own, htrace, hown, hne⟩ := hsplit
  refine ⟨⟨own, htrace, hbelow, hown, fun h => ?_⟩, ?_⟩
  · obtain ⟨c, hc⟩ := hne h
    exact ⟨c, hc, actChildren_returned sys id loc e a p w c hc⟩
  · intro k v err hret
    have hin : Event.ret (loc ++ [k]) v (some err)
        ∈ (processor.actChildren sys id loc e a p w).trace := by
      rw [htrace] at hret
      rcases List.mem_cons.1 hret with h | h
      · cases h
      rcases List.mem_append.1 h with h | h
      · exact h
      · have := (hown _ h).2
        simp [Event.isCollaborator] at this
    obtain ⟨c, hc⟩ := actChildren_error_of_ret sys id loc e a p w k v err hin
    have hR := processor.act_of_children_error sys id loc e a p w c err hc
    refine ⟨⟨c, by rw [hR]⟩, ?_, ?_⟩
    · intro ev hev hloc
      rw [hR] at hev
      rcases List.mem_cons.1 hev with h | h
      · subst h
        rfl
      · exact absurd hloc (hbelow ev h)
    · intro sms syncers
      have hcfg := childrenPhase_cfg_congr sys (sys.processors id)
        { sys.processors id with StateMachines := sms, Syncers := syncers } rfl rfl
        (ProcessorRef.act sys (processor.act sys)) loc e a p
      have hc2 : (childrenPhase sys
          { sys.processors id with StateMachines := sms, Syncers := syncers }
          (ProcessorRef.act sys (processor.act sys)) loc e a p w).res
          = .val (c, some err) := by
        rw [hcfg]
        exact hc
      rw [actBody_of_children_failed sys _ _ loc e a p w
        (fun c2 h => by rw [hc2] at h; simp at h), hR, hcfg]
      congr 1


/-- C4: ordering invariant.  In `syncAndValidate` and in `act` alike, the run is the entry of
the method, then the run of the loop over the sub-entities (all of whose events concern
proper descendants), then the invocations of the entity's own Syncers and StateMachines; if
one of these is invoked at all, the loop has succeeded and the recursive call of every
sub-entity has returned without error.  If the recursive call of some sub-entity returns an
error, the parent returns that error, none of its own Syncers or StateMachines is invoked,
and the run is the same whatever the parent's StateMachines and Syncers are. -/
theorem children_before_parent (sys : System W) (id : Nat) (loc : Path) (e : Entity)
    (a : Action) (p : ActionParams) (w : W) :
    ((∃ own, (processor.syncAndValidate sys id loc e a p w).trace
          = Event.processor loc (.syncAndValidate e a p)
            :: ((processor.syncChildren sys id loc e a p w).trace ++ own)
        ∧ (∀ ev ∈ (processor.syncChildren sys id loc e a p w).trace, ev.loc ≠ loc)
        ∧ (∀ ev ∈ own, ev.loc = loc ∧ ev.isCollaborator = true)
        ∧ (own ≠ [] → ∃ c, (processor.syncChildren sys id loc e a p w).res = .val (c, none)
            ∧ ∀ x ∈ entries e.SubEntities, ∃ v, Event.ret (loc ++ [(x.1, x.2.1)]) v none
                ∈ (processor.syncChildren sys id loc e a p w).trace))
      ∧ ∀ k v err, Event.ret (loc ++ [k]) v (some err)
            ∈ (processor.syncAndValidate sys id loc e a p w).trace →
          (∃ c, (processor.syncAndValidate sys id loc e a p w).res = .val (c, some err))
            ∧ (∀ ev ∈ (processor.syncAndValidate sys id loc e a p w).trace,
                ev.loc = loc → ev.isCollaborator = false)
            ∧ ∀ sms syncers,
                syncAndValidateBody sys
                    { sys.processors id with StateMachines := sms, Syncers := syncers }
                    (ProcessorRef.syncAndValidate sys (processor.syncAndValidate sys))
                    loc e a p w
                  = processor.syncAndValidate sys id loc e a p w)
      ∧ ((∃ own, (processor.act sys id loc e a p w).trace
          = Event.processor loc (.act e a p)
            :: ((processor.actChildren sys id loc e a p w).trace ++ own)
        ∧ (∀ ev ∈ (processor.actChildren sys id loc e a p w).trace, ev.loc ≠ loc)
        ∧ (∀ ev ∈ own, ev.loc = loc ∧ ev.isCollaborator = true)
        ∧ (own ≠ [] → ∃ c, (processor.actChildren sys id loc e a p w).res = .val (c, none)
            ∧ ∀ x ∈ entries e.SubEntities, ∃ v, Event.ret (loc ++ [(x.1, x.2.1)]) v none
                ∈ (processor.actChildren sys id loc e a p w).trace))
      ∧ ∀ k v err, Event.ret (loc ++ [k]) v (some err)
            ∈ (processor.act sys id loc e a p w).trace →
          (∃ c, (processor.act sys id loc e a p w).res = .val (c, some err))
            ∧ (∀ ev ∈ (processor.act sys id loc e a p w).trace,
                ev.loc = loc → ev.isCollaborator = false)
            ∧ ∀ sms syncers,
                actBody sys
                    { sys.processors id with StateMachines := sms, Syncers := syncers }
                    (ProcessorRef.act sys (processor.act sys)) loc e a p w
                  = processor.act sys id loc e a p w) :=
  ⟨syncAndValidate_children_first sys id loc e a p w, act_children_first sys id loc e a p w⟩

/-- C4, example: the line item rejects "ship", so the order returns that error and none of
its own collaborators is invoked. -/
theorem children_before_parent_witness :
    Event.ret ([] ++ [("items", "1")]) (some (.mk 2 5 [])) (some ErrorInvalidState)
        ∈ (processor.syncAndValidate demo 0 [] demoOrder "ship" 0 0).trace
      ∧ (∃ c, (processor.syncAndValidate demo 0 [] demoOrder "ship" 0 0).res
          = .val (c, some ErrorInvalidState))
      ∧ ∀ ev ∈ (processor.syncAndValidate demo 0 [] demoOrder "ship" 0 0).trace,
          ev.loc = [] → ev.isCollaborator = false :=
  ⟨by decide,
    ((children_before_parent demo 0 [] demoOrder "ship" 0 0).1.2 ("items", "1")
      (some (.mk 2 5 [])) ErrorInvalidState (by decide)).1,
    ((children_before_parent demo 0 [] demoOrder "ship" 0 0).1.2 ("items", "1")
      (some (.mk 2 5 [])) ErrorInvalidState (by decide)).2.1⟩
/-! ## Well-formed maps -/

theorem Entity.WF_iff (e : Entity) :
    e.WF ↔ (keys e.SubEntities).Nodup ∧ Entity.WFTypes e.SubEntities := by
  cases e
  simp only [Entity.WF, Entity.SubEntities]

theorem WFTypes_mem (s : List (String × List (String × Entity))) (h : Entity.WFTypes s)
    (t : String) (m : List (String × Entity)) (hm : (t, m) ∈ s) :
    (keys m).Nodup ∧ Entity.WFEnts m := by
  induction s with
  | nil => simp at hm
  | cons tm rest ih =>
    obtain ⟨t2, m2⟩ := tm
    simp only [Entity.WFTypes] at h
    rcases List.mem_cons.1 hm with h1 | h1
    · cases h1
      exact h.1
    · exact ih h.2 h1

theorem WFEnts_mem (m : List (String × Entity)) (h : Entity.WFEnts m) (k : String)
    (x : Entity) (hx : (k, x) ∈ m) : x.WF := by
  induction m with
  | nil => simp at hx
  | cons kx rest ih =>
    obtain ⟨k2, x2⟩ := kx
    simp only [Entity.WFEnts] at h
    rcases List.mem_cons.1 hx with h1 | h1
    · cases h1
      exact h.1
    · exact ih h.2 h1

theorem entries_cons (t : String) (m : List (String × Entity))
    (rest : List (String × List (String × Entity))) :
    entries ((t, m) :: rest) = m.map (fun ke => (t, ke.1, ke.2)) ++ entries rest := by
  simp [entries]

/-- The entries of a well-formed map have pairwise distinct pairs of keys. -/
theorem entries_keys_nodup (s : List (String × List (String × Entity)))
    (h1 : (keys s).Nodup) (h2 : ∀ t m, (t, m) ∈ s → (keys m).Nodup) :
    ((entries s).map entryKey).Nodup := by
  induction s with
  | nil => simp [entries]
  | cons tm rest ih =>
    obtain ⟨t, m⟩ := tm
    rw [entries_cons, List.map_append]
    simp only [keys, List.map_cons, List.nodup_cons] at h1
    rw [List.nodup_append]
    refine ⟨?_, ih h1.2 (fun t2 m2 hm => h2 t2 m2 (List.mem_cons_of_mem _ hm)), ?_⟩
    · have hm := h2 t m (List.mem_cons_self _ _)
      rw [List.map_map]
      have : (entryKey ∘ fun ke : String × Entity => (t, ke.1, ke.2))
          = (fun k => (t, k)) ∘ Prod.fst := by
        funext ke
        rfl
      rw [this, ← List.map_map]
      exact List.Nodup.map (fun a b hab => (Prod.mk.inj hab).2) hm
    · intro k hk1 hk2
      simp only [List.mem_map, entryKey] at hk1 hk2
      obtain ⟨x1, hx1, rfl⟩ := hk1
      obtain ⟨ke, _, rfl⟩ := hx1
      obtain ⟨x2, hx2, hk⟩ := hk2
      obtain ⟨tk2, ek2, y⟩ := x2
      obtain ⟨m2, hm2, _⟩ := mem_entries.1 hx2
      simp only [Prod.mk.injEq] at hk
      apply h1.1
      simp only [List.mem_map]
      exact ⟨(tk2, m2), hm2, hk.1⟩

theorem Entity.WF_entries_nodup (e : Entity) (h : e.WF) :
    ((entries e.SubEntities).map entryKey).Nodup := by
  rw [Entity.WF_iff] at h
  exact entries_keys_nodup _ h.1 (fun t m hm => (WFTypes_mem _ h.2 t m hm).1)

/-! ## The loop over the sub-entities, turn by turn -/

theorem childLoop_cons_eq (sys : System W) (cfg : ProcessorConfig W)
    (sub : ProcessorRef → Path → Entity → Action → ActionParams →
      Eng W (Option Entity × Option GoError))
    (loc : Path) (a : Action) (p : ActionParams) (tk ek : String) (x : Entity)
    (rest : List (String × String × Entity)) (c : Entity) :
    childLoop sys cfg sub loc a p ((tk, ek, x) :: rest) c
      = childStep sys cfg sub loc a p tk ek x c (childLoop sys cfg sub loc a p rest) := by
  conv_lhs => unfold childLoop
  rfl

/-- A turn of the loop either stops, with a run that is not a success and does not depend on
the remaining turns, or goes on with some entity, world and trace. -/
theorem childStep_run (sys : System W) (cfg : ProcessorConfig W)
    (sub : ProcessorRef → Path → Entity → Action → ActionParams →
      Eng W (Option Entity × Option GoError))
    (loc : Path) (a : Action) (p : ActionParams) (tk ek : String) (x c : Entity) (w : W) :
    (∃ R0 : Run W (Entity × Option GoError), (∀ c1, R0.res ≠ .val (c1, none))
        ∧ (R0.trace = [] ∨ R0.trace
            = (sub (cfg.GetProcessorFunc (some x)) (loc ++ [(tk, ek)]) x a p w).trace)
        ∧ (isNilProcessor (cfg.GetProcessorFunc (some x)) = true →
            R0 = ⟨.val (c, some ErrorProcessorNotFound), w, []⟩)
        ∧ ∀ next, childStep sys cfg sub loc a p tk ek x c next w = R0)
      ∨ (isNilProcessor (cfg.GetProcessorFunc (some x)) = false
        ∧ ∃ u, ∀ next, childStep sys cfg sub loc a p tk ek x c next w
          = ⟨(next u (sub (cfg.GetProcessorFunc (some x)) (loc ++ [(tk, ek)]) x a p w).world).res,
              (next u (sub (cfg.GetProcessorFunc (some x)) (loc ++ [(tk, ek)]) x a p
                w).world).world,
              (sub (cfg.GetProcessorFunc (some x)) (loc ++ [(tk, ek)]) x a p w).trace
                ++ (next u (sub (cfg.GetProcessorFunc (some x)) (loc ++ [(tk, ek)]) x a p
                  w).world).trace⟩) := by
  by_cases hnil : isNilProcessor (cfg.GetProcessorFunc (some x)) = true
  · left
    refine ⟨⟨.val (c, some ErrorProcessorNotFound), w, []⟩, by simp, Or.inl rfl,
      fun _ => rfl, fun next => ?_⟩
    unfold childStep
    simp only [hnil, if_true]
    rfl
  · have hnil2 : isNilProcessor (cfg.GetProcessorFunc (some x)) = false := by simpa using hnil
    have hdef : ∀ next, childStep sys cfg sub loc a p tk ek x c next
        = (sub (cfg.GetProcessorFunc (some x)) (loc ++ [(tk, ek)]) x a p >>= fun r =>
          match r.2 with
          | some err => pure (c, some err)
          | none =>
            match sys.ops.UpdateSubEntity c tk ek r.1 with
            | .error err => pure (c, some err)
            | .ok updatedEntity => assertType cfg.E updatedEntity >>= fun c2 => next c2) := by
      intro next
      unfold childStep
      simp only [hnil2, Bool.false_eq_true, if_false]
    rcases hS : (sub (cfg.GetProcessorFunc (some x)) (loc ++ [(tk, ek)]) x a p w).res with
      out | _ | _
    · obtain ⟨v, err⟩ := out
      cases err with
      | some err =>
        left
        refine ⟨⟨.val (c, some err),
          (sub (cfg.GetProcessorFunc (some x)) (loc ++ [(tk, ek)]) x a p w).world,
          (sub (cfg.GetProcessorFunc (some x)) (loc ++ [(tk, ek)]) x a p w).trace⟩,
          by simp, Or.inr rfl, fun h => by rw [hnil2] at h; simp at h, fun next => ?_⟩
        rw [hdef, bind_of_val hS]
        simp only [run_pure, List.append_nil]
      | none =>
        cases hU : sys.ops.UpdateSubEntity c tk ek v with
        | error err =>
          left
          refine ⟨⟨.val (c, some err),
            (sub (cfg.GetProcessorFunc (some x)) (loc ++ [(tk, ek)]) x a p w).world,
            (sub (cfg.GetProcessorFunc (some x)) (loc ++ [(tk, ek)]) x a p w).trace⟩,
            by simp, Or.inr rfl, fun h => by rw [hnil2] at h; simp at h, fun next => ?_⟩
          rw [hdef, bind_of_val hS]
          simp only [hU, run_pure, List.append_nil]
        | ok u =>
          by_cases hE : cfg.E u.typ = true
          · right
            refine ⟨hnil2, u, fun next => ?_⟩
            rw [hdef, bind_of_val hS]
            simp only [hU, run_assertType_bind, hE, if_true]
          · have hE2 : cfg.E u.typ = false := by simpa using hE
            left
            refine ⟨⟨.panic,
              (sub (cfg.GetProcessorFunc (some x)) (loc ++ [(tk, ek)]) x a p w).world,
              (sub (cfg.GetProcessorFunc (some x)) (loc ++ [(tk, ek)]) x a p w).trace⟩,
              by simp, Or.inr rfl, fun h => by rw [hnil2] at h; simp at h, fun next => ?_⟩
            rw [hdef, bind_of_val hS]
            simp only [hU, run_assertType_bind, hE2, Bool.false_eq_true, if_false,
              List.append_nil]
    · left
      refine ⟨⟨.panic,
        (sub (cfg.GetProcessorFunc (some x)) (loc ++ [(tk, ek)]) x a p w).world,
        (sub (cfg.GetProcessorFunc (some x)) (loc ++ [(tk, ek)]) x a p w).trace⟩,
        by simp, Or.inr rfl, fun h => by rw [hnil2] at h; simp at h, fun next => ?_⟩
      rw [hdef, bind_of_panic hS]
    · left
      refine ⟨⟨.outOfFuel,
        (sub (cfg.GetProcessorFunc (some x)) (loc ++ [(tk, ek)]) x a p w).world,
        (sub (cfg.GetProcessorFunc (some x)) (loc ++ [(tk, ek)]) x a p w).trace⟩,
        by simp, Or.inr rfl, fun h => by rw [hnil2] at h; simp at h, fun next => ?_⟩
      rw [hdef, bind_of_outOfFuel hS]

/-- The loop over a concatenation: the loop over the first list, followed, when it succeeds,
by the loop over the second list. -/
theorem childLoop_append (sys : System W) (cfg : ProcessorConfig W)
    (sub : ProcessorRef → Path → Entity → Action → ActionParams →
      Eng W (Option Entity × Option GoError))
    (loc : Path) (a : Action) (p : ActionParams) (l1 l2 : List (String × String × Entity))
    (c : Entity) (w : W) :
    (∃ c1, (childLoop sys cfg sub loc a p l1 c w).res = .val (c1, none)
        ∧ childLoop sys cfg sub loc a p (l1 ++ l2) c w
          = ⟨(childLoop sys cfg sub loc a p l2 c1
                (childLoop sys cfg sub loc a p l1 c w).world).res,
              (childLoop sys cfg sub loc a p l2 c1
                (childLoop sys cfg sub loc a p l1 c w).world).world,
              (childLoop sys cfg sub loc a p l1 c w).trace
                ++ (childLoop sys cfg sub loc a p l2 c1
                  (childLoop sys cfg sub loc a p l1 c w).world).trace⟩)
      ∨ ((∀ c1, (childLoop sys cfg sub loc a p l1 c w).res ≠ .val (c1, none))
        ∧ childLoop sys cfg sub loc a p (l1 ++ l2) c w
          = childLoop sys cfg sub loc a p l1 c w) := by
  induction l1 generalizing c w with
  | nil =>
    left
    exact ⟨c, rfl, by simp [childLoop, run_pure]⟩
  | cons y rest ih =>
    obtain ⟨tk, ek, x⟩ := y
    rw [List.cons_append, childLoop_cons_eq, childLoop_cons_eq]
    rcases childStep_run sys cfg sub loc a p tk ek x c w with
      ⟨R0, hne, _, _, hall⟩ | ⟨_, u, hall⟩
    · right
      rw [hall, hall]
      exact ⟨hne, rfl⟩
    · rw [hall, hall]
      rcases ih u (sub (cfg.GetProcessorFunc (some x)) (loc ++ [(tk, ek)]) x a p w).world with
        ⟨c1, h1, h2⟩ | ⟨h1, h2⟩
      · left
        refine ⟨c1, h1, ?_⟩
        rw [h2]
        simp only [List.append_assoc]
      · right
        refine ⟨h1, ?_⟩
        rw [h2]

theorem within_extends {K : Event → Bool} {l : Path} {ev : Event} (h : Within K l ev) :
    ∃ rest, ev.loc = l ++ rest := by
  rcases h with ⟨h1, _, _⟩ | ⟨k, rest, h1, _⟩
  · exact ⟨[], by simp [h1]⟩
  · exact ⟨k :: rest, h1⟩

/-- Every event of a call into a sub-processor concerns the entity at the path of the call or
one of its descendants. -/
theorem emits_ref_syncAndValidate_at (sys : System W) (ref : ProcessorRef) (l : Path)
    (e : Entity) (a : Action) (p : ActionParams) :
    Emits (fun ev => ∃ rest, ev.loc = l ++ rest)
      (ProcessorRef.syncAndValidate sys (processor.syncAndValidate sys) ref l e a p) := by
  unfold ProcessorRef.syncAndValidate
  apply emits_traced
  · exact ⟨[], by simp [Event.loc]⟩
  · intro v err
    exact ⟨[], by simp [Event.loc]⟩
  · split
    · apply emits_wrapper_syncAndValidate
      exact emits_mono (fun ev h => within_extends h) (emits_syncAndValidate sys _ l e a p)
    · exact emits_goPanic _

/-- The events of the loop over the sub-entities concern the listed sub-entities and their
descendants. -/
theorem emits_childLoop_keys (sys : System W) (cfg : ProcessorConfig W)
    (sub : ProcessorRef → Path → Entity → Action → ActionParams →
      Eng W (Option Entity × Option GoError))
    (loc : Path) (a : Action) (p : ActionParams)
    (hsub : ∀ ref l x, Emits (fun ev => ∃ rest, ev.loc = l ++ rest) (sub ref l x a p))
    (l : List (String × String × Entity)) (c : Entity) :
    Emits (fun ev => ∃ k ∈ l.map entryKey, ∃ rest, ev.loc = loc ++ k :: rest)
      (childLoop sys cfg sub loc a p l c) := by
  apply emits_childLoop
  intro x hx ref
  refine emits_mono (fun ev h => ?_) (hsub ref _ x.2.2)
  obtain ⟨rest, hrest⟩ := h
  exact ⟨entryKey x, List.mem_map_of_mem _ hx, rest, by simp [hrest, entryKey]⟩

/-! ## A sub-entity without processor -/

/-- The run of `Process` when `syncAndValidate` does not succeed. -/
theorem process_of_sync_failed (sys : System W) (id : Nat) (loc : Path) (e : Entity)
    (a : Action) (p : ActionParams) (w : W)
    (h : ∀ c, (processor.syncAndValidate sys id loc e a p w).res ≠ .val (c, none)) :
    (processor.Process sys id loc e a p w).trace
        = Event.processor loc (.Process e a p)
          :: (processor.syncAndValidate sys id loc e a p w).trace
      ∧ (∀ v, (processor.Process sys id loc e a p w).res ≠ .val (v, none))
      ∧ ∀ c err, (processor.syncAndValidate sys id loc e a p w).res = .val (c, some err) →
          (processor.Process sys id loc e a p w).res = .val (e, some err) := by
  unfold processor.Process
  rw [run_emit_bind]
  rcases hr : (processor.syncAndValidate sys id loc e a p w).res with ⟨c, err⟩ | _ | _
  · cases err with
    | none => exact absurd hr (h c)
    | some err =>
      rw [bind_of_val hr]
      refine ⟨?_, ?_, ?_⟩
      · simp only [pure_trace, List.append_nil]
      · intro v
        simp [pure_res]
      · intro c2 err2 h2
        simp only [Ctl.val.injEq, Prod.mk.injEq, Option.some.injEq] at h2
        rw [← h2.2]
        rfl
  · rw [bind_of_panic hr]
    exact ⟨rfl, by simp, by simp⟩
  · rw [bind_of_outOfFuel hr]
    exact ⟨rfl, by simp, by simp⟩

/-- The first part of `syncAndValidate` on an entity one of whose sub-entities has no
processor. -/
theorem syncChildren_unresolved (sys : System W) (id : Nat) (loc : Path) (e : Entity)
    (a : Action) (p : ActionParams) (w : W)
    (pre post : List (String × String × Entity)) (tk ek : String) (x : Entity)
    (hentries : entries e.SubEntities = pre ++ (tk, ek, x) :: post)
    (hnil : isNilProcessor ((sys.processors id).GetProcessorFunc (some x)) = true) :
    (∀ c1, (processor.syncChildren sys id loc e a p w).res ≠ .val (c1, none))
      ∧ (∀ ev ∈ (processor.syncChildren sys id loc e a p w).trace,
          ∃ k ∈ pre.map entryKey, ∃ rest, ev.loc = loc ++ k :: rest)
      ∧ ((sys.processors id).E (sys.ops.Copy e).typ = true →
          ∀ c1, (childLoop sys (sys.processors id)
              (ProcessorRef.syncAndValidate sys (processor.syncAndValidate sys)) loc a p pre
              (sys.ops.Copy e) w).res = .val (c1, none) →
            (processor.syncChildren sys id loc e a p w).res
              = .val (c1, some ErrorProcessorNotFound)) := by
  have hkeys := emits_childLoop_keys sys (sys.processors id)
    (ProcessorRef.syncAndValidate sys (processor.syncAndValidate sys)) loc a p
    (fun ref l x => emits_ref_syncAndValidate_at sys ref l x a p) pre (sys.ops.Copy e) w
  unfold processor.syncChildren
  rcases childrenPhase_run sys (sys.processors id)
    (ProcessorRef.syncAndValidate sys (processor.syncAndValidate sys)) loc e a p w with
    ⟨hE, hR⟩ | ⟨hE, hR⟩
  · rw [hR]
    refine ⟨by simp, by simp, fun hE2 => ?_⟩
    rw [hE] at hE2
    exact absurd hE2 (by simp)
  · rw [hR, hentries]
    rcases childLoop_append sys (sys.processors id)
      (ProcessorRef.syncAndValidate sys (processor.syncAndValidate sys)) loc a p pre
      ((tk, ek, x) :: post) (sys.ops.Copy e) w with ⟨c1, h1, h2⟩ | ⟨h1, h2⟩
    · rw [h2, childLoop_cons_eq]
      rcases childStep_run sys (sys.processors id)
        (ProcessorRef.syncAndValidate sys (processor.syncAndValidate sys)) loc a p tk ek x c1
        (childLoop sys (sys.processors id)
          (ProcessorRef.syncAndValidate sys (processor.syncAndValidate sys)) loc a p pre
          (sys.ops.Copy e) w).world with ⟨R0, _, _, hR0, hall⟩ | ⟨hnil2, _⟩
      · rw [hall, hR0 hnil]
        refine ⟨by simp, ?_, fun _ c2 hc2 => ?_⟩
        · intro ev hev
          simp only [List.append_nil] at hev
          exact hkeys ev hev
        · rw [h1] at hc2
          simp only [Ctl.val.injEq, Prod.mk.injEq, and_true] at hc2
          rw [hc2]
      · rw [hnil] at hnil2
        exact absurd hnil2 (by simp)
    · rw [h2]
      exact ⟨h1, hkeys, fun _ c2 hc2 => absurd hc2 (h1 c2)⟩

/-- C5 (as amended): when the resolution function returns no processor (a nil interface or a
nil pointer) for a direct sub-entity of the root, Process does not succeed; no event of its
run concerns that sub-entity or a descendant of it (so none of its StateMachines or Syncers
is invoked); the copy of the root having the type of the processor, Process returns the
original entity with ErrorProcessorNotFound when the loop over the sub-entities visited
before it (`pre`) returns without error, that is when each of them resolves to a processor,
its syncAndValidate returns no error and its result is folded back by UpdateSubEntity without
error, in particular when the unresolved sub-entity is visited first; and when that loop
returns an error, Process returns the original entity with that error. -/
theorem unresolved_sub_entity_stops_process (sys : System W) (id : Nat) (loc : Path)
    (e : Entity) (a : Action) (p : ActionParams) (w : W)
    (pre post : List (String × String × Entity)) (tk ek : String) (x : Entity)
    (hWF : e.WF) (hentries : entries e.SubEntities = pre ++ (tk, ek, x) :: post)
    (hnil : isNilProcessor ((sys.processors id).GetProcessorFunc (some x)) = true) :
    (∀ v, (processor.Process sys id loc e a p w).res ≠ .val (v, none))
      ∧ (∀ ev ∈ (processor.Process sys id loc e a p w).trace,
          ¬ (loc ++ [(tk, ek)]) <+: ev.loc)
      ∧ ((sys.processors id).E (sys.ops.Copy e).typ = true →
          ∀ c1, (childLoop sys (sys.processors id)
              (ProcessorRef.syncAndValidate sys (processor.syncAndValidate sys)) loc a p pre
              (sys.ops.Copy e) w).res = .val (c1, none) →
            (processor.Process sys id loc e a p w).res
              = .val (e, some ErrorProcessorNotFound))
      ∧ ((sys.processors id).E (sys.ops.Copy e).typ = true →
          ∀ c1 err, (childLoop sys (sys.processors id)
              (ProcessorRef.syncAndValidate sys (processor.syncAndValidate sys)) loc a p pre
              (sys.ops.Copy e) w).res = .val (c1, some err) →
            (processor.Process sys id loc e a p w).res = .val (e, some err)) := by
  obtain ⟨hfail, hkeys, hpnf⟩ :=
    syncChildren_unresolved sys id loc e a p w pre post tk ek x hentries hnil
  have hsv : processor.syncAndValidate sys id loc e a p w
      = ⟨(processor.syncChildren sys id loc e a p w).res,
          (processor.syncChildren sys id loc e a p w).world,
          Event.processor loc (.syncAndValidate e a p)
            :: (processor.syncChildren sys id loc e a p w).trace⟩ := by
    rw [processor.syncAndValidate_eq]
    exact syncAndValidateBody_of_children_failed sys _ _ loc e a p w hfail
  have hsvfail : ∀ c, (processor.syncAndValidate sys id loc e a p w).res ≠ .val (c, none) := by
    intro c
    rw [hsv]
    exact hfail c
  obtain ⟨htrace, hne, herr⟩ := process_of_sync_failed sys id loc e a p w hsvfail
  have hnotin : (tk, ek) ∉ pre.map entryKey := by
    have hnd := Entity.WF_entries_nodup e hWF
    rw [hentries, List.map_append, List.map_cons, List.nodup_append] at hnd
    intro hin
    exact hnd.2.2 hin (List.mem_cons_self _ _)
  have hlen : ¬ (loc ++ [(tk, ek)]) <+: loc := by
    intro h
    have := h.length_le
    simp at this
  refine ⟨hne, ?_, fun hE c1 hc1 => ?_, fun hE c1 err hc1 => ?_⟩
  · intro ev hev hpre
    rw [htrace, hsv] at hev
    rcases List.mem_cons.1 hev with h | h
    · subst h
      exact hlen hpre
    rcases List.mem_cons.1 h with h | h
    · subst h
      exact hlen hpre
    · obtain ⟨k, hk, rest, hloc⟩ := hkeys ev h
      rw [hloc] at hpre
      obtain ⟨t, ht⟩ := hpre
      rw [List.append_assoc] at ht
      have h2 := List.append_cancel_left ht
      simp only [List.singleton_append, List.cons.injEq] at h2
      rw [← h2.1] at hk
      exact hnotin hk
  · apply herr c1
    rw [hsv]
    exact hpnf hE c1 hc1
  · apply herr c1
    rw [hsv]
    unfold processor.syncChildren
    rcases childrenPhase_run sys (sys.processors id)
      (ProcessorRef.syncAndValidate sys (processor.syncAndValidate sys)) loc e a p w with
      ⟨hE2, _⟩ | ⟨_, hR⟩
    · rw [hE] at hE2
      cases hE2
    · rw [hR, hentries]
      rcases childLoop_append sys (sys.processors id)
        (ProcessorRef.syncAndValidate sys (processor.syncAndValidate sys)) loc a p pre
        ((tk, ek, x) :: post) (sys.ops.Copy e) w with ⟨c2, h1, _⟩ | ⟨_, h2⟩
      · rw [hc1] at h1
        cases h1
      · rw [h2]
        exact hc1

/-- C5, counterexample: the second sub-entity has no processor, yet Process returns the error
of the first one, whose validation fails before the second is looked at. -/
theorem unresolved_sub_entity_counterexample :
    isNilProcessor ((demo.processors 0).GetProcessorFunc (some (.mk 3 0 []))) = true
      ∧ mixedOrder.child "items" "2" = some (.mk 3 0 [])
      ∧ (processor.Process demo 0 [] mixedOrder "ship" 0 0).res
          = .val (mixedOrder, some ErrorInvalidState)
      ∧ (processor.Process demo 0 [] mixedOrder "ship" 0 0).res
          ≠ .val (mixedOrder, some ErrorProcessorNotFound) := by
  refine ⟨by decide, by decide, by decide, by decide⟩

/-- C5, example: the order has the line item "1" and the sub-entity "2", which has no
processor; the line item is processed and folded back without error, and Process returns the
order with ErrorProcessorNotFound. -/
theorem unresolved_sub_entity_stops_process_witness :
    mixedOrder.WF
      ∧ entries mixedOrder.SubEntities
          = [("items", "1", .mk 2 5 [])] ++ ("items", "2", .mk 3 0 []) :: []
      ∧ isNilProcessor ((demo.processors 0).GetProcessorFunc (some (.mk 3 0 []))) = true
      ∧ (childLoop demo (demo.processors 0)
            (ProcessorRef.syncAndValidate demo (processor.syncAndValidate demo)) [] "approve" 0
            [("items", "1", .mk 2 5 [])] (demo.ops.Copy mixedOrder) 0).res
          = .val (mixedOrder, none)
      ∧ (processor.Process demo 0 [] mixedOrder "approve" 0 0).res
          = .val (mixedOrder, some ErrorProcessorNotFound) :=
  have hloop : (childLoop demo (demo.processors 0)
      (ProcessorRef.syncAndValidate demo (processor.syncAndValidate demo)) [] "approve" 0
      [("items", "1", .mk 2 5 [])] (demo.ops.Copy mixedOrder) 0).res
        = .val (mixedOrder, none) := by decide
  ⟨by simp [mixedOrder, Entity.WF, Entity.WFTypes, Entity.WFEnts, keys], by decide, by decide,
    hloop,
    (unresolved_sub_entity_stops_process demo 0 [] mixedOrder "approve" 0 0
      [("items", "1", .mk 2 5 [])] [] "items" "2" (.mk 3 0 [])
      (by simp [mixedOrder, Entity.WF, Entity.WFTypes, Entity.WFEnts, keys]) (by decide)
      (by decide)).2.2.1 (by decide) mixedOrder hloop⟩
/-! ## The reconciliation of `save` is one loop -/

theorem eng_pure_bind {α β : Type} (a : α) (f : α → Eng W β) : (pure a >>= f) = f a := rfl

theorem eng_bind_congr {α β : Type} (x : Eng W α) (f g : α → Eng W β) (h : ∀ a, f a = g a) :
    x >>= f = x >>= g := by
  have : f = g := funext h
  rw [this]

theorem andThen_pure_err (c : Option Entity) (err : GoError)
    (next : Option Entity → Eng W (Option Entity × Option GoError)) :
    andThen (pure (c, some err)) next = pure (c, some err) := rfl

theorem andThen_pure_ok (c : Option Entity)
    (next : Option Entity → Eng W (Option Entity × Option GoError)) :
    andThen (pure (c, none)) next = next c := rfl

theorem andThen_bind {α : Type} (x : Eng W α) (f : α → Eng W (Option Entity × Option GoError))
    (next : Option Entity → Eng W (Option Entity × Option GoError)) :
    andThen (x >>= f) next = x >>= fun a => andThen (f a) next := by
  unfold andThen
  rw [eng_bind_assoc]

theorem andThen_ite (b : Bool) (x y : Eng W (Option Entity × Option GoError))
    (next : Option Entity → Eng W (Option Entity × Option GoError)) :
    andThen (if b = true then x else y) next
      = if b = true then andThen x next else andThen y next := by
  cases b <;> rfl

/-- Case 2 of `save` is the loop over its calls. -/
theorem saveNewOnly_eq_jobLoop (sys : System W) (cfg : ProcessorConfig W)
    (sub : ProcessorRef → Path → Option Entity → Option Entity →
      Eng W (Option Entity × Option GoError))
    (loc : Path) (tk : String) (mn : List (String × Entity)) (c : Option Entity)
    (next : Option Entity → Eng W (Option Entity × Option GoError)) :
    andThen (saveNewOnly sys cfg sub loc tk mn c) next
      = jobLoop sys cfg sub loc (mn.map (fun ke => (tk, ke.1, none, some ke.2))) c next := by
  induction mn generalizing c with
  | nil => rfl
  | cons kx rest ih =>
    obtain ⟨k, x⟩ := kx
    simp only [saveNewOnly, List.map_cons, jobLoop, jobStep, jobProcessor, Option.isSome_none,
      Bool.false_eq_true, if_false, Option.isSome_some]
    rw [andThen_ite]
    congr 1
    rw [andThen_bind]
    apply eng_bind_congr
    intro r
    obtain ⟨v, err⟩ := r
    cases err with
    | some err => rfl
    | none =>
      cases v with
      | none => exact ih c
      | some s =>
        simp only []
        rw [andThen_bind]
        apply eng_bind_congr
        intro u
        obtain ⟨u1, uerr⟩ := u
        cases uerr with
        | some e2 => rfl
        | none => exact ih u1

/-- Case 1 of `save` is the loop over its calls. -/
theorem saveOldOnly_eq_jobLoop (sys : System W) (cfg : ProcessorConfig W)
    (sub : ProcessorRef → Path → Option Entity → Option Entity →
      Eng W (Option Entity × Option GoError))
    (loc : Path) (tk : String) (mo : List (String × Entity)) (c : Option Entity)
    (next : Option Entity → Eng W (Option Entity × Option GoError)) :
    (saveOldOnly cfg sub loc tk mo >>= fun err =>
        match err with
        | some err => pure (c, some err)
        | none => next c)
      = jobLoop sys cfg sub loc (mo.map (fun ke => (tk, ke.1, some ke.2, none))) c next := by
  induction mo with
  | nil => rfl
  | cons kx rest ih =>
    obtain ⟨k, x⟩ := kx
    simp only [saveOldOnly, List.map_cons, jobLoop, jobStep, jobProcessor, Option.isSome_none,
      Bool.false_eq_true, if_false, Option.isSome_some, if_true]
    by_cases hnil : isNilProcessor (cfg.GetProcessorFunc (some x)) = true
    · simp only [hnil, if_true]
      rfl
    · have hnil2 : isNilProcessor (cfg.GetProcessorFunc (some x)) = false := by simpa using hnil
      simp only [hnil2, Bool.false_eq_true, if_false]
      rw [eng_bind_assoc]
      apply eng_bind_congr
      intro r
      obtain ⟨v, err⟩ := r
      cases err with
      | some err => rfl
      | none => exact ih

/-- Case 3 of `save` is the loop over its calls. -/
theorem saveBoth_eq_jobLoop (sys : System W) (cfg : ProcessorConfig W)
    (sub : ProcessorRef → Path → Option Entity → Option Entity →
      Eng W (Option Entity × Option GoError))
    (loc : Path) (tk : String) (mo mn : List (String × Entity)) (l : List String)
    (c : Option Entity) (next : Option Entity → Eng W (Option Entity × Option GoError)) :
    andThen (saveBoth sys cfg sub loc tk mo mn l c) next
      = jobLoop sys cfg sub loc (l.map (fun k => (tk, k, mo.lookup k, mn.lookup k))) c next := by
  induction l generalizing c with
  | nil => rfl
  | cons k rest ih =>
    simp only [saveBoth, List.map_cons, jobLoop, jobStep, jobProcessor]
    rw [andThen_ite]
    congr 1
    rw [andThen_bind]
    apply eng_bind_congr
    intro r
    obtain ⟨v, err⟩ := r
    cases err with
    | some err => rfl
    | none =>
      cases hn : (List.lookup k mn).isSome with
      | false => exact ih c
      | true =>
        cases v with
        | none => exact ih c
        | some s =>
          simp only []
          rw [andThen_bind]
          apply eng_bind_congr
          intro u
          obtain ⟨u1, uerr⟩ := u
          cases uerr with
          | some e2 => rfl
          | none => exact ih u1

theorem jobLoop_append (sys : System W) (cfg : ProcessorConfig W)
    (sub : ProcessorRef → Path → Option Entity → Option Entity →
      Eng W (Option Entity × Option GoError))
    (loc : Path) (l1 l2 : List Job) (c : Option Entity)
    (next : Option Entity → Eng W (Option Entity × Option GoError)) :
    jobLoop sys cfg sub loc (l1 ++ l2) c next
      = jobLoop sys cfg sub loc l1 c (fun c2 => jobLoop sys cfg sub loc l2 c2 next) := by
  induction l1 generalizing c with
  | nil => rfl
  | cons j rest ih =>
    have ih2 : (fun c2 => jobLoop sys cfg sub loc (rest ++ l2) c2 next)
        = fun c2 => jobLoop sys cfg sub loc rest c2
          (fun c3 => jobLoop sys cfg sub loc l2 c3 next) := funext ih
    rw [List.cons_append]
    show jobStep sys cfg sub loc j c (fun c2 => jobLoop sys cfg sub loc (rest ++ l2) c2 next)
      = jobStep sys cfg sub loc j c (fun c2 => jobLoop sys cfg sub loc rest c2
          (fun c3 => jobLoop sys cfg sub loc l2 c3 next))
    rw [ih2]

/-- The loop over the type keys of `save` is the loop over the calls of these type keys. -/
theorem saveTypes_eq_jobLoop (sys : System W) (cfg : ProcessorConfig W)
    (sub : ProcessorRef → Path → Option Entity → Option Entity →
      Eng W (Option Entity × Option GoError))
    (loc : Path) (so sn : List (String × List (String × Entity))) (l : List String)
    (c : Option Entity) :
    saveTypes sys cfg sub loc so sn l c
      = jobLoop sys cfg sub loc (saveJobs so sn l) c done := by
  induction l generalizing c with
  | nil => rfl
  | cons tk rest ih =>
    have ih2 : (fun c2 => saveTypes sys cfg sub loc so sn rest c2)
        = fun c2 => jobLoop sys cfg sub loc (saveJobs so sn rest) c2 done := funext ih
    have hj : saveJobs so sn (tk :: rest) = typeJobs so sn tk ++ saveJobs so sn rest := by
      simp [saveJobs]
    rw [hj, jobLoop_append, ← ih2]
    conv_lhs => unfold saveTypes
    unfold typeJobs
    cases hlo : so.lookup tk with
    | none =>
      cases hln : sn.lookup tk with
      | none => rfl
      | some mn => exact saveNewOnly_eq_jobLoop sys cfg sub loc tk mn c _
    | some mo =>
      cases hln : sn.lookup tk with
      | none => exact saveOldOnly_eq_jobLoop sys cfg sub loc tk mo c _
      | some mn => exact saveBoth_eq_jobLoop sys cfg sub loc tk mo mn _ c _

/-! ## The calls that `save` makes -/

theorem lookup_of_mem_nodup {α : Type} (m : List (String × α)) (h : (keys m).Nodup)
    (k : String) (x : α) (hx : (k, x) ∈ m) : m.lookup k = some x := by
  induction m with
  | nil => simp at hx
  | cons kv rest ih =>
    obtain ⟨k2, v⟩ := kv
    simp only [keys, List.map_cons, List.nodup_cons] at h
    rcases List.mem_cons.1 hx with h1 | h1
    · cases h1
      simp [List.lookup]
    · have hne : k ≠ k2 := by
        intro heq
        subst heq
        exact h.1 (List.mem_map_of_mem Prod.fst h1)
      have : (k == k2) = false := by simpa using hne
      simp only [List.lookup, this]
      exact ih h.2 h1

theorem lookup_isSome_iff {α : Type} (m : List (String × α)) (k : String) :
    (m.lookup k).isSome = true ↔ k ∈ keys m := by
  induction m with
  | nil => simp [keys]
  | cons kv rest ih =>
    obtain ⟨k2, v⟩ := kv
    by_cases hk : k = k2
    · subst hk
      simp [List.lookup, keys]
    · have : (k == k2) = false := by simpa using hk
      simp only [List.lookup, this, keys, List.map_cons, List.mem_cons, hk, false_or]
      exact ih

theorem lookup_eq_none_iff {α : Type} (m : List (String × α)) (k : String) :
    m.lookup k = none ↔ k ∉ keys m := by
  rw [← lookup_isSome_iff]
  cases m.lookup k <;> simp

theorem mem_keys_of_mem {α : Type} (m : List (String × α)) (k : String) (x : α)
    (h : (k, x) ∈ m) : k ∈ keys m :=
  List.mem_map_of_mem Prod.fst h

theorem WFOpt_types (o : Option Entity) (h : WFOpt o) :
    (keys (subEntitiesOf o)).Nodup ∧ Entity.WFTypes (subEntitiesOf o) := by
  cases o with
  | none => simp [subEntitiesOf, keys, Entity.WFTypes]
  | some e => exact (Entity.WF_iff e).1 h

/-- The calls of one type key: the pointers are the children at the pair of keys, one of
them is non-nil, and every pair of keys of that type that has a child is called. -/
theorem typeJobs_spec (so sn : List (String × List (String × Entity)))
    (hso : Entity.WFTypes so) (hsn : Entity.WFTypes sn) (tk : String) :
    (∀ j ∈ typeJobs so sn tk, j.1 = tk ∧ j.2.2.1 = lookup2 so tk j.2.1
        ∧ j.2.2.2 = lookup2 sn tk j.2.1 ∧ (j.2.2.1.isSome = true ∨ j.2.2.2.isSome = true))
      ∧ (∀ ek, ((lookup2 so tk ek).isSome = true ∨ (lookup2 sn tk ek).isSome = true) →
          (tk, ek, lookup2 so tk ek, lookup2 sn tk ek) ∈ typeJobs so sn tk)
      ∧ ((typeJobs so sn tk).map Job.key).Nodup := by
  unfold typeJobs lookup2
  cases hlo : so.lookup tk with
  | none =>
    cases hln : sn.lookup tk with
    | none => simp
    | some mn =>
      have hmn := WFTypes_mem sn hsn tk mn (lookup_mem _ _ _ hln)
      refine ⟨?_, ?_, ?_⟩
      · intro j hj
        simp only [List.mem_map] at hj
        obtain ⟨ke, hke, rfl⟩ := hj
        simp only [Option.none_bind, Option.some_bind, Option.isSome_some, or_true, and_true,
          true_and]
        exact (lookup_of_mem_nodup mn hmn.1 ke.1 ke.2 hke).symm
      · intro ek hek
        simp only [Option.none_bind, Option.some_bind, Option.isSome_none, Bool.false_eq_true,
          false_or] at hek ⊢
        obtain ⟨x, hx⟩ := Option.isSome_iff_exists.1 hek
        simp only [List.mem_map]
        exact ⟨(ek, x), lookup_mem _ _ _ hx, by simp [hx]⟩
      · rw [List.map_map]
        have : (Job.key ∘ fun ke : String × Entity => ((tk, ke.1, none, some ke.2) : Job))
            = (fun k => (tk, k)) ∘ Prod.fst := by
          funext ke
          rfl
        rw [this, ← List.map_map]
        exact List.Nodup.map (fun a b hab => (Prod.mk.inj hab).2) hmn.1
  | some mo =>
    have hmo := WFTypes_mem so hso tk mo (lookup_mem _ _ _ hlo)
    cases hln : sn.lookup tk with
    | none =>
      refine ⟨?_, ?_, ?_⟩
      · intro j hj
        simp only [List.mem_map] at hj
        obtain ⟨ke, hke, rfl⟩ := hj
        simp only [Option.none_bind, Option.some_bind, Option.isSome_some, true_or, and_true,
          true_and]
        exact (lookup_of_mem_nodup mo hmo.1 ke.1 ke.2 hke).symm
      · intro ek hek
        simp only [Option.none_bind, Option.some_bind, Option.isSome_none, Bool.false_eq_true,
          or_false] at hek ⊢
        obtain ⟨x, hx⟩ := Option.isSome_iff_exists.1 hek
        simp only [List.mem_map]
        exact ⟨(ek, x), lookup_mem _ _ _ hx, by simp [hx]⟩
      · rw [List.map_map]
        have : (Job.key ∘ fun ke : String × Entity => ((tk, ke.1, some ke.2, none) : Job))
            = (fun k => (tk, k)) ∘ Prod.fst := by
          funext ke
          rfl
        rw [this, ← List.map_map]
        exact List.Nodup.map (fun a b hab => (Prod.mk.inj hab).2) hmo.1
    | some mn =>
      have hmn := WFTypes_mem sn hsn tk mn (lookup_mem _ _ _ hln)
      refine ⟨?_, ?_, ?_⟩
      · intro j hj
        simp only [List.mem_map] at hj
        obtain ⟨k, hk, rfl⟩ := hj
        simp only [Option.some_bind, true_and]
        rw [List.mem_union_iff] at hk
        rw [lookup_isSome_iff, lookup_isSome_iff]
        exact hk
      · intro ek hek
        simp only [Option.some_bind] at hek ⊢
        rw [lookup_isSome_iff, lookup_isSome_iff] at hek
        simp only [List.mem_map]
        exact ⟨ek, List.mem_union_iff.2 hek, rfl⟩
      · rw [List.map_map]
        have : (Job.key ∘ fun k : String => ((tk, k, mo.lookup k, mn.lookup k) : Job))
            = fun k => (tk, k) := by
          funext k
          rfl
        rw [this]
        exact List.Nodup.map (fun a b hab => (Prod.mk.inj hab).2) (List.Nodup.union _ hmn.1)

theorem lookup2_isSome_type (s : List (String × List (String × Entity))) (tk ek : String)
    (h : (lookup2 s tk ek).isSome = true) : tk ∈ keys s := by
  unfold lookup2 at h
  cases hl : s.lookup tk with
  | none => rw [hl] at h; simp at h
  | some m => exact (lookup_isSome_iff s tk).1 (by rw [hl]; rfl)

/-- The calls that `save(old, new)` makes on well-formed entities: one for each pair of keys
that has a child in the old or in the new entity, and no other, on the two children. -/
theorem jobsOf_spec (o n : Option Entity) (ho : WFOpt o) (hn : WFOpt n) :
    (∀ j ∈ jobsOf o n, j.2.2.1 = childOf o j.1 j.2.1 ∧ j.2.2.2 = childOf n j.1 j.2.1
        ∧ (j.2.2.1.isSome = true ∨ j.2.2.2.isSome = true))
      ∧ (∀ tk ek, ((childOf o tk ek).isSome = true ∨ (childOf n tk ek).isSome = true) →
          (tk, ek, childOf o tk ek, childOf n tk ek) ∈ jobsOf o n)
      ∧ ((jobsOf o n).map Job.key).Nodup := by
  obtain ⟨hko, hto⟩ := WFOpt_types o ho
  obtain ⟨hkn, htn⟩ := WFOpt_types n hn
  unfold jobsOf saveJobs childOf
  refine ⟨?_, ?_, ?_⟩
  · intro j hj
    obtain ⟨tk, _, hj2⟩ := List.mem_flatMap.1 hj
    obtain ⟨h1, h2, h3, h4⟩ := (typeJobs_spec _ _ hto htn tk).1 j hj2
    rw [h1]
    exact ⟨h2, h3, h4⟩
  · intro tk ek hek
    refine List.mem_flatMap.2 ⟨tk, ?_, (typeJobs_spec _ _ hto htn tk).2.1 ek hek⟩
    rw [List.mem_union_iff]
    exact hek.imp (lookup2_isSome_type _ tk ek) (lookup2_isSome_type _ tk ek)
  · rw [List.map_flatMap, List.nodup_flatMap]
    refine ⟨fun tk _ => (typeJobs_spec _ _ hto htn tk).2.2, ?_⟩
    have hnd : (keys (subEntitiesOf o) ∪ keys (subEntitiesOf n)).Nodup := List.Nodup.union _ hkn
    refine List.Pairwise.imp_of_mem ?_ hnd
    intro t1 t2 _ _ hne k hk1 hk2
    simp only [List.mem_map] at hk1 hk2
    obtain ⟨j1, hj1, rfl⟩ := hk1
    obtain ⟨j2, hj2, hk⟩ := hk2
    have e1 := ((typeJobs_spec _ _ hto htn t1).1 j1 hj1).1
    have e2 := ((typeJobs_spec _ _ hto htn t2).1 j2 hj2).1
    apply hne
    rw [← e1, ← e2]
    exact (congrArg Prod.fst hk).symm

/-- One of the two pointers of a call of `save` is non-nil, well-formed maps or not. -/
theorem typeJobs_isSome (so sn : List (String × List (String × Entity))) (tk : String) :
    ∀ j ∈ typeJobs so sn tk, j.2.2.1.isSome = true ∨ j.2.2.2.isSome = true := by
  unfold typeJobs
  cases so.lookup tk with
  | none =>
    cases sn.lookup tk with
    | none => simp
    | some mn =>
      intro j hj
      simp only [List.mem_map] at hj
      obtain ⟨ke, _, rfl⟩ := hj
      exact Or.inr rfl
  | some mo =>
    cases sn.lookup tk with
    | none =>
      intro j hj
      simp only [List.mem_map] at hj
      obtain ⟨ke, _, rfl⟩ := hj
      exact Or.inl rfl
    | some mn =>
      intro j hj
      simp only [List.mem_map] at hj
      obtain ⟨k, hk, rfl⟩ := hj
      rw [List.mem_union_iff] at hk
      simp only []
      rw [lookup_isSome_iff, lookup_isSome_iff]
      exact hk

theorem jobsOf_isSome (o n : Option Entity) :
    ∀ j ∈ jobsOf o n, j.2.2.1.isSome = true ∨ j.2.2.2.isSome = true := by
  intro j hj
  unfold jobsOf saveJobs at hj
  obtain ⟨tk, _, hj2⟩ := List.mem_flatMap.1 hj
  exact typeJobs_isSome _ _ tk j hj2

/-! ## The runs of the reconciliation -/

theorem foldBack_run (sys : System W) (cfg : ProcessorConfig W) (c : Option Entity)
    (tk ek : String) (s : Entity) (w : W) :
    (∃ c0 u, c = some c0 ∧ sys.ops.UpdateSubEntity c0 tk ek (some s) = .ok u
        ∧ cfg.E u.typ = true ∧ foldBack sys cfg c tk ek s w = ⟨.val (some u, none), w, []⟩)
      ∨ (∃ err, foldBack sys cfg c tk ek s w = ⟨.val (c, some err), w, []⟩)
      ∨ foldBack sys cfg c tk ek s w = ⟨.panic, w, []⟩ := by
  unfold foldBack
  cases c with
  | none => exact Or.inr (Or.inr rfl)
  | some c0 =>
    simp only []
    cases hU : sys.ops.UpdateSubEntity c0 tk ek (some s) with
    | error err => exact Or.inr (Or.inl ⟨err, rfl⟩)
    | ok u =>
      simp only [run_assertType_bind]
      by_cases hE : cfg.E u.typ = true
      · simp only [hE, if_true]
        exact Or.inl ⟨c0, u, rfl, hU, hE, rfl⟩
      · simp only [hE, if_false]
        exact Or.inr (Or.inr rfl)

/-- A call of the reconciliation either stops, with a run that is not a success and does not
depend on what follows, or goes on with the new entity folded. -/
theorem jobStep_run (sys : System W) (cfg : ProcessorConfig W)
    (sub : ProcessorRef → Path → Option Entity → Option Entity →
      Eng W (Option Entity × Option GoError))
    (loc : Path) (j : Job) (c : Option Entity) (w : W) :
    (∃ R0 : Run W (Option Entity × Option GoError), (∀ c1, R0.res ≠ .val (c1, none))
        ∧ (R0.trace = [] ∨ R0.trace
            = (sub (jobProcessor cfg j) (loc ++ [(j.1, j.2.1)]) j.2.2.1 j.2.2.2 w).trace)
        ∧ ∀ next, jobStep sys cfg sub loc j c next w = R0)
      ∨ (isNilProcessor (jobProcessor cfg j) = false
        ∧ ∃ v c2, (sub (jobProcessor cfg j) (loc ++ [(j.1, j.2.1)]) j.2.2.1 j.2.2.2 w).res
            = .val (v, none)
          ∧ Folded sys cfg j c v c2
          ∧ ∀ next, jobStep sys cfg sub loc j c next w
            = ⟨(next c2
                  (sub (jobProcessor cfg j) (loc ++ [(j.1, j.2.1)]) j.2.2.1 j.2.2.2 w).world).res,
                (next c2
                  (sub (jobProcessor cfg j) (loc ++ [(j.1, j.2.1)]) j.2.2.1 j.2.2.2
                    w).world).world,
                (sub (jobProcessor cfg j) (loc ++ [(j.1, j.2.1)]) j.2.2.1 j.2.2.2 w).trace
                  ++ (next c2
                    (sub (jobProcessor cfg j) (loc ++ [(j.1, j.2.1)]) j.2.2.1 j.2.2.2
                      w).world).trace⟩) := by
  by_cases hnil : isNilProcessor (jobProcessor cfg j) = true
  · left
    refine ⟨⟨.val (c, some ErrorProcessorNotFound), w, []⟩, by simp, Or.inl rfl, fun next => ?_⟩
    unfold jobStep
    simp only [hnil, if_true]
    rfl
  · have hnil2 : isNilProcessor (jobProcessor cfg j) = false := by simpa using hnil
    have hdef : ∀ next, jobStep sys cfg sub loc j c next
        = (sub (jobProcessor cfg j) (loc ++ [(j.1, j.2.1)]) j.2.2.1 j.2.2.2 >>= fun r =>
          match r.2 with
          | some err => pure (c, some err)
          | none =>
            match j.2.2.2.isSome, r.1 with
            | true, some savedNewSubEntity =>
              foldBack sys cfg c j.1 j.2.1 savedNewSubEntity >>= fun u =>
                match u.2 with
                | some err => pure (u.1, some err)
                | none => next u.1
            | _, _ => next c) := by
      intro next
      unfold jobStep
      simp only [hnil2, Bool.false_eq_true, if_false]
    rcases hS : (sub (jobProcessor cfg j) (loc ++ [(j.1, j.2.1)]) j.2.2.1 j.2.2.2 w).res with
      out | _ | _
    · obtain ⟨v, err⟩ := out
      cases err with
      | some err =>
        left
        refine ⟨⟨.val (c, some err),
          (sub (jobProcessor cfg j) (loc ++ [(j.1, j.2.1)]) j.2.2.1 j.2.2.2 w).world,
          (sub (jobProcessor cfg j) (loc ++ [(j.1, j.2.1)]) j.2.2.1 j.2.2.2 w).trace⟩,
          by simp, Or.inr rfl, fun next => ?_⟩
        rw [hdef, bind_of_val hS]
        simp only [run_pure, List.append_nil]
      | none =>
        cases hn : j.2.2.2.isSome with
        | false =>
          right
          refine ⟨hnil2, v, c, rfl, ?_, fun next => ?_⟩
          · simp only [Folded, hn]
          · rw [hdef, bind_of_val hS]
            simp only [hn]
        | true =>
          cases v with
          | none =>
            right
            refine ⟨hnil2, none, c, rfl, ?_, fun next => ?_⟩
            · simp only [Folded, hn]
            · rw [hdef, bind_of_val hS]
              simp only [hn]
          | some s =>
            rcases foldBack_run sys cfg c j.1 j.2.1 s
              (sub (jobProcessor cfg j) (loc ++ [(j.1, j.2.1)]) j.2.2.1 j.2.2.2 w).world with
              ⟨c0, u, hc, hU, hE, hr⟩ | ⟨err, hr⟩ | hr
            · right
              refine ⟨hnil2, some s, some u, rfl, ?_, fun next => ?_⟩
              · simp only [Folded, hn]
                exact ⟨c0, u, hc, hU, hE, rfl⟩
              · rw [hdef, bind_of_val hS]
                simp only [hn]
                rw [bind_of_val (by rw [hr]), hr]
                simp only [List.nil_append]
            · left
              refine ⟨⟨.val (c, some err),
                (sub (jobProcessor cfg j) (loc ++ [(j.1, j.2.1)]) j.2.2.1 j.2.2.2 w).world,
                (sub (jobProcessor cfg j) (loc ++ [(j.1, j.2.1)]) j.2.2.1 j.2.2.2 w).trace⟩,
                by simp, Or.inr rfl, fun next => ?_⟩
              rw [hdef, bind_of_val hS]
              simp only [hn]
              rw [bind_of_val (by rw [hr]), hr]
              simp only [run_pure, List.append_nil]
            · left
              refine ⟨⟨.panic,
                (sub (jobProcessor cfg j) (loc ++ [(j.1, j.2.1)]) j.2.2.1 j.2.2.2 w).world,
                (sub (jobProcessor cfg j) (loc ++ [(j.1, j.2.1)]) j.2.2.1 j.2.2.2 w).trace⟩,
                by simp, Or.inr rfl, fun next => ?_⟩
              rw [hdef, bind_of_val hS]
              simp only [hn]
              rw [bind_of_panic (by rw [hr]), hr]
              simp only [List.append_nil]
    · left
      refine ⟨⟨.panic,
        (sub (jobProcessor cfg j) (loc ++ [(j.1, j.2.1)]) j.2.2.1 j.2.2.2 w).world,
        (sub (jobProcessor cfg j) (loc ++ [(j.1, j.2.1)]) j.2.2.1 j.2.2.2 w).trace⟩,
        by simp, Or.inr rfl, fun next => ?_⟩
      rw [hdef, bind_of_panic hS]
    · left
      refine ⟨⟨.outOfFuel,
        (sub (jobProcessor cfg j) (loc ++ [(j.1, j.2.1)]) j.2.2.1 j.2.2.2 w).world,
        (sub (jobProcessor cfg j) (loc ++ [(j.1, j.2.1)]) j.2.2.1 j.2.2.2 w).trace⟩,
        by simp, Or.inr rfl, fun next => ?_⟩
      rw [hdef, bind_of_outOfFuel hS]

/-- The reconciliation is the copy of the new entity followed by the loop over the calls. -/
theorem reconcilePhase_eq (sys : System W) (cfg : ProcessorConfig W)
    (sub : ProcessorRef → Path → Option Entity → Option Entity →
      Eng W (Option Entity × Option GoError))
    (loc : Path) (o n : Option Entity) :
    reconcilePhase sys cfg sub loc o n
      = (copyNew sys cfg n >>= fun c => jobLoop sys cfg sub loc (jobsOf o n) c done) := by
  unfold reconcilePhase copyNew jobsOf
  apply eng_bind_congr
  intro c
  exact saveTypes_eq_jobLoop sys cfg sub loc _ _ _ c

theorem copyNew_run (sys : System W) (cfg : ProcessorConfig W) (n : Option Entity) (w : W) :
    (copyNew sys cfg n w = ⟨.panic, w, []⟩ ∧ n.isSome = true)
      ∨ (∃ c, copyNew sys cfg n w = ⟨.val c, w, []⟩ ∧ (c.isSome = n.isSome)
          ∧ ∀ x, n = some x → c = some (sys.ops.Copy x)) := by
  unfold copyNew
  cases n with
  | none => exact Or.inr ⟨none, rfl, rfl, by simp⟩
  | some x =>
    simp only [run_assertType_bind]
    by_cases hE : cfg.E (sys.ops.Copy x).typ = true
    · simp only [hE, if_true]
      exact Or.inr ⟨some (sys.ops.Copy x), rfl, rfl, fun y hy => by cases hy; rfl⟩
    · simp only [hE, if_false]
      exact Or.inl ⟨rfl, rfl⟩

/-- The run of the reconciliation: the copy panics, or it is the run of the loop over the
calls, started with the copy. -/
theorem reconcilePhase_run (sys : System W) (cfg : ProcessorConfig W)
    (sub : ProcessorRef → Path → Option Entity → Option Entity →
      Eng W (Option Entity × Option GoError))
    (loc : Path) (o n : Option Entity) (w : W) :
    (reconcilePhase sys cfg sub loc o n w = ⟨.panic, w, []⟩)
      ∨ (∃ c, (c.isSome = n.isSome) ∧ (∀ x, n = some x → c = some (sys.ops.Copy x))
          ∧ reconcilePhase sys cfg sub loc o n w
            = jobLoop sys cfg sub loc (jobsOf o n) c done w) := by
  rw [reconcilePhase_eq]
  rcases copyNew_run sys cfg n w with ⟨h, _⟩ | ⟨c, h, h1, h2⟩
  · left
    rw [bind_of_panic (by rw [h]), h]
  · right
    refine ⟨c, h1, h2, ?_⟩
    rw [bind_of_val (by rw [h]), h]
    simp only [List.nil_append]

/-- The events of the loop over the calls are those of the calls into the sub-processors and
of what follows. -/
theorem emits_jobLoop (P : Event → Prop) (sys : System W) (cfg : ProcessorConfig W)
    (sub : ProcessorRef → Path → Option Entity → Option Entity →
      Eng W (Option Entity × Option GoError))
    (loc : Path) (jobs : List Job)
    (next : Option Entity → Eng W (Option Entity × Option GoError))
    (hsub : ∀ j ∈ jobs, ∀ ref, Emits P (sub ref (loc ++ [(j.1, j.2.1)]) j.2.2.1 j.2.2.2))
    (hnext : ∀ c, Emits P (next c)) (c : Option Entity) :
    Emits P (jobLoop sys cfg sub loc jobs c next) := by
  induction jobs generalizing c with
  | nil => exact hnext c
  | cons j rest ih =>
    intro w ev hev
    have hj := hsub j (List.mem_cons_self _ _) (jobProcessor cfg j) w
    have ih2 := ih (fun j2 hj2 => hsub j2 (List.mem_cons_of_mem _ hj2))
    change ev ∈ (jobStep sys cfg sub loc j c
      (fun c2 => jobLoop sys cfg sub loc rest c2 next) w).trace at hev
    rcases jobStep_run sys cfg sub loc j c w with ⟨R0, _, ht, hall⟩ | ⟨_, v, c2, _, _, hall⟩
    · rw [hall] at hev
      rcases ht with ht | ht
      · rw [ht] at hev
        simp at hev
      · rw [ht] at hev
        exact hj ev hev
    · rw [hall] at hev
      rcases List.mem_append.1 hev with h | h
      · exact hj ev h
      · exact ih2 c2 _ ev h

theorem folded_isSome (sys : System W) (cfg : ProcessorConfig W) (j : Job)
    (c v c2 : Option Entity) (h : Folded sys cfg j c v c2) (hc : c.isSome = true) :
    c2.isSome = true := by
  unfold Folded at h
  split at h
  · obtain ⟨_, u, _, _, _, h2⟩ := h
    rw [h2]
    rfl
  · rw [h]
    exact hc

/-- The loop over the calls, when it succeeds, returns a new entity if it started with one. -/
theorem jobLoop_isSome (sys : System W) (cfg : ProcessorConfig W)
    (sub : ProcessorRef → Path → Option Entity → Option Entity →
      Eng W (Option Entity × Option GoError))
    (loc : Path) (jobs : List Job) (c c2 : Option Entity) (w : W)
    (h : (jobLoop sys cfg sub loc jobs c done w).res = .val (c2, none))
    (hc : c.isSome = true) : c2.isSome = true := by
  induction jobs generalizing c w with
  | nil =>
    simp only [jobLoop, done, pure_res, Ctl.val.injEq, Prod.mk.injEq, and_true] at h
    rw [← h]
    exact hc
  | cons j rest ih =>
    change (jobStep sys cfg sub loc j c
      (fun c3 => jobLoop sys cfg sub loc rest c3 done) w).res = _ at h
    rcases jobStep_run sys cfg sub loc j c w with ⟨R0, hne, _, hall⟩ | ⟨_, v, c3, _, hf, hall⟩
    · rw [hall] at h
      exact absurd h (hne c2)
    · rw [hall] at h
      exact ih c3 _ h (folded_isSome sys cfg j c v c3 hf hc)

/-! ## The arguments of Repository.Save -/

theorem saveBody_both_nil (sys : System W) (cfg : ProcessorConfig W)
    (sub : ProcessorRef → Path → Option Entity → Option Entity →
      Eng W (Option Entity × Option GoError))
    (loc : Path) (w : W) :
    saveBody sys cfg sub loc none none w
      = ⟨.val (none, none), w, [.processor loc (.save none none)]⟩ := rfl

theorem saveBody_of_reconcile (sys : System W) (cfg : ProcessorConfig W)
    (sub : ProcessorRef → Path → Option Entity → Option Entity →
      Eng W (Option Entity × Option GoError))
    (loc : Path) (o n : Option Entity) (w : W) (c : Option Entity)
    (hon : o.isSome = true ∨ n.isSome = true)
    (h : (reconcilePhase sys cfg sub loc o n w).res = .val (c, none)) :
    saveBody sys cfg sub loc o n w
      = ⟨(persistPhase cfg loc o n c (reconcilePhase sys cfg sub loc o n w).world).res,
          (persistPhase cfg loc o n c (reconcilePhase sys cfg sub loc o n w).world).world,
          Event.processor loc (.save o n)
            :: ((reconcilePhase sys cfg sub loc o n w).trace
              ++ (persistPhase cfg loc o n c
                  (reconcilePhase sys cfg sub loc o n w).world).trace)⟩ := by
  have hb : (o.isNone && n.isNone) = false := by
    cases o <;> cases n <;> simp_all
  unfold saveBody
  rw [run_emit_bind]
  simp only [hb, Bool.false_eq_true, if_false]
  rw [bind_of_val h]

theorem saveBody_of_reconcile_failed (sys : System W) (cfg : ProcessorConfig W)
    (sub : ProcessorRef → Path → Option Entity → Option Entity →
      Eng W (Option Entity × Option GoError))
    (loc : Path) (o n : Option Entity) (w : W)
    (hon : o.isSome = true ∨ n.isSome = true)
    (h : ∀ c, (reconcilePhase sys cfg sub loc o n w).res ≠ .val (c, none)) :
    (saveBody sys cfg sub loc o n w).trace
        = Event.processor loc (.save o n) :: (reconcilePhase sys cfg sub loc o n w).trace
      ∧ (saveBody sys cfg sub loc o n w).world = (reconcilePhase sys cfg sub loc o n w).world
      ∧ (∀ c, (saveBody sys cfg sub loc o n w).res ≠ .val (c, none))
      ∧ ∀ c err, (reconcilePhase sys cfg sub loc o n w).res = .val (c, some err) →
          (saveBody sys cfg sub loc o n w).res = .val (none, some err) := by
  have hb : (o.isNone && n.isNone) = false := by
    cases o <;> cases n <;> simp_all
  unfold saveBody
  rw [run_emit_bind]
  simp only [hb, Bool.false_eq_true, if_false]
  rcases hr : (reconcilePhase sys cfg sub loc o n w).res with ⟨c, err⟩ | _ | _
  · cases err with
    | none => exact absurd hr (h c)
    | some err =>
      rw [bind_of_val hr]
      refine ⟨by simp only [pure_trace, List.append_nil], rfl, by simp [pure_res], ?_⟩
      intro c2 err2 h2
      simp only [Ctl.val.injEq, Prod.mk.injEq, Option.some.injEq] at h2
      rw [← h2.2]
      rfl
  · rw [bind_of_panic hr]
    exact ⟨rfl, rfl, by simp, by simp⟩
  · rw [bind_of_outOfFuel hr]
    exact ⟨rfl, rfl, by simp, by simp⟩

/-- The run of the last part of `save`. -/
theorem persistPhase_run (cfg : ProcessorConfig W) (loc : Path) (o n c : Option Entity)
    (w : W) :
    (∃ repository, cfg.Repository = some repository
        ∧ (persistPhase cfg loc o n c w).trace
          = [.repositorySave loc o (if n.isSome = true then c else none)]
        ∧ (persistPhase cfg loc o n c w).world
          = (repository.Save o (if n.isSome = true then c else none) w).2
        ∧ (∀ err, (repository.Save o (if n.isSome = true then c else none) w).1.2 = some err →
            (persistPhase cfg loc o n c w).res = .val (none, some err))
        ∧ ((repository.Save o (if n.isSome = true then c else none) w).1.2 = none →
            (persistPhase cfg loc o n c w).res
              = .val (repository.Save o (if n.isSome = true then c else none) w).1))
      ∨ (cfg.Repository = none
        ∧ persistPhase cfg loc o n c w
          = ⟨.val (if n.isNone = true then none else c, none), w, []⟩) := by
  unfold persistPhase
  cases hrep : cfg.Repository with
  | none =>
    right
    refine ⟨rfl, ?_⟩
    cases n <;> rfl
  | some repository =>
    left
    refine ⟨repository, rfl, ?_⟩
    simp only [run_emit_bind, run_invoke_bind]
    generalize repository.Save o (if n.isSome = true then c else none) w = d
    obtain ⟨⟨s, err⟩, w2⟩ := d
    cases err with
    | none => exact ⟨rfl, rfl, by simp, fun _ => rfl⟩
    | some err =>
      refine ⟨rfl, rfl, ?_, by simp⟩
      intro err2 h2
      simp only [Option.some.injEq] at h2
      rw [← h2]
      rfl

theorem lookup2_mem (s : List (String × List (String × Entity))) (tk ek : String) (x : Entity)
    (h : lookup2 s tk ek = some x) : ∃ m, (tk, m) ∈ s ∧ (ek, x) ∈ m := by
  unfold lookup2 at h
  cases hl : s.lookup tk with
  | none => rw [hl] at h; simp at h
  | some m =>
    rw [hl] at h
    exact ⟨m, lookup_mem _ _ _ hl, lookup_mem _ _ _ h⟩

/-- The children of a well-formed entity are well formed. -/
theorem WFOpt_childOf (o : Option Entity) (h : WFOpt o) (tk ek : String) :
    WFOpt (childOf o tk ek) := by
  cases hc : childOf o tk ek with
  | none => trivial
  | some x =>
    obtain ⟨m, hm, hx⟩ := lookup2_mem _ tk ek x hc
    exact WFEnts_mem m (WFTypes_mem _ (WFOpt_types o h).2 tk m hm).2 ek x hx

theorem emits_wrapper_save_same (P : Event → Prop) (E : Nat → Bool)
    (f : Path → Option Entity → Option Entity → Eng W (Option Entity × Option GoError))
    (loc : Path) (o n : Option Entity) (hf : Emits P (f loc o n)) :
    Emits P (genericProcessorWrapper.save E f loc o n) := by
  unfold genericProcessorWrapper.save
  rcases narrowPtr_cases E o with h1 | h1
  · rw [h1]
    exact emits_pure P _
  · rw [h1]
    rcases narrowPtr_cases E n with h2 | h2
    · rw [h2]
      exact emits_pure P _
    · rw [h2]
      apply emits_bind P hf
      intro r
      split
      · exact emits_pure P _
      · split
        · exact emits_pure P _
        · exact emits_pure P _

/-- What holds of the calls of `Repository.Save` below a sub-entity holds of them below the
entity. -/
theorem saveArgsOK_lift (loc : Path) (o n : Option Entity) (j : Job) (ev : Event)
    (hj : j ∈ jobsOf o n)
    (h : SaveArgsOK (loc ++ [(j.1, j.2.1)]) j.2.2.1 j.2.2.2 ev) : SaveArgsOK loc o n ev := by
  intro l x y hev
  obtain ⟨h1, h2⟩ := h l x y hev
  refine ⟨h1, fun ho hn => ?_⟩
  obtain ⟨e1, e2, _⟩ := (jobsOf_spec o n ho hn).1 j hj
  have ho2 : WFOpt j.2.2.1 := by
    rw [e1]
    exact WFOpt_childOf o ho _ _
  have hn2 : WFOpt j.2.2.2 := by
    rw [e2]
    exact WFOpt_childOf n hn _ _
  obtain ⟨rest, hl, hx, hy⟩ := h2 ho2 hn2
  refine ⟨(j.1, j.2.1) :: rest, by simp [hl], ?_, ?_⟩
  · rw [hx, e1]
    rfl
  · rw [hy, e2]
    rfl

theorem saveArgsOK_of_not_save (loc : Path) (o n : Option Entity) (ev : Event)
    (h : ∀ l x y, ev ≠ .repositorySave l x y) : SaveArgsOK loc o n ev :=
  fun l x y hev => absurd hev (h l x y)

/-- Every call of `Repository.Save` in the run of a `save`, at any depth, has a non-nil
argument and fits the two trees. -/
theorem emits_saveFuel_args (sys : System W) (fuel : Nat) :
    ∀ (id : Nat) (loc : Path) (o n : Option Entity),
      Emits (SaveArgsOK loc o n) (saveFuel sys fuel id loc o n) := by
  induction fuel with
  | zero =>
    intro id loc o n
    exact emits_outOfFuel _
  | succ m ih =>
    intro id loc o n w ev hev
    simp only [saveFuel] at hev
    by_cases hon : o.isSome = true ∨ n.isSome = true
    · have hrec : ∀ ev ∈ (reconcilePhase sys (sys.processors id)
          (ProcessorRef.save sys (saveFuel sys m)) loc o n w).trace, SaveArgsOK loc o n ev := by
        intro ev2 hev2
        rcases reconcilePhase_run sys (sys.processors id)
          (ProcessorRef.save sys (saveFuel sys m)) loc o n w with hR | ⟨c, _, _, hR⟩
        · rw [hR] at hev2
          simp at hev2
        · rw [hR] at hev2
          refine emits_jobLoop (SaveArgsOK loc o n) sys _ _ loc (jobsOf o n) done ?_ ?_ c w
            ev2 hev2
          · intro j hj ref
            unfold ProcessorRef.save
            apply emits_traced
            · exact saveArgsOK_of_not_save _ _ _ _ (by intro l x y h; cases h)
            · intro v err
              exact saveArgsOK_of_not_save _ _ _ _ (by intro l x y h; cases h)
            · split
              · apply emits_wrapper_save_same
                exact emits_mono (fun ev3 h3 => saveArgsOK_lift loc o n j ev3 hj h3)
                  (ih _ _ _ _)
              · exact emits_goPanic _
          · intro c2
            exact emits_pure _ _
      by_cases hs : ∃ c, (reconcilePhase sys (sys.processors id)
          (ProcessorRef.save sys (saveFuel sys m)) loc o n w).res = .val (c, none)
      · obtain ⟨c, hc⟩ := hs
        rw [saveBody_of_reconcile sys _ _ loc o n w c hon hc] at hev
        rcases List.mem_cons.1 hev with h | h
        · subst h
          exact saveArgsOK_of_not_save _ _ _ _ (by intro l x y h; cases h)
        rcases List.mem_append.1 h with h | h
        · exact hrec ev h
        · have hsome : n.isSome = true → c.isSome = true := by
            intro hn
            rcases reconcilePhase_run sys (sys.processors id)
              (ProcessorRef.save sys (saveFuel sys m)) loc o n w with hR | ⟨c0, hc0, _, hR⟩
            · rw [hR] at hc
              simp at hc
            · rw [hR] at hc
              exact jobLoop_isSome sys _ _ loc _ c0 c w hc (by rw [hc0]; exact hn)
          rcases persistPhase_run (sys.processors id) loc o n c
            (reconcilePhase sys (sys.processors id)
              (ProcessorRef.save sys (saveFuel sys m)) loc o n w).world with
            ⟨_, _, ht, _⟩ | ⟨_, hP⟩
          · rw [ht] at h
            simp only [List.mem_singleton] at h
            subst h
            intro l x y hxy
            simp only [Event.repositorySave.injEq] at hxy
            obtain ⟨rfl, rfl, rfl⟩ := hxy
            have hy : (if n.isSome = true then c else none).isSome = n.isSome := by
              cases hn : n.isSome with
              | false => simp
              | true =>
                simp only [if_true]
                exact hsome hn
            refine ⟨?_, fun _ _ => ⟨[], by simp, rfl, hy⟩⟩
            rw [hy]
            exact hon
          · rw [hP] at h
            simp at h
      · have hfail := saveBody_of_reconcile_failed sys (sys.processors id)
          (ProcessorRef.save sys (saveFuel sys m)) loc o n w hon (fun c h => hs ⟨c, h⟩)
        rw [hfail.1] at hev
        rcases List.mem_cons.1 hev with h | h
        · subst h
          exact saveArgsOK_of_not_save _ _ _ _ (by intro l x y h; cases h)
        · exact hrec ev h
    · have ho : o = none := by
        cases o with
        | none => rfl
        | some x => exact absurd (Or.inl rfl) hon
      have hn : n = none := by
        cases n with
        | none => rfl
        | some x => exact absurd (Or.inr rfl) hon
      subst ho
      subst hn
      rw [saveBody_both_nil] at hev
      simp only [List.mem_singleton] at hev
      subst hev
      exact saveArgsOK_of_not_save _ _ _ _ (by intro l x y h; cases h)

/-- Where an event of the run of `Process` comes from. -/
theorem process_trace_mem (sys : System W) (id : Nat) (loc : Path) (e : Entity) (a : Action)
    (p : ActionParams) (w : W) (ev : Event)
    (hev : ev ∈ (processor.Process sys id loc e a p w).trace) :
    ev = .processor loc (.Process e a p)
      ∨ ev ∈ (processor.syncAndValidate sys id loc e a p w).trace
      ∨ ∃ synced, (processor.syncAndValidate sys id loc e a p w).res = .val (synced, none)
          ∧ (ev ∈ (processor.act sys id loc synced a p
                (processor.syncAndValidate sys id loc e a p w).world).trace
            ∨ ∃ changed, (processor.act sys id loc synced a p
                  (processor.syncAndValidate sys id loc e a p w).world).res
                  = .val (changed, none)
                ∧ ev ∈ (processor.save sys id loc (some e) (some changed)
                    (processor.act sys id loc synced a p
                      (processor.syncAndValidate sys id loc e a p w).world).world).trace) := by
  unfold processor.Process at hev
  rw [run_emit_bind] at hev
  rcases List.mem_cons.1 hev with h | h
  · exact Or.inl h
  right
  rcases hsv : (processor.syncAndValidate sys id loc e a p w).res with ⟨synced, err⟩ | _ | _
  · rw [bind_of_val hsv] at h
    rcases List.mem_append.1 h with h | h
    · exact Or.inl h
    cases err with
    | some err => simp [pure_trace] at h
    | none =>
      right
      refine ⟨synced, rfl, ?_⟩
      simp only [] at h
      rcases hact : (processor.act sys id loc synced a p
          (processor.syncAndValidate sys id loc e a p w).world).res with ⟨changed, err⟩ | _ | _
      · rw [bind_of_val hact] at h
        rcases List.mem_append.1 h with h | h
        · exact Or.inl h
        cases err with
        | some err => simp [pure_trace] at h
        | none =>
          right
          refine ⟨changed, rfl, ?_⟩
          simp only [] at h
          have hpre := bind_trace_prefix (processor.save sys id loc (some e) (some changed))
            (fun saved => match saved.2 with
              | some err => (pure (changed, some err) : Eng W (Entity × Option GoError))
              | none =>
                match saved.1 with
                | none => pure (changed, none)
                | some savedEntity => pure (savedEntity, none))
            (processor.act sys id loc synced a p
              (processor.syncAndValidate sys id loc e a p w).world).world
          rcases hsave : (processor.save sys id loc (some e) (some changed)
              (processor.act sys id loc synced a p
                (processor.syncAndValidate sys id loc e a p w).world).world).res with
            ⟨sv, serr⟩ | _ | _
          · rw [bind_of_val hsave] at h
            rcases List.mem_append.1 h with h | h
            · exact h
            · cases serr with
              | some err => simp [pure_trace] at h
              | none =>
                cases sv with
                | none => simp [pure_trace] at h
                | some s => simp [pure_trace] at h
          · rw [bind_of_panic hsave] at h
            exact h
          · rw [bind_of_outOfFuel hsave] at h
            exact h
      · rw [bind_of_panic hact] at h
        exact Or.inl h
      · rw [bind_of_outOfFuel hact] at h
        exact Or.inl h
  · rw [bind_of_panic hsv] at h
    exact Or.inl h
  · rw [bind_of_outOfFuel hsv] at h
    exact Or.inl h

theorem inAct_not_save (ev : Event) (h : ev.inAct = true) (l : Path) (x y : Option Entity) :
    ev ≠ .repositorySave l x y := by
  intro h2
  rw [h2] at h
  simp [Event.inAct] at h

theorem inSyncAndValidate_not_save (ev : Event) (h : ev.inSyncAndValidate = true) (l : Path)
    (x y : Option Entity) : ev ≠ .repositorySave l x y := by
  intro h2
  rw [h2] at h
  simp [Event.inSyncAndValidate] at h

/-- C9: every call of Repository.Save made by a `save`, at any depth, has a non-nil old or
a non-nil new argument; so has every such call in a run of Process, which then comes from
the save of the original entity and the result of act (two non-nil pointers); the maps being
well formed, the call concerns the entity at some path `rest` below the root, its old
argument is the old entity at that path (nil exactly when there is none) and its new
argument is nil exactly when the new tree has no entity at that path. -/
theorem repository_save_arguments (sys : System W) (id : Nat) (loc : Path) (e : Entity)
    (a : Action) (p : ActionParams) (w : W) :
    (∀ (o n : Option Entity) (w2 : W), ∀ ev ∈ (processor.save sys id loc o n w2).trace,
        ∀ l x y, ev = .repositorySave l x y →
          (x.isSome = true ∨ y.isSome = true)
            ∧ (WFOpt o → WFOpt n →
                ∃ rest, l = loc ++ rest ∧ x = descend o rest
                  ∧ y.isSome = (descend n rest).isSome))
      ∧ ∀ ev ∈ (processor.Process sys id loc e a p w).trace,
          ∀ l x y, ev = .repositorySave l x y →
            (x.isSome = true ∨ y.isSome = true)
              ∧ ∃ synced changed,
                  (processor.syncAndValidate sys id loc e a p w).res = .val (synced, none)
                ∧ (processor.act sys id loc synced a p
                    (processor.syncAndValidate sys id loc e a p w).world).res
                    = .val (changed, none)
                ∧ (e.WF → changed.WF →
                    ∃ rest, l = loc ++ rest ∧ x = descend (some e) rest
                      ∧ y.isSome = (descend (some changed) rest).isSome) := by
  have hsave : ∀ (o n : Option Entity) (w2 : W),
      ∀ ev ∈ (processor.save sys id loc o n w2).trace, SaveArgsOK loc o n ev :=
    fun o n w2 => emits_saveFuel_args sys _ id loc o n w2
  refine ⟨hsave, ?_⟩
  intro ev hev l x y hxy
  rcases process_trace_mem sys id loc e a p w ev hev with h | h | ⟨synced, hs, h⟩
  · rw [h] at hxy
    cases hxy
  · exact absurd hxy (inSyncAndValidate_not_save ev
      (within_kind (emits_syncAndValidate sys id loc e a p w ev h)) l x y)
  · rcases h with h | ⟨changed, hc, h⟩
    · exact absurd hxy (inAct_not_save ev
        (within_kind (emits_act sys id loc synced a p _ ev h)) l x y)
    · obtain ⟨h1, h2⟩ := hsave (some e) (some changed) _ ev h l x y hxy
      exact ⟨h1, synced, changed, hs, hc, fun he hch => h2 he hch⟩

/-- C9, example: cancelling the demo order drops its line item, and Repository.Save is
called for the item with its old value and a nil new value. -/
theorem repository_save_arguments_witness :
    Event.repositorySave [("items", "1")] (some (.mk 2 5 [])) none
        ∈ (processor.Process demo 0 [] demoOrder "cancel" 0 0).trace
      ∧ ((some (Entity.mk 2 5 [])).isSome = true ∨ (none : Option Entity).isSome = true) :=
  ⟨by decide,
    ((repository_save_arguments demo 0 [] demoOrder "cancel" 0 0).2 _ (by decide)
      [("items", "1")] (some (.mk 2 5 [])) none rfl).1⟩

/-! ## Save diff completeness -/

theorem directSaveCall_self (loc : Path) (tk ek : String) (o n : Option Entity) :
    directSaveCall loc (.call (loc ++ [(tk, ek)]) (.save o n)) = some (tk, ek, o, n) := by
  simp [directSaveCall]

theorem directSaveCall_deep (loc : Path) (ev : Event) (k k2 : String × String) (rest : Path)
    (h : ev.loc = loc ++ k :: k2 :: rest) : directSaveCall loc ev = none := by
  cases ev with
  | call l c =>
    cases c with
    | save o n =>
      simp only [Event.loc] at h
      subst h
      simp [directSaveCall]
    | _ => rfl
  | _ => rfl

theorem directSaveCall_not_call (loc : Path) (ev : Event)
    (h : ∀ l c, ev ≠ .call l c) : directSaveCall loc ev = none := by
  cases ev with
  | call l c => exact absurd rfl (h l c)
  | _ => rfl

theorem directSaveCall_within (loc : Path) (k : String × String) (ev : Event) (K : Event → Bool)
    (h : Within K (loc ++ [k]) ev) : directSaveCall loc ev = none := by
  rcases h with ⟨_, _, h3⟩ | ⟨k2, rest, h1, _⟩
  · apply directSaveCall_not_call
    intro l c hev
    rw [hev] at h3
    simp [Event.isCallRet] at h3
  · exact directSaveCall_deep loc ev k k2 rest (by simp [h1])

theorem directSaveCalls_none (loc : Path) (t : List Event)
    (h : ∀ ev ∈ t, directSaveCall loc ev = none) : directSaveCalls loc t = [] := by
  unfold directSaveCalls
  induction t with
  | nil => rfl
  | cons ev rest ih =>
    rw [List.filterMap_cons, h ev (List.mem_cons_self _ _)]
    exact ih (fun ev2 h2 => h ev2 (List.mem_cons_of_mem _ h2))

theorem directSaveCalls_append (loc : Path) (t1 t2 : List Event) :
    directSaveCalls loc (t1 ++ t2) = directSaveCalls loc t1 ++ directSaveCalls loc t2 := by
  unfold directSaveCalls
  exact List.filterMap_append _ _ _

theorem directSaveCalls_traced (loc : Path) (tk ek : String) (o n : Option Entity)
    (m : Eng W (Option Entity × Option GoError)) (w : W)
    (hinner : ∀ ev ∈ (m w).trace, directSaveCall loc ev = none) :
    directSaveCalls loc (traced (loc ++ [(tk, ek)]) (.save o n) m w).trace
      = [(tk, ek, o, n)] := by
  rcases hm : (m w).res with out | _ | _
  · rw [traced_of_val _ _ _ w out hm]
    show directSaveCalls loc ([_] ++ (_ ++ [_])) = _
    rw [directSaveCalls_append, directSaveCalls_append, directSaveCalls_none loc _ hinner]
    simp [directSaveCalls, directSaveCall_self, directSaveCall]
  · rw [traced_of_panic _ _ _ w hm]
    show directSaveCalls loc ([_] ++ _) = _
    rw [directSaveCalls_append, directSaveCalls_none loc _ hinner]
    simp [directSaveCalls, directSaveCall_self]
  · rw [traced_of_outOfFuel _ _ _ w hm]
    show directSaveCalls loc ([_] ++ _) = _
    rw [directSaveCalls_append, directSaveCalls_none loc _ hinner]
    simp [directSaveCalls, directSaveCall_self]

/-- The run of the call of `save` on a sub-processor records exactly one call on a direct
sub-entity: this one. -/
theorem directSaveCalls_ref (sys : System W)
    (self : Nat → Path → Option Entity → Option Entity →
      Eng W (Option Entity × Option GoError))
    (hself : ∀ id l o n, Emits (Within Event.inSave l) (self id l o n))
    (ref : ProcessorRef) (loc : Path) (tk ek : String) (o n : Option Entity) (w : W) :
    directSaveCalls loc (ProcessorRef.save sys self ref (loc ++ [(tk, ek)]) o n w).trace
      = [(tk, ek, o, n)] := by
  unfold ProcessorRef.save
  apply directSaveCalls_traced
  cases ref with
  | wrapper id =>
    intro ev hev
    exact directSaveCall_within loc (tk, ek) ev _
      (emits_wrapper_save _ _ _ _ _ _ (fun o2 n2 => hself _ _ o2 n2) w ev hev)
  | nilInterface =>
    intro ev hev
    simp [goPanic] at hev
  | nilPointer =>
    intro ev hev
    simp [goPanic] at hev

/-- The calls recorded by the loop of the reconciliation are the first calls of the list,
and all of them when the loop succeeds. -/
theorem jobLoop_calls (sys : System W) (cfg : ProcessorConfig W)
    (sub : ProcessorRef → Path → Option Entity → Option Entity →
      Eng W (Option Entity × Option GoError))
    (loc : Path)
    (hsub : ∀ (j : Job) ref w,
      directSaveCalls loc (sub ref (loc ++ [(j.1, j.2.1)]) j.2.2.1 j.2.2.2 w).trace = [j])
    (jobs : List Job) (c : Option Entity) (w : W) :
    directSaveCalls loc (jobLoop sys cfg sub loc jobs c done w).trace <+: jobs
      ∧ ((∃ c2, (jobLoop sys cfg sub loc jobs c done w).res = .val (c2, none)) →
          directSaveCalls loc (jobLoop sys cfg sub loc jobs c done w).trace = jobs) := by
  induction jobs generalizing c w with
  | nil => exact ⟨by simp [jobLoop, done, pure_trace, directSaveCalls], fun _ => rfl⟩
  | cons j rest ih =>
    have hstep : jobLoop sys cfg sub loc (j :: rest) c done
        = jobStep sys cfg sub loc j c (fun c2 => jobLoop sys cfg sub loc rest c2 done) := rfl
    rw [hstep]
    rcases jobStep_run sys cfg sub loc j c w with ⟨R0, hne, ht, hall⟩ | ⟨_, v, c2, _, _, hall⟩
    · rw [hall]
      refine ⟨?_, fun ⟨c2, hc2⟩ => absurd hc2 (hne c2)⟩
      rcases ht with ht | ht
      · rw [ht]
        exact List.nil_prefix
      · rw [ht, hsub j]
        exact List.prefix_iff_eq_append.2 rfl
    · rw [hall]
      simp only []
      rw [directSaveCalls_append, hsub j]
      obtain ⟨h1, h2⟩ := ih c2 (sub (jobProcessor cfg j) (loc ++ [(j.1, j.2.1)]) j.2.2.1
        j.2.2.2 w).world
      refine ⟨?_, fun hs => ?_⟩
      · exact (List.prefix_cons_inj j).2 h1
      · rw [h2 hs]
        rfl

theorem directSaveCalls_persistPhase (cfg : ProcessorConfig W) (loc : Path)
    (o n c : Option Entity) (w : W) :
    directSaveCalls loc (persistPhase cfg loc o n c w).trace = [] := by
  rcases persistPhase_run cfg loc o n c w with ⟨_, _, ht, _⟩ | ⟨_, h⟩
  · rw [ht]
    rfl
  · rw [h]
    rfl

/-- The calls that the reconciliation of `save` makes on the direct sub-entities are the
first calls of the list of the calls to make, and all of them when it succeeds. -/
theorem directSaveCalls_reconcile (sys : System W) (id : Nat) (loc : Path)
    (o n : Option Entity) (w : W) :
    directSaveCalls loc (processor.reconcile sys id loc o n w).trace <+: jobsOf o n
      ∧ ((∃ c, (processor.reconcile sys id loc o n w).res = .val (c, none)) →
          directSaveCalls loc (processor.reconcile sys id loc o n w).trace = jobsOf o n) := by
  unfold processor.reconcile
  rcases reconcilePhase_run sys (sys.processors id)
      (ProcessorRef.save sys (processor.save sys)) loc o n w with h | ⟨c, _, _, h⟩
  · rw [h]
    exact ⟨List.nil_prefix, fun ⟨c, hc⟩ => by simp at hc⟩
  · rw [h]
    exact jobLoop_calls sys (sys.processors id) _ loc
      (fun j ref w2 => directSaveCalls_ref sys _
        (fun id2 l o2 n2 => emits_save sys id2 l o2 n2) ref loc j.1 j.2.1 j.2.2.1 j.2.2.2 w2)
      (jobsOf o n) c w

/-- The calls that `save` makes on the direct sub-entities are those of its reconciliation. -/
theorem directSaveCalls_save (sys : System W) (id : Nat) (loc : Path)
    (o n : Option Entity) (w : W) :
    directSaveCalls loc (processor.save sys id loc o n w).trace
      = directSaveCalls loc (processor.reconcile sys id loc o n w).trace := by
  rw [processor.save_eq]
  unfold processor.reconcile
  by_cases hon : o.isSome = true ∨ n.isSome = true
  · by_cases hs : ∃ c, (reconcilePhase sys (sys.processors id)
        (ProcessorRef.save sys (processor.save sys)) loc o n w).res = .val (c, none)
    · obtain ⟨c, hc⟩ := hs
      rw [saveBody_of_reconcile sys _ _ loc o n w c hon hc]
      show directSaveCalls loc ([_] ++ (_ ++ _)) = _
      rw [directSaveCalls_append, directSaveCalls_append, directSaveCalls_persistPhase]
      simp [directSaveCalls, directSaveCall]
    · have hs2 : ∀ c, (reconcilePhase sys (sys.processors id)
          (ProcessorRef.save sys (processor.save sys)) loc o n w).res ≠ .val (c, none) :=
        fun c hc => hs ⟨c, hc⟩
      rw [(saveBody_of_reconcile_failed sys _ _ loc o n w hon hs2).1]
      show directSaveCalls loc ([_] ++ _) = _
      rw [directSaveCalls_append]
      simp [directSaveCalls, directSaveCall]
  · have ho : o = none := by
      cases o with
      | none => rfl
      | some x => exact absurd (Or.inl rfl) hon
    have hn : n = none := by
      cases n with
      | none => rfl
      | some x => exact absurd (Or.inr rfl) hon
    subst ho
    subst hn
    rfl
/-! ## Save fold-back -/

/-- A call of `save` on a sub-processor that returns records its return. -/
theorem ref_save_ret_of_val (sys : System W)
    (self : Nat → Path → Option Entity → Option Entity →
      Eng W (Option Entity × Option GoError))
    (ref : ProcessorRef) (loc : Path) (o n : Option Entity) (w : W)
    (out : Option Entity × Option GoError)
    (h : (ProcessorRef.save sys self ref loc o n w).res = .val out) :
    Event.ret loc out.1 out.2 ∈ (ProcessorRef.save sys self ref loc o n w).trace :=
  traced_ret_of_val _ _ _ w out h

/-- The only return that a call of `save` on a sub-processor records at the path of a direct
sub-entity is its own. -/
theorem ref_save_val_of_ret (sys : System W)
    (self : Nat → Path → Option Entity → Option Entity →
      Eng W (Option Entity × Option GoError))
    (hself : ∀ id l o n, Emits (Within Event.inSave l) (self id l o n))
    (ref : ProcessorRef) (loc : Path) (k0 : String × String) (o n : Option Entity) (w : W)
    (k : String × String) (v : Option Entity) (err : Option GoError)
    (h : Event.ret (loc ++ [k]) v err
      ∈ (ProcessorRef.save sys self ref (loc ++ [k0]) o n w).trace) :
    (ProcessorRef.save sys self ref (loc ++ [k0]) o n w).res = .val (v, err) ∧ k = k0 := by
  unfold ProcessorRef.save at h ⊢
  refine traced_val_of_ret loc k0 _ _ w ?_ k v err h
  cases ref with
  | wrapper id =>
    intro ev hev hc
    exact within_callRet_below (K := Event.inSave)
      (emits_wrapper_save _ _ _ _ _ _ (fun o2 n2 => hself _ _ o2 n2) w ev hev) hc
  | nilInterface =>
    intro ev hev
    simp [goPanic] at hev
  | nilPointer =>
    intro ev hev
    simp [goPanic] at hev

theorem foldedChild_isSome (b : Bool) (v old : Option Entity) :
    (foldedChild b v old).isSome = old.isSome := by
  cases b <;> cases v <;> cases old <;> rfl

/-- The children of the new entity after one call of the reconciliation. -/
theorem folded_childOf (sys : System W) (cfg : ProcessorConfig W)
    (hUpd : UpdateReplacesExisting sys.ops) (j : Job) (c v c2 : Option Entity)
    (h : Folded sys cfg j c v c2) (tk ek : String) :
    childOf c2 tk ek
      = if (tk, ek) = j.key then foldedChild j.2.2.2.isSome v (childOf c tk ek)
        else childOf c tk ek := by
  unfold Folded at h
  cases hn : j.2.2.2.isSome with
  | false =>
    rw [hn] at h
    simp only [] at h
    rw [h]
    simp [foldedChild]
  | true =>
    rw [hn] at h
    cases v with
    | none =>
      simp only [] at h
      rw [h]
      simp [foldedChild]
    | some s =>
      obtain ⟨c0, u, hc, hU, _, hc2⟩ := h
      rw [hc, hc2]
      show u.child tk ek = _
      rw [hUpd c0 j.1 j.2.1 s u hU tk ek]
      by_cases hk : tk = j.1 ∧ ek = j.2.1
      · obtain ⟨h1, h2⟩ := hk
        subst h1
        subst h2
        simp [Job.key, foldedChild, childOf, subEntitiesOf, Entity.child]
      · have hk2 : ¬ (tk, ek) = j.key := by
          intro he
          apply hk
          simp only [Job.key, Prod.mk.injEq] at he
          exact he
        simp only [hk, hk2, if_false]
        rfl

/-- The loop of the reconciliation, when it succeeds.  The children of the new entity at the
pairs that are not called are unchanged; each call has recorded one return, without error,
and the child at its pair is the returned value if the new sub-entity exists and the value
is non-nil, and the child as it was otherwise; no return is recorded for another pair. -/
theorem jobLoop_fold (sys : System W) (cfg : ProcessorConfig W)
    (sub : ProcessorRef → Path → Option Entity → Option Entity →
      Eng W (Option Entity × Option GoError))
    (loc : Path) (hUpd : UpdateReplacesExisting sys.ops)
    (hret : ∀ ref l o n w v err, (sub ref l o n w).res = .val (v, err) →
      Event.ret l v err ∈ (sub ref l o n w).trace)
    (huniq : ∀ ref k0 o n w k v err,
      Event.ret (loc ++ [k]) v err ∈ (sub ref (loc ++ [k0]) o n w).trace →
        (sub ref (loc ++ [k0]) o n w).res = .val (v, err) ∧ k = k0)
    (jobs : List Job) (hnd : (jobs.map Job.key).Nodup) (c c2 : Option Entity) (w : W)
    (h : (jobLoop sys cfg sub loc jobs c done w).res = .val (c2, none)) :
    (∀ tk ek, (tk, ek) ∉ jobs.map Job.key → childOf c2 tk ek = childOf c tk ek)
      ∧ (∀ j ∈ jobs, ∃ v,
          Event.ret (loc ++ [(j.1, j.2.1)]) v none
              ∈ (jobLoop sys cfg sub loc jobs c done w).trace
            ∧ (∀ v2 err2, Event.ret (loc ++ [(j.1, j.2.1)]) v2 err2
                ∈ (jobLoop sys cfg sub loc jobs c done w).trace → v2 = v ∧ err2 = none)
            ∧ childOf c2 j.1 j.2.1 = foldedChild j.2.2.2.isSome v (childOf c j.1 j.2.1))
      ∧ (∀ k v err, Event.ret (loc ++ [k]) v err
            ∈ (jobLoop sys cfg sub loc jobs c done w).trace → k ∈ jobs.map Job.key) := by
  induction jobs generalizing c w with
  | nil =>
    simp only [jobLoop, done, pure_res, Ctl.val.injEq, Prod.mk.injEq, and_true] at h
    subst h
    refine ⟨fun _ _ _ => rfl, fun j hj => absurd hj (List.not_mem_nil _), ?_⟩
    intro k v err hmem
    simp [jobLoop, done, pure_trace] at hmem
  | cons j rest ih =>
    have hstep : jobLoop sys cfg sub loc (j :: rest) c done
        = jobStep sys cfg sub loc j c (fun c3 => jobLoop sys cfg sub loc rest c3 done) := rfl
    rw [hstep] at h ⊢
    rw [List.map_cons, List.nodup_cons] at hnd
    obtain ⟨hjn, hnd2⟩ := hnd
    rcases jobStep_run sys cfg sub loc j c w with ⟨R0, hne, _, hall⟩ | ⟨_, v, c1, hS, hf, hall⟩
    · rw [hall] at h
      exact absurd h (hne c2)
    · rw [hall] at h ⊢
      simp only [] at h ⊢
      have hretS : Event.ret (loc ++ [(j.1, j.2.1)]) v none
          ∈ (sub (jobProcessor cfg j) (loc ++ [(j.1, j.2.1)]) j.2.2.1 j.2.2.2 w).trace :=
        hret _ _ _ _ _ _ _ hS
      have huS : ∀ k v2 err2, Event.ret (loc ++ [k]) v2 err2
          ∈ (sub (jobProcessor cfg j) (loc ++ [(j.1, j.2.1)]) j.2.2.1 j.2.2.2 w).trace →
            v2 = v ∧ err2 = none ∧ k = j.key := by
        intro k v2 err2 hm
        obtain ⟨h1, h2⟩ := huniq _ _ _ _ _ _ _ _ hm
        rw [hS] at h1
        simp only [Ctl.val.injEq, Prod.mk.injEq] at h1
        exact ⟨h1.1.symm, h1.2.symm, h2⟩
      have hstepc := folded_childOf sys cfg hUpd j c v c1 hf
      obtain ⟨ihA, ihB, ihC⟩ := ih hnd2 c1 _ h
      refine ⟨?_, ?_, ?_⟩
      · intro tk ek hnot
        rw [List.map_cons, List.mem_cons, not_or] at hnot
        rw [ihA tk ek hnot.2, hstepc tk ek, if_neg hnot.1]
      · intro j2 hj2
        rcases List.mem_cons.1 hj2 with he | hin
        · rw [he]
          refine ⟨v, List.mem_append_left _ hretS, ?_, ?_⟩
          · intro v2 err2 hm
            rcases List.mem_append.1 hm with h1 | h1
            · exact ⟨(huS _ v2 err2 h1).1, (huS _ v2 err2 h1).2.1⟩
            · exact absurd (ihC _ v2 err2 h1) hjn
          · rw [ihA j.1 j.2.1 hjn, hstepc j.1 j.2.1,
              if_pos (show (j.1, j.2.1) = j.key from rfl)]
        · obtain ⟨v3, hm3, hu3, hval3⟩ := ihB j2 hin
          have hkey : j2.key ∈ rest.map Job.key := List.mem_map_of_mem _ hin
          have hne : ¬ (j2.1, j2.2.1) = j.key := fun he => hjn (he ▸ hkey)
          refine ⟨v3, List.mem_append_right _ hm3, ?_, ?_⟩
          · intro v2 err2 hm
            rcases List.mem_append.1 hm with h1 | h1
            · exact absurd (huS _ v2 err2 h1).2.2 hne
            · exact hu3 v2 err2 h1
          · rw [hval3, hstepc j2.1 j2.2.1, if_neg hne]
      · intro k v2 err2 hm
        rw [List.map_cons, List.mem_cons]
        rcases List.mem_append.1 hm with h1 | h1
        · exact Or.inl (huS k v2 err2 h1).2.2
        · exact Or.inr (ihC k v2 err2 h1)

/-- The run of `save` when its reconciliation succeeds: the entry, the reconciliation, then
the last part of `save`. -/
theorem processor.save_of_reconcile (sys : System W) (id : Nat) (loc : Path)
    (o n : Option Entity) (w : W) (c : Option Entity)
    (hon : o.isSome = true ∨ n.isSome = true)
    (h : (processor.reconcile sys id loc o n w).res = .val (c, none)) :
    processor.save sys id loc o n w
      = ⟨(persistPhase (sys.processors id) loc o n c
            (processor.reconcile sys id loc o n w).world).res,
          (persistPhase (sys.processors id) loc o n c
            (processor.reconcile sys id loc o n w).world).world,
          Event.processor loc (.save o n)
            :: ((processor.reconcile sys id loc o n w).trace
              ++ (persistPhase (sys.processors id) loc o n c
                  (processor.reconcile sys id loc o n w).world).trace)⟩ := by
  rw [processor.save_eq]
  exact saveBody_of_reconcile sys _ _ loc o n w c hon h

/-- C10 (save fold-back).  Let `save(O, N)` run with a non-nil `N`, the sub-entity maps having
distinct keys as Go maps do, `Copy` preserving the sub-entity map and `UpdateSubEntity`
replacing only the value at an existing key, and let its reconciliation (lines 140-252)
succeed with the entity `c`.  Then `c` is an entity `F` that lists exactly the pairs of keys
of `N` (so a pair present only in `O` is not listed, whatever its delete-cascade returned);
at each pair of `N` the run records exactly one return of the child's `save`, without error,
and the child of `F` there is the returned value when it is non-nil and the child of `N`
otherwise.  With a Repository, `Repository.Save` is called for this entity exactly with
`(O, F)`, and `save` returns what `Repository.Save` returns when it reports no error, and
`(nil, err)` when it reports the error `err`; without a Repository `save` returns
`(F, nil)`. -/
theorem save_fold_back (sys : System W) (id : Nat) (loc : Path) (O : Option Entity)
    (N : Entity) (w : W) (hO : WFOpt O) (hN : N.WF)
    (hCopy : CopyPreservesSubEntities sys.ops) (hUpd : UpdateReplacesExisting sys.ops)
    (c : Option Entity)
    (hrec : (processor.reconcile sys id loc O (some N) w).res = .val (c, none)) :
    ∃ F, c = some F
      ∧ (∀ typeKey entityKey,
          (F.child typeKey entityKey).isSome = (N.child typeKey entityKey).isSome)
      ∧ (∀ typeKey entityKey x, N.child typeKey entityKey = some x →
          ∃ v, Event.ret (loc ++ [(typeKey, entityKey)]) v none
                ∈ (processor.save sys id loc O (some N) w).trace
            ∧ (∀ v2 err2, Event.ret (loc ++ [(typeKey, entityKey)]) v2 err2
                ∈ (processor.save sys id loc O (some N) w).trace → v2 = v ∧ err2 = none)
            ∧ F.child typeKey entityKey = some (v.getD x))
      ∧ (∀ repository, (sys.processors id).Repository = some repository →
          (∀ x y, Event.repositorySave loc x y
              ∈ (processor.save sys id loc O (some N) w).trace ↔ (x = O ∧ y = some F))
            ∧ ((repository.Save O (some F)
                  (processor.reconcile sys id loc O (some N) w).world).1.2 = none →
                (processor.save sys id loc O (some N) w).res
                  = .val (repository.Save O (some F)
                      (processor.reconcile sys id loc O (some N) w).world).1)
            ∧ (∀ err, (repository.Save O (some F)
                  (processor.reconcile sys id loc O (some N) w).world).1.2 = some err →
                (processor.save sys id loc O (some N) w).res = .val (none, some err)))
      ∧ ((sys.processors id).Repository = none →
          (processor.save sys id loc O (some N) w).res = .val (some F, none)) := by
  have hR : processor.reconcile sys id loc O (some N) w
      = reconcilePhase sys (sys.processors id) (ProcessorRef.save sys (processor.save sys)) loc
          O (some N) w := rfl
  have hsave := processor.save_of_reconcile sys id loc O (some N) w c (Or.inr rfl) hrec
  have hbelow := emits_reconcile sys id loc O (some N) w
  rcases reconcilePhase_run sys (sys.processors id)
      (ProcessorRef.save sys (processor.save sys)) loc O (some N) w with hp | ⟨c0, _, hcopy, hrun⟩
  · rw [hR, hp] at hrec
    simp at hrec
  have hc0 : c0 = some (sys.ops.Copy N) := hcopy N rfl
  rw [← hR] at hrun
  obtain ⟨_, hall, hnd⟩ := jobsOf_spec O (some N) hO hN
  have hloop := hrec
  rw [hrun] at hloop
  have hF : c.isSome = true :=
    jobLoop_isSome sys _ _ loc _ c0 c w hloop (by rw [hc0]; rfl)
  obtain ⟨F, hcF⟩ := Option.isSome_iff_exists.1 hF
  obtain ⟨fA, fB, _⟩ := jobLoop_fold sys (sys.processors id)
    (ProcessorRef.save sys (processor.save sys)) loc hUpd
    (fun ref l o n w2 v err h => ref_save_ret_of_val sys _ ref l o n w2 (v, err) h)
    (fun ref k0 o n w2 k v err h => ref_save_val_of_ret sys _
      (fun id2 l o2 n2 => emits_save sys id2 l o2 n2) ref loc k0 o n w2 k v err h)
    (jobsOf O (some N)) hnd c0 c w hloop
  rw [← hrun] at fB
  have hchild0 : ∀ tk ek, childOf c0 tk ek = N.child tk ek := by
    intro tk ek
    rw [hc0]
    show lookup2 (sys.ops.Copy N).SubEntities tk ek = _
    rw [hCopy N]
    rfl
  have hchildF : ∀ tk ek, childOf c tk ek = F.child tk ek := by
    intro tk ek
    rw [hcF]
    rfl
  have hretmem : ∀ l v e, Event.ret l v e ∈ (processor.save sys id loc O (some N) w).trace
      ↔ Event.ret l v e ∈ (processor.reconcile sys id loc O (some N) w).trace := by
    intro l v e
    rw [hsave]
    simp only [List.mem_cons, List.mem_append]
    constructor
    · rintro (h | h | h)
      · cases h
      · exact h
      · rcases persistPhase_run (sys.processors id) loc O (some N) c
            (processor.reconcile sys id loc O (some N) w).world with ⟨_, _, ht, _⟩ | ⟨_, hq⟩
        · rw [ht] at h
          simp at h
        · rw [hq] at h
          simp at h
    · exact fun h => Or.inr (Or.inl h)
  refine ⟨F, hcF, ?_, ?_, ?_, ?_⟩
  · intro tk ek
    rw [← hchildF, ← hchild0]
    by_cases hm : (tk, ek) ∈ (jobsOf O (some N)).map Job.key
    · obtain ⟨j, hj, hk⟩ := List.mem_map.1 hm
      obtain ⟨v, _, _, hval⟩ := fB j hj
      simp only [Job.key, Prod.mk.injEq] at hk
      rw [hk.1, hk.2] at hval
      rw [hval, foldedChild_isSome]
    · rw [fA tk ek hm]
  · intro tk ek x hx
    have hNx : childOf (some N) tk ek = some x := hx
    have hin := hall tk ek (Or.inr (by rw [hNx]; rfl))
    obtain ⟨v, hm, hu, hval⟩ := fB _ hin
    simp only [] at hm hu hval
    refine ⟨v, (hretmem _ _ _).2 hm, fun v2 e2 h2 => hu v2 e2 ((hretmem _ _ _).1 h2), ?_⟩
    rw [← hchildF, hval, hchild0, hNx, hx]
    cases v <;> rfl
  · intro repository hrep
    rcases persistPhase_run (sys.processors id) loc O (some N) c
        (processor.reconcile sys id loc O (some N) w).world with
      ⟨r2, hr2, ht, _, herr, hok⟩ | ⟨hnone, _⟩
    · rw [hrep] at hr2
      cases hr2
      have hif : (if (some N).isSome = true then c else none) = some F := by
        rw [hcF]
        rfl
      rw [hif] at ht herr hok
      refine ⟨?_, ?_, ?_⟩
      · intro x y
        rw [hsave]
        simp only [List.mem_cons, List.mem_append]
        rw [ht]
        constructor
        · rintro (h | h | h)
          · cases h
          · exact absurd rfl (below_loc_ne (hbelow _ h))
          · simp only [List.mem_singleton, Event.repositorySave.injEq] at h
            exact ⟨h.2.1, h.2.2⟩
        · rintro ⟨h1, h2⟩
          rw [h1, h2]
          exact Or.inr (Or.inr (List.mem_singleton.2 rfl))
      · intro h
        rw [hsave]
        exact hok h
      · intro err h
        rw [hsave]
        exact herr err h
    · rw [hrep] at hnone
      cases hnone
  · intro hnone
    rcases persistPhase_run (sys.processors id) loc O (some N) c
        (processor.reconcile sys id loc O (some N) w).world with
      ⟨r2, hr2, _⟩ | ⟨_, hq⟩
    · rw [hnone] at hr2
      cases hr2
    · rw [hsave, hq, hcF]
      rfl

/-! ### The entity methods of the example application -/

theorem replaceTyped_lookup (entityKey : String) (c : Entity) (m m2 : List (String × Entity))
    (h : replaceTyped entityKey c m = some m2) (k : String) :
    m2.lookup k = if k = entityKey then (m.lookup entityKey).map (fun _ => c)
      else m.lookup k := by
  induction m generalizing m2 with
  | nil => simp [replaceTyped] at h
  | cons p rest ih =>
    obtain ⟨k0, e⟩ := p
    unfold replaceTyped at h
    by_cases hk : k0 = entityKey
    · simp only [hk, if_true, Option.some.injEq] at h
      subst h
      subst hk
      by_cases hkk : k = k0
      · subst hkk
        simp [List.lookup_cons]
      · have : (k == k0) = false := by simpa using hkk
        simp [List.lookup_cons, this, hkk]
    · simp only [hk, if_false, Option.map_eq_some'] at h
      obtain ⟨r, hr, hm2⟩ := h
      subst hm2
      have hne : (entityKey == k0) = false := by
        simpa using fun he => hk he.symm
      rw [List.lookup_cons, List.lookup_cons, hne, ih r hr]
      by_cases hkk : k = entityKey
      · subst hkk
        simp [hne]
      · simp only [hkk, if_false]
        rfl

theorem lookup2_cons (t0 : String) (m0 : List (String × Entity))
    (rest : List (String × List (String × Entity))) (tk ek : String) :
    lookup2 ((t0, m0) :: rest) tk ek = if tk = t0 then m0.lookup ek else lookup2 rest tk ek := by
  unfold lookup2
  rw [List.lookup_cons]
  by_cases h : tk = t0
  · subst h
    simp
  · have hb : (tk == t0) = false := by simpa using h
    simp only [hb, h, if_false]

theorem replaceSub_lookup2 (typeKey entityKey : String) (c : Entity)
    (m s : List (String × List (String × Entity)))
    (h : replaceSub typeKey entityKey c m = some s) (tk ek : String) :
    lookup2 s tk ek
      = if tk = typeKey ∧ ek = entityKey then (lookup2 m typeKey entityKey).map (fun _ => c)
        else lookup2 m tk ek := by
  induction m generalizing s with
  | nil => simp [replaceSub] at h
  | cons p rest ih =>
    obtain ⟨t0, m0⟩ := p
    unfold replaceSub at h
    by_cases ht : t0 = typeKey
    · simp only [ht, if_true, Option.map_eq_some'] at h
      obtain ⟨m2, hm2, hs⟩ := h
      subst hs
      subst ht
      have hl := replaceTyped_lookup entityKey c m0 m2 hm2 ek
      rw [lookup2_cons, lookup2_cons, lookup2_cons, if_pos rfl]
      by_cases htt : tk = t0
      · simp only [htt, if_true, true_and]
        exact hl
      · simp only [htt, if_false, false_and]
    · simp only [ht, if_false, Option.map_eq_some'] at h
      obtain ⟨r, hr, hs⟩ := h
      subst hs
      have hne : ¬ typeKey = t0 := fun he => ht he.symm
      rw [lookup2_cons, lookup2_cons, lookup2_cons, if_neg hne, ih r hr]
      by_cases h0 : tk = t0
      · simp only [h0, if_true]
        rw [if_neg (fun hh => ht hh.1)]
      · simp only [h0, if_false]

/-- The entity methods of the example application are as the fold-back expects. -/
theorem demoOps_copy : CopyPreservesSubEntities demoOps := fun _ => rfl

theorem demoOps_update : UpdateReplacesExisting demoOps := by
  intro e typeKey entityKey s u h tk ek
  simp only [demoOps] at h
  cases hr : replaceSub typeKey entityKey s e.SubEntities with
  | none =>
    rw [hr] at h
    cases h
  | some m =>
    rw [hr] at h
    simp only [Except.ok.injEq] at h
    subst h
    exact replaceSub_lookup2 typeKey entityKey s e.SubEntities m hr tk ek

/-- C10, counterexample: the child save succeeds and the entity methods are as expected, the
Repository of the order returns a non-nil entity together with an error, and `save` returns
a nil entity with that error, not what `Repository.Save` returned. -/
theorem save_result_counterexample :
    CopyPreservesSubEntities saveFails.ops ∧ UpdateReplacesExisting saveFails.ops
      ∧ (processor.reconcile saveFails 0 [] (some demoOrder) (some demoOrder) 0).res
          = .val (some demoOrder, none)
      ∧ (saveFails.processors 0).Repository = some failingRepository
      ∧ (failingRepository.Save (some demoOrder) (some demoOrder) 1).1
          = (some demoOrder, some (GoError.other 3))
      ∧ (processor.save saveFails 0 [] (some demoOrder) (some demoOrder) 0).res
          = .val (none, some (GoError.other 3))
      ∧ (processor.save saveFails 0 [] (some demoOrder) (some demoOrder) 0).res
          ≠ .val (failingRepository.Save (some demoOrder) (some demoOrder)
              (processor.reconcile saveFails 0 [] (some demoOrder) (some demoOrder) 0).world).1 :=
  ⟨demoOps_copy, demoOps_update, by decide, rfl, rfl, by decide, by decide⟩

/-- C10, example: saving the demo order against the order with a second line item hands the
new order to `Repository.Save`, with the line items the child saves returned. -/
theorem save_fold_back_witness :
    WFOpt (some demoOrder) ∧ grownOrder.WF
      ∧ CopyPreservesSubEntities demo.ops ∧ UpdateReplacesExisting demo.ops
      ∧ (processor.reconcile demo 0 [] (some demoOrder) (some grownOrder) (0 : Nat)).res
          = .val (some grownOrder, none)
      ∧ ∃ F, some grownOrder = some F
          ∧ (∀ typeKey entityKey,
              (F.child typeKey entityKey).isSome = (grownOrder.child typeKey entityKey).isSome)
          ∧ ((demo.processors 0).Repository = none →
              (processor.save demo 0 [] (some demoOrder) (some grownOrder) (0 : Nat)).res
                = .val (some F, none)) :=
  have hO : WFOpt (some demoOrder) := by
    simp [WFOpt, demoOrder, Entity.WF, Entity.WFTypes, Entity.WFEnts, keys]
  have hN : grownOrder.WF := by
    simp [grownOrder, Entity.WF, Entity.WFTypes, Entity.WFEnts, keys]
  have hr : (processor.reconcile demo 0 [] (some demoOrder) (some grownOrder) (0 : Nat)).res
      = .val (some grownOrder, none) := by decide
  ⟨hO, hN, demoOps_copy, demoOps_update, hr,
    (save_fold_back demo 0 [] (some demoOrder) grownOrder 0 hO hN demoOps_copy demoOps_update
      (some grownOrder) hr).imp (fun _ h => ⟨h.1, h.2.1, h.2.2.2.2⟩)⟩

/-! ## Adapter transparency -/

theorem narrowPtr_of_typed (E : Nat → Bool) (o : Option Entity)
    (h : ∀ e, o = some e → E e.typ = true) : narrowPtr E o = some o := by
  cases o with
  | none => rfl
  | some e => simp [narrowPtr, h e rfl]

/-- The wrapper's `save` on pointers of the right type, when the wrapped `save` returns. -/
theorem wrapper_save_of_val (E : Nat → Bool)
    (f : Path → Option Entity → Option Entity → Eng W (Option Entity × Option GoError))
    (loc : Path) (o n : Option Entity) (w : W)
    (ho : ∀ e, o = some e → E e.typ = true) (hn : ∀ e, n = some e → E e.typ = true)
    (r : Option Entity × Option GoError) (h : (f loc o n w).res = .val r) :
    genericProcessorWrapper.save E f loc o n w
      = ⟨.val (match r.2 with
          | some err => (n, some err)
          | none => (r.1, none)), (f loc o n w).world, (f loc o n w).trace⟩ := by
  unfold genericProcessorWrapper.save
  rw [narrowPtr_of_typed E o ho, narrowPtr_of_typed E n hn]
  simp only []
  rw [bind_of_val h]
  obtain ⟨s, err⟩ := r
  cases err with
  | some err => simp [run_pure]
  | none => cases s <;> simp [run_pure]

/-- The wrapper's `Process`, `syncAndValidate` and `act` on an entity of the right type, when
the wrapped method returns. -/
theorem wrapper_act_of_val (E : Nat → Bool)
    (f : Path → Entity → Action → ActionParams → Eng W (Entity × Option GoError))
    (loc : Path) (e : Entity) (a : Action) (p : ActionParams) (w : W)
    (hE : E e.typ = true) (r : Entity × Option GoError) (h : (f loc e a p w).res = .val r) :
    genericProcessorWrapper.act E f loc e a p w
      = ⟨.val (some r.1, r.2), (f loc e a p w).world, (f loc e a p w).trace⟩ := by
  unfold genericProcessorWrapper.act
  simp only [hE, if_true]
  rw [bind_of_val h]
  simp [run_pure]

theorem wrapper_syncAndValidate_of_val (E : Nat → Bool)
    (f : Path → Entity → Action → ActionParams → Eng W (Entity × Option GoError))
    (loc : Path) (e : Entity) (a : Action) (p : ActionParams) (w : W)
    (hE : E e.typ = true) (r : Entity × Option GoError) (h : (f loc e a p w).res = .val r) :
    genericProcessorWrapper.syncAndValidate E f loc e a p w
      = ⟨.val (some r.1, r.2), (f loc e a p w).world, (f loc e a p w).trace⟩ :=
  wrapper_act_of_val E f loc e a p w hE r h

theorem wrapper_Process_of_val (E : Nat → Bool)
    (f : Path → Entity → Action → ActionParams → Eng W (Entity × Option GoError))
    (loc : Path) (e : Entity) (a : Action) (p : ActionParams) (w : W)
    (hE : E e.typ = true) (r : Entity × Option GoError) (h : (f loc e a p w).res = .val r) :
    genericProcessorWrapper.Process E f loc e a p w
      = ⟨.val (some r.1, r.2), (f loc e a p w).world, (f loc e a p w).trace⟩ :=
  wrapper_act_of_val E f loc e a p w hE r h

/-- C14 (adapter transparency).  For an argument of the concrete type `E`, the methods
Process, syncAndValidate and act of `WrapProcessor(p)` return the entity and the error that
the method of `p` returns, and leave the world that it leaves.  The method `save`, on
pointers that are nil or of type `E`, returns what `p.save` returns when `p.save` reports no
error (a nil pointer for a nil pointer); when `p.save` reports the error `err` it returns
`err` with the new pointer it was given, not the pointer `p.save` returned. -/
theorem adapter_transparency (sys : System W) (id : Nat) (loc : Path) (w : W) :
    (∀ (entity : Entity) (action : Action) (actionParams : ActionParams),
      (sys.processors id).E entity.typ = true →
        (∀ r, (processor.Process sys id loc entity action actionParams w).res = .val r →
            (WrapProcessor.Process sys id loc entity action actionParams w).res
                = .val (some r.1, r.2)
              ∧ (WrapProcessor.Process sys id loc entity action actionParams w).world
                = (processor.Process sys id loc entity action actionParams w).world)
          ∧ (∀ r, (processor.syncAndValidate sys id loc entity action actionParams w).res
              = .val r →
            (WrapProcessor.syncAndValidate sys id loc entity action actionParams w).res
                = .val (some r.1, r.2)
              ∧ (WrapProcessor.syncAndValidate sys id loc entity action actionParams w).world
                = (processor.syncAndValidate sys id loc entity action actionParams w).world)
          ∧ (∀ r, (processor.act sys id loc entity action actionParams w).res = .val r →
            (WrapProcessor.act sys id loc entity action actionParams w).res
                = .val (some r.1, r.2)
              ∧ (WrapProcessor.act sys id loc entity action actionParams w).world
                = (processor.act sys id loc entity action actionParams w).world))
      ∧ ∀ (oldEntity newEntity : Option Entity),
        (∀ e, oldEntity = some e → (sys.processors id).E e.typ = true) →
        (∀ e, newEntity = some e → (sys.processors id).E e.typ = true) →
          (∀ saved, (processor.save sys id loc oldEntity newEntity w).res = .val (saved, none) →
              (WrapProcessor.save sys id loc oldEntity newEntity w).res = .val (saved, none))
            ∧ (∀ saved err,
              (processor.save sys id loc oldEntity newEntity w).res = .val (saved, some err) →
                (WrapProcessor.save sys id loc oldEntity newEntity w).res
                  = .val (newEntity, some err))
            ∧ (WrapProcessor.save sys id loc oldEntity newEntity w).world
              = (processor.save sys id loc oldEntity newEntity w).world := by
  refine ⟨fun entity action actionParams hE => ⟨fun r h => ?_, fun r h => ?_, fun r h => ?_⟩,
    fun o n ho hn => ⟨fun saved h => ?_, fun saved err h => ?_, ?_⟩⟩
  · have hw := wrapper_Process_of_val _ (processor.Process sys id) loc entity action
      actionParams w hE r h
    unfold WrapProcessor.Process
    rw [traced_of_val _ _ _ w _ (by rw [hw]), hw]
    exact ⟨rfl, rfl⟩
  · have hw := wrapper_syncAndValidate_of_val _ (processor.syncAndValidate sys id) loc entity
      action actionParams w hE r h
    unfold WrapProcessor.syncAndValidate ProcessorRef.syncAndValidate
    simp only []
    rw [traced_of_val _ _ _ w _ (by rw [hw]), hw]
    exact ⟨rfl, rfl⟩
  · have hw := wrapper_act_of_val _ (processor.act sys id) loc entity action actionParams w hE
      r h
    unfold WrapProcessor.act ProcessorRef.act
    simp only []
    rw [traced_of_val _ _ _ w _ (by rw [hw]), hw]
    exact ⟨rfl, rfl⟩
  · have hw := wrapper_save_of_val _ (processor.save sys id) loc o n w ho hn _ h
    unfold WrapProcessor.save ProcessorRef.save
    simp only []
    rw [traced_of_val _ _ _ w _ (by rw [hw]), hw]
  · have hw := wrapper_save_of_val _ (processor.save sys id) loc o n w ho hn _ h
    unfold WrapProcessor.save ProcessorRef.save
    simp only []
    rw [traced_of_val _ _ _ w _ (by rw [hw]), hw]
  · unfold WrapProcessor.save ProcessorRef.save
    simp only []
    rcases hr : (processor.save sys id loc o n w).res with r | _ | _
    · have hw := wrapper_save_of_val _ (processor.save sys id) loc o n w ho hn _ hr
      rw [traced_of_val _ _ _ w _ (by rw [hw]), hw]
    · have hw : (genericProcessorWrapper.save (sys.processors id).E (processor.save sys id) loc
          o n w) = ⟨.panic, (processor.save sys id loc o n w).world,
            (processor.save sys id loc o n w).trace⟩ := by
        unfold genericProcessorWrapper.save
        rw [narrowPtr_of_typed _ o ho, narrowPtr_of_typed _ n hn]
        simp only []
        rw [bind_of_panic hr]
      rw [traced_of_panic _ _ _ w (by rw [hw]), hw]
    · have hw : (genericProcessorWrapper.save (sys.processors id).E (processor.save sys id) loc
          o n w) = ⟨.outOfFuel, (processor.save sys id loc o n w).world,
            (processor.save sys id loc o n w).trace⟩ := by
        unfold genericProcessorWrapper.save
        rw [narrowPtr_of_typed _ o ho, narrowPtr_of_typed _ n hn]
        simp only []
        rw [bind_of_outOfFuel hr]
      rw [traced_of_outOfFuel _ _ _ w (by rw [hw]), hw]

/-- C14, counterexample: the pointers are of the right type, `p.save` returns a nil entity
with the error of the Repository, and the wrapper returns the new pointer with that error. -/
theorem adapter_transparency_counterexample :
    (saveFails.processors 0).E demoOrder.typ = true
      ∧ (processor.save saveFails 0 [] (some demoOrder) (some demoOrder) 0).res
          = .val (none, some (GoError.other 3))
      ∧ (WrapProcessor.save saveFails 0 [] (some demoOrder) (some demoOrder) 0).res
          = .val (some demoOrder, some (GoError.other 3))
      ∧ (WrapProcessor.save saveFails 0 [] (some demoOrder) (some demoOrder) 0).res
          ≠ (processor.save saveFails 0 [] (some demoOrder) (some demoOrder) 0).res := by
  refine ⟨by decide, by decide, by decide, by decide⟩

/-- C14, example: the wrapper of the order processor returns the approved order that the
order processor returns. -/
theorem adapter_transparency_witness :
    (demo.processors 0).E demoOrder.typ = true
      ∧ (processor.Process demo 0 [] demoOrder "approve" 0 0).res
          = .val (.mk 1 10 [("items", [("1", .mk 2 15 [])])], none)
      ∧ (WrapProcessor.Process demo 0 [] demoOrder "approve" 0 0).res
          = .val (some (.mk 1 10 [("items", [("1", .mk 2 15 [])])]), none) :=
  have hE : (demo.processors 0).E demoOrder.typ = true := by decide
  have hr : (processor.Process demo 0 [] demoOrder "approve" 0 0).res
      = .val (.mk 1 10 [("items", [("1", .mk 2 15 [])])], none) := by decide
  ⟨hE, hr, (((adapter_transparency demo 0 [] 0).1 demoOrder "approve" 0 hE).1 _ hr).1⟩

/-! ## Process when act fails -/

theorem inSyncAndValidate_not_saving (ev : Event) (h : ev.inSyncAndValidate = true) :
    (∀ l x y, ev ≠ .repositorySave l x y) ∧ (∀ l x y, ev ≠ .call l (.save x y))
      ∧ (∀ l x y, ev ≠ .processor l (.save x y)) := by
  refine ⟨fun l x y h2 => ?_, fun l x y h2 => ?_, fun l x y h2 => ?_⟩ <;>
    · rw [h2] at h
      simp [Event.inSyncAndValidate] at h

theorem inAct_not_saving (ev : Event) (h : ev.inAct = true) :
    (∀ l x y, ev ≠ .repositorySave l x y) ∧ (∀ l x y, ev ≠ .call l (.save x y))
      ∧ (∀ l x y, ev ≠ .processor l (.save x y)) := by
  refine ⟨fun l x y h2 => ?_, fun l x y h2 => ?_, fun l x y h2 => ?_⟩ <;>
    · rw [h2] at h
      simp [Event.inAct] at h

/-- C16.  When syncAndValidate succeeds with the entity `synced` and act then fails with the
error `e`, Process returns `e` together with `synced`, the entity that syncAndValidate
returned (not the partial entity that act returned); its run is the entry of Process
followed by the runs of syncAndValidate and of act, so `save` is neither called nor entered
and no Repository.Save is invoked at any level. -/
theorem process_stops_on_act_error (sys : System W) (id : Nat) (loc : Path)
    (entity : Entity) (action : Action) (actionParams : ActionParams) (w : W)
    (synced partialEntity : Entity) (e : GoError)
    (hsync : (processor.syncAndValidate sys id loc entity action actionParams w).res
      = .val (synced, none))
    (hact : (processor.act sys id loc synced action actionParams
      (processor.syncAndValidate sys id loc entity action actionParams w).world).res
      = .val (partialEntity, some e)) :
    (processor.Process sys id loc entity action actionParams w).res = .val (synced, some e)
      ∧ (processor.Process sys id loc entity action actionParams w).world
        = (processor.act sys id loc synced action actionParams
            (processor.syncAndValidate sys id loc entity action actionParams w).world).world
      ∧ (processor.Process sys id loc entity action actionParams w).trace
        = Event.processor loc (.Process entity action actionParams)
          :: ((processor.syncAndValidate sys id loc entity action actionParams w).trace
            ++ (processor.act sys id loc synced action actionParams
                (processor.syncAndValidate sys id loc entity action actionParams w).world).trace)
      ∧ ∀ ev ∈ (processor.Process sys id loc entity action actionParams w).trace,
          (∀ l x y, ev ≠ .repositorySave l x y) ∧ (∀ l x y, ev ≠ .call l (.save x y))
            ∧ (∀ l x y, ev ≠ .processor l (.save x y)) := by
  have key : processor.Process sys id loc entity action actionParams w
      = ⟨.val (synced, some e),
          (processor.act sys id loc synced action actionParams
            (processor.syncAndValidate sys id loc entity action actionParams w).world).world,
          Event.processor loc (.Process entity action actionParams)
            :: ((processor.syncAndValidate sys id loc entity action actionParams w).trace
              ++ (processor.act sys id loc synced action actionParams
                  (processor.syncAndValidate sys id loc entity action actionParams
                    w).world).trace)⟩ := by
    unfold processor.Process
    rw [run_emit_bind, bind_of_val hsync]
    simp only []
    rw [bind_of_val hact]
    simp only [run_pure, List.append_nil]
  rw [key]
  refine ⟨rfl, rfl, rfl, ?_⟩
  intro ev hev
  rcases List.mem_cons.1 hev with h | h
  · subst h
    exact ⟨fun _ _ _ h => (by cases h), fun _ _ _ h => (by cases h),
      fun _ _ _ h => (by cases h)⟩
  · rcases List.mem_append.1 h with h | h
    · exact inSyncAndValidate_not_saving ev
        (within_kind (emits_syncAndValidate sys id loc entity action actionParams w ev h))
    · exact inAct_not_saving ev
        (within_kind (emits_act sys id loc synced action actionParams _ ev h))

/-- C16, counterexample: syncAndValidate succeeds, act fails and returns with its error an
entity it has changed, and Process returns the error with the entity of syncAndValidate, not
with the partial entity of act. -/
theorem process_act_error_counterexample :
    (processor.syncAndValidate actFails 0 [] leafOrder "approve" 0 0).res
        = .val (leafOrder, none)
      ∧ (processor.act actFails 0 [] leafOrder "approve" 0
          (processor.syncAndValidate actFails 0 [] leafOrder "approve" 0 0).world).res
        = .val (.mk 1 77 [], some (GoError.other 9))
      ∧ (processor.Process actFails 0 [] leafOrder "approve" 0 0).res
        = .val (leafOrder, some (GoError.other 9))
      ∧ (processor.Process actFails 0 [] leafOrder "approve" 0 0).res
        ≠ .val (.mk 1 77 [], some (GoError.other 9)) := by
  refine ⟨by decide, by decide, by decide, by decide⟩

theorem process_stops_on_act_error_witness :
    (processor.syncAndValidate actFails 0 [] leafOrder "approve" 0 0).res
        = .val (leafOrder, none)
      ∧ (processor.act actFails 0 [] leafOrder "approve" 0
          (processor.syncAndValidate actFails 0 [] leafOrder "approve" 0 0).world).res
        = .val (.mk 1 77 [], some (GoError.other 9))
      ∧ (processor.Process actFails 0 [] leafOrder "approve" 0 0).res
        = .val (leafOrder, some (GoError.other 9)) :=
  ⟨by decide, by decide,
    (process_stops_on_act_error actFails 0 [] leafOrder "approve" 0 0 leafOrder (.mk 1 77 [])
      (GoError.other 9) (by decide) (by decide)).1⟩

/-! ## The runs of the phases of an entity's own collaborators -/

/-- The loop of the selection of the syncer returns the first candidate that accepts the
entity, and none when no candidate does. -/
theorem getSyncerForEntityFrom_spec (loc : Path) (e : Entity) (l : List (Syncer W)) (i0 : Nat)
    (w : W) :
    (∃ k s, (getSyncerForEntityFrom loc e i0 l w).res = .val (some (i0 + k, s))
        ∧ l[k]? = some s ∧ s.CanProcess e = true
        ∧ ∀ j s2, j < k → l[j]? = some s2 → s2.CanProcess e = false)
      ∨ ((getSyncerForEntityFrom loc e i0 l w).res = .val none
        ∧ ∀ s ∈ l, s.CanProcess e = false) := by
  induction l generalizing i0 with
  | nil => exact Or.inr ⟨rfl, by simp⟩
  | cons s rest ih =>
    unfold getSyncerForEntityFrom
    rw [run_emit_bind]
    by_cases hc : s.CanProcess e = true
    · left
      refine ⟨0, s, ?_, by simp, hc, ?_⟩
      · simp only [hc, if_true]
        rfl
      · intro j s2 hj
        omega
    · simp only [hc]
      rcases ih (i0 + 1) with ⟨k, s1, h1, h2, h3, h4⟩ | ⟨h1, h2⟩
      · left
        refine ⟨k + 1, s1, ?_, by simpa using h2, h3, ?_⟩
        · simp only [Bool.false_eq_true, if_false]
          rw [h1]
          congr 3
          omega
        · intro j s2 hj hget
          cases j with
          | zero =>
            simp only [List.getElem?_cons_zero, Option.some.injEq] at hget
            subst hget
            simpa using hc
          | succ j2 =>
            simp only [List.getElem?_cons_succ] at hget
            exact h4 j2 s2 (by omega) hget
      · right
        refine ⟨?_, ?_⟩
        · simp only [Bool.false_eq_true, if_false]
          exact h1
        · intro s2 hm
          rcases List.mem_cons.1 hm with h | h
          · subst h
            simpa using hc
          · exact h2 s2 h

/-- The run of the validation when the candidate number `k` is the first to accept the
entity on which the selection is made. -/
theorem validatePhase_of_first (cfg : ProcessorConfig W) (loc : Path) (e c : Entity)
    (a : Action) (p : ActionParams) (w : W) (k : Nat) (sm : StateMachina W)
    (h : (getStateMachineForEntity cfg loc e w).res = .val (some (k, sm), none)) :
    validatePhase cfg loc e c a p w
      = ⟨.val (c, (sm.Validate c a p w).1), (sm.Validate c a p w).2,
          (getStateMachineForEntity cfg loc e w).trace ++ [.smValidate loc k c a p]⟩ := by
  have hw : (getStateMachineForEntity cfg loc e w).world = w :=
    getStateMachineForEntityFrom_world loc e _ 0 w
  unfold validatePhase
  rw [bind_of_val h, hw]
  simp only [run_emit_bind, run_invoke_bind]
  cases hv : (sm.Validate c a p w).1 <;> simp [run_pure]

/-- The run of the validation when no candidate accepts the entity on which the selection is
made. -/
theorem validatePhase_of_none (cfg : ProcessorConfig W) (loc : Path) (e c : Entity)
    (a : Action) (p : ActionParams) (w : W)
    (h : (getStateMachineForEntity cfg loc e w).res = .val (none, some ErrorUnprocessableEntity)) :
    validatePhase cfg loc e c a p w
      = ⟨.val (c, some ErrorUnprocessableEntity), w,
          (getStateMachineForEntity cfg loc e w).trace⟩ := by
  have hw : (getStateMachineForEntity cfg loc e w).world = w :=
    getStateMachineForEntityFrom_world loc e _ 0 w
  unfold validatePhase
  rw [bind_of_val h, hw]
  simp [run_pure]

/-- The run of the sync: no syncer accepts the entity. -/
theorem syncPhase_of_none (cfg : ProcessorConfig W) (loc : Path) (e c : Entity) (a : Action)
    (w : W) (h : (getSyncerForEntity cfg loc c w).res = .val none) :
    syncPhase cfg loc e c a w = ⟨.val (c, none), w, (getSyncerForEntity cfg loc c w).trace⟩ := by
  have hw : (getSyncerForEntity cfg loc c w).world = w :=
    getSyncerForEntityFrom_world loc c _ 0 w
  unfold syncPhase
  rw [bind_of_val h, hw]
  simp [run_pure]

/-- The run of the sync: the first syncer that accepts the entity does not need to sync. -/
theorem syncPhase_of_no_need (cfg : ProcessorConfig W) (loc : Path) (e c : Entity) (a : Action)
    (w : W) (i : Nat) (s : Syncer W)
    (h : (getSyncerForEntity cfg loc c w).res = .val (some (i, s)))
    (hn : s.NeedSync e a = false) :
    syncPhase cfg loc e c a w
      = ⟨.val (c, none), w,
          (getSyncerForEntity cfg loc c w).trace ++ [.syncerNeedSync loc i e a]⟩ := by
  have hw : (getSyncerForEntity cfg loc c w).world = w :=
    getSyncerForEntityFrom_world loc c _ 0 w
  unfold syncPhase
  rw [bind_of_val h, hw]
  simp [run_emit_bind, hn, run_pure]

/-- The run of the sync: the first syncer that accepts the entity needs to sync. -/
theorem syncPhase_of_need (cfg : ProcessorConfig W) (loc : Path) (e c : Entity) (a : Action)
    (w : W) (i : Nat) (s : Syncer W)
    (h : (getSyncerForEntity cfg loc c w).res = .val (some (i, s)))
    (hn : s.NeedSync e a = true) :
    syncPhase cfg loc e c a w
      = ⟨.val (s.Sync c w).1, (s.Sync c w).2,
          (getSyncerForEntity cfg loc c w).trace
            ++ [.syncerNeedSync loc i e a, .syncerSync loc i c]⟩ := by
  have hw : (getSyncerForEntity cfg loc c w).world = w :=
    getSyncerForEntityFrom_world loc c _ 0 w
  unfold syncPhase
  rw [bind_of_val h, hw]
  simp only [run_emit_bind, hn, if_true]
  rfl

/-- The events of the sync are the calls of CanProcess, NeedSync and Sync of the syncers. -/
theorem emits_syncPhase_events (P : Event → Prop) (cfg : ProcessorConfig W) (loc : Path)
    (e c : Entity) (a : Action) (h1 : ∀ i, P (.syncerCanProcess loc i c))
    (h2 : ∀ i, P (.syncerNeedSync loc i e a)) (h3 : ∀ i, P (.syncerSync loc i c)) :
    Emits P (syncPhase cfg loc e c a) := by
  unfold syncPhase
  apply emits_bind
  · exact emits_getSyncerForEntityFrom _ loc _ h1 _ 0
  intro syncer
  split
  · exact emits_pure _ _
  · apply emits_bind
    · exact emits_emit _ _ (h2 _)
    intro _
    split
    · apply emits_bind
      · exact emits_emit _ _ (h3 _)
      · exact fun _ => emits_invoke _ _
    · exact emits_pure _ _

/-- The events of the validation are the calls of CanProcess on the entity of the selection
and the call of Validate. -/
theorem emits_validatePhase_events (P : Event → Prop) (cfg : ProcessorConfig W) (loc : Path)
    (e c : Entity) (a : Action) (p : ActionParams) (h1 : ∀ i, P (.smCanProcess loc i e))
    (h2 : ∀ i, P (.smValidate loc i c a p)) : Emits P (validatePhase cfg loc e c a p) := by
  unfold validatePhase
  apply emits_bind
  · exact emits_getStateMachineForEntityFrom _ loc _ h1 _ 0
  intro sm
  split
  · exact emits_pure _ _
  · exact emits_goPanic _
  · apply emits_bind
    · exact emits_emit _ _ (h2 _)
    intro _
    apply emits_bind
    · exact emits_invoke _ _
    intro err
    split
    · exact emits_pure _ _
    · exact emits_pure _ _

/-- Two candidates that are both the first to accept an entity are the same. -/
theorem first_accepting_unique {α : Type} (l : List α) (ok : α → Bool) (i k : Nat) (x y : α)
    (hi : l[i]? = some x) (hx : ok x = true)
    (hfi : ∀ j z, j < i → l[j]? = some z → ok z = false)
    (hk : l[k]? = some y) (hy : ok y = true)
    (hfk : ∀ j z, j < k → l[j]? = some z → ok z = false) : i = k ∧ x = y := by
  have hik : i = k := by
    rcases Nat.lt_trichotomy i k with h | h | h
    · have := hfk i x h hi
      rw [this] at hx
      exact absurd hx (by simp)
    · exact h
    · have := hfi k y h hk
      rw [this] at hy
      exact absurd hy (by simp)
  subst hik
  rw [hi] at hk
  exact ⟨rfl, Option.some.inj hk⟩

/-! ## The entity on which syncAndValidate selects the state machine -/

/-- C15, the code at the failing input: the Sync of the order marks it; `syncAndValidate`
invokes the Validate of the first candidate, which accepts the entity as it was before the
Sync but not the marked entity that it is given to validate; the first candidate that accepts
the marked entity is the second one, whose Validate rejects the action, yet the phase
succeeds; and `act`, on the marked entity, selects that second candidate. -/
theorem validate_under_machine_of_unsynced_entity :
    Event.syncerSync [] 0 leafOrder
        ∈ (processor.syncAndValidate syncMarks 0 [] leafOrder "approve" 0 0).trace
      ∧ (markingSyncer.Sync leafOrder 0).1 = (.mk 1 1 [], none)
      ∧ Event.smValidate [] 0 (.mk 1 1 []) "approve" 0
        ∈ (processor.syncAndValidate syncMarks 0 [] leafOrder "approve" 0 0).trace
      ∧ (syncMarks.processors 0).StateMachines = [draftStateMachine, markedStateMachine]
      ∧ draftStateMachine.CanProcess leafOrder = true
      ∧ draftStateMachine.CanProcess (.mk 1 1 []) = false
      ∧ markedStateMachine.CanProcess (.mk 1 1 []) = true
      ∧ (markedStateMachine.Validate (.mk 1 1 []) "approve" 0 0).1 = some ErrorInvalidState
      ∧ (processor.syncAndValidate syncMarks 0 [] leafOrder "approve" 0 0).res
          = .val (.mk 1 1 [], none)
      ∧ Event.smDo [] 1 (.mk 1 1 []) "approve" 0 none
        ∈ (processor.act syncMarks 0 [] (.mk 1 1 []) "approve" 0 0).trace := by
  refine ⟨by decide, rfl, by decide, rfl, by decide, by decide, by decide, rfl, by decide,
    by decide⟩
/-! ## The placement of the selection of the state machine -/

/-- The run of the transition when no candidate accepts the entity. -/
theorem transitionPhase_of_none (cfg : ProcessorConfig W) (loc : Path) (c : Entity)
    (a : Action) (p : ActionParams) (w : W)
    (h : (getStateMachineForEntity cfg loc c w).res = .val (none, some ErrorUnprocessableEntity)) :
    transitionPhase cfg loc c a p w
      = ⟨.val (c, some ErrorUnprocessableEntity), w,
          (getStateMachineForEntity cfg loc c w).trace⟩ := by
  have hw : (getStateMachineForEntity cfg loc c w).world = w :=
    getStateMachineForEntityFrom_world loc c _ 0 w
  unfold transitionPhase
  rw [bind_of_val h, hw]
  simp [run_pure]

theorem getStateMachineForEntity_none (cfg : ProcessorConfig W) (loc : Path) (e : Entity)
    (w : W) (h : ∀ sm ∈ cfg.StateMachines, sm.CanProcess e = false) :
    (getStateMachineForEntity cfg loc e w).res = .val (none, some ErrorUnprocessableEntity) := by
  unfold getStateMachineForEntity
  rcases getStateMachineForEntityFrom_spec loc e cfg.StateMachines 0 w with
    ⟨k, sm, _, h2, h3, _⟩ | ⟨h1, _⟩
  · have := h sm (List.getElem?_mem h2)
    rw [this] at h3
    exact absurd h3 (by simp)
  · exact h1

/-- The selection of the syncer returns the first candidate that accepts the entity. -/
theorem getSyncerForEntity_first (cfg : ProcessorConfig W) (loc : Path) (e : Entity) (w : W)
    (i : Nat) (s : Syncer W) (hi : cfg.Syncers[i]? = some s) (hs : s.CanProcess e = true)
    (hfirst : ∀ (j : Nat) (s2 : Syncer W), j < i → cfg.Syncers[j]? = some s2 →
      s2.CanProcess e = false) :
    (getSyncerForEntity cfg loc e w).res = .val (some (i, s)) := by
  unfold getSyncerForEntity
  rcases getSyncerForEntityFrom_spec loc e cfg.Syncers 0 w with
    ⟨k, s1, h1, h2, h3, h4⟩ | ⟨_, h2⟩
  · have := first_accepting_unique _ (fun x => x.CanProcess e) i k s s1 hi hs hfirst h2 h3 h4
    rw [h1, Nat.zero_add, this.1, this.2]
  · have := h2 s (List.getElem?_mem hi)
    rw [this] at hs
    exact absurd hs (by simp)

/-- The run of `syncAndValidate` once the sub-entities have succeeded starts with the entry,
the run of the sub-entities and the run of the sync. -/
theorem processor.syncAndValidate_trace_of_children (sys : System W) (id : Nat) (loc : Path)
    (e : Entity) (a : Action) (p : ActionParams) (w : W) (c : Entity)
    (h : (processor.syncChildren sys id loc e a p w).res = .val (c, none)) :
    ∃ post, (processor.syncAndValidate sys id loc e a p w).trace
      = Event.processor loc (.syncAndValidate e a p)
        :: ((processor.syncChildren sys id loc e a p w).trace
          ++ ((syncPhase (sys.processors id) loc e c a
              (processor.syncChildren sys id loc e a p w).world).trace ++ post)) := by
  rw [processor.syncAndValidate_unfold, run_emit_bind, bind_of_val h]
  simp only []
  rcases hs : (syncPhase (sys.processors id) loc e c a
      (processor.syncChildren sys id loc e a p w).world).res with r | _ | _
  · rw [bind_of_val hs]
    exact ⟨_, rfl⟩
  · rw [bind_of_panic hs]
    exact ⟨[], by simp⟩
  · rw [bind_of_outOfFuel hs]
    exact ⟨[], by simp⟩

/-- C20 (placement of the selection of the state machine relative to the syncer).  In `act`,
once the sub-entities have succeeded with the entity `c`: if no state machine's CanProcess is
true for `c`, `act` returns ErrorUnprocessableEntity and what it does with the collaborators
of the entity is only to ask the state machines (no syncer of the entity is asked, no
Syncer.Do is invoked); and when a state machine and a syncer for the action are found, the
run ends with Syncer.Do on `c` and StateMachine.Do on the entity and with the error that
Syncer.Do returned.  In `syncAndValidate`, once the sub-entities have succeeded with `c`: if
the first syncer accepting `c` needs a sync, its Sync is invoked on `c` before any state
machine of the entity is asked, and if Sync succeeds and no state machine's CanProcess is
true for the input entity the phase fails with ErrorUnprocessableEntity after that Sync. -/
theorem selection_placement (sys : System W) (id : Nat) (loc : Path) (entity : Entity)
    (action : Action) (actionParams : ActionParams) (w : W) (c : Entity) :
    ((processor.actChildren sys id loc entity action actionParams w).res = .val (c, none) →
      ((∀ sm ∈ (sys.processors id).StateMachines, sm.CanProcess c = false) →
        (processor.act sys id loc entity action actionParams w).res
            = .val (c, some ErrorUnprocessableEntity)
          ∧ (∀ ev ∈ (processor.act sys id loc entity action actionParams w).trace,
              ev.loc = loc → ev = .processor loc (.act entity action actionParams)
                ∨ ∃ i, ev = .smCanProcess loc i c)
          ∧ ∀ j x a p, Event.syncerDo loc j x a p
              ∉ (processor.act sys id loc entity action actionParams w).trace)
      ∧ ∀ (i : Nat) (sm : StateMachina W) (j : Nat) (s : Syncer W),
          (sys.processors id).StateMachines[i]? = some sm → sm.CanProcess c = true →
          (∀ (k : Nat) (sm2 : StateMachina W), k < i →
            (sys.processors id).StateMachines[k]? = some sm2 → sm2.CanProcess c = false) →
          (sys.processors id).Syncers[j]? = some s →
          (s.CanProcess c && s.HasAction action) = true →
          (∀ (k : Nat) (s2 : Syncer W), k < j → (sys.processors id).Syncers[k]? = some s2 →
            (s2.CanProcess c && s2.HasAction action) = false) →
          ∃ pre, (processor.act sys id loc entity action actionParams w).trace
            = pre ++ [.syncerDo loc j c action actionParams,
                .smDo loc i
                  (s.Do c action actionParams
                    (processor.actChildren sys id loc entity action actionParams w).world).1.1
                  action actionParams
                  (s.Do c action actionParams
                    (processor.actChildren sys id loc entity action actionParams
                      w).world).1.2])
      ∧ ((processor.syncChildren sys id loc entity action actionParams w).res
          = .val (c, none) →
        ∀ (i : Nat) (s : Syncer W), (sys.processors id).Syncers[i]? = some s →
          s.CanProcess c = true →
          (∀ (k : Nat) (s2 : Syncer W), k < i → (sys.processors id).Syncers[k]? = some s2 →
            s2.CanProcess c = false) →
          s.NeedSync entity action = true →
          (∃ pre post, (processor.syncAndValidate sys id loc entity action actionParams w).trace
              = pre ++ Event.syncerSync loc i c :: post
            ∧ ∀ ev ∈ pre, ∀ k y, ev ≠ Event.smCanProcess loc k y)
          ∧ ∀ x, (s.Sync c
                (processor.syncChildren sys id loc entity action actionParams w).world).1
              = (x, none) →
            (∀ sm ∈ (sys.processors id).StateMachines, sm.CanProcess entity = false) →
            (processor.syncAndValidate sys id loc entity action actionParams w).res
              = .val (x, some ErrorUnprocessableEntity)) := by
  refine ⟨fun hc => ⟨fun hno => ?_, fun i sm j s hi hsm hfirst hj hs hjfirst => ?_⟩,
    fun hc i s hi hs hfirst hneed => ?_⟩
  · have hsel := getStateMachineForEntity_none (sys.processors id) loc c
      (processor.actChildren sys id loc entity action actionParams w).world hno
    have hrun := processor.act_of_children sys id loc entity action actionParams w c hc
    rw [transitionPhase_of_none _ loc c action actionParams _ hsel] at hrun
    have htr := congrArg Run.trace hrun
    have hre := congrArg Run.res hrun
    simp only [] at htr hre
    have hev : ∀ ev ∈ (processor.act sys id loc entity action actionParams w).trace,
        ev.loc = loc → ev = .processor loc (.act entity action actionParams)
          ∨ ∃ i, ev = .smCanProcess loc i c := by
      intro ev hev hloc
      rw [htr] at hev
      rcases List.mem_cons.1 hev with h | h
      · exact Or.inl h
      rcases List.mem_append.1 h with h | h
      · exact absurd hloc
          (below_loc_ne (emits_actChildren sys id loc entity action actionParams w ev h))
      · exact Or.inr (emits_getStateMachineForEntityFrom
          (fun ev => ∃ i, ev = Event.smCanProcess loc i c) loc c (fun i => ⟨i, rfl⟩)
          (sys.processors id).StateMachines 0 _ ev h)
    refine ⟨hre, hev, ?_⟩
    intro j x a p hm
    rcases hev _ hm rfl with h | ⟨i, h⟩
    · cases h
    · cases h
  · have hsel_sm : (getStateMachineForEntity (sys.processors id) loc c
        (processor.actChildren sys id loc entity action actionParams w).world).res
        = .val (some (i, sm), none) := by
      have := getStateMachineForEntityFrom_first loc c (sys.processors id).StateMachines 0 i sm
        (processor.actChildren sys id loc entity action actionParams w).world hi hsm hfirst
      rw [Nat.zero_add] at this
      exact this
    have hsel : (getSyncerForEntityAndAction (sys.processors id) loc c action
        (processor.actChildren sys id loc entity action actionParams w).world).res
        = .val (some (j, s)) := by
      have := getSyncerForEntityAndActionFrom_first loc c action (sys.processors id).Syncers 0
        j s (processor.actChildren sys id loc entity action actionParams w).world hj hs hjfirst
      rw [Nat.zero_add] at this
      exact this
    have ht := transitionPhase_with_syncer (sys.processors id) loc c action actionParams
      (processor.actChildren sys id loc entity action actionParams w).world i j sm s hsel_sm
      hsel
    rw [processor.act_of_children sys id loc entity action actionParams w c hc, ht]
    refine ⟨Event.processor loc (.act entity action actionParams)
      :: ((processor.actChildren sys id loc entity action actionParams w).trace
        ++ ((getStateMachineForEntity (sys.processors id) loc c
              (processor.actChildren sys id loc entity action actionParams w).world).trace
          ++ (getSyncerForEntityAndAction (sys.processors id) loc c action
              (processor.actChildren sys id loc entity action actionParams w).world).trace)),
      ?_⟩
    simp only [List.cons_append, List.append_assoc]
  · have hsel := getSyncerForEntity_first (sys.processors id) loc c
      (processor.syncChildren sys id loc entity action actionParams w).world i s hi hs hfirst
    have hsync := syncPhase_of_need (sys.processors id) loc entity c action _ i s hsel hneed
    refine ⟨?_, fun x hx hno => ?_⟩
    · obtain ⟨post, hpost⟩ := processor.syncAndValidate_trace_of_children sys id loc entity
        action actionParams w c hc
      rw [hsync] at hpost
      simp only [] at hpost
      refine ⟨Event.processor loc (.syncAndValidate entity action actionParams)
          :: ((processor.syncChildren sys id loc entity action actionParams w).trace
            ++ ((getSyncerForEntity (sys.processors id) loc c
                (processor.syncChildren sys id loc entity action actionParams w).world).trace
              ++ [.syncerNeedSync loc i entity action])), post, ?_, ?_⟩
      · rw [hpost]
        simp only [List.cons_append, List.append_assoc, List.nil_append]
      · intro ev hev k y hk
        subst hk
        rcases List.mem_cons.1 hev with h | h
        · cases h
        rcases List.mem_append.1 h with h | h
        · exact below_loc_ne
            (emits_syncChildren sys id loc entity action actionParams w _ h) rfl
        rcases List.mem_append.1 h with h | h
        · have := emits_getSyncerForEntityFrom
            (fun ev => ∀ k y, ev ≠ Event.smCanProcess loc k y) loc c
            (fun _ _ _ h => by cases h) (sys.processors id).Syncers 0 _ _ h
          exact this k y rfl
        · simp only [List.mem_singleton] at h
          cases h
    · have hs2 : (syncPhase (sys.processors id) loc entity c action
          (processor.syncChildren sys id loc entity action actionParams w).world).res
          = .val (x, none) := by
        rw [hsync, hx]
      rw [processor.syncAndValidate_of_children sys id loc entity action actionParams w c x hc
        hs2]
      exact validatePhase_unprocessable _ loc entity x action actionParams _ hno

/-- C20, example: with no state machine, `act` of a leaf fails with
ErrorUnprocessableEntity, and `syncAndValidate` invokes the Sync of the syncer first. -/
theorem selection_placement_witness :
    (processor.actChildren syncFails 0 [] leafOrder "approve" 0 0).res
        = .val (leafOrder, none)
      ∧ (∀ sm ∈ (syncFails.processors 0).StateMachines, sm.CanProcess leafOrder = false)
      ∧ (processor.act syncFails 0 [] leafOrder "approve" 0 0).res
          = .val (leafOrder, some ErrorUnprocessableEntity)
      ∧ ∃ pre post, (processor.syncAndValidate syncFails 0 [] leafOrder "approve" 0 0).trace
          = pre ++ Event.syncerSync [] 0 leafOrder :: post
        ∧ ∀ ev ∈ pre, ∀ k y, ev ≠ Event.smCanProcess [] k y :=
  have hno : ∀ sm ∈ (syncFails.processors 0).StateMachines, sm.CanProcess leafOrder = false :=
    fun sm hsm => by simp [syncFails] at hsm
  ⟨by decide, hno,
    (((selection_placement syncFails 0 [] leafOrder "approve" 0 0 leafOrder).1
      (by decide)).1 hno).1,
    (((selection_placement syncFails 0 [] leafOrder "approve" 0 0 leafOrder).2
      (by decide)) 0 failingSyncer rfl rfl (fun k _ hk => absurd hk (Nat.not_lt_zero k))
      rfl).1⟩

/-! ## The sync gate and the propagation of a sync error -/

/-- The wrapper's `syncAndValidate` on an entity of the right type records what the wrapped
method records. -/
theorem wrapper_syncAndValidate_trace (E : Nat → Bool)
    (f : Path → Entity → Action → ActionParams → Eng W (Entity × Option GoError))
    (loc : Path) (e : Entity) (a : Action) (p : ActionParams) (w : W) (hE : E e.typ = true) :
    (genericProcessorWrapper.syncAndValidate E f loc e a p w).trace = (f loc e a p w).trace
      ∧ ((∀ r, (f loc e a p w).res ≠ .val r) →
          ∀ out, (genericProcessorWrapper.syncAndValidate E f loc e a p w).res ≠ .val out) := by
  unfold genericProcessorWrapper.syncAndValidate
  simp only [hE, if_true]
  rcases hr : (f loc e a p w).res with r | _ | _
  · rw [bind_of_val hr]
    exact ⟨by simp [run_pure], fun h => absurd rfl (h r)⟩
  · rw [bind_of_panic hr]
    exact ⟨rfl, fun _ out h => by cases h⟩
  · rw [bind_of_outOfFuel hr]
    exact ⟨rfl, fun _ out h => by cases h⟩

/-- A return with an error recorded at or below the path of a call of `syncAndValidate` on a
sub-processor is the error that the call returns, provided this holds of the method called
for the returns recorded below. -/
theorem ref_syncAndValidate_error_of_deep_ret (sys : System W)
    (self : Nat → Path → Entity → Action → ActionParams → Eng W (Entity × Option GoError))
    (ref : ProcessorRef) (loc : Path) (k0 : String × String) (x : Entity) (a : Action)
    (p : ActionParams) (w : W)
    (hself : ∀ id, Emits (Within Event.inSyncAndValidate (loc ++ [k0]))
      (self id (loc ++ [k0]) x a p))
    (hdeep : ∀ id k rest v err,
      Event.ret ((loc ++ [k0]) ++ k :: rest) v (some err)
          ∈ (self id (loc ++ [k0]) x a p w).trace →
        ∃ c, (self id (loc ++ [k0]) x a p w).res = .val (c, some err))
    (rest : Path) (v : Option Entity) (err : GoError)
    (h : Event.ret ((loc ++ [k0]) ++ rest) v (some err)
      ∈ (ProcessorRef.syncAndValidate sys self ref (loc ++ [k0]) x a p w).trace) :
    ∃ v2, (ProcessorRef.syncAndValidate sys self ref (loc ++ [k0]) x a p w).res
      = .val (v2, some err) := by
  unfold ProcessorRef.syncAndValidate at h ⊢
  have inner : ∀ m : Eng W (Option Entity × Option GoError),
      (Event.ret ((loc ++ [k0]) ++ rest) v (some err) ∈ (m w).trace →
        ∃ out, (m w).res = .val (out, some err)) →
      Event.ret ((loc ++ [k0]) ++ rest) v (some err)
        ∈ (traced (loc ++ [k0]) (.syncAndValidate x a p) m w).trace →
      ∃ v2, (traced (loc ++ [k0]) (.syncAndValidate x a p) m w).res = .val (v2, some err) := by
    intro m hm hin
    rcases hr : (m w).res with out | _ | _
    · rw [traced_of_val _ _ m w out hr] at hin ⊢
      simp only [List.mem_cons, List.mem_append, List.mem_singleton, reduceCtorEq,
        false_or] at hin
      rcases hin with h1 | h1
      · obtain ⟨o2, ho2⟩ := hm h1
        rw [hr] at ho2
        simp only [Ctl.val.injEq] at ho2
        exact ⟨o2, by rw [ho2]⟩
      · simp only [Event.ret.injEq, List.not_mem_nil, or_false] at h1
        exact ⟨out.1, by rw [h1.2.2]⟩
    · rw [traced_of_panic _ _ m w hr] at hin
      simp only [List.mem_cons, reduceCtorEq, false_or] at hin
      obtain ⟨o2, ho2⟩ := hm hin
      rw [hr] at ho2
      cases ho2
    · rw [traced_of_outOfFuel _ _ m w hr] at hin
      simp only [List.mem_cons, reduceCtorEq, false_or] at hin
      obtain ⟨o2, ho2⟩ := hm hin
      rw [hr] at ho2
      cases ho2
  refine inner _ ?_ h
  cases ref with
  | wrapper id =>
    simp only []
    intro hin
    by_cases hE : (sys.processors id).E x.typ = true
    · have ht := wrapper_syncAndValidate_trace (sys.processors id).E (self id) (loc ++ [k0]) x a
        p w hE
      rw [ht.1] at hin
      obtain ⟨k2, rest2, hloc⟩ := within_callRet_below (hself id w _ hin) rfl
      simp only [Event.loc, List.append_assoc, List.singleton_append] at hloc
      have hrest : rest = k2 :: rest2 := by
        have := List.append_cancel_left hloc
        simpa using this
      subst hrest
      obtain ⟨c, hc⟩ := hdeep id k2 rest2 v err hin
      rw [wrapper_syncAndValidate_of_val _ _ _ _ _ _ w hE _ hc]
      exact ⟨some c, rfl⟩
    · have hE2 : (sys.processors id).E x.typ = false := by simpa using hE
      simp [genericProcessorWrapper.syncAndValidate, hE2, pure_trace] at hin
  | nilInterface =>
    intro hin
    simp [goPanic] at hin
  | nilPointer =>
    intro hin
    simp [goPanic] at hin

/-- A return with an error recorded below the path of the loop over the sub-entities is the
error with which the loop ends. -/
theorem childLoop_error_of_deep_ret (sys : System W) (cfg : ProcessorConfig W)
    (sub : ProcessorRef → Path → Entity → Action → ActionParams →
      Eng W (Option Entity × Option GoError))
    (loc : Path) (a : Action) (p : ActionParams)
    (hat : ∀ ref l x, Emits (fun ev => ∃ rest, ev.loc = l ++ rest) (sub ref l x a p))
    (l : List (String × String × Entity))
    (hB : ∀ y ∈ l, ∀ ref w rest v err,
      Event.ret ((loc ++ [(y.1, y.2.1)]) ++ rest) v (some err)
          ∈ (sub ref (loc ++ [(y.1, y.2.1)]) y.2.2 a p w).trace →
        ∃ v2, (sub ref (loc ++ [(y.1, y.2.1)]) y.2.2 a p w).res = .val (v2, some err))
    (c : Entity) (w : W) (k : String × String) (rest : Path) (v : Option Entity)
    (err : GoError)
    (h : Event.ret (loc ++ k :: rest) v (some err)
      ∈ (childLoop sys cfg sub loc a p l c w).trace) :
    ∃ c2, (childLoop sys cfg sub loc a p l c w).res = .val (c2, some err) := by
  induction l generalizing c w with
  | nil => simp [childLoop, pure_trace] at h
  | cons y rest0 ih =>
    obtain ⟨tk, ek, x⟩ := y
    have hsubret : Event.ret (loc ++ k :: rest) v (some err)
        ∈ (sub (cfg.GetProcessorFunc (some x)) (loc ++ [(tk, ek)]) x a p w).trace →
        ∃ v2, (sub (cfg.GetProcessorFunc (some x)) (loc ++ [(tk, ek)]) x a p w).res
          = .val (v2, some err) := by
      intro hin
      obtain ⟨r2, hr2⟩ := hat _ _ _ w _ hin
      simp only [Event.loc] at hr2
      have hin2 : Event.ret ((loc ++ [(tk, ek)]) ++ r2) v (some err)
          ∈ (sub (cfg.GetProcessorFunc (some x)) (loc ++ [(tk, ek)]) x a p w).trace := by
        rw [← hr2]
        exact hin
      exact hB (tk, ek, x) (List.mem_cons_self _ _) _ w r2 v err hin2
    rcases childLoop_cons sys cfg sub loc a p tk ek x rest0 c w with
      ⟨_, hR⟩ | ⟨_, ht, _, hcase⟩ | ⟨_, v2, u, hS, _, _, hR⟩
    · rw [hR] at h
      simp at h
    · rw [ht] at h
      obtain ⟨v3, hval⟩ := hsubret h
      rcases hcase with ⟨h1, _⟩ | ⟨h1, _⟩ | ⟨v4, err4, h1, h2⟩ | ⟨_, _, h1, _⟩ | ⟨_, _, h1, _⟩
      · rw [h1] at hval; simp at hval
      · rw [h1] at hval; simp at hval
      · rw [h1] at hval
        simp only [Ctl.val.injEq, Prod.mk.injEq, Option.some.injEq] at hval
        rw [← hval.2]
        exact ⟨c, h2⟩
      · rw [h1] at hval; simp at hval
      · rw [h1] at hval; simp at hval
    · rw [hR] at h ⊢
      simp only at h ⊢
      rcases List.mem_append.1 h with h1 | h1
      · obtain ⟨v3, hval⟩ := hsubret h1
        rw [hS] at hval
        simp at hval
      · exact ih (fun y hy => hB y (List.mem_cons_of_mem _ hy)) u _ h1

/-- A return with an error recorded anywhere below the entity in a run of `syncAndValidate`
is the error that `syncAndValidate` returns. -/
theorem syncAndValidate_error_of_deep_ret (sys : System W) (a : Action) (p : ActionParams) :
    ∀ (n : Nat) (e : Entity), e.depth ≤ n → ∀ (id : Nat) (loc : Path) (w : W)
      (k : String × String) (rest : Path) (v : Option Entity) (err : GoError),
      Event.ret (loc ++ k :: rest) v (some err)
          ∈ (processor.syncAndValidate sys id loc e a p w).trace →
        ∃ c, (processor.syncAndValidate sys id loc e a p w).res = .val (c, some err) := by
  intro n
  induction n with
  | zero =>
    intro e he
    rw [Entity.depth_eq] at he
    omega
  | succ n ih =>
    intro e he id loc w k rest v err h
    obtain ⟨⟨own, htr, _, hown, _⟩, _⟩ := syncAndValidate_children_first sys id loc e a p w
    rw [htr] at h
    have hin : Event.ret (loc ++ k :: rest) v (some err)
        ∈ (processor.syncChildren sys id loc e a p w).trace := by
      rcases List.mem_cons.1 h with h1 | h1
      · cases h1
      rcases List.mem_append.1 h1 with h1 | h1
      · exact h1
      · have := (hown _ h1).1
        simp only [Event.loc] at this
        have := congrArg List.length this
        simp at this
    have hloop : ∃ c, (processor.syncChildren sys id loc e a p w).res = .val (c, some err) := by
      unfold processor.syncChildren at hin ⊢
      rcases childrenPhase_run sys (sys.processors id)
        (ProcessorRef.syncAndValidate sys (processor.syncAndValidate sys)) loc e a p w with
        ⟨_, hR⟩ | ⟨_, hR⟩
      · rw [hR] at hin
        simp at hin
      · rw [hR] at hin ⊢
        refine childLoop_error_of_deep_ret sys _ _ loc a p
          (fun ref l x => emits_ref_syncAndValidate_at sys ref l x a p) _ ?_ _ w k rest v err hin
        intro y hy ref w2 rest2 v2 err2 hin2
        refine ref_syncAndValidate_error_of_deep_ret sys (processor.syncAndValidate sys) ref loc
          (y.1, y.2.1) y.2.2 a p w2 (fun id2 => emits_syncAndValidate sys id2 _ _ a p) ?_ rest2
          v2 err2 hin2
        intro id2 k2 rest3 v3 err3 hin3
        have hd : y.2.2.depth < e.depth := depth_lt_of_mem_entries e y.2.2 y.1 y.2.1 hy
        exact ih y.2.2 (by omega) id2 _ w2 k2 rest3 v3 err3 hin3
    obtain ⟨c, hc⟩ := hloop
    rw [processor.syncAndValidate_of_children_error sys id loc e a p w c err hc]
    exact ⟨c, rfl⟩

/-- The run of `syncAndValidate` when the loop over the sub-entities succeeds and the sync
fails. -/
theorem processor.syncAndValidate_of_sync_failed (sys : System W) (id : Nat) (loc : Path)
    (e : Entity) (a : Action) (p : ActionParams) (w : W) (c s : Entity) (err : GoError)
    (h : (processor.syncChildren sys id loc e a p w).res = .val (c, none))
    (hs : (syncPhase (sys.processors id) loc e c a
      (processor.syncChildren sys id loc e a p w).world).res = .val (s, some err)) :
    processor.syncAndValidate sys id loc e a p w
      = ⟨.val (s, some err),
          (syncPhase (sys.processors id) loc e c a
            (processor.syncChildren sys id loc e a p w).world).world,
          Event.processor loc (.syncAndValidate e a p)
            :: ((processor.syncChildren sys id loc e a p w).trace
              ++ (syncPhase (sys.processors id) loc e c a
                  (processor.syncChildren sys id loc e a p w).world).trace)⟩ := by
  rw [processor.syncAndValidate_unfold, run_emit_bind, bind_of_val h]
  simp only []
  rw [bind_of_val hs]
  simp only [run_pure, List.append_nil]

/-- The three ways in which the sync of an entity runs. -/
theorem syncPhase_cases (cfg : ProcessorConfig W) (loc : Path) (e c : Entity) (a : Action)
    (w : W) :
    ((∀ s ∈ cfg.Syncers, s.CanProcess c = false)
        ∧ syncPhase cfg loc e c a w
          = ⟨.val (c, none), w, (getSyncerForEntity cfg loc c w).trace⟩)
      ∨ (∃ (k : Nat) (s : Syncer W), cfg.Syncers[k]? = some s ∧ s.CanProcess c = true
          ∧ (∀ (j : Nat) (s2 : Syncer W), j < k → cfg.Syncers[j]? = some s2 →
              s2.CanProcess c = false)
          ∧ ((s.NeedSync e a = false
              ∧ syncPhase cfg loc e c a w
                = ⟨.val (c, none), w,
                    (getSyncerForEntity cfg loc c w).trace ++ [.syncerNeedSync loc k e a]⟩)
            ∨ (s.NeedSync e a = true
              ∧ syncPhase cfg loc e c a w
                = ⟨.val (s.Sync c w).1, (s.Sync c w).2,
                    (getSyncerForEntity cfg loc c w).trace
                      ++ [.syncerNeedSync loc k e a, .syncerSync loc k c]⟩))) := by
  rcases getSyncerForEntityFrom_spec loc c cfg.Syncers 0 w with
    ⟨k, s, h1, h2, h3, h4⟩ | ⟨h1, h2⟩
  · right
    rw [Nat.zero_add] at h1
    refine ⟨k, s, h2, h3, h4, ?_⟩
    by_cases hn : s.NeedSync e a = true
    · exact Or.inr ⟨hn, syncPhase_of_need cfg loc e c a w k s h1 hn⟩
    · have hn2 : s.NeedSync e a = false := by simpa using hn
      exact Or.inl ⟨hn2, syncPhase_of_no_need cfg loc e c a w k s h1 hn2⟩
  · exact Or.inl ⟨h2, syncPhase_of_none cfg loc e c a w h1⟩

/-- The selection of the syncer asks the syncers whether they accept the entity. -/
theorem getSyncerForEntity_trace (cfg : ProcessorConfig W) (loc : Path) (c : Entity) (w : W) :
    ∀ ev ∈ (getSyncerForEntity cfg loc c w).trace, ∃ i, ev = .syncerCanProcess loc i c :=
  emits_getSyncerForEntityFrom (fun ev => ∃ i, ev = Event.syncerCanProcess loc i c) loc c
    (fun i => ⟨i, rfl⟩) cfg.Syncers 0 w

/-- The run of `syncAndValidate` once the sub-entities have succeeded: the entry, the run of
the sub-entities, the run of the sync and, if it is reached, the run of the validation. -/
theorem processor.syncAndValidate_trace_split (sys : System W) (id : Nat) (loc : Path)
    (e : Entity) (a : Action) (p : ActionParams) (w : W) (c : Entity)
    (h : (processor.syncChildren sys id loc e a p w).res = .val (c, none)) :
    ∃ post, (processor.syncAndValidate sys id loc e a p w).trace
        = Event.processor loc (.syncAndValidate e a p)
          :: ((processor.syncChildren sys id loc e a p w).trace
            ++ ((syncPhase (sys.processors id) loc e c a
                (processor.syncChildren sys id loc e a p w).world).trace ++ post))
      ∧ (post = [] ∨ ∃ x w2, post = (validatePhase (sys.processors id) loc e x a p w2).trace) := by
  rcases hs : (syncPhase (sys.processors id) loc e c a
      (processor.syncChildren sys id loc e a p w).world).res with r | _ | _
  · obtain ⟨s, err⟩ := r
    cases err with
    | none =>
      rw [processor.syncAndValidate_of_children sys id loc e a p w c s h hs]
      exact ⟨_, rfl, Or.inr ⟨s, _, rfl⟩⟩
    | some err =>
      rw [processor.syncAndValidate_of_sync_failed sys id loc e a p w c s err h hs]
      exact ⟨[], by simp, Or.inl rfl⟩
  · rw [processor.syncAndValidate_unfold, run_emit_bind, bind_of_val h]
    simp only []
    rw [bind_of_panic hs]
    exact ⟨[], by simp, Or.inl rfl⟩
  · rw [processor.syncAndValidate_unfold, run_emit_bind, bind_of_val h]
    simp only []
    rw [bind_of_outOfFuel hs]
    exact ⟨[], by simp, Or.inl rfl⟩

/-- The calls of Sync on the entity itself recorded by `syncAndValidate` are those of its
sync. -/
theorem syncAndValidate_sync_events (sys : System W) (id : Nat) (loc : Path)
    (e : Entity) (a : Action) (p : ActionParams) (w : W) (c : Entity)
    (h : (processor.syncChildren sys id loc e a p w).res = .val (c, none)) (i : Nat)
    (x : Entity) :
    Event.syncerSync loc i x ∈ (processor.syncAndValidate sys id loc e a p w).trace
      ↔ Event.syncerSync loc i x ∈ (syncPhase (sys.processors id) loc e c a
          (processor.syncChildren sys id loc e a p w).world).trace := by
  obtain ⟨post, htr, hpost⟩ := processor.syncAndValidate_trace_split sys id loc e a p w c h
  rw [htr]
  simp only [List.mem_cons, List.mem_append, reduceCtorEq, false_or]
  constructor
  · rintro (h1 | h1 | h1)
    · exact absurd rfl (below_loc_ne (emits_syncChildren sys id loc e a p w _ h1))
    · exact h1
    · rcases hpost with hp | ⟨x0, w2, hp⟩
      · rw [hp] at h1
        simp at h1
      · rw [hp] at h1
        have := emits_validatePhase_events (fun ev => ∀ i x, ev ≠ Event.syncerSync loc i x)
          (sys.processors id) loc e x0 a p (fun _ _ _ h => by cases h)
          (fun _ _ _ h => by cases h) w2 _ h1
        exact absurd rfl (this i x)
  · exact fun h1 => Or.inr (Or.inl h1)

/-- C12 (as amended; sync gate and abort).  In `syncAndValidate`, once the loop over the
sub-entities has returned without error, with the entity `c`: Sync is invoked on the entity
exactly when some syncer's CanProcess is true for `c` and the first such syncer's NeedSync is
true for the input entity and the action, and it is invoked on `c`; when Sync is not invoked
the phase goes on with the validation of `c` (no matching syncer is not an error); and when
that Sync returns the error `e` the phase returns `e` with the entity Sync returned, and
Validate is not invoked for the entity.  When the loop over the sub-entities does not return
without error, the phase ends as the loop does and Sync is not invoked on the entity,
whatever its syncers say.  The wrapper returns that error unchanged to the parent; an error returned by the
`syncAndValidate` of a sub-entity at any depth is the error that the `syncAndValidate` of
every ancestor returns; and when the `syncAndValidate` of the root returns `e`, Process
returns the input entity with `e` and its run contains no call or entry of `act` or `save`
and no StateMachine.Do, Syncer.Do or Repository.Save. -/
theorem sync_gate_and_abort (sys : System W) (id : Nat) (loc : Path) (entity : Entity)
    (action : Action) (actionParams : ActionParams) (w : W) :
    (∀ c, (processor.syncChildren sys id loc entity action actionParams w).res
        = .val (c, none) →
      (∀ (i : Nat) (x : Entity), Event.syncerSync loc i x
          ∈ (processor.syncAndValidate sys id loc entity action actionParams w).trace ↔
        (x = c ∧ ∃ s : Syncer W, (sys.processors id).Syncers[i]? = some s
          ∧ s.CanProcess c = true
          ∧ (∀ (j : Nat) (s2 : Syncer W), j < i →
              (sys.processors id).Syncers[j]? = some s2 → s2.CanProcess c = false)
          ∧ s.NeedSync entity action = true))
        ∧ ((∀ (i : Nat) (x : Entity), Event.syncerSync loc i x
              ∉ (processor.syncAndValidate sys id loc entity action actionParams w).trace) →
            (processor.syncAndValidate sys id loc entity action actionParams w).res
              = (validatePhase (sys.processors id) loc entity c action actionParams
                  (processor.syncChildren sys id loc entity action actionParams w).world).res)
        ∧ ∀ (i : Nat) (s : Syncer W) (x : Entity) (e : GoError),
            (sys.processors id).Syncers[i]? = some s → s.CanProcess c = true →
            (∀ (j : Nat) (s2 : Syncer W), j < i →
              (sys.processors id).Syncers[j]? = some s2 → s2.CanProcess c = false) →
            s.NeedSync entity action = true →
            (s.Sync c (processor.syncChildren sys id loc entity action actionParams w).world).1
              = (x, some e) →
            (processor.syncAndValidate sys id loc entity action actionParams w).res
                = .val (x, some e)
              ∧ ∀ k y a p, Event.smValidate loc k y a p
                  ∉ (processor.syncAndValidate sys id loc entity action actionParams w).trace)
      ∧ ((∀ c, (processor.syncChildren sys id loc entity action actionParams w).res
            ≠ .val (c, none)) →
          (processor.syncAndValidate sys id loc entity action actionParams w).res
              = (processor.syncChildren sys id loc entity action actionParams w).res
            ∧ ∀ (i : Nat) (x : Entity), Event.syncerSync loc i x
                ∉ (processor.syncAndValidate sys id loc entity action actionParams w).trace)
      ∧ (∀ x e, (sys.processors id).E entity.typ = true →
          (processor.syncAndValidate sys id loc entity action actionParams w).res
            = .val (x, some e) →
          (WrapProcessor.syncAndValidate sys id loc entity action actionParams w).res
              = .val (some x, some e)
            ∧ Event.ret loc (some x) (some e)
              ∈ (WrapProcessor.syncAndValidate sys id loc entity action actionParams w).trace)
      ∧ (∀ k rest v e, Event.ret (loc ++ k :: rest) v (some e)
            ∈ (processor.syncAndValidate sys id loc entity action actionParams w).trace →
          ∃ c, (processor.syncAndValidate sys id loc entity action actionParams w).res
            = .val (c, some e))
      ∧ ∀ c e, (processor.syncAndValidate sys id loc entity action actionParams w).res
            = .val (c, some e) →
          (processor.Process sys id loc entity action actionParams w).res
              = .val (entity, some e)
            ∧ ∀ ev ∈ (processor.Process sys id loc entity action actionParams w).trace,
                ev.isDoOrSave = false ∧ ev.isActOrSave = false := by
  refine ⟨fun c hc => ?_, fun hfail => ?_, fun x e hE hres => ?_, fun k rest v e h => ?_,
    fun c e hres => ?_⟩
  · have hsel := getSyncerForEntity_trace (sys.processors id) loc c
      (processor.syncChildren sys id loc entity action actionParams w).world
    have hev := syncAndValidate_sync_events sys id loc entity action actionParams w c hc
    rcases syncPhase_cases (sys.processors id) loc entity c action
        (processor.syncChildren sys id loc entity action actionParams w).world with
      ⟨hnone, hrun⟩ | ⟨k, s, hk, hs, hfirst, ⟨hn, hrun⟩ | ⟨hn, hrun⟩⟩
    · have hno : ∀ (i : Nat) (x : Entity), Event.syncerSync loc i x
          ∉ (processor.syncAndValidate sys id loc entity action actionParams w).trace := by
        intro i x hm
        rw [hev, hrun] at hm
        obtain ⟨j, hj⟩ := hsel _ hm
        cases hj
      have hres := processor.syncAndValidate_of_children sys id loc entity action actionParams
        w c c hc (by rw [hrun])
      refine ⟨fun i x => ⟨fun hm => absurd hm (hno i x), ?_⟩, fun _ => ?_, ?_⟩
      · rintro ⟨_, s, hi, hs, _, _⟩
        rw [hnone s (List.getElem?_mem hi)] at hs
        exact absurd hs (by simp)
      · rw [hres, hrun]
      · intro i s x e hi hs _ _ _
        rw [hnone s (List.getElem?_mem hi)] at hs
        exact absurd hs (by simp)
    · have hno : ∀ (i : Nat) (x : Entity), Event.syncerSync loc i x
          ∉ (processor.syncAndValidate sys id loc entity action actionParams w).trace := by
        intro i x hm
        rw [hev, hrun] at hm
        simp only [List.mem_append, List.mem_singleton, reduceCtorEq, or_false] at hm
        obtain ⟨j, hj⟩ := hsel _ hm
        cases hj
      have hres := processor.syncAndValidate_of_children sys id loc entity action actionParams
        w c c hc (by rw [hrun])
      refine ⟨fun i x => ⟨fun hm => absurd hm (hno i x), ?_⟩, fun _ => ?_, ?_⟩
      · rintro ⟨_, s2, hi, hs2, hf2, hn2⟩
        have := first_accepting_unique _ (fun z => z.CanProcess c) i k s2 s hi hs2 hf2 hk hs
          hfirst
        rw [this.2, hn] at hn2
        exact absurd hn2 (by simp)
      · rw [hres, hrun]
      · intro i s2 x e hi hs2 hf2 hn2 _
        have := first_accepting_unique _ (fun z => z.CanProcess c) i k s2 s hi hs2 hf2 hk hs
          hfirst
        rw [this.2, hn] at hn2
        exact absurd hn2 (by simp)
    · have hmem : ∀ (i : Nat) (x : Entity), Event.syncerSync loc i x
          ∈ (processor.syncAndValidate sys id loc entity action actionParams w).trace
            ↔ (i = k ∧ x = c) := by
        intro i x
        rw [hev, hrun]
        simp only [List.mem_append, List.mem_cons, List.mem_singleton, reduceCtorEq,
          false_or, Event.syncerSync.injEq, true_and, List.not_mem_nil, or_false]
        constructor
        · rintro (hm | hm)
          · obtain ⟨j, hj⟩ := hsel _ hm
            cases hj
          · exact hm
        · exact fun hm => Or.inr hm
      refine ⟨fun i x => ?_, fun hnot => ?_, ?_⟩
      · rw [hmem]
        constructor
        · rintro ⟨hi, hx⟩
          subst hi
          exact ⟨hx, s, hk, hs, hfirst, hn⟩
        · rintro ⟨hx, s2, hi, hs2, hf2, _⟩
          exact ⟨(first_accepting_unique _ (fun z => z.CanProcess c) i k s2 s hi hs2 hf2 hk hs
            hfirst).1, hx⟩
      · exact absurd ((hmem k c).2 ⟨rfl, rfl⟩) (hnot k c)
      · intro i s2 x e hi hs2 hf2 _ hsync
        have hu := first_accepting_unique _ (fun z => z.CanProcess c) i k s2 s hi hs2 hf2 hk hs
          hfirst
        rw [hu.2] at hsync
        have hs3 : (syncPhase (sys.processors id) loc entity c action
            (processor.syncChildren sys id loc entity action actionParams w).world).res
            = .val (x, some e) := by
          rw [hrun, hsync]
        have hfull := processor.syncAndValidate_of_sync_failed sys id loc entity action
          actionParams w c x e hc hs3
        rw [hfull]
        refine ⟨rfl, ?_⟩
        intro k2 y a p hm
        simp only [List.mem_cons, List.mem_append, reduceCtorEq, false_or] at hm
        rcases hm with hm | hm
        · exact absurd rfl (below_loc_ne
            (emits_syncChildren sys id loc entity action actionParams w _ hm))
        · have := emits_syncPhase_events
            (fun ev => ∀ k y a p, ev ≠ Event.smValidate loc k y a p)
            (sys.processors id) loc entity c action (fun _ _ _ _ _ h => by cases h)
            (fun _ _ _ _ _ h => by cases h) (fun _ _ _ _ _ h => by cases h) _ _ hm
          exact this k2 y a p rfl
  · have hrun := syncAndValidateBody_of_children_failed sys (sys.processors id)
      (ProcessorRef.syncAndValidate sys (processor.syncAndValidate sys)) loc entity action
      actionParams w hfail
    rw [processor.syncAndValidate_eq, hrun]
    refine ⟨rfl, fun i x hm => ?_⟩
    rcases List.mem_cons.1 hm with h | h
    · cases h
    · exact below_loc_ne (emits_syncChildren sys id loc entity action actionParams w _ h) rfl
  · have hw := wrapper_syncAndValidate_of_val (sys.processors id).E
      (processor.syncAndValidate sys id) loc entity action actionParams w hE _ hres
    have hval : (WrapProcessor.syncAndValidate sys id loc entity action actionParams w).res
        = .val (some x, some e) := by
      unfold WrapProcessor.syncAndValidate ProcessorRef.syncAndValidate
      simp only []
      rw [traced_of_val _ _ _ w _ (by rw [hw])]
    exact ⟨hval, traced_ret_of_val _ _ _ w _ hval⟩
  · exact syncAndValidate_error_of_deep_ret sys action actionParams entity.depth entity
      (Nat.le_refl _) id loc w k rest v e h
  · have hfail : ∀ c2, (processor.syncAndValidate sys id loc entity action actionParams w).res
        ≠ .val (c2, none) := by
      intro c2 h2
      rw [hres] at h2
      cases h2
    obtain ⟨htr, _, herr⟩ := process_of_sync_failed sys id loc entity action actionParams w hfail
    refine ⟨herr c e hres, ?_⟩
    intro ev hev
    rw [htr] at hev
    rcases List.mem_cons.1 hev with h | h
    · subst h
      exact ⟨rfl, rfl⟩
    · exact inSyncAndValidate_not_do ev
        (within_kind (emits_syncAndValidate sys id loc entity action actionParams w ev h))

/-- C12, example: the Sync of the line item fails; its error is returned by the
`syncAndValidate` of the order and by Process, which returns the order unchanged. -/
theorem sync_gate_and_abort_witness :
    Event.ret ([] ++ ("items", "1") :: []) (some (.mk 2 5 [])) (some (GoError.other 5))
        ∈ (processor.syncAndValidate itemSyncFails 0 [] demoOrder "approve" 0 0).trace
      ∧ (∃ c, (processor.syncAndValidate itemSyncFails 0 [] demoOrder "approve" 0 0).res
          = .val (c, some (GoError.other 5)))
      ∧ (processor.Process itemSyncFails 0 [] demoOrder "approve" 0 0).res
          = .val (demoOrder, some (GoError.other 5)) :=
  have hret : Event.ret ([] ++ ("items", "1") :: []) (some (.mk 2 5 []))
      (some (GoError.other 5))
      ∈ (processor.syncAndValidate itemSyncFails 0 [] demoOrder "approve" 0 0).trace := by
    decide
  ⟨hret,
    (sync_gate_and_abort itemSyncFails 0 [] demoOrder "approve" 0 0).2.2.2.1 _ _ _ _ hret,
    ((sync_gate_and_abort itemSyncFails 0 [] demoOrder "approve" 0 0).2.2.2.2 demoOrder
      (GoError.other 5) (by decide)).1⟩


/-- C12, counterexample: the only syncer of the order accepts every entity and its NeedSync
is true, yet its Sync is not invoked, on no entity: the validation of the line item fails
before, and `syncAndValidate` returns that error. -/
theorem sync_gate_counterexample :
    (rootSyncs.processors 0).Syncers = [markingSyncer]
      ∧ (∀ x, markingSyncer.CanProcess x = true)
      ∧ (∀ x a, markingSyncer.NeedSync x a = true)
      ∧ (processor.syncAndValidate rootSyncs 0 [] demoOrder "ship" 0 0).res
          = .val (demoOrder, some ErrorInvalidState)
      ∧ ∀ l i x, Event.syncerSync l i x
          ∉ (processor.syncAndValidate rootSyncs 0 [] demoOrder "ship" 0 0).trace := by
  refine ⟨rfl, fun _ => rfl, fun _ _ => rfl, by decide, fun l i x h => ?_⟩
  have hfilter : ((processor.syncAndValidate rootSyncs 0 [] demoOrder "ship" 0 0).trace).filter
      Event.isSyncerSync = [] := by decide
  have h2 : Event.syncerSync l i x
      ∈ ((processor.syncAndValidate rootSyncs 0 [] demoOrder "ship" 0 0).trace).filter
        Event.isSyncerSync := List.mem_filter.2 ⟨h, rfl⟩
  rw [hfilter] at h2
  cases h2
/-! ## The turns of the reconciliation, case by case -/

/-- The run of the fold-back. -/
theorem foldBack_cases (sys : System W) (cfg : ProcessorConfig W) (c : Option Entity)
    (tk ek : String) (s : Entity) (w : W) :
    (c = none ∧ foldBack sys cfg c tk ek s w = ⟨.panic, w, []⟩)
      ∨ (∃ c0 err, c = some c0 ∧ sys.ops.UpdateSubEntity c0 tk ek (some s) = .error err
          ∧ foldBack sys cfg c tk ek s w = ⟨.val (c, some err), w, []⟩)
      ∨ (∃ c0 u, c = some c0 ∧ sys.ops.UpdateSubEntity c0 tk ek (some s) = .ok u
          ∧ cfg.E u.typ = false ∧ foldBack sys cfg c tk ek s w = ⟨.panic, w, []⟩)
      ∨ (∃ c0 u, c = some c0 ∧ sys.ops.UpdateSubEntity c0 tk ek (some s) = .ok u
          ∧ cfg.E u.typ = true ∧ foldBack sys cfg c tk ek s w = ⟨.val (some u, none), w, []⟩) := by
  cases c with
  | none => exact Or.inl ⟨rfl, rfl⟩
  | some c0 =>
    cases hU : sys.ops.UpdateSubEntity c0 tk ek (some s) with
    | error err =>
      refine Or.inr (Or.inl ⟨c0, err, rfl, hU, ?_⟩)
      unfold foldBack
      simp only [hU]
      rfl
    | ok u =>
      by_cases hE : cfg.E u.typ = true
      · refine Or.inr (Or.inr (Or.inr ⟨c0, u, rfl, hU, hE, ?_⟩))
        unfold foldBack
        simp only [hU, run_assertType_bind, hE, if_true]
        rfl
      · have hE2 : cfg.E u.typ = false := by simpa using hE
        refine Or.inr (Or.inr (Or.inl ⟨c0, u, rfl, hU, hE2, ?_⟩))
        unfold foldBack
        simp only [hU, run_assertType_bind, hE2, Bool.false_eq_true, if_false]

/-- One call of the reconciliation, case by case: the sub-entity has no processor; the call
panics or runs out of fuel; the call returns an error; the result is folded back (and the
fold-back fails, panics or succeeds); or nothing is folded back. -/
theorem jobStep_cases (sys : System W) (cfg : ProcessorConfig W)
    (sub : ProcessorRef → Path → Option Entity → Option Entity →
      Eng W (Option Entity × Option GoError))
    (loc : Path) (j : Job) (c : Option Entity) (w : W) :
    (isNilProcessor (jobProcessor cfg j) = true
        ∧ ∀ next, jobStep sys cfg sub loc j c next w
          = ⟨.val (c, some ErrorProcessorNotFound), w, []⟩)
      ∨ (isNilProcessor (jobProcessor cfg j) = false
        ∧ (((sub (jobProcessor cfg j) (loc ++ [(j.1, j.2.1)]) j.2.2.1 j.2.2.2 w).res = .panic
            ∧ ∀ next, jobStep sys cfg sub loc j c next w
              = ⟨.panic, (sub (jobProcessor cfg j) (loc ++ [(j.1, j.2.1)]) j.2.2.1 j.2.2.2
                  w).world,
                (sub (jobProcessor cfg j) (loc ++ [(j.1, j.2.1)]) j.2.2.1 j.2.2.2 w).trace⟩)
          ∨ ((sub (jobProcessor cfg j) (loc ++ [(j.1, j.2.1)]) j.2.2.1 j.2.2.2 w).res
              = .outOfFuel
            ∧ ∀ next, jobStep sys cfg sub loc j c next w
              = ⟨.outOfFuel, (sub (jobProcessor cfg j) (loc ++ [(j.1, j.2.1)]) j.2.2.1 j.2.2.2
                  w).world,
                (sub (jobProcessor cfg j) (loc ++ [(j.1, j.2.1)]) j.2.2.1 j.2.2.2 w).trace⟩)
          ∨ (∃ v err, (sub (jobProcessor cfg j) (loc ++ [(j.1, j.2.1)]) j.2.2.1 j.2.2.2 w).res
              = .val (v, some err)
            ∧ ∀ next, jobStep sys cfg sub loc j c next w
              = ⟨.val (c, some err),
                (sub (jobProcessor cfg j) (loc ++ [(j.1, j.2.1)]) j.2.2.1 j.2.2.2 w).world,
                (sub (jobProcessor cfg j) (loc ++ [(j.1, j.2.1)]) j.2.2.1 j.2.2.2 w).trace⟩)
          ∨ (∃ s, (sub (jobProcessor cfg j) (loc ++ [(j.1, j.2.1)]) j.2.2.1 j.2.2.2 w).res
              = .val (some s, none) ∧ j.2.2.2.isSome = true
            ∧ ((∃ R0 : Run W (Option Entity × Option GoError),
                  (∀ c1, R0.res ≠ .val (c1, none))
                ∧ R0.trace
                  = (sub (jobProcessor cfg j) (loc ++ [(j.1, j.2.1)]) j.2.2.1 j.2.2.2 w).trace
                ∧ (c = none ∨ ∃ c0, c = some c0
                    ∧ ((∃ err, sys.ops.UpdateSubEntity c0 j.1 j.2.1 (some s) = .error err
                        ∧ R0.res = .val (c, some err))
                      ∨ ∃ u, sys.ops.UpdateSubEntity c0 j.1 j.2.1 (some s) = .ok u
                        ∧ cfg.E u.typ = false))
                ∧ ∀ next, jobStep sys cfg sub loc j c next w = R0)
              ∨ (∃ c0 u, c = some c0
                ∧ sys.ops.UpdateSubEntity c0 j.1 j.2.1 (some s) = .ok u ∧ cfg.E u.typ = true
                ∧ ∀ next, jobStep sys cfg sub loc j c next w
                  = ⟨(next (some u) (sub (jobProcessor cfg j) (loc ++ [(j.1, j.2.1)]) j.2.2.1
                        j.2.2.2 w).world).res,
                    (next (some u) (sub (jobProcessor cfg j) (loc ++ [(j.1, j.2.1)]) j.2.2.1
                        j.2.2.2 w).world).world,
                    (sub (jobProcessor cfg j) (loc ++ [(j.1, j.2.1)]) j.2.2.1 j.2.2.2 w).trace
                      ++ (next (some u) (sub (jobProcessor cfg j) (loc ++ [(j.1, j.2.1)])
                        j.2.2.1 j.2.2.2 w).world).trace⟩)))
          ∨ (∃ v, (sub (jobProcessor cfg j) (loc ++ [(j.1, j.2.1)]) j.2.2.1 j.2.2.2 w).res
              = .val (v, none) ∧ (j.2.2.2.isSome = false ∨ v = none)
            ∧ ∀ next, jobStep sys cfg sub loc j c next w
              = ⟨(next c (sub (jobProcessor cfg j) (loc ++ [(j.1, j.2.1)]) j.2.2.1 j.2.2.2
                    w).world).res,
                (next c (sub (jobProcessor cfg j) (loc ++ [(j.1, j.2.1)]) j.2.2.1 j.2.2.2
                    w).world).world,
                (sub (jobProcessor cfg j) (loc ++ [(j.1, j.2.1)]) j.2.2.1 j.2.2.2 w).trace
                  ++ (next c (sub (jobProcessor cfg j) (loc ++ [(j.1, j.2.1)]) j.2.2.1 j.2.2.2
                    w).world).trace⟩))) := by
  by_cases hnil : isNilProcessor (jobProcessor cfg j) = true
  · left
    refine ⟨hnil, fun next => ?_⟩
    unfold jobStep
    simp only [hnil, if_true]
    rfl
  · have hnil2 : isNilProcessor (jobProcessor cfg j) = false := by simpa using hnil
    right
    refine ⟨hnil2, ?_⟩
    have hdef : ∀ next, jobStep sys cfg sub loc j c next
        = (sub (jobProcessor cfg j) (loc ++ [(j.1, j.2.1)]) j.2.2.1 j.2.2.2 >>= fun r =>
          match r.2 with
          | some err => pure (c, some err)
          | none =>
            match j.2.2.2.isSome, r.1 with
            | true, some savedNewSubEntity =>
              foldBack sys cfg c j.1 j.2.1 savedNewSubEntity >>= fun u =>
                match u.2 with
                | some err => pure (u.1, some err)
                | none => next u.1
            | _, _ => next c) := by
      intro next
      unfold jobStep
      simp only [hnil2, Bool.false_eq_true, if_false]
    rcases hS : (sub (jobProcessor cfg j) (loc ++ [(j.1, j.2.1)]) j.2.2.1 j.2.2.2 w).res with
      out | _ | _
    · obtain ⟨v, err⟩ := out
      cases err with
      | some err =>
        right; right; left
        refine ⟨v, err, rfl, fun next => ?_⟩
        rw [hdef, bind_of_val hS]
        simp only [run_pure, List.append_nil]
      | none =>
        cases hn : j.2.2.2.isSome with
        | false =>
          right; right; right; right
          refine ⟨v, rfl, Or.inl rfl, fun next => ?_⟩
          rw [hdef, bind_of_val hS]
          simp only [hn]
        | true =>
          cases v with
          | none =>
            right; right; right; right
            refine ⟨none, rfl, Or.inr rfl, fun next => ?_⟩
            rw [hdef, bind_of_val hS]
            simp only [hn]
          | some s =>
            right; right; right; left
            refine ⟨s, rfl, rfl, ?_⟩
            rcases foldBack_cases sys cfg c j.1 j.2.1 s
                (sub (jobProcessor cfg j) (loc ++ [(j.1, j.2.1)]) j.2.2.1 j.2.2.2 w).world with
              ⟨hc, hr⟩ | ⟨c0, err, hc, hU, hr⟩ | ⟨c0, u, hc, hU, hE, hr⟩ | ⟨c0, u, hc, hU, hE, hr⟩
            · left
              refine ⟨⟨.panic,
                (sub (jobProcessor cfg j) (loc ++ [(j.1, j.2.1)]) j.2.2.1 j.2.2.2 w).world,
                (sub (jobProcessor cfg j) (loc ++ [(j.1, j.2.1)]) j.2.2.1 j.2.2.2 w).trace⟩,
                by simp, rfl, Or.inl hc, fun next => ?_⟩
              rw [hdef, bind_of_val hS]
              simp only [hn]
              rw [bind_of_panic (by rw [hr]), hr]
              simp only [List.append_nil]
            · left
              refine ⟨⟨.val (c, some err),
                (sub (jobProcessor cfg j) (loc ++ [(j.1, j.2.1)]) j.2.2.1 j.2.2.2 w).world,
                (sub (jobProcessor cfg j) (loc ++ [(j.1, j.2.1)]) j.2.2.1 j.2.2.2 w).trace⟩,
                by simp, rfl, Or.inr ⟨c0, hc, Or.inl ⟨err, hU, rfl⟩⟩, fun next => ?_⟩
              rw [hdef, bind_of_val hS]
              simp only [hn]
              rw [bind_of_val (by rw [hr]), hr]
              simp only [run_pure, List.append_nil]
            · left
              refine ⟨⟨.panic,
                (sub (jobProcessor cfg j) (loc ++ [(j.1, j.2.1)]) j.2.2.1 j.2.2.2 w).world,
                (sub (jobProcessor cfg j) (loc ++ [(j.1, j.2.1)]) j.2.2.1 j.2.2.2 w).trace⟩,
                by simp, rfl, Or.inr ⟨c0, hc, Or.inr ⟨u, hU, hE⟩⟩, fun next => ?_⟩
              rw [hdef, bind_of_val hS]
              simp only [hn]
              rw [bind_of_panic (by rw [hr]), hr]
              simp only [List.append_nil]
            · right
              refine ⟨c0, u, hc, hU, hE, fun next => ?_⟩
              rw [hdef, bind_of_val hS]
              simp only [hn]
              rw [bind_of_val (by rw [hr]), hr]
              simp only [List.nil_append]
    · left
      refine ⟨rfl, fun next => ?_⟩
      rw [hdef, bind_of_panic hS]
    · right; left
      refine ⟨rfl, fun next => ?_⟩
      rw [hdef, bind_of_outOfFuel hS]


/-! ## `save` in any visiting order -/

/-- With the order of `jobsOf`, the order-parametrised body of `save` is the body. -/
theorem saveBodyIn_jobsOf (sys : System W) (cfg : ProcessorConfig W)
    (sub : ProcessorRef → Path → Option Entity → Option Entity →
      Eng W (Option Entity × Option GoError))
    (loc : Path) (o n : Option Entity) :
    saveBodyIn sys cfg sub loc (jobsOf o n) o n = saveBody sys cfg sub loc o n := by
  unfold saveBodyIn saveBody
  have h : reconcilePhaseIn sys cfg sub loc (jobsOf o n) n = reconcilePhase sys cfg sub loc o n := by
    rw [reconcilePhase_eq]
    rfl
  rw [h]
  try rfl

theorem saveIn_jobsOrder (sys : System W) (fuel : Nat) :
    saveIn sys jobsOrder fuel = saveFuel sys fuel := by
  induction fuel with
  | zero => rfl
  | succ n ih =>
    funext id loc o n
    simp only [saveIn, saveFuel]
    rw [ih]
    exact saveBodyIn_jobsOf sys _ _ loc o n

theorem processor.saveIn_as_save (sys : System W) (id : Nat) (loc : Path)
    (o n : Option Entity) :
    processor.saveIn sys jobsOrder id loc o n = processor.save sys id loc o n := by
  unfold processor.saveIn processor.save
  rw [HSM.saveIn_jobsOrder]

/-- The run of `save` in the order `sord` is the body, with the calls into the
sub-processors of `processor.saveCallIn`. -/
theorem processor.saveIn_eq (sys : System W)
    (sord : Path → Option Entity → Option Entity → List Job) (id : Nat) (loc : Path)
    (o n : Option Entity) :
    processor.saveIn sys sord id loc o n
      = saveBodyIn sys (sys.processors id) (processor.saveCallIn sys sord o n) loc
          (sord loc o n) o n := rfl

theorem saveBodyIn_both_nil (sys : System W) (cfg : ProcessorConfig W)
    (sub : ProcessorRef → Path → Option Entity → Option Entity →
      Eng W (Option Entity × Option GoError))
    (loc : Path) (jobs : List Job) (w : W) :
    saveBodyIn sys cfg sub loc jobs none none w
      = ⟨.val (none, none), w, [.processor loc (.save none none)]⟩ := rfl

/-- The run of the reconciliation in a given order: the copy panics, or it is the run of the
loop over the calls, started with the copy. -/
theorem reconcilePhaseIn_run (sys : System W) (cfg : ProcessorConfig W)
    (sub : ProcessorRef → Path → Option Entity → Option Entity →
      Eng W (Option Entity × Option GoError))
    (loc : Path) (jobs : List Job) (n : Option Entity) (w : W) :
    (reconcilePhaseIn sys cfg sub loc jobs n w = ⟨.panic, w, []⟩)
      ∨ (∃ c, (c.isSome = n.isSome) ∧ (∀ x, n = some x → c = some (sys.ops.Copy x))
          ∧ copyNew sys cfg n w = ⟨.val c, w, []⟩
          ∧ reconcilePhaseIn sys cfg sub loc jobs n w = jobLoop sys cfg sub loc jobs c done w) := by
  unfold reconcilePhaseIn
  rcases copyNew_run sys cfg n w with ⟨h, _⟩ | ⟨c, h, h1, h2⟩
  · left
    rw [bind_of_panic (by rw [h]), h]
  · right
    refine ⟨c, h1, h2, h, ?_⟩
    rw [bind_of_val (by rw [h]), h]
    simp only [List.nil_append]

theorem saveBodyIn_of_reconcile (sys : System W) (cfg : ProcessorConfig W)
    (sub : ProcessorRef → Path → Option Entity → Option Entity →
      Eng W (Option Entity × Option GoError))
    (loc : Path) (jobs : List Job) (o n : Option Entity) (w : W) (c : Option Entity)
    (hon : o.isSome = true ∨ n.isSome = true)
    (h : (reconcilePhaseIn sys cfg sub loc jobs n w).res = .val (c, none)) :
    saveBodyIn sys cfg sub loc jobs o n w
      = ⟨(persistPhase cfg loc o n c (reconcilePhaseIn sys cfg sub loc jobs n w).world).res,
          (persistPhase cfg loc o n c (reconcilePhaseIn sys cfg sub loc jobs n w).world).world,
          Event.processor loc (.save o n)
            :: ((reconcilePhaseIn sys cfg sub loc jobs n w).trace
              ++ (persistPhase cfg loc o n c
                  (reconcilePhaseIn sys cfg sub loc jobs n w).world).trace)⟩ := by
  have hb : (o.isNone && n.isNone) = false := by
    cases o <;> cases n <;> simp_all
  unfold saveBodyIn
  rw [run_emit_bind]
  simp only [hb, Bool.false_eq_true, if_false]
  rw [bind_of_val h]

theorem saveBodyIn_of_reconcile_failed (sys : System W) (cfg : ProcessorConfig W)
    (sub : ProcessorRef → Path → Option Entity → Option Entity →
      Eng W (Option Entity × Option GoError))
    (loc : Path) (jobs : List Job) (o n : Option Entity) (w : W)
    (hon : o.isSome = true ∨ n.isSome = true)
    (h : ∀ c, (reconcilePhaseIn sys cfg sub loc jobs n w).res ≠ .val (c, none)) :
    (saveBodyIn sys cfg sub loc jobs o n w).trace
        = Event.processor loc (.save o n) :: (reconcilePhaseIn sys cfg sub loc jobs n w).trace
      ∧ (saveBodyIn sys cfg sub loc jobs o n w).world
        = (reconcilePhaseIn sys cfg sub loc jobs n w).world
      ∧ (∀ c, (saveBodyIn sys cfg sub loc jobs o n w).res ≠ .val (c, none))
      ∧ ∀ c err, (reconcilePhaseIn sys cfg sub loc jobs n w).res = .val (c, some err) →
          (saveBodyIn sys cfg sub loc jobs o n w).res = .val (none, some err) := by
  have hb : (o.isNone && n.isNone) = false := by
    cases o <;> cases n <;> simp_all
  unfold saveBodyIn
  rw [run_emit_bind]
  simp only [hb, Bool.false_eq_true, if_false]
  rcases hr : (reconcilePhaseIn sys cfg sub loc jobs n w).res with ⟨c, err⟩ | _ | _
  · cases err with
    | none => exact absurd hr (h c)
    | some err =>
      rw [bind_of_val hr]
      refine ⟨by simp only [pure_trace, List.append_nil], rfl, by simp [pure_res], ?_⟩
      intro c2 err2 h2
      simp only [Ctl.val.injEq, Prod.mk.injEq, Option.some.injEq] at h2
      rw [← h2.2]
      rfl
  · rw [bind_of_panic hr]
    exact ⟨rfl, rfl, by simp, by simp⟩
  · rw [bind_of_outOfFuel hr]
    exact ⟨rfl, rfl, by simp, by simp⟩

theorem emits_copyNew (P : Event → Prop) (sys : System W) (cfg : ProcessorConfig W)
    (n : Option Entity) : Emits P (copyNew sys cfg n) := by
  intro w ev hev
  rcases copyNew_run sys cfg n w with ⟨h, _⟩ | ⟨c, h, _, _⟩
  · rw [h] at hev
    cases hev
  · rw [h] at hev
    cases hev

theorem emits_reconcilePhaseIn (P : Event → Prop) (sys : System W) (cfg : ProcessorConfig W)
    (sub : ProcessorRef → Path → Option Entity → Option Entity →
      Eng W (Option Entity × Option GoError))
    (loc : Path) (jobs : List Job) (n : Option Entity)
    (hsub : ∀ ref k o n, Emits P (sub ref (loc ++ [k]) o n)) :
    Emits P (reconcilePhaseIn sys cfg sub loc jobs n) := by
  unfold reconcilePhaseIn
  apply emits_bind
  · exact emits_copyNew P sys cfg n
  intro c
  exact emits_jobLoop P sys cfg sub loc jobs done (fun j _ ref => hsub ref _ _ _)
    (fun c2 => emits_pure _ _) c

theorem emits_saveBodyIn (sys : System W) (cfg : ProcessorConfig W)
    (sub : ProcessorRef → Path → Option Entity → Option Entity →
      Eng W (Option Entity × Option GoError))
    (loc : Path) (jobs : List Job) (o n : Option Entity)
    (hsub : ∀ ref k o n, Emits (Below Event.inSave loc) (sub ref (loc ++ [k]) o n)) :
    Emits (Within Event.inSave loc) (saveBodyIn sys cfg sub loc jobs o n) := by
  have own : ∀ ev : Event, ev.loc = loc → ev.inSave = true → ev.isCallRet = false →
      Within Event.inSave loc ev := fun ev h1 h2 h3 => Or.inl ⟨h1, h2, h3⟩
  unfold saveBodyIn
  apply emits_bind
  · exact emits_emit _ _ (own _ rfl rfl rfl)
  intro _
  split
  · exact emits_pure _ _
  · apply emits_bind
    · exact emits_mono (fun ev h => Or.inr h)
        (emits_reconcilePhaseIn _ sys cfg sub loc jobs n hsub)
    intro r
    split
    · exact emits_pure _ _
    · exact emits_persistPhase _ cfg loc o n _ (fun x y => own _ rfl rfl rfl)

theorem emits_saveIn (sys : System W)
    (sord : Path → Option Entity → Option Entity → List Job) (fuel : Nat) :
    ∀ (id : Nat) (loc : Path) (o n : Option Entity),
      Emits (Within Event.inSave loc) (saveIn sys sord fuel id loc o n) := by
  induction fuel with
  | zero =>
    intro id loc o n
    exact emits_outOfFuel _
  | succ m ih =>
    intro id loc o n
    simp only [saveIn]
    apply emits_saveBodyIn
    intro ref k o2 n2
    exact emits_ref_save sys _ ref loc k o2 n2 (fun id2 o3 n3 => ih id2 _ o3 n3)

theorem emits_saveCallIn (sys : System W)
    (sord : Path → Option Entity → Option Entity → List Job) (O N : Option Entity)
    (ref : ProcessorRef) (loc : Path) (k : String × String) (o n : Option Entity) :
    Emits (Below Event.inSave loc) (processor.saveCallIn sys sord O N ref (loc ++ [k]) o n) :=
  emits_ref_save sys _ ref loc k o n (fun id2 o3 n3 => emits_saveIn sys sord _ id2 _ o3 n3)

theorem emits_reconcileIn (sys : System W)
    (sord : Path → Option Entity → Option Entity → List Job) (id : Nat) (loc : Path)
    (o n : Option Entity) :
    Emits (Below Event.inSave loc) (processor.reconcileIn sys sord id loc o n) :=
  emits_reconcilePhaseIn _ sys _ _ loc _ n
    (fun ref k o2 n2 => emits_saveCallIn sys sord o n ref loc k o2 n2)

/-! ### `syncAndValidate` and `act` in the order of `entries` -/

/-- With the order of `entries`, the order-parametrised methods are the methods. -/
theorem syncAndValidateIn_entriesOrder (sys : System W) (fuel : Nat) :
    syncAndValidateIn sys entriesOrder fuel = syncAndValidateFuel sys fuel := by
  induction fuel with
  | zero => rfl
  | succ n ih =>
    funext id
    simp only [syncAndValidateIn, syncAndValidateFuel]
    rw [ih]
    rfl

theorem actIn_entriesOrder (sys : System W) (fuel : Nat) :
    actIn sys entriesOrder fuel = actFuel sys fuel := by
  induction fuel with
  | zero => rfl
  | succ n ih =>
    funext id
    simp only [actIn, actFuel]
    rw [ih]
    rfl
/-! ## Save aborts on the first failing child -/

/-- A traced call that returns ends its run with the record of its return. -/
theorem traced_trace_ends (loc : Path) (c : Call) (m : Eng W (Option Entity × Option GoError))
    (w : W) (out : Option Entity × Option GoError)
    (h : (traced loc c m w).res = .val out) :
    ∃ pre, (traced loc c m w).trace = pre ++ [.ret loc out.1 out.2] := by
  rcases hm : (m w).res with o | _ | _
  · rw [traced_of_val loc c m w o hm] at h ⊢
    simp only [Ctl.val.injEq] at h
    subst h
    exact ⟨.call loc c :: (m w).trace, by simp⟩
  · rw [traced_of_panic loc c m w hm] at h
    cases h
  · rw [traced_of_outOfFuel loc c m w hm] at h
    cases h

/-- The loop of the reconciliation followed by `next`, when the loop alone succeeds. -/
theorem jobLoop_next_of_done (sys : System W) (cfg : ProcessorConfig W)
    (sub : ProcessorRef → Path → Option Entity → Option Entity →
      Eng W (Option Entity × Option GoError))
    (loc : Path) (next : Option Entity → Eng W (Option Entity × Option GoError))
    (jobs : List Job) (c c1 : Option Entity) (w : W)
    (h : (jobLoop sys cfg sub loc jobs c done w).res = .val (c1, none)) :
    jobLoop sys cfg sub loc jobs c next w
      = ⟨(next c1 (jobLoop sys cfg sub loc jobs c done w).world).res,
          (next c1 (jobLoop sys cfg sub loc jobs c done w).world).world,
          (jobLoop sys cfg sub loc jobs c done w).trace
            ++ (next c1 (jobLoop sys cfg sub loc jobs c done w).world).trace⟩ := by
  induction jobs generalizing c w with
  | nil =>
    simp only [jobLoop, done, pure_res, Ctl.val.injEq, Prod.mk.injEq, and_true] at h
    subst h
    simp [jobLoop, done, run_pure]
  | cons j rest ih =>
    have hstep : ∀ nx, jobLoop sys cfg sub loc (j :: rest) c nx
        = jobStep sys cfg sub loc j c (fun c3 => jobLoop sys cfg sub loc rest c3 nx) :=
      fun _ => rfl
    rw [hstep] at h ⊢
    rw [hstep]
    rcases jobStep_run sys cfg sub loc j c w with ⟨R0, hne, _, hall⟩ | ⟨_, v, c2, _, _, hall⟩
    · rw [hall] at h
      exact absurd h (hne c1)
    · rw [hall] at h ⊢
      rw [hall]
      simp only [] at h ⊢
      rw [ih c2 _ h]
      simp only [List.append_assoc]

/-- A return with an error recorded for a direct sub-entity by the loop of the reconciliation
is the last event of the loop, and its error is the error with which the loop ends. -/
theorem jobLoop_error_of_ret (sys : System W) (cfg : ProcessorConfig W)
    (sub : ProcessorRef → Path → Option Entity → Option Entity →
      Eng W (Option Entity × Option GoError))
    (loc : Path)
    (huniq : ∀ ref k0 o n w k v err,
      Event.ret (loc ++ [k]) v err ∈ (sub ref (loc ++ [k0]) o n w).trace →
        (sub ref (loc ++ [k0]) o n w).res = .val (v, err) ∧ k = k0)
    (hlast : ∀ ref l o n w out, (sub ref l o n w).res = .val out →
      ∃ pre, (sub ref l o n w).trace = pre ++ [.ret l out.1 out.2])
    (jobs : List Job) (c : Option Entity) (w : W)
    (k : String × String) (v : Option Entity) (err : GoError)
    (h : Event.ret (loc ++ [k]) v (some err)
      ∈ (jobLoop sys cfg sub loc jobs c done w).trace) :
    (∃ c2, (jobLoop sys cfg sub loc jobs c done w).res = .val (c2, some err))
      ∧ ∃ pre, (jobLoop sys cfg sub loc jobs c done w).trace
          = pre ++ [Event.ret (loc ++ [k]) v (some err)] := by
  induction jobs generalizing c w with
  | nil => simp [jobLoop, done, pure_trace] at h
  | cons j rest ih =>
    have hstep : jobLoop sys cfg sub loc (j :: rest) c done
        = jobStep sys cfg sub loc j c (fun c3 => jobLoop sys cfg sub loc rest c3 done) := rfl
    rw [hstep] at h ⊢
    have hS : Event.ret (loc ++ [k]) v (some err)
        ∈ (sub (jobProcessor cfg j) (loc ++ [(j.1, j.2.1)]) j.2.2.1 j.2.2.2 w).trace →
        (sub (jobProcessor cfg j) (loc ++ [(j.1, j.2.1)]) j.2.2.1 j.2.2.2 w).res
          = .val (v, some err) ∧ k = (j.1, j.2.1) :=
      fun hin => huniq _ _ _ _ _ _ _ _ hin
    rcases jobStep_cases sys cfg sub loc j c w with
      ⟨_, hall⟩ | ⟨_, ⟨hp, hall⟩ | ⟨hp, hall⟩ | ⟨v2, err2, hv, hall⟩
        | ⟨s, hv, _, ⟨R0, _, ht, _, hall⟩ | ⟨c0, u, _, _, _, hall⟩⟩ | ⟨v2, hv, _, hall⟩⟩
    · rw [hall] at h
      simp at h
    · rw [hall] at h
      rw [(hS h).1] at hp
      cases hp
    · rw [hall] at h
      rw [(hS h).1] at hp
      cases hp
    · rw [hall] at h ⊢
      simp only [] at h ⊢
      obtain ⟨h1, h2⟩ := hS h
      rw [hv] at h1
      simp only [Ctl.val.injEq, Prod.mk.injEq, Option.some.injEq] at h1
      obtain ⟨pre, hpre⟩ := hlast _ _ _ _ _ _ hv
      refine ⟨⟨c, by rw [h1.2]⟩, pre, ?_⟩
      rw [hpre, h2, h1.1, h1.2]
    · rw [hall, ht] at h
      rw [(hS h).1] at hv
      cases hv
    · rw [hall] at h ⊢
      simp only [] at h ⊢
      rcases List.mem_append.1 h with h1 | h1
      · rw [(hS h1).1] at hv
        cases hv
      · obtain ⟨hres, pre, hpre⟩ := ih _ _ h1
        exact ⟨hres, _ ++ pre, by rw [hpre, List.append_assoc]⟩
    · rw [hall] at h ⊢
      simp only [] at h ⊢
      rcases List.mem_append.1 h with h1 | h1
      · rw [(hS h1).1] at hv
        cases hv
      · obtain ⟨hres, pre, hpre⟩ := ih _ _ h1
        exact ⟨hres, _ ++ pre, by rw [hpre, List.append_assoc]⟩

/-- The loop of the reconciliation followed by `next`, when the loop alone fails: what
follows is not reached. -/
theorem jobLoop_next_of_failed (sys : System W) (cfg : ProcessorConfig W)
    (sub : ProcessorRef → Path → Option Entity → Option Entity →
      Eng W (Option Entity × Option GoError))
    (loc : Path) (next : Option Entity → Eng W (Option Entity × Option GoError))
    (jobs : List Job) (c : Option Entity) (w : W)
    (h : ∀ c1, (jobLoop sys cfg sub loc jobs c done w).res ≠ .val (c1, none)) :
    jobLoop sys cfg sub loc jobs c next w = jobLoop sys cfg sub loc jobs c done w := by
  induction jobs generalizing c w with
  | nil => exact absurd rfl (h c)
  | cons j rest ih =>
    have hstep : ∀ nx, jobLoop sys cfg sub loc (j :: rest) c nx
        = jobStep sys cfg sub loc j c (fun c3 => jobLoop sys cfg sub loc rest c3 nx) :=
      fun _ => rfl
    rw [hstep] at h
    rw [hstep, hstep]
    rcases jobStep_run sys cfg sub loc j c w with ⟨R0, _, _, hall⟩ | ⟨_, v, c2, _, _, hall⟩
    · rw [hall, hall]
    · rw [hall] at h
      rw [hall, hall]
      simp only [] at h
      rw [ih c2 _ h]

/-- The run of `save`, in a given order, when its reconciliation fails with an error. -/
theorem processor.saveIn_of_reconcile_error (sys : System W)
    (sord : Path → Option Entity → Option Entity → List Job) (id : Nat) (loc : Path)
    (o n : Option Entity) (w : W) (c : Option Entity) (err : GoError)
    (hon : o.isSome = true ∨ n.isSome = true)
    (h : (processor.reconcileIn sys sord id loc o n w).res = .val (c, some err)) :
    (processor.saveIn sys sord id loc o n w).res = .val (none, some err)
      ∧ (processor.saveIn sys sord id loc o n w).trace
        = Event.processor loc (.save o n) :: (processor.reconcileIn sys sord id loc o n w).trace := by
  have hfail : ∀ c2, (reconcilePhaseIn sys (sys.processors id)
      (processor.saveCallIn sys sord o n) loc (sord loc o n) n w).res ≠ .val (c2, none) := by
    intro c2 h2
    have h3 : (processor.reconcileIn sys sord id loc o n w).res = .val (c2, none) := h2
    rw [h] at h3
    cases h3
  obtain ⟨ht, _, _, herr⟩ := saveBodyIn_of_reconcile_failed sys (sys.processors id)
    (processor.saveCallIn sys sord o n) loc (sord loc o n) o n w hon hfail
  rw [processor.saveIn_eq]
  exact ⟨herr c err h, ht⟩

/-- The run of the reconciliation, in a given order, when the calls of a first part of the
list end with an error: the error is that of the reconciliation, and no later call is
made. -/
theorem processor.reconcileIn_of_prefix_error (sys : System W)
    (sord : Path → Option Entity → Option Entity → List Job) (id : Nat) (loc : Path)
    (o n : Option Entity) (w : W) (pre post : List Job) (c0 c1 : Option Entity) (err : GoError)
    (hjobs : sord loc o n = pre ++ post)
    (hcopy : (copyNew sys (sys.processors id) n w).res = .val c0)
    (hpre : (jobLoop sys (sys.processors id) (processor.saveCallIn sys sord o n) loc pre c0
      done w).res = .val (c1, some err)) :
    processor.reconcileIn sys sord id loc o n w
      = jobLoop sys (sys.processors id) (processor.saveCallIn sys sord o n) loc pre c0 done w := by
  have hcw : copyNew sys (sys.processors id) n w = ⟨.val c0, w, []⟩ := by
    rcases copyNew_run sys (sys.processors id) n w with ⟨h, _⟩ | ⟨c, h, _, _⟩
    · rw [h] at hcopy
      cases hcopy
    · rw [h] at hcopy ⊢
      simp only [Ctl.val.injEq] at hcopy
      rw [hcopy]
  unfold processor.reconcileIn reconcilePhaseIn
  rw [bind_of_val (by rw [hcw]), hcw]
  simp only [List.nil_append]
  rw [hjobs, jobLoop_append]
  exact jobLoop_next_of_failed sys _ _ loc _ pre c0 w (fun c2 h2 => by
    rw [hpre] at h2
    cases h2)

/-- C17 (as amended; save aborts on the first failure).  The calls of `save(O, N)` on the
sub-entities are made in the order `sord`, which enumerates the calls to make for every pair
of entities in any way.  If the run records that
the `save` of a direct sub-entity returned the error `e`, then `save` returns a nil entity
with `e`, that return is the last event of the run (no further sibling is saved) and the
Repository of this processor is not invoked.  If the calls to make are `pre`, then the call
`j` of a sub-entity that resolves to no processor, then `post`, and the calls of `pre`
succeed (each returns no error and its result is folded back without error), then `save`
returns a nil entity with ErrorProcessorNotFound, the calls made on direct sub-entities are
those of `pre`, and the Repository of this processor is not invoked.  If the calls of a first
part `pre` of the list end with the error `err`, then `save` returns a nil entity with `err`,
whatever comes later in the list, the calls made are among those of `pre` and the Repository
of this processor is not invoked.  When `save` fails with `e` in Process, after
syncAndValidate and act have succeeded, Process returns the entity produced by act together
with `e`.  With the order of `jobsOf` and of `entries`, the methods are `processor.save` and
`processor.Process`. -/
theorem save_aborts_on_first_failure (sys : System W)
    (ord : Path → Entity → List (String × String × Entity))
    (sord : Path → Option Entity → Option Entity → List Job) (hs : SaveOrder sord)
    (id : Nat) (loc : Path) (O N : Option Entity) (w : W) :
    (∀ k v e, Event.ret (loc ++ [k]) v (some e)
          ∈ (processor.saveIn sys sord id loc O N w).trace →
        (processor.saveIn sys sord id loc O N w).res = .val (none, some e)
          ∧ (∃ pre, (processor.saveIn sys sord id loc O N w).trace
              = pre ++ [Event.ret (loc ++ [k]) v (some e)])
          ∧ ∀ x y, Event.repositorySave loc x y
              ∉ (processor.saveIn sys sord id loc O N w).trace)
      ∧ (∀ (pre : List Job) (j : Job) (post : List Job) (c0 c1 : Option Entity),
          sord loc O N = pre ++ j :: post →
          isNilProcessor (jobProcessor (sys.processors id) j) = true →
          (copyNew sys (sys.processors id) N w).res = .val c0 →
          (jobLoop sys (sys.processors id) (processor.saveCallIn sys sord O N) loc pre
            c0 done w).res = .val (c1, none) →
          (processor.saveIn sys sord id loc O N w).res
              = .val (none, some ErrorProcessorNotFound)
            ∧ directSaveCalls loc (processor.saveIn sys sord id loc O N w).trace = pre
            ∧ ∀ x y, Event.repositorySave loc x y
                ∉ (processor.saveIn sys sord id loc O N w).trace)
      ∧ (∀ (pre post : List Job) (c0 c1 : Option Entity) (err : GoError),
          sord loc O N = pre ++ post →
          (copyNew sys (sys.processors id) N w).res = .val c0 →
          (jobLoop sys (sys.processors id) (processor.saveCallIn sys sord O N) loc pre
            c0 done w).res = .val (c1, some err) →
          (processor.saveIn sys sord id loc O N w).res = .val (none, some err)
            ∧ directSaveCalls loc (processor.saveIn sys sord id loc O N w).trace <+: pre
            ∧ ∀ x y, Event.repositorySave loc x y
                ∉ (processor.saveIn sys sord id loc O N w).trace)
      ∧ (∀ (entity synced changed : Entity) (action : Action) (actionParams : ActionParams)
          (saved : Option Entity) (e : GoError),
          O = some entity → N = some changed →
          (processor.syncAndValidateIn sys ord id loc entity action actionParams w).res
            = .val (synced, none) →
          (processor.actIn sys ord id loc synced action actionParams
            (processor.syncAndValidateIn sys ord id loc entity action actionParams w).world).res
            = .val (changed, none) →
          (processor.saveIn sys sord id loc O N
            (processor.actIn sys ord id loc synced action actionParams
              (processor.syncAndValidateIn sys ord id loc entity action actionParams
                w).world).world).res = .val (saved, some e) →
          (processor.ProcessIn sys ord sord id loc entity action actionParams w).res
            = .val (changed, some e))
      ∧ processor.saveIn sys jobsOrder id loc O N = processor.save sys id loc O N
      ∧ ∀ (entity : Entity) (action : Action) (actionParams : ActionParams),
          processor.ProcessIn sys entriesOrder jobsOrder id loc entity action actionParams
            = processor.Process sys id loc entity action actionParams := by
  have hbelow : ∀ ev ∈ (processor.reconcileIn sys sord id loc O N w).trace, ev.loc ≠ loc :=
    fun ev hev => below_loc_ne (emits_reconcileIn sys sord id loc O N w ev hev)
  have hnorepo : ∀ c err, (O.isSome = true ∨ N.isSome = true) →
      (processor.reconcileIn sys sord id loc O N w).res = .val (c, some err) →
      ∀ x y, Event.repositorySave loc x y
        ∉ (processor.saveIn sys sord id loc O N w).trace := by
    intro c err hon hr x y hm
    rw [(processor.saveIn_of_reconcile_error sys sord id loc O N w c err hon hr).2] at hm
    rcases List.mem_cons.1 hm with h | h
    · cases h
    · exact hbelow _ h rfl
  have hcallsub : ∀ (j : Job) ref w2, directSaveCalls loc
      (processor.saveCallIn sys sord O N ref (loc ++ [(j.1, j.2.1)]) j.2.2.1 j.2.2.2 w2).trace
        = [j] :=
    fun j ref w2 => directSaveCalls_ref sys _
      (fun id2 l o2 n2 => emits_saveIn sys sord _ id2 l o2 n2) ref loc j.1 j.2.1 j.2.2.1
      j.2.2.2 w2
  have hcopyrun : ∀ c0, (copyNew sys (sys.processors id) N w).res = .val c0 →
      copyNew sys (sys.processors id) N w = ⟨.val c0, w, []⟩ := by
    intro c0 hcopy
    rcases copyNew_run sys (sys.processors id) N w with ⟨h, _⟩ | ⟨c, h, _, _⟩
    · rw [h] at hcopy
      cases hcopy
    · rw [h] at hcopy ⊢
      simp only [Ctl.val.injEq] at hcopy
      rw [hcopy]
  have hempty : ¬ (O.isSome = true ∨ N.isSome = true) → sord loc O N = [] := by
    intro hon
    have ho : O = none := by
      cases O with
      | none => rfl
      | some x => exact absurd (Or.inl rfl) hon
    have hn : N = none := by
      cases N with
      | none => rfl
      | some x => exact absurd (Or.inr rfl) hon
    subst ho
    subst hn
    have hp := hs loc none none
    have hj : jobsOf none none = [] := rfl
    rw [hj] at hp
    exact List.Perm.eq_nil hp
  refine ⟨fun k v e h => ?_, fun pre j post c0 c1 hjobs hnil hcopy hpre => ?_,
    fun pre post c0 c1 err hjobs hcopy hpre => ?_,
    fun entity synced changed action actionParams saved e hO hN hsync hact hsave => ?_,
    processor.saveIn_as_save sys id loc O N, fun entity action actionParams => ?_⟩
  · by_cases hon : O.isSome = true ∨ N.isSome = true
    · have hin : Event.ret (loc ++ [k]) v (some e)
          ∈ (processor.reconcileIn sys sord id loc O N w).trace := by
        by_cases hs : ∃ c, (processor.reconcileIn sys sord id loc O N w).res = .val (c, none)
        · obtain ⟨c, hc⟩ := hs
          rw [processor.saveIn_eq, saveBodyIn_of_reconcile sys _ _ loc _ O N w c hon hc] at h
          simp only [List.mem_cons, List.mem_append, reduceCtorEq, false_or] at h
          rcases h with h | h
          · exact h
          · rcases persistPhase_run (sys.processors id) loc O N c
                (processor.reconcileIn sys sord id loc O N w).world with
              ⟨_, _, ht, _⟩ | ⟨_, hq⟩
            · have ht2 : (persistPhase (sys.processors id) loc O N c
                  (reconcilePhaseIn sys (sys.processors id) (processor.saveCallIn sys sord O N)
                    loc (sord loc O N) N w).world).trace = _ := ht
              rw [ht2] at h
              simp at h
            · have hq2 : persistPhase (sys.processors id) loc O N c
                  (reconcilePhaseIn sys (sys.processors id) (processor.saveCallIn sys sord O N)
                    loc (sord loc O N) N w).world = _ := hq
              rw [hq2] at h
              simp at h
        · have hs2 : ∀ c, (reconcilePhaseIn sys (sys.processors id)
              (processor.saveCallIn sys sord O N) loc (sord loc O N) N w).res
                ≠ .val (c, none) :=
            fun c hc => hs ⟨c, hc⟩
          rw [processor.saveIn_eq,
            (saveBodyIn_of_reconcile_failed sys _ _ loc _ O N w hon hs2).1] at h
          rcases List.mem_cons.1 h with h | h
          · cases h
          · exact h
      have hloop : (∃ c2, (processor.reconcileIn sys sord id loc O N w).res
            = .val (c2, some e))
          ∧ ∃ pre, (processor.reconcileIn sys sord id loc O N w).trace
              = pre ++ [Event.ret (loc ++ [k]) v (some e)] := by
        unfold processor.reconcileIn at hin ⊢
        rcases reconcilePhaseIn_run sys (sys.processors id)
            (processor.saveCallIn sys sord O N) loc (sord loc O N) N w with
          hp | ⟨c0, _, _, _, hrun⟩
        · rw [hp] at hin
          simp at hin
        · rw [hrun] at hin ⊢
          exact jobLoop_error_of_ret sys (sys.processors id) _ loc
            (fun ref k0 o n w2 k v err h => ref_save_val_of_ret sys _
              (fun id2 l o2 n2 => emits_saveIn sys sord _ id2 l o2 n2) ref loc k0 o n w2 k v
              err h)
            (fun ref l o n w2 out h => traced_trace_ends _ _ _ w2 out h) _ c0 w k v e hin
      obtain ⟨⟨c2, hc2⟩, pre, hpre⟩ := hloop
      obtain ⟨hres, htr⟩ := processor.saveIn_of_reconcile_error sys sord id loc O N w c2 e hon hc2
      refine ⟨hres, ⟨Event.processor loc (.save O N) :: pre, ?_⟩, hnorepo c2 e hon hc2⟩
      rw [htr, hpre]
      rfl
    · have ho : O = none := by
        cases O with
        | none => rfl
        | some x => exact absurd (Or.inl rfl) hon
      have hn : N = none := by
        cases N with
        | none => rfl
        | some x => exact absurd (Or.inr rfl) hon
      subst ho
      subst hn
      rw [processor.saveIn_eq, saveBodyIn_both_nil] at h
      simp at h
  · by_cases hon : O.isSome = true ∨ N.isSome = true
    · have hcw := hcopyrun c0 hcopy
      have hstepj : ∀ w2, jobLoop sys (sys.processors id)
          (processor.saveCallIn sys sord O N) loc (j :: post) c1 done w2
          = ⟨.val (c1, some ErrorProcessorNotFound), w2, []⟩ := by
        intro w2
        rcases jobStep_cases sys (sys.processors id) (processor.saveCallIn sys sord O N)
            loc j c1 w2 with ⟨_, hall⟩ | ⟨hnil2, _⟩
        · exact hall _
        · rw [hnil] at hnil2
          cases hnil2
      have hrec : processor.reconcileIn sys sord id loc O N w
          = ⟨.val (c1, some ErrorProcessorNotFound),
              (jobLoop sys (sys.processors id) (processor.saveCallIn sys sord O N) loc
                pre c0 done w).world,
              (jobLoop sys (sys.processors id) (processor.saveCallIn sys sord O N) loc
                pre c0 done w).trace⟩ := by
        unfold processor.reconcileIn reconcilePhaseIn
        rw [bind_of_val (by rw [hcw]), hcw]
        simp only [List.nil_append]
        rw [hjobs, jobLoop_append, jobLoop_next_of_done sys _ _ loc _ pre c0 c1 w hpre, hstepj]
        simp only [List.append_nil]
      have hr : (processor.reconcileIn sys sord id loc O N w).res
          = .val (c1, some ErrorProcessorNotFound) := by rw [hrec]
      obtain ⟨hres, htr⟩ := processor.saveIn_of_reconcile_error sys sord id loc O N w c1 _ hon hr
      refine ⟨hres, ?_, hnorepo c1 _ hon hr⟩
      rw [htr, hrec]
      show directSaveCalls loc ([_] ++ _) = _
      rw [directSaveCalls_append]
      have hcalls := (jobLoop_calls sys (sys.processors id) _ loc hcallsub pre c0 w).2
        ⟨c1, hpre⟩
      rw [hcalls]
      simp [directSaveCalls, directSaveCall]
    · exact absurd hjobs (by
        rw [hempty hon]
        simp)
  · by_cases hon : O.isSome = true ∨ N.isSome = true
    · have hrec := processor.reconcileIn_of_prefix_error sys sord id loc O N w pre post c0 c1
        err hjobs hcopy hpre
      have hr : (processor.reconcileIn sys sord id loc O N w).res = .val (c1, some err) := by
        rw [hrec, hpre]
      obtain ⟨hres, htr⟩ := processor.saveIn_of_reconcile_error sys sord id loc O N w c1 _ hon hr
      refine ⟨hres, ?_, hnorepo c1 _ hon hr⟩
      rw [htr, hrec]
      show directSaveCalls loc ([_] ++ _) <+: _
      rw [directSaveCalls_append]
      have hcalls := (jobLoop_calls sys (sys.processors id) _ loc hcallsub pre c0 w).1
      simpa [directSaveCalls, directSaveCall] using hcalls
    · have hnil := hempty hon
      rw [hjobs] at hnil
      obtain ⟨hp, _⟩ := List.append_eq_nil.1 hnil
      subst hp
      simp [jobLoop, done, pure_res] at hpre
  · subst hO
    subst hN
    unfold processor.ProcessIn
    rw [run_emit_bind, bind_of_val hsync]
    simp only []
    rw [bind_of_val hact]
    simp only []
    rw [bind_of_val hsave]
    rfl
  · unfold processor.ProcessIn processor.Process
    have h1 : ∀ e a p, processor.syncAndValidateIn sys entriesOrder id loc e a p
        = processor.syncAndValidate sys id loc e a p := by
      intro e a p
      unfold processor.syncAndValidateIn processor.syncAndValidate
      rw [syncAndValidateIn_entriesOrder]
    have h2 : ∀ e a p, processor.actIn sys entriesOrder id loc e a p
        = processor.act sys id loc e a p := by
      intro e a p
      unfold processor.actIn processor.act
      rw [actIn_entriesOrder]
    simp only [h1, h2, processor.saveIn_as_save]

/-- C17, counterexample: the sub-entity "2" of the order resolves to no processor, yet `save`
returns the error of the save of the line item "1", which is visited before it, and not
ErrorProcessorNotFound. -/
theorem save_first_failure_counterexample :
    childOf (some mixedOrder) "items" "2" = some (.mk 3 0 [])
      ∧ isNilProcessor ((itemSaveFails.processors 0).GetProcessorFunc (some (.mk 3 0 []))) = true
      ∧ (processor.save itemSaveFails 0 [] (some mixedOrder) (some mixedOrder) 0).res
          = .val (none, some (GoError.other 3))
      ∧ (processor.save itemSaveFails 0 [] (some mixedOrder) (some mixedOrder) 0).res
          ≠ .val (none, some ErrorProcessorNotFound) := by
  refine ⟨by decide, by decide, by decide, by decide⟩

theorem reverseJobs_saveOrder : SaveOrder reverseJobs :=
  fun _ o n => List.reverse_perm (jobsOf o n)

theorem jobsOrder_saveOrder : SaveOrder jobsOrder :=
  fun _ o n => List.Perm.refl (jobsOf o n)

/-- C17, example: the order has the line item "1", whose Repository fails, and the
sub-entity "2", which has no processor.  Visited in the order "1", "2", the save of the line
item returns its error and `save` returns a nil entity with it; visited in the order "2", "1",
`save` returns a nil entity with ErrorProcessorNotFound and no call is made. -/
theorem save_aborts_on_first_failure_witness :
    SaveOrder jobsOrder ∧ SaveOrder reverseJobs
      ∧ Event.ret ([] ++ [("items", "1")]) (some (.mk 2 5 [])) (some (GoError.other 3))
        ∈ (processor.saveIn itemSaveFails jobsOrder 0 [] (some mixedOrder) (some mixedOrder)
            0).trace
      ∧ (processor.saveIn itemSaveFails jobsOrder 0 [] (some mixedOrder) (some mixedOrder)
            0).res = .val (none, some (GoError.other 3))
      ∧ reverseJobs [] (some mixedOrder) (some mixedOrder)
          = [] ++ ("items", "2", some (.mk 3 0 []), some (.mk 3 0 []))
              :: [("items", "1", some (.mk 2 5 []), some (.mk 2 5 []))]
      ∧ (processor.saveIn itemSaveFails reverseJobs 0 [] (some mixedOrder) (some mixedOrder)
            0).res = .val (none, some ErrorProcessorNotFound)
      ∧ directSaveCalls [] (processor.saveIn itemSaveFails reverseJobs 0 []
            (some mixedOrder) (some mixedOrder) 0).trace = [] :=
  have hret : Event.ret ([] ++ [("items", "1")]) (some (.mk 2 5 [])) (some (GoError.other 3))
      ∈ (processor.saveIn itemSaveFails jobsOrder 0 [] (some mixedOrder) (some mixedOrder)
          0).trace := by decide
  have hsplit : reverseJobs [] (some mixedOrder) (some mixedOrder)
      = [] ++ ("items", "2", some (.mk 3 0 []), some (.mk 3 0 []))
          :: [("items", "1", some (.mk 2 5 []), some (.mk 2 5 []))] := by decide
  have hpnf := (save_aborts_on_first_failure itemSaveFails entriesOrder reverseJobs
    reverseJobs_saveOrder 0 [] (some mixedOrder) (some mixedOrder) 0).2.1 [] _ _
    (some mixedOrder) (some mixedOrder) hsplit (by decide) (by decide) (by decide)
  ⟨jobsOrder_saveOrder, reverseJobs_saveOrder, hret,
    ((save_aborts_on_first_failure itemSaveFails entriesOrder jobsOrder jobsOrder_saveOrder 0 []
      (some mixedOrder) (some mixedOrder) 0).1 _ _ _ hret).1,
    hsplit, hpnf.1, hpnf.2.1⟩
/-! ## Tree-shape preservation -/

theorem SameKeys.refl (a : Entity) : SameKeys a a := ⟨fun _ => rfl, fun _ _ => rfl⟩

theorem SameKeys.trans {a b c : Entity} (h1 : SameKeys a b) (h2 : SameKeys b c) :
    SameKeys a c :=
  ⟨fun tk => (h1.1 tk).trans (h2.1 tk), fun tk ek => (h1.2 tk ek).trans (h2.2 tk ek)⟩

/-- A property of the entity under construction that every successful `UpdateSubEntity`
preserves holds of the entity with which the loop over the sub-entities returns, be it with
an error. -/
theorem childLoop_invariant (sys : System W) (cfg : ProcessorConfig W)
    (sub : ProcessorRef → Path → Entity → Action → ActionParams →
      Eng W (Option Entity × Option GoError))
    (loc : Path) (a : Action) (p : ActionParams) (Q : Entity → Prop)
    (hQ : ∀ e tk ek v u, sys.ops.UpdateSubEntity e tk ek v = .ok u → Q e → Q u)
    (l : List (String × String × Entity)) (c c2 : Entity) (oe : Option GoError) (w : W)
    (h : (childLoop sys cfg sub loc a p l c w).res = .val (c2, oe)) (hc : Q c) : Q c2 := by
  induction l generalizing c w with
  | nil =>
    simp only [childLoop, pure_res, Ctl.val.injEq, Prod.mk.injEq] at h
    rw [← h.1]
    exact hc
  | cons y rest ih =>
    obtain ⟨tk, ek, x⟩ := y
    rcases childLoop_cons sys cfg sub loc a p tk ek x rest c w with
      ⟨_, hR⟩ | ⟨_, _, _, hcase⟩ | ⟨_, v, u, _, hU, _, hR⟩
    · rw [hR] at h
      simp only [Ctl.val.injEq, Prod.mk.injEq] at h
      rw [← h.1]
      exact hc
    · rcases hcase with ⟨_, h2⟩ | ⟨_, h2⟩ | ⟨_, _, _, h2⟩ | ⟨_, _, _, _, h2⟩ | ⟨_, _, _, _, _, h2⟩
      · rw [h2] at h
        cases h
      · rw [h2] at h
        cases h
      · rw [h2] at h
        simp only [Ctl.val.injEq, Prod.mk.injEq] at h
        rw [← h.1]
        exact hc
      · rw [h2] at h
        simp only [Ctl.val.injEq, Prod.mk.injEq] at h
        rw [← h.1]
        exact hc
      · rw [h2] at h
        cases h
    · rw [hR] at h
      simp only at h
      exact ih u _ h (hQ c tk ek v u hU hc)

/-- The entity with which the first part of `syncAndValidate` and of `act` returns has the
keys of the input entity. -/
theorem childrenPhase_sameKeys (sys : System W) (cfg : ProcessorConfig W)
    (sub : ProcessorRef → Path → Entity → Action → ActionParams →
      Eng W (Option Entity × Option GoError))
    (loc : Path) (e : Entity) (a : Action) (p : ActionParams)
    (hCopy : CopyPreservesSubEntities sys.ops) (hUpd : UpdateKeepsKeys sys.ops)
    (c : Entity) (oe : Option GoError) (w : W)
    (h : (childrenPhase sys cfg sub loc e a p w).res = .val (c, oe)) : SameKeys c e := by
  rcases childrenPhase_run sys cfg sub loc e a p w with ⟨_, hR⟩ | ⟨_, hR⟩
  · rw [hR] at h
    cases h
  · rw [hR] at h
    refine childLoop_invariant sys cfg sub loc a p (fun x => SameKeys x e)
      (fun e2 tk ek v u hU hq => SameKeys.trans (hUpd e2 tk ek v u hU) hq) _ _ c oe w h ?_
    have hs : (sys.ops.Copy e).SubEntities = e.SubEntities := hCopy e
    exact ⟨fun tk => by rw [hs], fun tk ek => by unfold Entity.child; rw [hs]⟩

/-- The selection of the action syncer returns. -/
theorem getSyncerForEntityAndActionFrom_val (loc : Path) (e : Entity) (a : Action)
    (l : List (Syncer W)) (i0 : Nat) (w : W) :
    ∃ r, (getSyncerForEntityAndActionFrom loc e a i0 l w).res = .val r := by
  induction l generalizing i0 with
  | nil => exact ⟨none, rfl⟩
  | cons s rest ih =>
    unfold getSyncerForEntityAndActionFrom
    rw [run_emit_bind]
    by_cases hc : s.CanProcess e = true
    · simp only [hc, if_true, run_emit_bind]
      by_cases hh : s.HasAction a = true
      · simp only [hh, if_true]
        exact ⟨_, rfl⟩
      · simp only [hh, if_false]
        exact ih (i0 + 1)
    · simp only [hc, if_false]
      exact ih (i0 + 1)

/-- The entity with which the validation returns is the entity it was given. -/
theorem validatePhase_entity (cfg : ProcessorConfig W) (loc : Path) (e c : Entity) (a : Action)
    (p : ActionParams) (w : W) (r : Entity) (oe : Option GoError)
    (h : (validatePhase cfg loc e c a p w).res = .val (r, oe)) : r = c := by
  rcases getStateMachineForEntityFrom_spec loc e cfg.StateMachines 0 w with
    ⟨k, sm, h1, _⟩ | ⟨h1, _⟩
  · rw [Nat.zero_add] at h1
    rw [validatePhase_of_first cfg loc e c a p w k sm h1] at h
    simp only [Ctl.val.injEq, Prod.mk.injEq] at h
    exact h.1.symm
  · rw [validatePhase_of_none cfg loc e c a p w h1] at h
    simp only [Ctl.val.injEq, Prod.mk.injEq] at h
    exact h.1.symm

/-- What the collaborators of the entity are given in `syncAndValidate`, once the
sub-entities have succeeded with `c`: Sync is given `c`; when no Sync is invoked, Validate is
given `c` and the phase returns `c`. -/
theorem syncAndValidate_hands_on (sys : System W) (id : Nat) (loc : Path) (e : Entity)
    (a : Action) (p : ActionParams) (w : W) (c : Entity)
    (hc : (processor.syncChildren sys id loc e a p w).res = .val (c, none)) :
    (∀ (i : Nat) (x : Entity), Event.syncerSync loc i x
        ∈ (processor.syncAndValidate sys id loc e a p w).trace → x = c)
      ∧ ((∀ (k : Nat) (y : Entity), Event.syncerSync loc k y
            ∉ (processor.syncAndValidate sys id loc e a p w).trace) →
          (∀ (i : Nat) (x : Entity) (a2 : Action) (p2 : ActionParams),
            Event.smValidate loc i x a2 p2
              ∈ (processor.syncAndValidate sys id loc e a p w).trace → x = c)
            ∧ ∀ r oe, (processor.syncAndValidate sys id loc e a p w).res = .val (r, oe) →
                r = c) := by
  have hev := syncAndValidate_sync_events sys id loc e a p w c hc
  refine ⟨fun i x hm => ?_, fun hno => ?_⟩
  · rw [hev] at hm
    exact emits_syncPhase_events (fun ev => ∀ i x, ev = Event.syncerSync loc i x → x = c)
      (sys.processors id) loc e c a (fun _ _ _ h => by cases h) (fun _ _ _ h => by cases h)
      (fun _ _ _ h => by cases h; rfl) _ _ hm i x rfl
  · have hsync : (syncPhase (sys.processors id) loc e c a
        (processor.syncChildren sys id loc e a p w).world).res = .val (c, none) := by
      rcases syncPhase_cases (sys.processors id) loc e c a
          (processor.syncChildren sys id loc e a p w).world with
        ⟨_, hrun⟩ | ⟨k, s, _, _, _, ⟨_, hrun⟩ | ⟨_, hrun⟩⟩
      · rw [hrun]
      · rw [hrun]
      · refine absurd ((hev k c).2 ?_) (hno k c)
        rw [hrun]
        simp
    have hrun := processor.syncAndValidate_of_children sys id loc e a p w c c hc hsync
    refine ⟨fun i x a2 p2 hm => ?_, fun r oe hres => ?_⟩
    · rw [hrun] at hm
      simp only [List.mem_cons, List.mem_append, reduceCtorEq, false_or] at hm
      rcases hm with hm | hm | hm
      · exact absurd rfl (below_loc_ne (emits_syncChildren sys id loc e a p w _ hm))
      · have := emits_syncPhase_events
          (fun ev => ∀ i x a2 p2, ev ≠ Event.smValidate loc i x a2 p2)
          (sys.processors id) loc e c a (fun _ _ _ _ _ h => by cases h)
          (fun _ _ _ _ _ h => by cases h) (fun _ _ _ _ _ h => by cases h) _ _ hm
        exact absurd rfl (this i x a2 p2)
      · exact emits_validatePhase_events
          (fun ev => ∀ i x a2 p2, ev = Event.smValidate loc i x a2 p2 → x = c)
          (sys.processors id) loc e c a p (fun _ _ _ _ _ h => by cases h)
          (fun _ _ _ _ _ h => by cases h; rfl) _ _ hm i x a2 p2 rfl
    · rw [hrun] at hres
      exact validatePhase_entity _ loc e c a p _ r oe hres

/-- What the collaborators of the entity are given in `act`, once the sub-entities have
succeeded with `c`: Syncer.Do is given `c`; when no Syncer.Do is invoked, StateMachine.Do is
given `c`. -/
theorem act_hands_on (sys : System W) (id : Nat) (loc : Path) (e : Entity)
    (a : Action) (p : ActionParams) (w : W) (c : Entity)
    (hc : (processor.actChildren sys id loc e a p w).res = .val (c, none)) :
    (∀ (j : Nat) (x : Entity) (a2 : Action) (p2 : ActionParams),
        Event.syncerDo loc j x a2 p2 ∈ (processor.act sys id loc e a p w).trace → x = c)
      ∧ ((∀ (k : Nat) (y : Entity) (a2 : Action) (p2 : ActionParams),
            Event.syncerDo loc k y a2 p2 ∉ (processor.act sys id loc e a p w).trace) →
          ∀ (i : Nat) (x : Entity) (a2 : Action) (p2 : ActionParams) (err : Option GoError),
            Event.smDo loc i x a2 p2 err ∈ (processor.act sys id loc e a p w).trace →
              x = c) := by
  have hrun := processor.act_of_children sys id loc e a p w c hc
  have hTc : ∀ ev ∈ (processor.actChildren sys id loc e a p w).trace, ev.loc ≠ loc :=
    fun ev hev => below_loc_ne (emits_actChildren sys id loc e a p w ev hev)
  have hsel1 : ∀ ev ∈ (getStateMachineForEntity (sys.processors id) loc c
      (processor.actChildren sys id loc e a p w).world).trace,
      ∃ i, ev = Event.smCanProcess loc i c :=
    emits_getStateMachineForEntityFrom (fun ev => ∃ i, ev = Event.smCanProcess loc i c) loc c
      (fun i => ⟨i, rfl⟩) _ 0 _
  have hsel2 : ∀ ev ∈ (getSyncerForEntityAndAction (sys.processors id) loc c a
      (processor.actChildren sys id loc e a p w).world).trace,
      (∃ i, ev = Event.syncerCanProcess loc i c) ∨ ∃ i, ev = Event.syncerHasAction loc i a :=
    emits_getSyncerForEntityAndActionFrom
      (fun ev => (∃ i, ev = Event.syncerCanProcess loc i c)
        ∨ ∃ i, ev = Event.syncerHasAction loc i a) loc c a
      (fun i => Or.inl ⟨i, rfl⟩) (fun i => Or.inr ⟨i, rfl⟩) _ 0 _
  rcases getStateMachineForEntityFrom_spec loc c (sys.processors id).StateMachines 0
      (processor.actChildren sys id loc e a p w).world with
    ⟨k, sm, h1, _⟩ | ⟨h1, _⟩
  · rw [Nat.zero_add] at h1
    obtain ⟨r, hr⟩ := getSyncerForEntityAndActionFrom_val loc c a (sys.processors id).Syncers
      0 (processor.actChildren sys id loc e a p w).world
    cases r with
    | none =>
      rw [transitionPhase_without_syncer _ loc c a p _ k sm h1 hr] at hrun
      have htr := congrArg Run.trace hrun
      simp only [] at htr
      rw [htr]
      refine ⟨fun j x a2 p2 hm => ?_, fun _ i x a2 p2 err hm => ?_⟩
      · simp only [List.mem_cons, List.mem_append, List.mem_singleton, reduceCtorEq,
          false_or, or_false, List.not_mem_nil] at hm
        rcases hm with hm | hm | hm
        · exact absurd rfl (hTc _ hm)
        · obtain ⟨i, hi⟩ := hsel1 _ hm
          cases hi
        · rcases hsel2 _ hm with ⟨i, hi⟩ | ⟨i, hi⟩
          · cases hi
          · cases hi
      · simp only [List.mem_cons, List.mem_append, List.mem_singleton, reduceCtorEq,
          false_or, Event.smDo.injEq, List.not_mem_nil, or_false] at hm
        rcases hm with hm | hm | hm | hm
        · exact absurd rfl (hTc _ hm)
        · obtain ⟨i2, hi⟩ := hsel1 _ hm
          cases hi
        · rcases hsel2 _ hm with ⟨i2, hi⟩ | ⟨i2, hi⟩
          · cases hi
          · cases hi
        · exact hm.2.2.1
    | some js =>
      obtain ⟨j0, s⟩ := js
      rw [transitionPhase_with_syncer _ loc c a p _ k j0 sm s h1 hr] at hrun
      have htr := congrArg Run.trace hrun
      simp only [] at htr
      rw [htr]
      refine ⟨fun j x a2 p2 hm => ?_, fun hno => ?_⟩
      · simp only [List.mem_cons, List.mem_append, List.mem_singleton, reduceCtorEq,
          false_or, or_false, Event.syncerDo.injEq, List.not_mem_nil] at hm
        rcases hm with hm | hm | hm | hm
        · exact absurd rfl (hTc _ hm)
        · obtain ⟨i, hi⟩ := hsel1 _ hm
          cases hi
        · rcases hsel2 _ hm with ⟨i, hi⟩ | ⟨i, hi⟩
          · cases hi
          · cases hi
        · exact hm.2.2.1
      · refine absurd ?_ (hno j0 c a p)
        simp
  · rw [transitionPhase_of_none _ loc c a p _ h1] at hrun
    have htr := congrArg Run.trace hrun
    simp only [] at htr
    rw [htr]
    refine ⟨fun j x a2 p2 hm => ?_, fun _ i x a2 p2 err hm => ?_⟩
    · simp only [List.mem_cons, List.mem_append, reduceCtorEq, false_or] at hm
      rcases hm with hm | hm
      · exact absurd rfl (hTc _ hm)
      · obtain ⟨i, hi⟩ := hsel1 _ hm
        cases hi
    · simp only [List.mem_cons, List.mem_append, reduceCtorEq, false_or] at hm
      rcases hm with hm | hm
      · exact absurd rfl (hTc _ hm)
      · obtain ⟨i2, hi⟩ := hsel1 _ hm
        cases hi

/-- An event of the entity itself other than the entry, or a success, shows that the
sub-entities have succeeded. -/
theorem syncAndValidate_own_event (sys : System W) (id : Nat) (loc : Path) (e : Entity)
    (a : Action) (p : ActionParams) (w : W) :
    (∀ ev ∈ (processor.syncAndValidate sys id loc e a p w).trace, ev.loc = loc →
        ev ≠ .processor loc (.syncAndValidate e a p) →
        ∃ c, (processor.syncChildren sys id loc e a p w).res = .val (c, none))
      ∧ ∀ r, (processor.syncAndValidate sys id loc e a p w).res = .val (r, none) →
        ∃ c, (processor.syncChildren sys id loc e a p w).res = .val (c, none) := by
  obtain ⟨⟨own, htr, hbelow, _, hown⟩, _⟩ := syncAndValidate_children_first sys id loc e a p w
  refine ⟨fun ev hev hloc hne => ?_, fun r hres => ?_⟩
  · rw [htr] at hev
    rcases List.mem_cons.1 hev with h | h
    · exact absurd h hne
    rcases List.mem_append.1 h with h | h
    · exact absurd hloc (hbelow ev h)
    · obtain ⟨c, hc, _⟩ := hown (List.ne_nil_of_mem h)
      exact ⟨c, hc⟩
  · by_contra hno
    have hfail : ∀ c, (childrenPhase sys (sys.processors id)
        (ProcessorRef.syncAndValidate sys (processor.syncAndValidate sys)) loc e a p w).res
        ≠ .val (c, none) := fun c hc => hno ⟨c, hc⟩
    rw [processor.syncAndValidate_eq,
      syncAndValidateBody_of_children_failed sys _ _ loc e a p w hfail] at hres
    exact hfail r hres

theorem act_own_event (sys : System W) (id : Nat) (loc : Path) (e : Entity)
    (a : Action) (p : ActionParams) (w : W) :
    ∀ ev ∈ (processor.act sys id loc e a p w).trace, ev.loc = loc →
      ev ≠ .processor loc (.act e a p) →
      ∃ c, (processor.actChildren sys id loc e a p w).res = .val (c, none) := by
  obtain ⟨⟨own, htr, hbelow, _, hown⟩, _⟩ := act_children_first sys id loc e a p w
  intro ev hev hloc hne
  rw [htr] at hev
  rcases List.mem_cons.1 hev with h | h
  · exact absurd h hne
  rcases List.mem_append.1 h with h | h
  · exact absurd hloc (hbelow ev h)
  · obtain ⟨c, hc, _⟩ := hown (List.ne_nil_of_mem h)
    exact ⟨c, hc⟩

/-- C13 (tree-shape preservation).  For an entity type whose Copy preserves the sub-entity
map and whose UpdateSubEntity adds and removes no key, the child fold of the engine adds and
removes no key: the entity with which the loop over the sub-entities of `syncAndValidate`
and of `act` returns has the type keys and entity keys of the phase's input entity.  So has
the entity that `syncAndValidate` hands to Syncer.Sync, and to StateMachine.Validate when no
Sync is invoked (after a Sync, Validate is given what Sync returned); so has the entity that
`act` hands to Syncer.Do, and to StateMachine.Do when no Syncer.Do is invoked (after a
Syncer.Do, StateMachine.Do is given what Syncer.Do returned); and so has the entity that a
successful `syncAndValidate` returns when no Sync is invoked. -/
theorem child_fold_keeps_keys (sys : System W) (id : Nat) (loc : Path) (entity : Entity)
    (action : Action) (actionParams : ActionParams) (w : W)
    (hCopy : CopyPreservesSubEntities sys.ops) (hUpd : UpdateKeepsKeys sys.ops) :
    (∀ c oe, (processor.syncChildren sys id loc entity action actionParams w).res
        = .val (c, oe) → SameKeys c entity)
      ∧ (∀ c oe, (processor.actChildren sys id loc entity action actionParams w).res
          = .val (c, oe) → SameKeys c entity)
      ∧ (∀ (i : Nat) (x : Entity), Event.syncerSync loc i x
          ∈ (processor.syncAndValidate sys id loc entity action actionParams w).trace →
          SameKeys x entity)
      ∧ ((∀ (k : Nat) (y : Entity), Event.syncerSync loc k y
            ∉ (processor.syncAndValidate sys id loc entity action actionParams w).trace) →
          (∀ (i : Nat) (x : Entity) (a : Action) (p : ActionParams),
            Event.smValidate loc i x a p
              ∈ (processor.syncAndValidate sys id loc entity action actionParams w).trace →
            SameKeys x entity)
          ∧ ∀ r, (processor.syncAndValidate sys id loc entity action actionParams w).res
              = .val (r, none) → SameKeys r entity)
      ∧ (∀ (j : Nat) (x : Entity) (a : Action) (p : ActionParams),
          Event.syncerDo loc j x a p
            ∈ (processor.act sys id loc entity action actionParams w).trace →
          SameKeys x entity)
      ∧ ((∀ (k : Nat) (y : Entity) (a : Action) (p : ActionParams),
            Event.syncerDo loc k y a p
              ∉ (processor.act sys id loc entity action actionParams w).trace) →
          ∀ (i : Nat) (x : Entity) (a : Action) (p : ActionParams) (err : Option GoError),
            Event.smDo loc i x a p err
              ∈ (processor.act sys id loc entity action actionParams w).trace →
            SameKeys x entity) := by
  have hsync : ∀ c oe, (processor.syncChildren sys id loc entity action actionParams w).res
      = .val (c, oe) → SameKeys c entity :=
    fun c oe h => childrenPhase_sameKeys sys _ _ loc entity action actionParams hCopy hUpd c oe
      w h
  have hact : ∀ c oe, (processor.actChildren sys id loc entity action actionParams w).res
      = .val (c, oe) → SameKeys c entity :=
    fun c oe h => childrenPhase_sameKeys sys _ _ loc entity action actionParams hCopy hUpd c oe
      w h
  obtain ⟨hown, hsucc⟩ := syncAndValidate_own_event sys id loc entity action actionParams w
  have hownA := act_own_event sys id loc entity action actionParams w
  refine ⟨hsync, hact, fun i x hm => ?_, fun hno => ⟨fun i x a p hm => ?_, fun r hres => ?_⟩,
    fun j x a p hm => ?_, fun hno i x a p err hm => ?_⟩
  · obtain ⟨c, hc⟩ := hown _ hm rfl (fun h => by cases h)
    rw [(syncAndValidate_hands_on sys id loc entity action actionParams w c hc).1 i x hm]
    exact hsync c none hc
  · obtain ⟨c, hc⟩ := hown _ hm rfl (fun h => by cases h)
    rw [((syncAndValidate_hands_on sys id loc entity action actionParams w c hc).2 hno).1 i x a
      p hm]
    exact hsync c none hc
  · obtain ⟨c, hc⟩ := hsucc r hres
    rw [((syncAndValidate_hands_on sys id loc entity action actionParams w c hc).2 hno).2 r
      none hres]
    exact hsync c none hc
  · obtain ⟨c, hc⟩ := hownA _ hm rfl (fun h => by cases h)
    rw [(act_hands_on sys id loc entity action actionParams w c hc).1 j x a p hm]
    exact hact c none hc
  · obtain ⟨c, hc⟩ := hownA _ hm rfl (fun h => by cases h)
    rw [(act_hands_on sys id loc entity action actionParams w c hc).2 hno i x a p err hm]
    exact hact c none hc

/-! ### The entity methods of the example application keep the keys -/

theorem replaceTyped_isSome (entityKey : String) (c : Entity) (m m2 : List (String × Entity))
    (h : replaceTyped entityKey c m = some m2) (k : String) :
    (m2.lookup k).isSome = (m.lookup k).isSome := by
  rw [replaceTyped_lookup entityKey c m m2 h k]
  by_cases hk : k = entityKey
  · simp [hk]
  · simp [hk]

theorem replaceSub_type_isSome (typeKey entityKey : String) (c : Entity)
    (m s : List (String × List (String × Entity)))
    (h : replaceSub typeKey entityKey c m = some s) (tk : String) :
    (s.lookup tk).isSome = (m.lookup tk).isSome := by
  induction m generalizing s with
  | nil => simp [replaceSub] at h
  | cons p rest ih =>
    obtain ⟨t0, m0⟩ := p
    unfold replaceSub at h
    by_cases ht : t0 = typeKey
    · simp only [ht, if_true, Option.map_eq_some'] at h
      obtain ⟨m2, _, hs⟩ := h
      subst hs
      rw [List.lookup_cons, List.lookup_cons, ht]
      cases tk == typeKey <;> rfl
    · simp only [ht, if_false, Option.map_eq_some'] at h
      obtain ⟨r, hr, hs⟩ := h
      subst hs
      rw [List.lookup_cons, List.lookup_cons]
      cases tk == t0
      · exact ih r hr
      · rfl

theorem demoOps_keeps_keys : UpdateKeepsKeys demoOps := by
  intro e typeKey entityKey v u h
  cases v with
  | none => simp [demoOps] at h
  | some x =>
    simp only [demoOps] at h
    cases hr : replaceSub typeKey entityKey x e.SubEntities with
    | none =>
      rw [hr] at h
      cases h
    | some m =>
      rw [hr] at h
      simp only [Except.ok.injEq] at h
      subst h
      refine ⟨fun tk => replaceSub_type_isSome typeKey entityKey x e.SubEntities m hr tk,
        fun tk ek => ?_⟩
      show (lookup2 m tk ek).isSome = (lookup2 e.SubEntities tk ek).isSome
      rw [replaceSub_lookup2 typeKey entityKey x e.SubEntities m hr tk ek]
      by_cases hk : tk = typeKey ∧ ek = entityKey
      · obtain ⟨h1, h2⟩ := hk
        subst h1
        subst h2
        simp
      · simp only [hk, if_false]

/-- C13, counterexample: the entity methods keep the keys, the Sync of the order's syncer
drops the sub-entities, and Validate is handed an order without the line item "1" that the
input order has. -/
theorem child_fold_keys_counterexample :
    CopyPreservesSubEntities syncDrops.ops ∧ UpdateKeepsKeys syncDrops.ops
      ∧ Event.smValidate [] 0 (.mk 1 0 []) "approve" 0
        ∈ (processor.syncAndValidate syncDrops 0 [] demoOrder "approve" 0 0).trace
      ∧ (demoOrder.child "items" "1").isSome = true
      ∧ ((Entity.mk 1 0 []).child "items" "1").isSome = false
      ∧ ¬ SameKeys (.mk 1 0 []) demoOrder := by
  refine ⟨demoOps_copy, demoOps_keeps_keys, by decide, by decide, by decide, ?_⟩
  intro h
  have := h.2 "items" "1"
  revert this
  decide

/-- C13, example: approving the demo order hands to the state machine of the order, in
`act`, an order with the keys of the input order. -/
theorem child_fold_keeps_keys_witness :
    CopyPreservesSubEntities demo.ops ∧ UpdateKeepsKeys demo.ops
      ∧ Event.smDo [] 0 (.mk 1 0 [("items", [("1", .mk 2 15 [])])]) "approve" 0 none
        ∈ (processor.act demo 0 [] demoOrder "approve" 0 0).trace
      ∧ SameKeys (.mk 1 0 [("items", [("1", .mk 2 15 [])])]) demoOrder :=
  have hm : Event.smDo [] 0 (.mk 1 0 [("items", [("1", .mk 2 15 [])])]) "approve" 0 none
      ∈ (processor.act demo 0 [] demoOrder "approve" 0 0).trace := by decide
  have hno : ∀ (k : Nat) (y : Entity) (a : Action) (p : ActionParams),
      Event.syncerDo [] k y a p ∉ (processor.act demo 0 [] demoOrder "approve" 0 0).trace := by
    intro k y a p h
    have h2 : ∀ ev ∈ (processor.act demo 0 [] demoOrder "approve" 0 0).trace,
        ev.isSyncerDo = false := by decide
    exact absurd (h2 _ h) (by simp [Event.isSyncerDo])
  ⟨demoOps_copy, demoOps_keeps_keys, hm,
    (child_fold_keeps_keys demo 0 [] demoOrder "approve" 0 0 demoOps_copy
      demoOps_keeps_keys).2.2.2.2.2 hno 0 _ "approve" 0 none hm⟩


/-! ## The fold-backs on a lawful entity -/

/-- The entries of a well-formed entity are its children. -/
theorem child_of_mem_entries (e : Entity) (h : e.WF) (tk ek : String) (x : Entity)
    (hx : (tk, ek, x) ∈ entries e.SubEntities) : e.child tk ek = some x := by
  obtain ⟨m, hm, hxm⟩ := mem_entries.1 hx
  rw [Entity.WF_iff] at h
  unfold Entity.child lookup2
  rw [lookup_of_mem_nodup _ h.1 tk m hm]
  exact lookup_of_mem_nodup _ (WFTypes_mem _ h.2 tk m hm).1 ek x hxm

/-- The loop over the sub-entities on a lawful entity: if the calls into the sub-processors
return, and return a value when they return no error, the loop returns, the entity it returns
has the type and the keys it started with, and its error is ErrorProcessorNotFound or the
error returned by a call into a sub-processor. -/
theorem childLoop_lawful (sys : System W) (cfg : ProcessorConfig W)
    (sub : ProcessorRef → Path → Entity → Action → ActionParams →
      Eng W (Option Entity × Option GoError))
    (loc : Path) (a : Action) (p : ActionParams)
    (hU : UpdateSucceedsAtExisting sys.ops) (e0 : Entity) (hE : cfg.E e0.typ = true)
    (hsome : ∀ ref l x w v, (sub ref l x a p w).res = .val (v, none) → v.isSome = true)
    (hret : ∀ ref l x w out, (sub ref l x a p w).res = .val out →
      Event.ret l out.1 out.2 ∈ (sub ref l x a p w).trace)
    (l : List (String × String × Entity))
    (htot : ∀ y ∈ l, ∀ ref w, isNilProcessor ref = false →
      ∃ r, (sub ref (loc ++ [(y.1, y.2.1)]) y.2.2 a p w).res = .val r)
    (hpairs : ∀ y ∈ l, (e0.child y.1 y.2.1).isSome = true)
    (c : Entity) (w : W) (hc : c.typ = e0.typ ∧ SameKeys c e0) :
    ∃ c2 oe, (childLoop sys cfg sub loc a p l c w).res = .val (c2, oe)
      ∧ (c2.typ = e0.typ ∧ SameKeys c2 e0)
      ∧ ∀ err, oe = some err → err = ErrorProcessorNotFound
          ∨ ∃ k v, Event.ret (loc ++ [k]) v (some err)
              ∈ (childLoop sys cfg sub loc a p l c w).trace := by
  induction l generalizing c w with
  | nil =>
    exact ⟨c, none, rfl, hc, fun err h => by cases h⟩
  | cons y rest ih =>
    obtain ⟨tk, ek, x⟩ := y
    have hex : (c.child tk ek).isSome = true := by
      rw [hc.2.2 tk ek]
      exact hpairs (tk, ek, x) (List.mem_cons_self _ _)
    rcases childLoop_cons sys cfg sub loc a p tk ek x rest c w with
      ⟨_, hR⟩ | ⟨hnil, ht, _, hcase⟩ | ⟨hnil, v, u, hS, hUp, _, hR⟩
    · rw [hR]
      exact ⟨c, some ErrorProcessorNotFound, rfl, hc, fun err h => by
        cases h
        exact Or.inl rfl⟩
    · obtain ⟨r, hr⟩ := htot (tk, ek, x) (List.mem_cons_self _ _) _ w hnil
      rcases hcase with ⟨h1, _⟩ | ⟨h1, _⟩ | ⟨v, err, h1, h2⟩ | ⟨v, err, h1, h3, _⟩
        | ⟨v, u, h1, h3, h4, _⟩
      · rw [hr] at h1
        cases h1
      · rw [hr] at h1
        cases h1
      · refine ⟨c, some err, h2, hc, fun err2 h => ?_⟩
        cases h
        right
        rw [ht]
        exact ⟨(tk, ek), v, hret _ _ _ _ _ h1⟩
      · obtain ⟨s, hs⟩ := Option.isSome_iff_exists.1 (hsome _ _ _ _ _ h1)
        obtain ⟨u, hu, _⟩ := hU c tk ek s hex
        rw [hs, hu] at h3
        cases h3
      · obtain ⟨s, hs⟩ := Option.isSome_iff_exists.1 (hsome _ _ _ _ _ h1)
        obtain ⟨u2, hu, hty, _⟩ := hU c tk ek s hex
        rw [hs, hu] at h3
        cases h3
        rw [hty, hc.1, hE] at h4
        cases h4
    · obtain ⟨s, hs⟩ := Option.isSome_iff_exists.1 (hsome _ _ _ _ _ hS)
      obtain ⟨u2, hu, hty, hk⟩ := hU c tk ek s hex
      rw [hs, hu] at hUp
      have huu : u2 = u := Except.ok.inj hUp
      subst huu
      obtain ⟨c2, oe, h1, h2, h3⟩ := ih
        (fun y hy => htot y (List.mem_cons_of_mem _ hy))
        (fun y hy => hpairs y (List.mem_cons_of_mem _ hy)) u2
        (sub (cfg.GetProcessorFunc (some x)) (loc ++ [(tk, ek)]) x a p w).world
        ⟨hty.trans hc.1, SameKeys.trans hk hc.2⟩
      rw [hR]
      refine ⟨c2, oe, h1, h2, fun err h => ?_⟩
      rcases h3 err h with h5 | ⟨k, v2, h5⟩
      · exact Or.inl h5
      · exact Or.inr ⟨k, v2, List.mem_append_right _ h5⟩

/-- A collaborator whose call ends a run ends the run that starts with other events too. -/
theorem collaboratorError_append (cfg : ProcessorConfig W) (loc : Path) (t0 t : List Event)
    (w : W) (err : GoError) (h : CollaboratorError cfg loc t w err) :
    CollaboratorError cfg loc (t0 ++ t) w err := by
  obtain ⟨pre, w0, h⟩ := h
  refine ⟨t0 ++ pre, w0, ?_⟩
  rcases h with ⟨k, s, c, h1, h2, h3⟩ | ⟨k, sm, c, a, p, h1, h2, h3⟩
    | ⟨k, sm, c, a, p, se, h1, h2, h3⟩ | ⟨r, o, n, h1, h2, h3⟩
  · exact Or.inl ⟨k, s, c, h1, by rw [h2, List.append_assoc], h3⟩
  · exact Or.inr (Or.inl ⟨k, sm, c, a, p, h1, by rw [h2, List.append_assoc], h3⟩)
  · exact Or.inr (Or.inr (Or.inl ⟨k, sm, c, a, p, se, h1, by rw [h2, List.append_assoc], h3⟩))
  · exact Or.inr (Or.inr (Or.inr ⟨r, o, n, h1, by rw [h2, List.append_assoc], h3⟩))

theorem collaboratorError_cons (cfg : ProcessorConfig W) (loc : Path) (ev : Event)
    (t : List Event) (w : W) (err : GoError) (h : CollaboratorError cfg loc t w err) :
    CollaboratorError cfg loc (ev :: t) w err :=
  collaboratorError_append cfg loc [ev] t w err h

/-- The validation returns; its error is ErrorUnprocessableEntity or the error that the
`Validate` whose call ends the run returned. -/
theorem validatePhase_source (cfg : ProcessorConfig W) (loc : Path) (e c : Entity) (a : Action)
    (p : ActionParams) (w : W) :
    ∃ r, (validatePhase cfg loc e c a p w).res = .val r
      ∧ ∀ err, r.2 = some err → err = ErrorUnprocessableEntity
          ∨ CollaboratorError cfg loc (validatePhase cfg loc e c a p w).trace
              (validatePhase cfg loc e c a p w).world err := by
  rcases getStateMachineForEntityFrom_spec loc e cfg.StateMachines 0 w with
    ⟨k, sm, h1, h2, _⟩ | ⟨h1, _⟩
  · rw [Nat.zero_add] at h1
    rw [validatePhase_of_first cfg loc e c a p w k sm h1]
    exact ⟨_, rfl, fun err herr => Or.inr ⟨_, w,
      Or.inr (Or.inl ⟨k, sm, c, a, p, h2, rfl, herr, rfl⟩)⟩⟩
  · rw [validatePhase_of_none cfg loc e c a p w h1]
    exact ⟨_, rfl, fun err h => by
      cases h
      exact Or.inl rfl⟩

/-- The sync returns; when it returns an error, it is the error that the `Sync` whose call
ends the run returned. -/
theorem syncPhase_source (cfg : ProcessorConfig W) (loc : Path) (e c : Entity) (a : Action)
    (w : W) :
    ∃ r, (syncPhase cfg loc e c a w).res = .val r
      ∧ ∀ err, r.2 = some err →
          CollaboratorError cfg loc (syncPhase cfg loc e c a w).trace
            (syncPhase cfg loc e c a w).world err := by
  rcases syncPhase_cases cfg loc e c a w with
    ⟨_, h⟩ | ⟨k, s, hk, _, _, ⟨_, h⟩ | ⟨_, h⟩⟩
  · rw [h]
    exact ⟨_, rfl, fun err h2 => by cases h2⟩
  · rw [h]
    exact ⟨_, rfl, fun err h2 => by cases h2⟩
  · rw [h]
    refine ⟨_, rfl, fun err herr => ⟨(getSyncerForEntity cfg loc c w).trace
      ++ [.syncerNeedSync loc k e a], w, Or.inl ⟨k, s, c, hk, ?_, herr, rfl⟩⟩⟩
    simp

/-- The part of `syncAndValidate` after the sub-entities returns; its error is
ErrorUnprocessableEntity or the error that the collaborator whose call ends the run
returned. -/
theorem ownSyncAndValidate_source (cfg : ProcessorConfig W) (loc : Path) (e c : Entity)
    (a : Action) (p : ActionParams) (w : W) :
    ∃ r, (ownSyncAndValidate cfg loc e c a p w).res = .val r
      ∧ ∀ err, r.2 = some err → err = ErrorUnprocessableEntity
          ∨ CollaboratorError cfg loc (ownSyncAndValidate cfg loc e c a p w).trace
              (ownSyncAndValidate cfg loc e c a p w).world err := by
  obtain ⟨r, hr, hsrc⟩ := syncPhase_source cfg loc e c a w
  unfold ownSyncAndValidate
  rw [bind_of_val hr]
  obtain ⟨s, oe⟩ := r
  cases oe with
  | some err =>
    refine ⟨(s, some err), rfl, fun err2 herr => Or.inr ?_⟩
    cases herr
    simp only [run_pure, List.append_nil]
    exact hsrc err rfl
  | none =>
    simp only []
    obtain ⟨r2, h1, h2⟩ := validatePhase_source cfg loc e s a p (syncPhase cfg loc e c a w).world
    refine ⟨r2, h1, fun err herr => ?_⟩
    rcases h2 err herr with h | h
    · exact Or.inl h
    · exact Or.inr (collaboratorError_append cfg loc _ _ _ err h)

/-- The part of `act` after the sub-entities returns; its error is ErrorUnprocessableEntity
or the error that the `StateMachine.Do` whose call ends the run returned. -/
theorem transitionPhase_source (cfg : ProcessorConfig W) (loc : Path) (c : Entity)
    (a : Action) (p : ActionParams) (w : W) :
    ∃ r, (transitionPhase cfg loc c a p w).res = .val r
      ∧ ∀ err, r.2 = some err → err = ErrorUnprocessableEntity
          ∨ CollaboratorError cfg loc (transitionPhase cfg loc c a p w).trace
              (transitionPhase cfg loc c a p w).world err := by
  rcases getStateMachineForEntityFrom_spec loc c cfg.StateMachines 0 w with
    ⟨k, sm, h1, h2, _⟩ | ⟨h1, _⟩
  · rw [Nat.zero_add] at h1
    obtain ⟨r, hr⟩ := getSyncerForEntityAndActionFrom_val loc c a cfg.Syncers 0 w
    cases r with
    | none =>
      rw [transitionPhase_without_syncer cfg loc c a p w k sm h1 hr]
      refine ⟨_, rfl, fun err herr => Or.inr ⟨(getStateMachineForEntity cfg loc c w).trace
        ++ (getSyncerForEntityAndAction cfg loc c a w).trace, w,
        Or.inr (Or.inr (Or.inl ⟨k, sm, c, a, p, none, h2, ?_, herr, rfl⟩))⟩⟩
      simp
    | some js =>
      obtain ⟨j, s⟩ := js
      rw [transitionPhase_with_syncer cfg loc c a p w k j sm s h1 hr]
      refine ⟨_, rfl, fun err herr => Or.inr ⟨(getStateMachineForEntity cfg loc c w).trace
        ++ ((getSyncerForEntityAndAction cfg loc c a w).trace ++ [.syncerDo loc j c a p]),
        (s.Do c a p w).2,
        Or.inr (Or.inr (Or.inl ⟨k, sm, (s.Do c a p w).1.1, a, p, (s.Do c a p w).1.2, h2, ?_,
          herr, rfl⟩))⟩⟩
      simp
  · rw [transitionPhase_of_none cfg loc c a p w h1]
    exact ⟨_, rfl, fun err h => by
      cases h
      exact Or.inl rfl⟩

/-- The wrapper's `act` (and `syncAndValidate`) returns a value when it returns no error. -/
theorem wrapper_act_some (E : Nat → Bool)
    (f : Path → Entity → Action → ActionParams → Eng W (Entity × Option GoError))
    (loc : Path) (e : Entity) (a : Action) (p : ActionParams) (w : W) (v : Option Entity)
    (h : (genericProcessorWrapper.act E f loc e a p w).res = .val (v, none)) :
    v.isSome = true := by
  unfold genericProcessorWrapper.act at h
  by_cases hE : E e.typ = true
  · simp only [hE, if_true] at h
    rcases hr : (f loc e a p w).res with r | _ | _
    · rw [bind_of_val hr] at h
      simp only [run_pure, Ctl.val.injEq, Prod.mk.injEq] at h
      rw [← h.1]
      rfl
    · rw [bind_of_panic hr] at h
      cases h
    · rw [bind_of_outOfFuel hr] at h
      cases h
  · simp only [hE] at h
    simp [run_pure] at h

/-- The wrapper's `act` (and `syncAndValidate`) returns when the wrapped method does. -/
theorem wrapper_act_returns (E : Nat → Bool)
    (f : Path → Entity → Action → ActionParams → Eng W (Entity × Option GoError))
    (loc : Path) (e : Entity) (a : Action) (p : ActionParams) (w : W)
    (h : E e.typ = true → ∃ r, (f loc e a p w).res = .val r) :
    ∃ out, (genericProcessorWrapper.act E f loc e a p w).res = .val out := by
  by_cases hE : E e.typ = true
  · obtain ⟨r, hr⟩ := h hE
    rw [wrapper_act_of_val E f loc e a p w hE r hr]
    exact ⟨_, rfl⟩
  · unfold genericProcessorWrapper.act
    simp only [hE]
    exact ⟨_, rfl⟩

/-- A traced call returns what its body returns. -/
theorem traced_res (loc : Path) (c : Call) (m : Eng W (Option Entity × Option GoError))
    (w : W) : (traced loc c m w).res = (m w).res := by
  rcases hm : (m w).res with o | _ | _
  · rw [traced_of_val loc c m w o hm]
  · rw [traced_of_panic loc c m w hm]
  · rw [traced_of_outOfFuel loc c m w hm]

theorem ref_act_some (sys : System W)
    (self : Nat → Path → Entity → Action → ActionParams → Eng W (Entity × Option GoError))
    (ref : ProcessorRef) (loc : Path) (e : Entity) (a : Action) (p : ActionParams) (w : W)
    (v : Option Entity) (h : (ProcessorRef.act sys self ref loc e a p w).res = .val (v, none)) :
    v.isSome = true := by
  unfold ProcessorRef.act at h
  rw [traced_res] at h
  cases ref with
  | wrapper id => exact wrapper_act_some _ _ loc e a p w v h
  | nilInterface => cases h
  | nilPointer => cases h

theorem ref_syncAndValidate_some (sys : System W)
    (self : Nat → Path → Entity → Action → ActionParams → Eng W (Entity × Option GoError))
    (ref : ProcessorRef) (loc : Path) (e : Entity) (a : Action) (p : ActionParams) (w : W)
    (v : Option Entity)
    (h : (ProcessorRef.syncAndValidate sys self ref loc e a p w).res = .val (v, none)) :
    v.isSome = true := by
  unfold ProcessorRef.syncAndValidate at h
  rw [traced_res] at h
  cases ref with
  | wrapper id => exact wrapper_act_some _ _ loc e a p w v h
  | nilInterface => cases h
  | nilPointer => cases h

theorem ref_act_returns (sys : System W)
    (self : Nat → Path → Entity → Action → ActionParams → Eng W (Entity × Option GoError))
    (ref : ProcessorRef) (loc : Path) (e : Entity) (a : Action) (p : ActionParams) (w : W)
    (hnil : isNilProcessor ref = false)
    (h : ∀ id, (sys.processors id).E e.typ = true → ∃ r, (self id loc e a p w).res = .val r) :
    ∃ out, (ProcessorRef.act sys self ref loc e a p w).res = .val out := by
  unfold ProcessorRef.act
  rw [traced_res]
  cases ref with
  | wrapper id => exact wrapper_act_returns _ _ loc e a p w (h id)
  | nilInterface => cases hnil
  | nilPointer => cases hnil

theorem ref_syncAndValidate_returns (sys : System W)
    (self : Nat → Path → Entity → Action → ActionParams → Eng W (Entity × Option GoError))
    (ref : ProcessorRef) (loc : Path) (e : Entity) (a : Action) (p : ActionParams) (w : W)
    (hnil : isNilProcessor ref = false)
    (h : ∀ id, (sys.processors id).E e.typ = true → ∃ r, (self id loc e a p w).res = .val r) :
    ∃ out, (ProcessorRef.syncAndValidate sys self ref loc e a p w).res = .val out := by
  unfold ProcessorRef.syncAndValidate
  rw [traced_res]
  cases ref with
  | wrapper id => exact wrapper_act_returns _ _ loc e a p w (h id)
  | nilInterface => cases hnil
  | nilPointer => cases hnil

/-- The sub-entities of a well-formed entity are well formed. -/
theorem WF_of_mem_entries (e : Entity) (h : e.WF) (y : String × String × Entity)
    (hy : y ∈ entries e.SubEntities) : y.2.2.WF := by
  obtain ⟨tk, ek, x⟩ := y
  obtain ⟨m, hm, hx⟩ := mem_entries.1 hy
  rw [Entity.WF_iff] at h
  exact WFEnts_mem m (WFTypes_mem _ h.2 tk m hm).2 ek x hx

/-- The copy and the loop over the sub-entities on a lawful entity. -/
theorem childrenPhase_lawful (sys : System W) (cfg : ProcessorConfig W)
    (sub : ProcessorRef → Path → Entity → Action → ActionParams →
      Eng W (Option Entity × Option GoError))
    (loc : Path) (a : Action) (p : ActionParams)
    (hC : CopyKeepsTypeAndKeys sys.ops) (hU : UpdateSucceedsAtExisting sys.ops)
    (e : Entity) (hWF : e.WF) (hE : cfg.E e.typ = true)
    (hsome : ∀ ref l x w v, (sub ref l x a p w).res = .val (v, none) → v.isSome = true)
    (hret : ∀ ref l x w out, (sub ref l x a p w).res = .val out →
      Event.ret l out.1 out.2 ∈ (sub ref l x a p w).trace)
    (htot : ∀ y ∈ entries e.SubEntities, ∀ ref w, isNilProcessor ref = false →
      ∃ r, (sub ref (loc ++ [(y.1, y.2.1)]) y.2.2 a p w).res = .val r)
    (w : W) :
    ∃ c2 oe, (childrenPhase sys cfg sub loc e a p w).res = .val (c2, oe)
      ∧ ∀ err, oe = some err → err = ErrorProcessorNotFound
          ∨ ∃ k v, Event.ret (loc ++ [k]) v (some err)
              ∈ (childrenPhase sys cfg sub loc e a p w).trace := by
  rcases childrenPhase_run sys cfg sub loc e a p w with ⟨h1, _⟩ | ⟨_, h2⟩
  · rw [(hC e).1, hE] at h1
    cases h1
  · rw [h2]
    obtain ⟨c2, oe, h3, _, h5⟩ := childLoop_lawful sys cfg sub loc a p hU e hE hsome hret
      (entries e.SubEntities) htot
      (fun y hy => by
        rw [child_of_mem_entries e hWF y.1 y.2.1 y.2.2 hy]
        rfl)
      (sys.ops.Copy e) w (hC e)
    exact ⟨c2, oe, h3, h5⟩

/-- On a lawful entity `syncAndValidate` returns, and its error is ErrorProcessorNotFound,
ErrorUnprocessableEntity, the error of a call into a sub-processor, or comes with the call of
a collaborator that ends the run. -/
theorem syncAndValidate_lawful (sys : System W) (hC : CopyKeepsTypeAndKeys sys.ops)
    (hU : UpdateSucceedsAtExisting sys.ops) :
    ∀ (n : Nat) (e : Entity), e.depth ≤ n → e.WF → ∀ (id : Nat) (loc : Path) (a : Action)
      (p : ActionParams) (w : W), (sys.processors id).E e.typ = true →
      ∃ r, (processor.syncAndValidate sys id loc e a p w).res = .val r
        ∧ ∀ err, r.2 = some err →
            ErrorSource (sys.processors id) loc (processor.syncAndValidate sys id loc e a p w).trace
              (processor.syncAndValidate sys id loc e a p w).world err := by
  intro n
  induction n with
  | zero =>
    intro e hd
    rw [Entity.depth_eq] at hd
    omega
  | succ n ih =>
    intro e hd hWF id loc a p w hE
    obtain ⟨c2, oe, h1, h2⟩ := childrenPhase_lawful sys (sys.processors id)
      (ProcessorRef.syncAndValidate sys (processor.syncAndValidate sys)) loc a p hC hU e hWF hE
      (fun ref l x w v h => ref_syncAndValidate_some sys _ ref l x a p w v h)
      (fun ref l x w out h => ref_syncAndValidate_ret_of_val sys _ ref l x a p w out h)
      (fun y hy ref w2 hnil => ref_syncAndValidate_returns sys _ ref _ y.2.2 a p w2 hnil
        (fun id2 hE2 => by
          have hlt := depth_lt_of_mem_entries e y.2.2 y.1 y.2.1 hy
          obtain ⟨r, hr, _⟩ := ih y.2.2 (by omega) (WF_of_mem_entries e hWF y hy) id2
            (loc ++ [(y.1, y.2.1)]) a p w2 hE2
          exact ⟨r, hr⟩)) w
    rw [processor.syncAndValidate_eq]
    unfold syncAndValidateBody
    rw [run_emit_bind, bind_of_val h1]
    cases oe with
    | some err =>
      refine ⟨(c2, some err), rfl, fun err2 herr => ?_⟩
      cases herr
      rcases h2 err rfl with h | ⟨k, v, h⟩
      · exact Or.inl h
      · refine Or.inr (Or.inr (Or.inl ⟨k, v, ?_⟩))
        simp only [run_pure, List.append_nil]
        exact List.mem_cons_of_mem _ h
    | none =>
      simp only []
      obtain ⟨r, hr, hsrc⟩ := ownSyncAndValidate_source (sys.processors id) loc e c2 a p
        (childrenPhase sys (sys.processors id)
          (ProcessorRef.syncAndValidate sys (processor.syncAndValidate sys)) loc e a p w).world
      refine ⟨r, hr, fun err herr => ?_⟩
      rcases hsrc err herr with h | h
      · exact Or.inr (Or.inl h)
      · exact Or.inr (Or.inr (Or.inr (collaboratorError_cons _ loc _ _ _ err
          (collaboratorError_append _ loc _ _ _ err h))))

/-- On a lawful entity `act` returns, and its error is ErrorProcessorNotFound,
ErrorUnprocessableEntity, the error of a call into a sub-processor, or comes with the call of
`StateMachine.Do` that ends the run. -/
theorem act_lawful (sys : System W) (hC : CopyKeepsTypeAndKeys sys.ops)
    (hU : UpdateSucceedsAtExisting sys.ops) :
    ∀ (n : Nat) (e : Entity), e.depth ≤ n → e.WF → ∀ (id : Nat) (loc : Path) (a : Action)
      (p : ActionParams) (w : W), (sys.processors id).E e.typ = true →
      ∃ r, (processor.act sys id loc e a p w).res = .val r
        ∧ ∀ err, r.2 = some err →
            ErrorSource (sys.processors id) loc (processor.act sys id loc e a p w).trace
              (processor.act sys id loc e a p w).world err := by
  intro n
  induction n with
  | zero =>
    intro e hd
    rw [Entity.depth_eq] at hd
    omega
  | succ n ih =>
    intro e hd hWF id loc a p w hE
    obtain ⟨c2, oe, h1, h2⟩ := childrenPhase_lawful sys (sys.processors id)
      (ProcessorRef.act sys (processor.act sys)) loc a p hC hU e hWF hE
      (fun ref l x w v h => ref_act_some sys _ ref l x a p w v h)
      (fun ref l x w out h => ref_act_ret_of_val sys _ ref l x a p w out h)
      (fun y hy ref w2 hnil => ref_act_returns sys _ ref _ y.2.2 a p w2 hnil
        (fun id2 hE2 => by
          have hlt := depth_lt_of_mem_entries e y.2.2 y.1 y.2.1 hy
          obtain ⟨r, hr, _⟩ := ih y.2.2 (by omega) (WF_of_mem_entries e hWF y hy) id2
            (loc ++ [(y.1, y.2.1)]) a p w2 hE2
          exact ⟨r, hr⟩)) w
    rw [processor.act_eq]
    unfold actBody
    rw [run_emit_bind, bind_of_val h1]
    cases oe with
    | some err =>
      refine ⟨(c2, some err), rfl, fun err2 herr => ?_⟩
      cases herr
      rcases h2 err rfl with h | ⟨k, v, h⟩
      · exact Or.inl h
      · refine Or.inr (Or.inr (Or.inl ⟨k, v, ?_⟩))
        simp only [run_pure, List.append_nil]
        exact List.mem_cons_of_mem _ h
    | none =>
      simp only []
      obtain ⟨r, hr, hsrc⟩ := transitionPhase_source (sys.processors id) loc c2 a p
        (childrenPhase sys (sys.processors id)
          (ProcessorRef.act sys (processor.act sys)) loc e a p w).world
      refine ⟨r, hr, fun err herr => ?_⟩
      rcases hsrc err herr with h | h
      · exact Or.inr (Or.inl h)
      · exact Or.inr (Or.inr (Or.inr (collaboratorError_cons _ loc _ _ _ err
          (collaboratorError_append _ loc _ _ _ err h))))

/-- The loop of the reconciliation on a lawful entity: if the calls into the sub-processors
return, the loop returns, the fold-backs stay possible, and the error of the loop is
ErrorProcessorNotFound, for a sub-entity that resolves to no processor, or the error returned
by a call into a sub-processor. -/
theorem jobLoop_lawful (sys : System W) (cfg : ProcessorConfig W)
    (sub : ProcessorRef → Path → Option Entity → Option Entity →
      Eng W (Option Entity × Option GoError))
    (loc : Path) (hU : UpdateSucceedsAtExisting sys.ops)
    (hret : ∀ ref l o n w out, (sub ref l o n w).res = .val out →
      Event.ret l out.1 out.2 ∈ (sub ref l o n w).trace)
    (S : List (String × String)) (jobs : List Job)
    (htot : ∀ j ∈ jobs, ∀ ref w, isNilProcessor ref = false →
      ∃ r, (sub ref (loc ++ [(j.1, j.2.1)]) j.2.2.1 j.2.2.2 w).res = .val r)
    (hS : ∀ j ∈ jobs, j.2.2.2.isSome = true → (j.1, j.2.1) ∈ S)
    (c : Option Entity) (w : W) (hc : FoldReady cfg c S) :
    ∃ c2 oe, (jobLoop sys cfg sub loc jobs c done w).res = .val (c2, oe)
      ∧ FoldReady cfg c2 S
      ∧ ∀ err, oe = some err →
          (err = ErrorProcessorNotFound
            ∧ ∃ j ∈ jobs, isNilProcessor (jobProcessor cfg j) = true)
          ∨ ∃ k v, Event.ret (loc ++ [k]) v (some err)
              ∈ (jobLoop sys cfg sub loc jobs c done w).trace := by
  induction jobs generalizing c w with
  | nil => exact ⟨c, none, rfl, hc, fun err h => by cases h⟩
  | cons j rest ih =>
    have hstep : jobLoop sys cfg sub loc (j :: rest) c done
        = jobStep sys cfg sub loc j c (fun c3 => jobLoop sys cfg sub loc rest c3 done) := rfl
    rw [hstep]
    have ih2 := fun c3 w3 => ih (fun j2 hj2 => htot j2 (List.mem_cons_of_mem _ hj2))
      (fun j2 hj2 => hS j2 (List.mem_cons_of_mem _ hj2)) c3 w3
    rcases jobStep_cases sys cfg sub loc j c w with ⟨hnil, hall⟩ | ⟨hnil, hcases⟩
    · rw [hall]
      exact ⟨c, some ErrorProcessorNotFound, rfl, hc, fun err h => by
        cases h
        exact Or.inl ⟨rfl, j, List.mem_cons_self _ _, hnil⟩⟩
    · obtain ⟨r, hr⟩ := htot j (List.mem_cons_self _ _) _ w hnil
      rcases hcases with ⟨h1, _⟩ | ⟨h1, _⟩ | ⟨v, err, h1, hall⟩ | ⟨s, h1, hnew, hfold⟩
        | ⟨v, h1, _, hall⟩
      · rw [hr] at h1
        cases h1
      · rw [hr] at h1
        cases h1
      · rw [hall]
        refine ⟨c, some err, rfl, hc, fun err2 h => ?_⟩
        cases h
        exact Or.inr ⟨(j.1, j.2.1), v, hret _ _ _ _ _ _ h1⟩
      · obtain ⟨c0, hc0, hE0, hex⟩ := hc (j.1, j.2.1) (hS j (List.mem_cons_self _ _) hnew)
        obtain ⟨u, hu, hty, hk⟩ := hU c0 j.1 j.2.1 s hex
        rcases hfold with ⟨R0, _, _, hbad, _⟩ | ⟨c1, u1, hc1, hUp, _, hall⟩
        · rcases hbad with h | ⟨c1, hc1, ⟨err, h2, _⟩ | ⟨u1, h2, h3⟩⟩
          · rw [hc0] at h
            cases h
          · rw [hc0] at hc1
            cases hc1
            rw [hu] at h2
            cases h2
          · rw [hc0] at hc1
            cases hc1
            rw [hu] at h2
            have huu : u = u1 := Except.ok.inj h2
            subst huu
            rw [hty, hE0] at h3
            cases h3
        · rw [hc0] at hc1
          cases hc1
          rw [hu] at hUp
          have huu : u = u1 := Except.ok.inj hUp
          subst huu
          have hready : FoldReady cfg (some u) S := by
            intro k hk2
            obtain ⟨c3, hc3, hE3, hex3⟩ := hc k hk2
            rw [hc0] at hc3
            cases hc3
            exact ⟨u, rfl, by rw [hty, hE3], by rw [hk.2 k.1 k.2, hex3]⟩
          obtain ⟨c2, oe, h4, h5, h6⟩ := ih2 (some u)
            (sub (jobProcessor cfg j) (loc ++ [(j.1, j.2.1)]) j.2.2.1 j.2.2.2 w).world hready
          rw [hall]
          refine ⟨c2, oe, h4, h5, fun err h => ?_⟩
          rcases h6 err h with ⟨h7, j2, hj2, hn2⟩ | ⟨k, v2, h7⟩
          · exact Or.inl ⟨h7, j2, List.mem_cons_of_mem _ hj2, hn2⟩
          · exact Or.inr ⟨k, v2, List.mem_append_right _ h7⟩
      · obtain ⟨c2, oe, h4, h5, h6⟩ := ih2 c
          (sub (jobProcessor cfg j) (loc ++ [(j.1, j.2.1)]) j.2.2.1 j.2.2.2 w).world hc
        rw [hall]
        refine ⟨c2, oe, h4, h5, fun err h => ?_⟩
        rcases h6 err h with ⟨h7, j2, hj2, hn2⟩ | ⟨k, v2, h7⟩
        · exact Or.inl ⟨h7, j2, List.mem_cons_of_mem _ hj2, hn2⟩
        · exact Or.inr ⟨k, v2, List.mem_append_right _ h7⟩

/-- A nil pointer has no child. -/
theorem childOf_none (tk ek : String) : childOf none tk ek = none := rfl

/-- The copy of a lawful new entity is ready for the fold-backs of `save`. -/
theorem foldReady_copy (sys : System W) (cfg : ProcessorConfig W)
    (hC : CopyKeepsTypeAndKeys sys.ops) (O N : Option Entity) (hO : WFOpt O) (hN : WFOpt N)
    (hE : ∀ x, N = some x → cfg.E x.typ = true) :
    FoldReady cfg (N.map sys.ops.Copy) (foldKeys O N) := by
  intro k hk
  unfold foldKeys at hk
  obtain ⟨j, hj, hjk⟩ := List.mem_map.1 hk
  obtain ⟨hj1, hj2⟩ := List.mem_filter.1 hj
  have hnew := ((jobsOf_spec O N hO hN).1 j hj1).2.1
  rw [hnew] at hj2
  subst hjk
  cases N with
  | none =>
    rw [childOf_none] at hj2
    cases hj2
  | some x =>
    refine ⟨sys.ops.Copy x, rfl, by rw [(hC x).1, hE x rfl], ?_⟩
    rw [(hC x).2.2]
    exact hj2

/-- The copy of the new entity whose copy has the type of the processor. -/
theorem copyNew_lawful (sys : System W) (cfg : ProcessorConfig W)
    (hC : CopyKeepsTypeAndKeys sys.ops) (N : Option Entity)
    (hE : ∀ x, N = some x → cfg.E x.typ = true) (w : W) :
    copyNew sys cfg N w = ⟨.val (N.map sys.ops.Copy), w, []⟩ := by
  unfold copyNew
  cases N with
  | none => rfl
  | some x =>
    simp only [run_assertType_bind, (hC x).1, hE x rfl, if_true]
    rfl

/-- The depth of a child is below the depth of its parent. -/
theorem depthOf_childOf (o : Option Entity) (tk ek : String) (n : Nat)
    (h : depthOf o ≤ n + 1) : depthOf (childOf o tk ek) ≤ n := by
  cases hc : childOf o tk ek with
  | none => exact Nat.zero_le _
  | some x =>
    obtain ⟨m, hm, hx⟩ := lookup2_mem _ tk ek x hc
    have := allSub_lt o tk m hm ek x hx
    omega

/-- The wrapper's `save` returns when the wrapped `save` does. -/
theorem wrapper_save_returns (E : Nat → Bool)
    (f : Path → Option Entity → Option Entity → Eng W (Option Entity × Option GoError))
    (loc : Path) (o n : Option Entity) (w : W)
    (h : (∀ e, o = some e → E e.typ = true) → (∀ e, n = some e → E e.typ = true) →
      ∃ r, (f loc o n w).res = .val r) :
    ∃ out, (genericProcessorWrapper.save E f loc o n w).res = .val out := by
  rcases narrowPtr_cases E o with h1 | h1
  · unfold genericProcessorWrapper.save
    rw [h1]
    exact ⟨_, rfl⟩
  · rcases narrowPtr_cases E n with h2 | h2
    · unfold genericProcessorWrapper.save
      rw [h1, h2]
      exact ⟨_, rfl⟩
    · have ho : ∀ e, o = some e → E e.typ = true := by
        intro e he
        subst he
        by_cases hE : E e.typ = true
        · exact hE
        · simp [narrowPtr, hE] at h1
      have hn : ∀ e, n = some e → E e.typ = true := by
        intro e he
        subst he
        by_cases hE : E e.typ = true
        · exact hE
        · simp [narrowPtr, hE] at h2
      obtain ⟨r, hr⟩ := h ho hn
      rw [wrapper_save_of_val E f loc o n w ho hn r hr]
      exact ⟨_, rfl⟩

theorem ref_save_returns (sys : System W)
    (self : Nat → Path → Option Entity → Option Entity →
      Eng W (Option Entity × Option GoError))
    (ref : ProcessorRef) (loc : Path) (o n : Option Entity) (w : W)
    (hnil : isNilProcessor ref = false)
    (h : ∀ id, (∀ e, n = some e → (sys.processors id).E e.typ = true) →
      ∃ r, (self id loc o n w).res = .val r) :
    ∃ out, (ProcessorRef.save sys self ref loc o n w).res = .val out := by
  unfold ProcessorRef.save
  rw [traced_res]
  cases ref with
  | wrapper id => exact wrapper_save_returns _ _ loc o n w (fun _ hn => h id hn)
  | nilInterface => cases hnil
  | nilPointer => cases hnil

/-- The reconciliation on lawful entities, in a given order, is the loop over the calls,
started with the copy of the new entity. -/
theorem reconcilePhaseIn_lawful (sys : System W) (cfg : ProcessorConfig W)
    (sub : ProcessorRef → Path → Option Entity → Option Entity →
      Eng W (Option Entity × Option GoError))
    (loc : Path) (hC : CopyKeepsTypeAndKeys sys.ops) (jobs : List Job) (N : Option Entity)
    (hE : ∀ x, N = some x → cfg.E x.typ = true) (w : W) :
    reconcilePhaseIn sys cfg sub loc jobs N w
      = jobLoop sys cfg sub loc jobs (N.map sys.ops.Copy) done w := by
  unfold reconcilePhaseIn
  rw [bind_of_val (by rw [copyNew_lawful sys cfg hC N hE w]),
    copyNew_lawful sys cfg hC N hE w]
  simp only [List.nil_append]

/-- Two pointers one of which is not nil bound a depth that is not zero. -/
theorem max_depthOf_succ (O N : Option Entity) (h : O.isSome = true ∨ N.isSome = true) :
    ∃ n, max (depthOf O) (depthOf N) = n + 1 := by
  have hpos : 0 < max (depthOf O) (depthOf N) := by
    rcases h with h | h
    · exact lt_of_lt_of_le (depthOf_pos O h) (le_max_left _ _)
    · exact lt_of_lt_of_le (depthOf_pos N h) (le_max_right _ _)
  exact ⟨max (depthOf O) (depthOf N) - 1, by omega⟩

/-- One of two pointers is not nil, or both are nil. -/
theorem isSome_or_both_none (O N : Option Entity) :
    (O.isSome = true ∨ N.isSome = true) ∨ (O = none ∧ N = none) := by
  cases O with
  | some x => exact Or.inl (Or.inl rfl)
  | none =>
    cases N with
    | some x => exact Or.inl (Or.inr rfl)
    | none => exact Or.inr ⟨rfl, rfl⟩

/-- On lawful entities `save` returns, in whatever order it visits the keys, and its error is
ErrorProcessorNotFound, the error of a call into a sub-processor, or the error that the
`Repository.Save` whose call ends the run returned. -/
theorem saveIn_lawful (sys : System W) (hC : CopyKeepsTypeAndKeys sys.ops)
    (hU : UpdateSucceedsAtExisting sys.ops)
    (sord : Path → Option Entity → Option Entity → List Job) (hs : SaveOrder sord) :
    ∀ (fuel : Nat) (O N : Option Entity), depthOf O < fuel → depthOf N < fuel →
      WFOpt O → WFOpt N →
      ∀ (id : Nat) (loc : Path) (w : W), (∀ x, N = some x → (sys.processors id).E x.typ = true) →
      ∃ r, (saveIn sys sord fuel id loc O N w).res = .val r
        ∧ ∀ err, r.2 = some err →
            ErrorSource (sys.processors id) loc (saveIn sys sord fuel id loc O N w).trace
              (saveIn sys sord fuel id loc O N w).world err := by
  intro fuel
  induction fuel with
  | zero =>
    intro O N hdO
    omega
  | succ m ih =>
    intro O N hdO hdN hO hN id loc w hE
    have hdef : saveIn sys sord (m + 1) id loc O N
        = saveBodyIn sys (sys.processors id) (ProcessorRef.save sys (saveIn sys sord m)) loc
            (sord loc O N) O N := rfl
    rw [hdef]
    rcases isSome_or_both_none O N with hon | ⟨h1, h2⟩
    · obtain ⟨n, hn⟩ := max_depthOf_succ O N hon
      have hmn : n + 1 ≤ m := by
        rw [← hn]
        exact max_le (by omega) (by omega)
      have hspec := (jobsOf_spec O N hO hN).1
      have hmem : ∀ j ∈ sord loc O N, j ∈ jobsOf O N :=
        fun j hj => (hs loc O N).subset hj
      obtain ⟨c2, oe, h1, _, h3⟩ := jobLoop_lawful sys (sys.processors id)
        (ProcessorRef.save sys (saveIn sys sord m)) loc hU
        (fun ref l o n w out h => ref_save_ret_of_val sys _ ref l o n w out h)
        (foldKeys O N) (sord loc O N)
        (fun j hj ref w2 hnil => ref_save_returns sys _ ref _ j.2.2.1 j.2.2.2 w2 hnil
          (fun id2 hE2 => by
            obtain ⟨e1, e2, _⟩ := hspec j (hmem j hj)
            have d1 : depthOf j.2.2.1 ≤ n := by
              rw [e1]
              exact depthOf_childOf O _ _ n (by rw [← hn]; exact le_max_left _ _)
            have d2 : depthOf j.2.2.2 ≤ n := by
              rw [e2]
              exact depthOf_childOf N _ _ n (by rw [← hn]; exact le_max_right _ _)
            obtain ⟨r, hr, _⟩ := ih j.2.2.1 j.2.2.2 (by omega) (by omega)
              (by rw [e1]; exact WFOpt_childOf O hO _ _)
              (by rw [e2]; exact WFOpt_childOf N hN _ _)
              id2 (loc ++ [(j.1, j.2.1)]) w2 hE2
            exact ⟨r, hr⟩))
        (fun j hj hnew => by
          unfold foldKeys
          exact List.mem_map.2 ⟨j, List.mem_filter.2 ⟨hmem j hj, hnew⟩, rfl⟩)
        (N.map sys.ops.Copy) w (foldReady_copy sys (sys.processors id) hC O N hO hN hE)
      rw [← reconcilePhaseIn_lawful sys (sys.processors id)
        (ProcessorRef.save sys (saveIn sys sord m)) loc hC (sord loc O N) N hE w] at h1 h3
      cases oe with
      | some err =>
        obtain ⟨ht, _, _, herr⟩ := saveBodyIn_of_reconcile_failed sys (sys.processors id)
          (ProcessorRef.save sys (saveIn sys sord m)) loc (sord loc O N) O N w hon
          (fun c h => by
            rw [h1] at h
            cases h)
        refine ⟨(none, some err), herr c2 err h1, fun err2 h => ?_⟩
        cases h
        rcases h3 err rfl with h | ⟨k, v, h⟩
        · exact Or.inl h.1
        · refine Or.inr (Or.inr (Or.inl ⟨k, v, ?_⟩))
          rw [ht]
          exact List.mem_cons_of_mem _ h
      | none =>
        rw [saveBodyIn_of_reconcile sys (sys.processors id)
          (ProcessorRef.save sys (saveIn sys sord m)) loc (sord loc O N) O N w c2 hon h1]
        rcases persistPhase_run (sys.processors id) loc O N c2
          (reconcilePhaseIn sys (sys.processors id)
            (ProcessorRef.save sys (saveIn sys sord m)) loc (sord loc O N) N w).world with
          ⟨repository, hrep, ht, hw, herr, hok⟩ | ⟨_, hrun⟩
        · cases hsv : (repository.Save O (if N.isSome = true then c2 else none)
            (reconcilePhaseIn sys (sys.processors id)
              (ProcessorRef.save sys (saveIn sys sord m)) loc (sord loc O N) N w).world).1.2 with
          | some err =>
            refine ⟨(none, some err), herr err hsv, fun err2 h2 => ?_⟩
            cases h2
            refine Or.inr (Or.inr (Or.inr ⟨Event.processor loc (.save O N)
              :: (reconcilePhaseIn sys (sys.processors id)
                (ProcessorRef.save sys (saveIn sys sord m)) loc (sord loc O N) N w).trace,
              (reconcilePhaseIn sys (sys.processors id)
                (ProcessorRef.save sys (saveIn sys sord m)) loc (sord loc O N) N w).world,
              Or.inr (Or.inr (Or.inr ⟨repository, O, (if N.isSome = true then c2 else none),
                hrep, ?_, hsv, hw.symm⟩))⟩))
            simp only []
            rw [ht]
            rfl
          | none =>
            refine ⟨_, hok hsv, fun err h => ?_⟩
            rw [hsv] at h
            cases h
        · rw [hrun]
          exact ⟨_, rfl, fun err h => by cases h⟩
    · subst h1
      subst h2
      rw [saveBodyIn_both_nil]
      exact ⟨_, rfl, fun err h => by cases h⟩

/-- The fold-back that the loop over the sub-entities of a lawful entity reaches: when the
turns of `pre` have succeeded with the entity `c1`, the call of UpdateSubEntity for the next
sub-entity succeeds whatever the value, and its result has the type of the processor. -/
theorem childLoop_fold_ready (sys : System W) (cfg : ProcessorConfig W)
    (sub : ProcessorRef → Path → Entity → Action → ActionParams →
      Eng W (Option Entity × Option GoError))
    (loc : Path) (a : Action) (p : ActionParams)
    (hC : CopyKeepsTypeAndKeys sys.ops) (hU : UpdateSucceedsAtExisting sys.ops)
    (e : Entity) (hWF : e.WF) (hE : cfg.E e.typ = true)
    (hsome : ∀ ref l x w v, (sub ref l x a p w).res = .val (v, none) → v.isSome = true)
    (hret : ∀ ref l x w out, (sub ref l x a p w).res = .val out →
      Event.ret l out.1 out.2 ∈ (sub ref l x a p w).trace)
    (htot : ∀ y ∈ entries e.SubEntities, ∀ ref w, isNilProcessor ref = false →
      ∃ r, (sub ref (loc ++ [(y.1, y.2.1)]) y.2.2 a p w).res = .val r)
    (w : W) (pre post : List (String × String × Entity)) (tk ek : String) (x c1 : Entity)
    (hsplit : entries e.SubEntities = pre ++ (tk, ek, x) :: post)
    (hpre : (childLoop sys cfg sub loc a p pre (sys.ops.Copy e) w).res = .val (c1, none))
    (s : Entity) :
    ∃ u, sys.ops.UpdateSubEntity c1 tk ek (some s) = .ok u ∧ cfg.E u.typ = true := by
  have hmem : ∀ y ∈ pre ++ (tk, ek, x) :: post, y ∈ entries e.SubEntities := by
    intro y hy
    rw [hsplit]
    exact hy
  obtain ⟨c2, oe, h1, h2, _⟩ := childLoop_lawful sys cfg sub loc a p hU e hE hsome hret pre
    (fun y hy => htot y (hmem y (List.mem_append_left _ hy)))
    (fun y hy => by
      rw [child_of_mem_entries e hWF y.1 y.2.1 y.2.2 (hmem y (List.mem_append_left _ hy))]
      rfl)
    (sys.ops.Copy e) w (hC e)
  rw [hpre] at h1
  simp only [Ctl.val.injEq, Prod.mk.injEq] at h1
  obtain ⟨hc, _⟩ := h1
  subst hc
  have hex : (c1.child tk ek).isSome = true := by
    rw [h2.2.2 tk ek, child_of_mem_entries e hWF tk ek x
      (hmem _ (List.mem_append_right _ (List.mem_cons_self _ _)))]
    rfl
  obtain ⟨u, hu, hty, _⟩ := hU c1 tk ek s hex
  exact ⟨u, hu, by rw [hty, h2.1, hE]⟩

/-- C18 (the fold-backs of a lawful entity never fail).  Let `Copy` return an entity of the
same concrete type with the same sub-entity keys, and let `UpdateSubEntity` succeed, with a
result of the same concrete type and the same keys, whenever the pair of keys exists.  Then
for a well-formed entity of the type of the processor: the copy made by syncAndValidate and
act narrows to that type; whenever the loop over the sub-entities of syncAndValidate or of
act has made the turns `pre` with success and comes to the sub-entity at `(tk, ek)`, the call
of UpdateSubEntity at `(tk, ek)` succeeds and its result narrows; both methods return (no
panic), and an error they return is ErrorProcessorNotFound, ErrorUnprocessableEntity, the
error that the call into the processor of a direct sub-entity returned, or the error that the
collaborator whose call ends the run returned.  Likewise for `save` on well-formed entities,
the new one of the type of the processor, in whatever order `sord` it visits the keys: the
copy of the new entity narrows; whenever the reconciliation has made the calls `pre` with
success and comes to a call whose new sub-entity exists, the new entity is there and
UpdateSubEntity at the pair of the call succeeds with a result that narrows; `save` returns,
and its error has one of the same sources.  With the order of `jobsOf`, `save` is
`processor.save`. -/
theorem lawful_updates_never_fail (sys : System W) (hC : CopyKeepsTypeAndKeys sys.ops)
    (hU : UpdateSucceedsAtExisting sys.ops) (id : Nat) (loc : Path) (w : W) :
    (∀ (entity : Entity) (a : Action) (p : ActionParams), entity.WF →
        (sys.processors id).E entity.typ = true →
        (sys.processors id).E (sys.ops.Copy entity).typ = true
        ∧ (∀ (pre post : List (String × String × Entity)) (tk ek : String) (x c1 : Entity),
            entries entity.SubEntities = pre ++ (tk, ek, x) :: post →
            ((childLoop sys (sys.processors id)
                (ProcessorRef.syncAndValidate sys (processor.syncAndValidate sys)) loc a p pre
                (sys.ops.Copy entity) w).res = .val (c1, none)
              ∨ (childLoop sys (sys.processors id)
                (ProcessorRef.act sys (processor.act sys)) loc a p pre
                (sys.ops.Copy entity) w).res = .val (c1, none)) →
            ∀ s, ∃ u, sys.ops.UpdateSubEntity c1 tk ek (some s) = .ok u
              ∧ (sys.processors id).E u.typ = true)
        ∧ (∃ r, (processor.syncAndValidate sys id loc entity a p w).res = .val r
            ∧ ∀ err, r.2 = some err →
                ErrorSource (sys.processors id) loc
                  (processor.syncAndValidate sys id loc entity a p w).trace
                  (processor.syncAndValidate sys id loc entity a p w).world err)
        ∧ (∃ r, (processor.act sys id loc entity a p w).res = .val r
            ∧ ∀ err, r.2 = some err →
                ErrorSource (sys.processors id) loc
                  (processor.act sys id loc entity a p w).trace
                  (processor.act sys id loc entity a p w).world err))
      ∧ (∀ (sord : Path → Option Entity → Option Entity → List Job), SaveOrder sord →
          ∀ (O N : Option Entity), WFOpt O → WFOpt N →
          (∀ x, N = some x → (sys.processors id).E x.typ = true) →
          (∀ x, N = some x → (sys.processors id).E (sys.ops.Copy x).typ = true)
          ∧ (∀ (pre post : List Job) (j : Job) (c1 : Option Entity),
              sord loc O N = pre ++ j :: post →
              (jobLoop sys (sys.processors id) (processor.saveCallIn sys sord O N) loc
                pre (N.map sys.ops.Copy) done w).res = .val (c1, none) →
              j.2.2.2.isSome = true →
              ∃ c0, c1 = some c0
                ∧ ∀ s, ∃ u, sys.ops.UpdateSubEntity c0 j.1 j.2.1 (some s) = .ok u
                  ∧ (sys.processors id).E u.typ = true)
          ∧ (∃ r, (processor.saveIn sys sord id loc O N w).res = .val r
              ∧ ∀ err, r.2 = some err →
                  ErrorSource (sys.processors id) loc
                    (processor.saveIn sys sord id loc O N w).trace
                    (processor.saveIn sys sord id loc O N w).world err))
      ∧ ∀ (O N : Option Entity),
          processor.saveIn sys jobsOrder id loc O N = processor.save sys id loc O N := by
  have hsv : ∀ (e : Entity), e.WF → ∀ (a : Action) (p : ActionParams),
      ∀ y ∈ entries e.SubEntities, ∀ ref w2, isNilProcessor ref = false →
        ∃ r, (ProcessorRef.syncAndValidate sys (processor.syncAndValidate sys) ref
          (loc ++ [(y.1, y.2.1)]) y.2.2 a p w2).res = .val r := by
    intro e hWF a p y hy ref w2 hnil
    refine ref_syncAndValidate_returns sys _ ref _ y.2.2 a p w2 hnil (fun id2 hE2 => ?_)
    obtain ⟨r, hr, _⟩ := syncAndValidate_lawful sys hC hU y.2.2.depth y.2.2 (le_refl _)
      (WF_of_mem_entries e hWF y hy) id2 (loc ++ [(y.1, y.2.1)]) a p w2 hE2
    exact ⟨r, hr⟩
  have hact : ∀ (e : Entity), e.WF → ∀ (a : Action) (p : ActionParams),
      ∀ y ∈ entries e.SubEntities, ∀ ref w2, isNilProcessor ref = false →
        ∃ r, (ProcessorRef.act sys (processor.act sys) ref
          (loc ++ [(y.1, y.2.1)]) y.2.2 a p w2).res = .val r := by
    intro e hWF a p y hy ref w2 hnil
    refine ref_act_returns sys _ ref _ y.2.2 a p w2 hnil (fun id2 hE2 => ?_)
    obtain ⟨r, hr, _⟩ := act_lawful sys hC hU y.2.2.depth y.2.2 (le_refl _)
      (WF_of_mem_entries e hWF y hy) id2 (loc ++ [(y.1, y.2.1)]) a p w2 hE2
    exact ⟨r, hr⟩
  refine ⟨fun entity a p hWF hE => ⟨by rw [(hC entity).1, hE], ?_, ?_, ?_⟩,
    fun sord hs O N hO hN hE => ⟨fun x hx => by rw [(hC x).1, hE x hx], ?_, ?_⟩,
    fun O N => processor.saveIn_as_save sys id loc O N⟩
  · intro pre post tk ek x c1 hsplit hpre s
    rcases hpre with hpre | hpre
    · exact childLoop_fold_ready sys (sys.processors id) _ loc a p hC hU entity hWF hE
        (fun ref l x w v h => ref_syncAndValidate_some sys _ ref l x a p w v h)
        (fun ref l x w out h => ref_syncAndValidate_ret_of_val sys _ ref l x a p w out h)
        (hsv entity hWF a p) w pre post tk ek x c1 hsplit hpre s
    · exact childLoop_fold_ready sys (sys.processors id) _ loc a p hC hU entity hWF hE
        (fun ref l x w v h => ref_act_some sys _ ref l x a p w v h)
        (fun ref l x w out h => ref_act_ret_of_val sys _ ref l x a p w out h)
        (hact entity hWF a p) w pre post tk ek x c1 hsplit hpre s
  · exact syncAndValidate_lawful sys hC hU entity.depth entity (le_refl _) hWF id loc a p w hE
  · exact act_lawful sys hC hU entity.depth entity (le_refl _) hWF id loc a p w hE
  · intro pre post j c1 hsplit hpre hnew
    have hmem : ∀ j2 ∈ pre ++ j :: post, j2 ∈ jobsOf O N := by
      intro j2 hj2
      rw [← hsplit] at hj2
      exact (hs loc O N).subset hj2
    have hspec := (jobsOf_spec O N hO hN).1
    have hkeys : ∀ j2 ∈ jobsOf O N, j2.2.2.2.isSome = true → (j2.1, j2.2.1) ∈ foldKeys O N := by
      intro j2 hj2 hnew2
      unfold foldKeys
      exact List.mem_map.2 ⟨j2, List.mem_filter.2 ⟨hj2, hnew2⟩, rfl⟩
    have hon : O.isSome = true ∨ N.isSome = true := by
      rcases isSome_or_both_none O N with h | ⟨h1, h2⟩
      · exact h
      · subst h1
        subst h2
        have := hmem j (List.mem_append_right _ (List.mem_cons_self _ _))
        simp [jobsOf, saveJobs, subEntitiesOf, keys] at this
    obtain ⟨n, hn⟩ := max_depthOf_succ O N hon
    obtain ⟨c2, oe, h1, h2, _⟩ := jobLoop_lawful sys (sys.processors id)
      (processor.saveCallIn sys sord O N) loc hU
      (fun ref l o n w out h => ref_save_ret_of_val sys _ ref l o n w out h)
      (foldKeys O N) pre
      (fun j2 hj2 ref w2 hnil => ref_save_returns sys _ ref _ j2.2.2.1 j2.2.2.2 w2 hnil
        (fun id2 hE2 => by
          obtain ⟨e1, e2, _⟩ := hspec j2 (hmem j2 (List.mem_append_left _ hj2))
          have d1 : depthOf j2.2.2.1 ≤ n := by
            rw [e1]
            exact depthOf_childOf O _ _ n (by rw [← hn]; exact le_max_left _ _)
          have d2 : depthOf j2.2.2.2 ≤ n := by
            rw [e2]
            exact depthOf_childOf N _ _ n (by rw [← hn]; exact le_max_right _ _)
          obtain ⟨r, hr, _⟩ := saveIn_lawful sys hC hU sord hs
            (max (depthOf O) (depthOf N)) j2.2.2.1 j2.2.2.2
            (by omega) (by omega)
            (by rw [e1]; exact WFOpt_childOf O hO _ _)
            (by rw [e2]; exact WFOpt_childOf N hN _ _)
            id2 (loc ++ [(j2.1, j2.2.1)]) w2 hE2
          exact ⟨r, hr⟩))
      (fun j2 hj2 => hkeys j2 (hmem j2 (List.mem_append_left _ hj2)))
      (N.map sys.ops.Copy) w (foldReady_copy sys (sys.processors id) hC O N hO hN hE)
    rw [hpre] at h1
    simp only [Ctl.val.injEq, Prod.mk.injEq] at h1
    obtain ⟨hc, _⟩ := h1
    subst hc
    obtain ⟨c0, hc0, hE0, hex⟩ := h2 (j.1, j.2.1)
      (hkeys j (hmem j (List.mem_append_right _ (List.mem_cons_self _ _))) hnew)
    refine ⟨c0, hc0, fun s => ?_⟩
    obtain ⟨u, hu, hty, _⟩ := hU c0 j.1 j.2.1 s hex
    exact ⟨u, hu, by rw [hty, hE0]⟩
  · exact saveIn_lawful sys hC hU sord hs (max (depthOf O) (depthOf N) + 1) O N
      (Nat.lt_succ_of_le (le_max_left _ _)) (Nat.lt_succ_of_le (le_max_right _ _)) hO hN id
      loc w hE

/-! ### The entity methods of the example application are lawful -/

theorem replaceTyped_of_lookup (entityKey : String) (c : Entity) (m : List (String × Entity))
    (h : (m.lookup entityKey).isSome = true) : (replaceTyped entityKey c m).isSome = true := by
  induction m with
  | nil => simp at h
  | cons kx rest ih =>
    obtain ⟨k, x⟩ := kx
    unfold replaceTyped
    by_cases hk : k = entityKey
    · simp [hk]
    · have hk2 : (entityKey == k) = false := by
        simp only [beq_eq_false_iff_ne, ne_eq]
        exact fun h2 => hk h2.symm
      rw [List.lookup_cons, hk2] at h
      simp only [hk, if_false, Option.isSome_map']
      exact ih h

theorem replaceSub_of_lookup2 (typeKey entityKey : String) (c : Entity)
    (m : List (String × List (String × Entity)))
    (h : (lookup2 m typeKey entityKey).isSome = true) :
    (replaceSub typeKey entityKey c m).isSome = true := by
  induction m with
  | nil => simp [lookup2] at h
  | cons tm rest ih =>
    obtain ⟨t, m0⟩ := tm
    unfold replaceSub
    by_cases ht : t = typeKey
    · subst ht
      simp only [if_true, Option.isSome_map']
      apply replaceTyped_of_lookup
      simpa [lookup2, List.lookup_cons] using h
    · have ht2 : (typeKey == t) = false := by
        simp only [beq_eq_false_iff_ne, ne_eq]
        exact fun h2 => ht h2.symm
      simp only [ht, if_false, Option.isSome_map']
      apply ih
      unfold lookup2 at h ⊢
      rw [List.lookup_cons, ht2] at h
      exact h

theorem demoOps_copy_lawful : CopyKeepsTypeAndKeys demoOps :=
  fun e => ⟨rfl, SameKeys.refl e⟩

theorem demoOps_update_lawful : UpdateSucceedsAtExisting demoOps := by
  intro e typeKey entityKey s h
  obtain ⟨m, hm⟩ := Option.isSome_iff_exists.1
    (replaceSub_of_lookup2 typeKey entityKey s e.SubEntities h)
  have hu : demoOps.UpdateSubEntity e typeKey entityKey (some s)
      = .ok (Entity.mk e.typ e.fields m) := by
    simp only [demoOps, hm]
  exact ⟨_, hu, rfl, demoOps_keeps_keys e typeKey entityKey (some s) _ hu⟩

/-- C18, example: in the demo application, whose entity methods are lawful, once the loop
of syncAndValidate over the two line items of the order has made its first turn, the
fold-back of the line item "2" succeeds whatever the value folded back; and the
syncAndValidate of the order for an action that the line items reject returns, with an error
that has one of the sources. -/
theorem lawful_updates_never_fail_witness :
    CopyKeepsTypeAndKeys demo.ops ∧ UpdateSucceedsAtExisting demo.ops ∧ grownOrder.WF
      ∧ (demo.processors 0).E grownOrder.typ = true
      ∧ entries grownOrder.SubEntities
          = [("items", "1", .mk 2 5 [])] ++ ("items", "2", .mk 2 7 []) :: []
      ∧ (childLoop demo (demo.processors 0)
            (ProcessorRef.syncAndValidate demo (processor.syncAndValidate demo)) [] "approve" 0
            [("items", "1", .mk 2 5 [])] (demo.ops.Copy grownOrder) 0).res
          = .val (grownOrder, none)
      ∧ (∀ s, ∃ u, demo.ops.UpdateSubEntity grownOrder "items" "2" (some s) = .ok u
          ∧ (demo.processors 0).E u.typ = true)
      ∧ (processor.syncAndValidate demo 0 [] grownOrder "ship" 0 0).res
          = .val (grownOrder, some ErrorInvalidState)
      ∧ ∃ r, (processor.syncAndValidate demo 0 [] grownOrder "ship" 0 0).res = .val r
          ∧ ∀ err, r.2 = some err →
              ErrorSource (demo.processors 0) []
                (processor.syncAndValidate demo 0 [] grownOrder "ship" 0 0).trace
                (processor.syncAndValidate demo 0 [] grownOrder "ship" 0 0).world err :=
  have hWF : grownOrder.WF := by
    simp [grownOrder, Entity.WF, Entity.WFTypes, Entity.WFEnts, keys]
  have hloop : (childLoop demo (demo.processors 0)
      (ProcessorRef.syncAndValidate demo (processor.syncAndValidate demo)) [] "approve" 0
      [("items", "1", .mk 2 5 [])] (demo.ops.Copy grownOrder) 0).res
        = .val (grownOrder, none) := by decide
  ⟨demoOps_copy_lawful, demoOps_update_lawful, hWF, by decide, by decide, hloop,
    ((lawful_updates_never_fail demo demoOps_copy_lawful demoOps_update_lawful 0 [] 0).1
      grownOrder "approve" 0 hWF (by decide)).2.1 [("items", "1", .mk 2 5 [])] [] "items" "2"
      (.mk 2 7 []) grownOrder (by decide) (Or.inl hloop),
    by decide,
    ((lawful_updates_never_fail demo demoOps_copy_lawful demoOps_update_lawful 0 [] 0).1
      grownOrder "ship" 0 hWF (by decide)).2.2.1⟩

/-! ## Save diff completeness, in any visiting order -/

/-- The calls that the reconciliation of `save` makes on the direct sub-entities, in a given
order, are the first calls of the list of the calls to make, and all of them when it
succeeds. -/
theorem directSaveCalls_reconcileIn (sys : System W)
    (sord : Path → Option Entity → Option Entity → List Job) (id : Nat) (loc : Path)
    (o n : Option Entity) (w : W) :
    directSaveCalls loc (processor.reconcileIn sys sord id loc o n w).trace <+: sord loc o n
      ∧ ((∃ c, (processor.reconcileIn sys sord id loc o n w).res = .val (c, none)) →
          directSaveCalls loc (processor.reconcileIn sys sord id loc o n w).trace
            = sord loc o n) := by
  unfold processor.reconcileIn
  rcases reconcilePhaseIn_run sys (sys.processors id)
      (processor.saveCallIn sys sord o n) loc (sord loc o n) n w with h | ⟨c, _, _, _, h⟩
  · rw [h]
    exact ⟨List.nil_prefix, fun ⟨c, hc⟩ => by simp at hc⟩
  · rw [h]
    exact jobLoop_calls sys (sys.processors id) _ loc
      (fun j ref w2 => directSaveCalls_ref sys _
        (fun id2 l o2 n2 => emits_saveIn sys sord _ id2 l o2 n2) ref loc j.1 j.2.1 j.2.2.1
        j.2.2.2 w2)
      (sord loc o n) c w

/-- The calls that `save` makes on the direct sub-entities are those of its
reconciliation. -/
theorem directSaveCalls_saveIn (sys : System W)
    (sord : Path → Option Entity → Option Entity → List Job) (hs : SaveOrder sord)
    (id : Nat) (loc : Path)
    (o n : Option Entity) (w : W) :
    directSaveCalls loc (processor.saveIn sys sord id loc o n w).trace
      = directSaveCalls loc (processor.reconcileIn sys sord id loc o n w).trace := by
  rw [processor.saveIn_eq]
  unfold processor.reconcileIn
  rcases isSome_or_both_none o n with hon | ⟨ho, hn⟩
  · by_cases hs : ∃ c, (reconcilePhaseIn sys (sys.processors id)
        (processor.saveCallIn sys sord o n) loc (sord loc o n) n w).res = .val (c, none)
    · obtain ⟨c, hc⟩ := hs
      rw [saveBodyIn_of_reconcile sys _ _ loc _ o n w c hon hc]
      show directSaveCalls loc ([_] ++ (_ ++ _)) = _
      rw [directSaveCalls_append, directSaveCalls_append, directSaveCalls_persistPhase]
      simp [directSaveCalls, directSaveCall]
    · have hs2 : ∀ c, (reconcilePhaseIn sys (sys.processors id)
          (processor.saveCallIn sys sord o n) loc (sord loc o n) n w).res ≠ .val (c, none) :=
        fun c hc => hs ⟨c, hc⟩
      rw [(saveBodyIn_of_reconcile_failed sys _ _ loc _ o n w hon hs2).1]
      show directSaveCalls loc ([_] ++ _) = _
      rw [directSaveCalls_append]
      simp [directSaveCalls, directSaveCall]
  · subst ho
    subst hn
    rw [saveBodyIn_both_nil]
    have h2 : reconcilePhaseIn sys (sys.processors id) (processor.saveCallIn sys sord none none)
        loc (sord loc none none) none w
        = jobLoop sys (sys.processors id) (processor.saveCallIn sys sord none none) loc
            (sord loc none none) none done w := rfl
    have h3 : sord loc none none = [] := by
      have hp := hs loc none none
      have hj : jobsOf none none = [] := rfl
      rw [hj] at hp
      exact List.Perm.eq_nil hp
    rw [h2, h3]
    rfl

/-- The events of the reconciliation of `save` are events of `save`. -/
theorem reconcileIn_trace_subset (sys : System W)
    (sord : Path → Option Entity → Option Entity → List Job) (id : Nat) (loc : Path)
    (o n : Option Entity) (w : W) (hon : o.isSome = true ∨ n.isSome = true) :
    ∀ ev ∈ (processor.reconcileIn sys sord id loc o n w).trace,
      ev ∈ (processor.saveIn sys sord id loc o n w).trace := by
  intro ev hev
  rw [processor.saveIn_eq]
  by_cases hs : ∃ c, (reconcilePhaseIn sys (sys.processors id)
      (processor.saveCallIn sys sord o n) loc (sord loc o n) n w).res = .val (c, none)
  · obtain ⟨c, hc⟩ := hs
    rw [saveBodyIn_of_reconcile sys _ _ loc _ o n w c hon hc]
    exact List.mem_cons_of_mem _ (List.mem_append_left _ hev)
  · have hs2 : ∀ c, (reconcilePhaseIn sys (sys.processors id)
        (processor.saveCallIn sys sord o n) loc (sord loc o n) n w).res ≠ .val (c, none) :=
      fun c hc => hs ⟨c, hc⟩
    rw [(saveBodyIn_of_reconcile_failed sys _ _ loc _ o n w hon hs2).1]
    exact List.mem_cons_of_mem _ hev

/-- C3 (as amended; save diff completeness).  Take the calls of `save` on direct sub-entities
of the entity at `loc` that the run of `save(O, N)` records, each with its pair of keys and
its two arguments, the sub-entity maps of `O` and `N` having distinct keys as Go maps do and
the keys being visited in any order `sord`.  No pair of keys is called twice, and a call on
the pair `(typeKey, entityKey)` has as arguments the child of `O` and the child of `N` at
that pair (nil where there is none), one of which exists: so the arguments are
`(old child, nil)` when the pair is only in `O`, `(nil, new child)` when it is only in `N`
and `(old child, new child)` when it is in both, and no other pair is called.  When the
reconciliation (lines 140-252) succeeds, every pair of the union is called.  And the
reconciliation succeeds, so that every pair of the union is called, when the entity methods
are lawful (`Copy` keeps the concrete type and the keys, `UpdateSubEntity` succeeds at an
existing pair and keeps them), the new entity has the type of the processor, every
sub-entity on which the processor is resolved resolves to one, and no call of `save` on a
direct sub-entity returns an error.  With the order of `jobsOf`, `save` is
`processor.save`. -/
theorem save_diff_completeness (sys : System W)
    (sord : Path → Option Entity → Option Entity → List Job) (hs : SaveOrder sord)
    (id : Nat) (loc : Path) (O N : Option Entity) (w : W) (hO : WFOpt O) (hN : WFOpt N) :
    ((directSaveCalls loc (processor.saveIn sys sord id loc O N w).trace).map Job.key).Nodup
      ∧ (∀ typeKey entityKey o n,
          (typeKey, entityKey, o, n)
              ∈ directSaveCalls loc (processor.saveIn sys sord id loc O N w).trace →
            o = childOf O typeKey entityKey ∧ n = childOf N typeKey entityKey
              ∧ (o.isSome = true ∨ n.isSome = true))
      ∧ ((∃ c, (processor.reconcileIn sys sord id loc O N w).res = .val (c, none)) →
          ∀ typeKey entityKey,
            ((childOf O typeKey entityKey).isSome = true
                ∨ (childOf N typeKey entityKey).isSome = true) →
              (typeKey, entityKey, childOf O typeKey entityKey, childOf N typeKey entityKey)
                ∈ directSaveCalls loc (processor.saveIn sys sord id loc O N w).trace)
      ∧ (CopyKeepsTypeAndKeys sys.ops → UpdateSucceedsAtExisting sys.ops →
          (∀ x, N = some x → (sys.processors id).E x.typ = true) →
          (∀ j ∈ jobsOf O N, isNilProcessor (jobProcessor (sys.processors id) j) = false) →
          (∀ k v e, Event.ret (loc ++ [k]) v (some e)
            ∉ (processor.saveIn sys sord id loc O N w).trace) →
          (∃ c, (processor.reconcileIn sys sord id loc O N w).res = .val (c, none))
            ∧ ∀ typeKey entityKey,
                ((childOf O typeKey entityKey).isSome = true
                    ∨ (childOf N typeKey entityKey).isSome = true) →
                  (typeKey, entityKey, childOf O typeKey entityKey,
                      childOf N typeKey entityKey)
                    ∈ directSaveCalls loc (processor.saveIn sys sord id loc O N w).trace)
      ∧ processor.saveIn sys jobsOrder id loc O N = processor.save sys id loc O N := by
  obtain ⟨hjobs, hall, hnd⟩ := jobsOf_spec O N hO hN
  obtain ⟨hpre, heq⟩ := directSaveCalls_reconcileIn sys sord id loc O N w
  have hperm := hs loc O N
  have hcomplete : (∃ c, (processor.reconcileIn sys sord id loc O N w).res = .val (c, none)) →
      ∀ typeKey entityKey,
        ((childOf O typeKey entityKey).isSome = true
            ∨ (childOf N typeKey entityKey).isSome = true) →
          (typeKey, entityKey, childOf O typeKey entityKey, childOf N typeKey entityKey)
            ∈ directSaveCalls loc (processor.saveIn sys sord id loc O N w).trace := by
    intro hsucc tk ek hex
    rw [directSaveCalls_saveIn sys sord hs, heq hsucc]
    exact hperm.symm.subset (hall tk ek hex)
  refine ⟨?_, ?_, hcomplete, ?_, processor.saveIn_as_save sys id loc O N⟩
  · rw [directSaveCalls_saveIn sys sord hs]
    exact List.Nodup.sublist (List.IsPrefix.sublist (List.IsPrefix.map Job.key hpre))
      ((List.Perm.nodup_iff (List.Perm.map Job.key hperm)).2 hnd)
  · intro tk ek o n hmem
    rw [directSaveCalls_saveIn sys sord hs] at hmem
    exact hjobs _ (hperm.subset (List.IsPrefix.subset hpre hmem))
  · intro hC hU hE hres hok
    have hsucc : ∃ c, (processor.reconcileIn sys sord id loc O N w).res = .val (c, none) := by
      rcases isSome_or_both_none O N with hon | ⟨h1, h2⟩
      · obtain ⟨n, hn⟩ := max_depthOf_succ O N hon
        have hmem : ∀ j ∈ sord loc O N, j ∈ jobsOf O N := fun j hj => hperm.subset hj
        obtain ⟨c2, oe, h1, _, h3⟩ := jobLoop_lawful sys (sys.processors id)
          (processor.saveCallIn sys sord O N) loc hU
          (fun ref l o n w out h => ref_save_ret_of_val sys _ ref l o n w out h)
          (foldKeys O N) (sord loc O N)
          (fun j hj ref w2 hnil => ref_save_returns sys _ ref _ j.2.2.1 j.2.2.2 w2 hnil
            (fun id2 hE2 => by
              obtain ⟨e1, e2, _⟩ := hjobs j (hmem j hj)
              have d1 : depthOf j.2.2.1 ≤ n := by
                rw [e1]
                exact depthOf_childOf O _ _ n (by rw [← hn]; exact le_max_left _ _)
              have d2 : depthOf j.2.2.2 ≤ n := by
                rw [e2]
                exact depthOf_childOf N _ _ n (by rw [← hn]; exact le_max_right _ _)
              obtain ⟨r, hr, _⟩ := saveIn_lawful sys hC hU sord hs
                (max (depthOf O) (depthOf N)) j.2.2.1 j.2.2.2 (by omega) (by omega)
                (by rw [e1]; exact WFOpt_childOf O hO _ _)
                (by rw [e2]; exact WFOpt_childOf N hN _ _)
                id2 (loc ++ [(j.1, j.2.1)]) w2 hE2
              exact ⟨r, hr⟩))
          (fun j hj hnew => by
            unfold foldKeys
            exact List.mem_map.2 ⟨j, List.mem_filter.2 ⟨hmem j hj, hnew⟩, rfl⟩)
          (N.map sys.ops.Copy) w (foldReady_copy sys (sys.processors id) hC O N hO hN hE)
        rw [← reconcilePhaseIn_lawful sys (sys.processors id)
          (processor.saveCallIn sys sord O N) loc hC (sord loc O N) N hE w] at h1 h3
        cases oe with
        | none => exact ⟨c2, h1⟩
        | some err =>
          rcases h3 err rfl with ⟨_, j, hj, hnil⟩ | ⟨k, v, hret⟩
          · rw [hres j (hmem j hj)] at hnil
            cases hnil
          · exact absurd (reconcileIn_trace_subset sys sord id loc O N w hon _ hret)
              (hok k v err)
      · subst h1
        subst h2
        have h3 : sord loc none none = [] := by
          have hj : jobsOf none none = [] := rfl
          rw [hj] at hperm
          exact List.Perm.eq_nil hperm
        refine ⟨none, ?_⟩
        unfold processor.reconcileIn
        rw [h3]
        rfl
    exact ⟨hsucc, hcomplete hsucc⟩

/-- C3, counterexample: both line items of the order resolve to a processor, whose `save`
returns no error in whatever state of the world it is called, and the `save` of the item "1",
the only one that is made, returns no error; yet `save` makes no call on the item "2",
because the fold-back of the item "1" fails. -/
theorem save_diff_counterexample :
    childOf (some grownOrder) "items" "2" = some (.mk 2 7 [])
      ∧ (∀ j ∈ jobsOf (some grownOrder) (some grownOrder),
          isNilProcessor (jobProcessor (foldFails.processors 0) j) = false)
      ∧ (∀ w : Nat, (WrapProcessor.save foldFails 1 [("items", "1")] (some (.mk 2 5 []))
          (some (.mk 2 5 [])) w).res = .val (some (.mk 2 5 []), none))
      ∧ (∀ w : Nat, (WrapProcessor.save foldFails 1 [("items", "2")] (some (.mk 2 7 []))
          (some (.mk 2 7 [])) w).res = .val (some (.mk 2 7 []), none))
      ∧ directSaveCalls [] (processor.save foldFails 0 [] (some grownOrder) (some grownOrder)
          0).trace = [("items", "1", some (.mk 2 5 []), some (.mk 2 5 []))]
      ∧ (processor.save foldFails 0 [] (some grownOrder) (some grownOrder) 0).res
          = .val (none, some ErrorInvalidState) := by
  refine ⟨by decide, by decide, fun w => rfl, fun w => rfl, by decide, by decide⟩

/-- C3, example: saving the demo order against an order whose only line item is "2", the
keys being visited in the reverse order, calls `save` on the item "1" with `(old item, nil)`
and on the item "2" with `(nil, new item)`. -/
theorem save_diff_completeness_witness :
    SaveOrder reverseJobs
      ∧ WFOpt (some demoOrder) ∧ WFOpt (some (.mk 1 0 [("items", [("2", .mk 2 7 [])])]))
      ∧ CopyKeepsTypeAndKeys demo.ops ∧ UpdateSucceedsAtExisting demo.ops
      ∧ (∀ j ∈ jobsOf (some demoOrder) (some (.mk 1 0 [("items", [("2", .mk 2 7 [])])])),
          isNilProcessor (jobProcessor (demo.processors 0) j) = false)
      ∧ (((processor.saveIn demo reverseJobs 0 [] (some demoOrder)
          (some (.mk 1 0 [("items", [("2", .mk 2 7 [])])])) (0 : Nat)).trace).filter
            Event.isFailedReturn = [])
      ∧ ("items", "1", some (Entity.mk 2 5 []), none)
          ∈ directSaveCalls [] (processor.saveIn demo reverseJobs 0 [] (some demoOrder)
              (some (.mk 1 0 [("items", [("2", .mk 2 7 [])])])) (0 : Nat)).trace
      ∧ ("items", "2", none, some (Entity.mk 2 7 []))
          ∈ directSaveCalls [] (processor.saveIn demo reverseJobs 0 [] (some demoOrder)
              (some (.mk 1 0 [("items", [("2", .mk 2 7 [])])])) (0 : Nat)).trace :=
  have hO : WFOpt (some demoOrder) := by
    simp [WFOpt, demoOrder, Entity.WF, Entity.WFTypes, Entity.WFEnts, keys]
  have hN : WFOpt (some (.mk 1 0 [("items", [("2", .mk 2 7 [])])])) := by
    simp [WFOpt, Entity.WF, Entity.WFTypes, Entity.WFEnts, keys]
  have hres : ∀ j ∈ jobsOf (some demoOrder) (some (.mk 1 0 [("items", [("2", .mk 2 7 [])])])),
      isNilProcessor (jobProcessor (demo.processors 0) j) = false := by decide
  have hfilter : ((processor.saveIn demo reverseJobs 0 [] (some demoOrder)
      (some (.mk 1 0 [("items", [("2", .mk 2 7 [])])])) (0 : Nat)).trace).filter
        Event.isFailedReturn = [] := by decide
  have hok : ∀ k v e, Event.ret ([] ++ [k]) v (some e)
      ∉ (processor.saveIn demo reverseJobs 0 [] (some demoOrder)
          (some (.mk 1 0 [("items", [("2", .mk 2 7 [])])])) (0 : Nat)).trace := by
    intro k v e h
    have h2 : Event.ret ([] ++ [k]) v (some e)
        ∈ ((processor.saveIn demo reverseJobs 0 [] (some demoOrder)
          (some (.mk 1 0 [("items", [("2", .mk 2 7 [])])])) (0 : Nat)).trace).filter
            Event.isFailedReturn := List.mem_filter.2 ⟨h, rfl⟩
    rw [hfilter] at h2
    cases h2
  have hall := ((save_diff_completeness demo reverseJobs reverseJobs_saveOrder 0 []
    (some demoOrder) (some (.mk 1 0 [("items", [("2", .mk 2 7 [])])])) 0 hO hN).2.2.2.1
    demoOps_copy_lawful demoOps_update_lawful (fun x hx => by cases hx; rfl) hres hok).2
  ⟨reverseJobs_saveOrder, hO, hN, demoOps_copy_lawful, demoOps_update_lawful, hres, hfilter,
    hall "items" "1" (Or.inl rfl), hall "items" "2" (Or.inr rfl)⟩

/-! ## Save without persistence -/

theorem descend_none (path : Path) : descend none path = none := by
  induction path with
  | nil => rfl
  | cons k rest ih =>
    obtain ⟨tk, ek⟩ := k
    unfold descend
    rw [childOf_none]
    exact ih

theorem descend_cons (o : Option Entity) (tk ek : String) (rest : Path) :
    descend o ((tk, ek) :: rest) = descend (childOf o tk ek) rest := rfl

theorem subEntitiesResolve_child (sys : System W) (o : Option Entity)
    (h : SubEntitiesResolve sys o) (tk ek : String) :
    SubEntitiesResolve sys (childOf o tk ek) := by
  intro i path x hp hx
  exact h i ((tk, ek) :: path) x (by simp) hx

theorem sameTypes_child (o n : Option Entity) (h : SameTypes o n) (tk ek : String) :
    SameTypes (childOf o tk ek) (childOf n tk ek) := by
  intro path x y hp hx hy
  exact h ((tk, ek) :: path) x y (by simp) hx hy

/-- The loop of the reconciliation when every call returns the new sub-entity it was given
and the new entity has these sub-entities: nothing changes. -/
theorem jobLoop_identity (sys : System W) (cfg : ProcessorConfig W)
    (sub : ProcessorRef → Path → Option Entity → Option Entity →
      Eng W (Option Entity × Option GoError))
    (loc : Path) (hupd : UpdateWithSameChild sys.ops) (c : Option Entity)
    (hE : ∀ c0, c = some c0 → cfg.E c0.typ = true) (jobs : List Job)
    (hcall : ∀ j ∈ jobs, isNilProcessor (jobProcessor cfg j) = false
      ∧ ∀ w, (sub (jobProcessor cfg j) (loc ++ [(j.1, j.2.1)]) j.2.2.1 j.2.2.2 w).res
          = .val (j.2.2.2, none))
    (hnew : ∀ j ∈ jobs, ∀ x, j.2.2.2 = some x → ∃ c0, c = some c0 ∧ c0.child j.1 j.2.1 = some x)
    (w : W) :
    (jobLoop sys cfg sub loc jobs c done w).res = .val (c, none) := by
  induction jobs generalizing w with
  | nil => rfl
  | cons j rest ih =>
    have hstep : jobLoop sys cfg sub loc (j :: rest) c done
        = jobStep sys cfg sub loc j c (fun c3 => jobLoop sys cfg sub loc rest c3 done) := rfl
    rw [hstep]
    have ih2 := ih (fun j2 hj2 => hcall j2 (List.mem_cons_of_mem _ hj2))
      (fun j2 hj2 => hnew j2 (List.mem_cons_of_mem _ hj2))
    obtain ⟨hnil, hres⟩ := hcall j (List.mem_cons_self _ _)
    rcases jobStep_cases sys cfg sub loc j c w with ⟨hn, _⟩ | ⟨_, hcases⟩
    · rw [hnil] at hn
      cases hn
    · rcases hcases with ⟨h1, _⟩ | ⟨h1, _⟩ | ⟨v, err, h1, _⟩ | ⟨s, h1, _, hfold⟩
        | ⟨v, h1, _, hall⟩
      · rw [hres] at h1
        cases h1
      · rw [hres] at h1
        cases h1
      · rw [hres] at h1
        cases h1
      · rw [hres] at h1
        simp only [Ctl.val.injEq, Prod.mk.injEq, and_true] at h1
        obtain ⟨c0, hc0, hch⟩ := hnew j (List.mem_cons_self _ _) s h1
        have hu := hupd c0 j.1 j.2.1 s hch
        rcases hfold with ⟨R0, _, _, hbad, _⟩ | ⟨c1, u1, hc1, hUp, _, hall⟩
        · rcases hbad with h | ⟨c1, hc1, ⟨err, h2, _⟩ | ⟨u1, h2, h3⟩⟩
          · rw [hc0] at h
            cases h
          · rw [hc0] at hc1
            cases hc1
            rw [hu] at h2
            cases h2
          · rw [hc0] at hc1
            cases hc1
            rw [hu] at h2
            have huu : c0 = u1 := Except.ok.inj h2
            subst huu
            rw [hE c0 hc0] at h3
            cases h3
        · rw [hc0] at hc1
          cases hc1
          rw [hu] at hUp
          have huu : c0 = u1 := Except.ok.inj hUp
          subst huu
          rw [hall]
          simp only []
          rw [← hc0]
          exact ih2 _
      · rw [hall]
        exact ih2 _

/-- The copy of the new entity when `Copy` is the identity. -/
theorem copyNew_identity (sys : System W) (cfg : ProcessorConfig W)
    (hcopy : CopyIsIdentity sys.ops) (N : Option Entity)
    (hE : ∀ x, N = some x → cfg.E x.typ = true) (w : W) :
    copyNew sys cfg N w = ⟨.val N, w, []⟩ := by
  unfold copyNew
  cases N with
  | none => rfl
  | some x =>
    simp only [run_assertType_bind, hcopy x, hE x rfl, if_true]
    rfl

/-- The call of `save` on the processor resolved for a sub-entity, on pointers that this
processor accepts, returns the new pointer when the `save` of that processor does. -/
theorem ref_save_identity (sys : System W)
    (self : Nat → Path → Option Entity → Option Entity →
      Eng W (Option Entity × Option GoError))
    (jj : Nat) (loc : Path) (o n : Option Entity) (w : W)
    (ho : ∀ e, o = some e → (sys.processors jj).E e.typ = true)
    (hn : ∀ e, n = some e → (sys.processors jj).E e.typ = true)
    (h : (self jj loc o n w).res = .val (n, none)) :
    (ProcessorRef.save sys self (.wrapper jj) loc o n w).res = .val (n, none) := by
  unfold ProcessorRef.save
  rw [traced_res]
  simp only []
  rw [wrapper_save_of_val _ _ loc o n w ho hn (n, none) h]

/-- Without repositories, on lawful entities whose sub-entities resolve to the processors of
their types and have the same types in the old and in the new tree, `save` returns the new
pointer without error. -/
theorem save_identity (sys : System W) (hrepo : NoRepository sys)
    (hcopy : CopyIsIdentity sys.ops) (hupd : UpdateWithSameChild sys.ops) :
    ∀ (n : Nat) (O N : Option Entity), depthOf O ≤ n → depthOf N ≤ n → WFOpt O → WFOpt N →
      SubEntitiesResolve sys O → SubEntitiesResolve sys N → SameTypes O N →
      ∀ (id : Nat) (loc : Path) (w : W),
        (∀ x, N = some x → (sys.processors id).E x.typ = true) →
        (processor.save sys id loc O N w).res = .val (N, none) := by
  intro n
  induction n with
  | zero =>
    intro O N hdO hdN _ _ _ _ _ id loc w _
    have hO : O = none := by
      cases O with
      | none => rfl
      | some x =>
        have := depthOf_pos (some x) rfl
        omega
    have hN : N = none := by
      cases N with
      | none => rfl
      | some x =>
        have := depthOf_pos (some x) rfl
        omega
    subst hO
    subst hN
    rw [processor.save_eq, saveBody_both_nil]
  | succ n ih =>
    intro O N hdO hdN hO hN hrO hrN hst id loc w hE
    by_cases hb : O = none ∧ N = none
    · obtain ⟨h1, h2⟩ := hb
      subst h1
      subst h2
      rw [processor.save_eq, saveBody_both_nil]
    · have hon : O.isSome = true ∨ N.isSome = true := by
        cases O with
        | some x => exact Or.inl rfl
        | none =>
          cases N with
          | some x => exact Or.inr rfl
          | none => exact absurd ⟨rfl, rfl⟩ hb
      have hspec := (jobsOf_spec O N hO hN).1
      have hrec : (reconcilePhase sys (sys.processors id)
          (ProcessorRef.save sys (processor.save sys)) loc O N w).res = .val (N, none) := by
        rw [reconcilePhase_eq, bind_of_val (by rw [copyNew_identity sys _ hcopy N hE w]),
          copyNew_identity sys _ hcopy N hE w]
        simp only []
        refine jobLoop_identity sys (sys.processors id) _ loc hupd N hE (jobsOf O N) ?_ ?_ w
        · intro j hj
          obtain ⟨e1, e2, hsome⟩ := hspec j hj
          have hchild : ∀ jj w2, (∀ e, j.2.2.2 = some e → (sys.processors jj).E e.typ = true) →
              (processor.save sys jj (loc ++ [(j.1, j.2.1)]) j.2.2.1 j.2.2.2 w2).res
                = .val (j.2.2.2, none) := by
            intro jj w2 hn2
            exact ih j.2.2.1 j.2.2.2
              (by rw [e1]; exact depthOf_childOf O _ _ n hdO)
              (by rw [e2]; exact depthOf_childOf N _ _ n hdN)
              (by rw [e1]; exact WFOpt_childOf O hO _ _)
              (by rw [e2]; exact WFOpt_childOf N hN _ _)
              (by rw [e1]; exact subEntitiesResolve_child sys O hrO _ _)
              (by rw [e2]; exact subEntitiesResolve_child sys N hrN _ _)
              (by rw [e1, e2]; exact sameTypes_child O N hst _ _)
              jj (loc ++ [(j.1, j.2.1)]) w2 hn2
          cases hold : j.2.2.1 with
          | some xo =>
            obtain ⟨jj, hres, hEo⟩ := hrO id [(j.1, j.2.1)] xo (by simp)
              (by rw [← hold, e1]; rfl)
            have hproc : jobProcessor (sys.processors id) j = .wrapper jj := by
              unfold jobProcessor
              rw [hold]
              exact hres
            have hn2 : ∀ e, j.2.2.2 = some e → (sys.processors jj).E e.typ = true := by
              intro e he
              have := hst [(j.1, j.2.1)] xo e (by simp) (by rw [← hold, e1]; rfl)
                (by rw [← he, e2]; rfl)
              rw [← this]
              exact hEo
            rw [hproc]
            refine ⟨rfl, fun w2 => ?_⟩
            rw [← hold]
            refine ref_save_identity sys _ jj _ _ _ w2 ?_ hn2 (hchild jj w2 hn2)
            intro e he
            rw [hold] at he
            cases he
            exact hEo
          | none =>
            rw [hold] at hsome
            rcases hsome with h | h
            · cases h
            · obtain ⟨xn, hxn⟩ := Option.isSome_iff_exists.1 h
              obtain ⟨jj, hres, hEn⟩ := hrN id [(j.1, j.2.1)] xn (by simp)
                (by rw [← hxn, e2]; rfl)
              have hproc : jobProcessor (sys.processors id) j = .wrapper jj := by
                unfold jobProcessor
                rw [hold, hxn]
                exact hres
              have hn2 : ∀ e, j.2.2.2 = some e → (sys.processors jj).E e.typ = true := by
                intro e he
                rw [hxn] at he
                cases he
                exact hEn
              rw [hproc]
              refine ⟨rfl, fun w2 => ?_⟩
              rw [← hold]
              refine ref_save_identity sys _ jj _ _ _ w2 ?_ hn2 (hchild jj w2 hn2)
              intro e he
              rw [hold] at he
              cases he
        · intro j hj x hx
          obtain ⟨_, e2, _⟩ := hspec j hj
          rw [e2] at hx
          cases N with
          | none =>
            rw [childOf_none] at hx
            cases hx
          | some c0 => exact ⟨c0, rfl, hx⟩
      rw [processor.save_eq, saveBody_of_reconcile sys (sys.processors id)
        (ProcessorRef.save sys (processor.save sys)) loc O N w N hon hrec]
      rcases persistPhase_run (sys.processors id) loc O N N
        (reconcilePhase sys (sys.processors id)
          (ProcessorRef.save sys (processor.save sys)) loc O N w).world with
        ⟨repository, hr, _⟩ | ⟨_, hrun⟩
      · rw [hrepo id] at hr
        cases hr
      · simp only []
        rw [hrun]
        cases N <;> rfl

/-- When the wrapper's `save` returns without error, so does the wrapped `save`, with the
same pointer. -/
theorem wrapper_save_success (E : Nat → Bool)
    (f : Path → Option Entity → Option Entity → Eng W (Option Entity × Option GoError))
    (loc : Path) (o n : Option Entity) (w : W) (v : Option Entity)
    (h : (genericProcessorWrapper.save E f loc o n w).res = .val (v, none)) :
    (f loc o n w).res = .val (v, none) := by
  unfold genericProcessorWrapper.save at h
  rcases narrowPtr_cases E o with h1 | h1
  · rw [h1] at h
    cases h
  · rcases narrowPtr_cases E n with h2 | h2
    · rw [h1, h2] at h
      cases h
    · rw [h1, h2] at h
      simp only [] at h
      rcases hr : (f loc o n w).res with r | _ | _
      · rw [bind_of_val hr] at h
        obtain ⟨s, err⟩ := r
        cases err with
        | some err => cases h
        | none =>
          cases s with
          | none =>
            simp only [run_pure, Ctl.val.injEq, Prod.mk.injEq, and_true] at h
            rw [← h]
          | some x =>
            simp only [run_pure, Ctl.val.injEq, Prod.mk.injEq, and_true] at h
            rw [← h]
      · rw [bind_of_panic hr] at h
        cases h
      · rw [bind_of_outOfFuel hr] at h
        cases h

theorem ref_save_success (sys : System W)
    (self : Nat → Path → Option Entity → Option Entity →
      Eng W (Option Entity × Option GoError))
    (ref : ProcessorRef) (loc : Path) (o n : Option Entity) (w : W) (v : Option Entity)
    (h : (ProcessorRef.save sys self ref loc o n w).res = .val (v, none)) :
    ∃ jj, (self jj loc o n w).res = .val (v, none) := by
  unfold ProcessorRef.save at h
  rw [traced_res] at h
  cases ref with
  | wrapper jj => exact ⟨jj, wrapper_save_success _ _ loc o n w v h⟩
  | nilInterface => cases h
  | nilPointer => cases h

/-- The loop of the reconciliation, when it succeeds with calls that return the new
sub-entity they were given, leaves the new entity as it was. -/
theorem jobLoop_unchanged (sys : System W) (cfg : ProcessorConfig W)
    (sub : ProcessorRef → Path → Option Entity → Option Entity →
      Eng W (Option Entity × Option GoError))
    (loc : Path) (hupd : UpdateWithSameChild sys.ops) (c : Option Entity) (jobs : List Job)
    (hcall : ∀ j ∈ jobs, ∀ w v,
      (sub (jobProcessor cfg j) (loc ++ [(j.1, j.2.1)]) j.2.2.1 j.2.2.2 w).res = .val (v, none) →
      v = j.2.2.2)
    (hnew : ∀ j ∈ jobs, ∀ x, j.2.2.2 = some x → ∃ c0, c = some c0 ∧ c0.child j.1 j.2.1 = some x)
    (w : W) (c2 : Option Entity)
    (h : (jobLoop sys cfg sub loc jobs c done w).res = .val (c2, none)) : c2 = c := by
  induction jobs generalizing w with
  | nil =>
    simp only [jobLoop, done, pure_res, Ctl.val.injEq, Prod.mk.injEq, and_true] at h
    exact h.symm
  | cons j rest ih =>
    have hstep : jobLoop sys cfg sub loc (j :: rest) c done
        = jobStep sys cfg sub loc j c (fun c3 => jobLoop sys cfg sub loc rest c3 done) := rfl
    rw [hstep] at h
    have ih2 := ih (fun j2 hj2 => hcall j2 (List.mem_cons_of_mem _ hj2))
      (fun j2 hj2 => hnew j2 (List.mem_cons_of_mem _ hj2))
    rcases jobStep_cases sys cfg sub loc j c w with ⟨_, hall⟩ | ⟨_, hcases⟩
    · rw [hall] at h
      cases h
    · rcases hcases with ⟨_, hall⟩ | ⟨_, hall⟩ | ⟨v, err, _, hall⟩ | ⟨s, h1, _, hfold⟩
        | ⟨v, h1, _, hall⟩
      · rw [hall] at h
        cases h
      · rw [hall] at h
        cases h
      · rw [hall] at h
        cases h
      · rcases hfold with ⟨R0, hne, _, _, hall⟩ | ⟨c1, u1, hc1, hUp, _, hall⟩
        · rw [hall] at h
          exact absurd h (hne c2)
        · have hs := hcall j (List.mem_cons_self _ _) w (some s) h1
          obtain ⟨c0, hc0, hch⟩ := hnew j (List.mem_cons_self _ _) s hs.symm
          rw [hc0] at hc1
          have h01 : c0 = c1 := Option.some.inj hc1
          subst h01
          rw [hupd c0 j.1 j.2.1 s hch] at hUp
          have huu : c0 = u1 := Except.ok.inj hUp
          subst huu
          rw [hall] at h
          simp only [] at h
          rw [← hc0] at h
          exact ih2 _ h
      · rw [hall] at h
        exact ih2 _ h

/-- Without repositories and on lawful entities, a `save` that returns no error returns the
new pointer. -/
theorem save_success_identity (sys : System W) (hrepo : NoRepository sys)
    (hcopy : CopyIsIdentity sys.ops) (hupd : UpdateWithSameChild sys.ops) :
    ∀ (n : Nat) (O N : Option Entity), depthOf O ≤ n → depthOf N ≤ n → WFOpt O → WFOpt N →
      ∀ (id : Nat) (loc : Path) (w : W) (v : Option Entity),
        (processor.save sys id loc O N w).res = .val (v, none) → v = N := by
  intro n
  induction n with
  | zero =>
    intro O N hdO hdN _ _ id loc w v h
    have hO : O = none := by
      cases O with
      | none => rfl
      | some x =>
        have := depthOf_pos (some x) rfl
        omega
    have hN : N = none := by
      cases N with
      | none => rfl
      | some x =>
        have := depthOf_pos (some x) rfl
        omega
    subst hO
    subst hN
    rw [processor.save_eq, saveBody_both_nil] at h
    simp only [Ctl.val.injEq, Prod.mk.injEq, and_true] at h
    exact h.symm
  | succ n ih =>
    intro O N hdO hdN hO hN id loc w v h
    by_cases hb : O = none ∧ N = none
    · obtain ⟨h1, h2⟩ := hb
      subst h1
      subst h2
      rw [processor.save_eq, saveBody_both_nil] at h
      simp only [Ctl.val.injEq, Prod.mk.injEq, and_true] at h
      exact h.symm
    · have hon : O.isSome = true ∨ N.isSome = true := by
        cases O with
        | some x => exact Or.inl rfl
        | none =>
          cases N with
          | some x => exact Or.inr rfl
          | none => exact absurd ⟨rfl, rfl⟩ hb
      have hspec := (jobsOf_spec O N hO hN).1
      rw [processor.save_eq] at h
      by_cases hrec : ∃ c, (reconcilePhase sys (sys.processors id)
          (ProcessorRef.save sys (processor.save sys)) loc O N w).res = .val (c, none)
      · obtain ⟨c, hc⟩ := hrec
        have hcN : N.isSome = true → c = N := by
          intro hNs
          rcases reconcilePhase_run sys (sys.processors id)
            (ProcessorRef.save sys (processor.save sys)) loc O N w with hp | ⟨c0, _, hc0, hrun⟩
          · rw [hp] at hc
            cases hc
          · obtain ⟨x, hx⟩ := Option.isSome_iff_exists.1 hNs
            have hc0N : c0 = N := by
              rw [hc0 x hx, hcopy x, hx]
            rw [hrun, hc0N] at hc
            refine jobLoop_unchanged sys (sys.processors id) _ loc hupd N (jobsOf O N) ?_ ?_
              w c hc
            · intro j hj w2 v2 hv2
              obtain ⟨e1, e2, _⟩ := hspec j hj
              obtain ⟨jj, hjj⟩ := ref_save_success sys _ _ _ _ _ w2 v2 hv2
              exact ih j.2.2.1 j.2.2.2
                (by rw [e1]; exact depthOf_childOf O _ _ n hdO)
                (by rw [e2]; exact depthOf_childOf N _ _ n hdN)
                (by rw [e1]; exact WFOpt_childOf O hO _ _)
                (by rw [e2]; exact WFOpt_childOf N hN _ _)
                jj (loc ++ [(j.1, j.2.1)]) w2 v2 hjj
            · intro j hj y hy
              obtain ⟨_, e2, _⟩ := hspec j hj
              rw [e2, hx] at hy
              exact ⟨x, hx, hy⟩
        rw [saveBody_of_reconcile sys (sys.processors id)
          (ProcessorRef.save sys (processor.save sys)) loc O N w c hon hc] at h
        rcases persistPhase_run (sys.processors id) loc O N c
          (reconcilePhase sys (sys.processors id)
            (ProcessorRef.save sys (processor.save sys)) loc O N w).world with
          ⟨repository, hr, _⟩ | ⟨_, hrun⟩
        · rw [hrepo id] at hr
          cases hr
        · simp only [] at h
          rw [hrun] at h
          simp only [Ctl.val.injEq, Prod.mk.injEq, and_true] at h
          cases N with
          | none => exact h.symm
          | some x =>
            rw [← hcN rfl]
            exact h.symm
      · obtain ⟨_, _, hne, _⟩ := saveBody_of_reconcile_failed sys (sys.processors id)
          (ProcessorRef.save sys (processor.save sys)) loc O N w hon
          (fun c hc => hrec ⟨c, hc⟩)
        exact absurd h (hne v)

/-- C11 (save without persistence), amended.  Let no processor have a Repository, let `Copy`
return an entity equal to its receiver and let `UpdateSubEntity` with a child equal to the
one in place return an entity equal to its receiver.  (1) If every sub-entity of the old
and of the new tree resolves to a wrapped processor of its concrete type, and the
sub-entities that the two trees have at the same path have the same concrete type, then
`save(O, N)`, for `N` nil or of the type of the processor, returns `N` without error: the
entity `N` itself if there is one, and `(nil, nil)` for `save(O, nil)`.  (2) Without the
hypotheses on the resolution and on the types, a `save` that returns no error returns `N`.
(3) Consequently a Process that returns no error returns the entity produced by act. -/
theorem save_without_persistence (sys : System W) (hrepo : NoRepository sys)
    (hcopy : CopyIsIdentity sys.ops) (hupd : UpdateWithSameChild sys.ops) (id : Nat)
    (loc : Path) (w : W) :
    (∀ (O N : Option Entity), WFOpt O → WFOpt N → SubEntitiesResolve sys O →
        SubEntitiesResolve sys N → SameTypes O N →
        (∀ x, N = some x → (sys.processors id).E x.typ = true) →
        (processor.save sys id loc O N w).res = .val (N, none))
      ∧ (∀ (O N v : Option Entity), WFOpt O → WFOpt N →
          (processor.save sys id loc O N w).res = .val (v, none) → v = N)
      ∧ (∀ (entity : Entity) (a : Action) (p : ActionParams) (s c r : Entity),
          entity.WF → c.WF →
          (processor.syncAndValidate sys id loc entity a p w).res = .val (s, none) →
          (processor.act sys id loc s a p
            (processor.syncAndValidate sys id loc entity a p w).world).res = .val (c, none) →
          (processor.Process sys id loc entity a p w).res = .val (r, none) → r = c) := by
  refine ⟨fun O N hO hN hrO hrN hst hE =>
      save_identity sys hrepo hcopy hupd (max (depthOf O) (depthOf N)) O N (le_max_left _ _)
        (le_max_right _ _) hO hN hrO hrN hst id loc w hE,
    fun O N v hO hN h =>
      save_success_identity sys hrepo hcopy hupd (max (depthOf O) (depthOf N)) O N
        (le_max_left _ _) (le_max_right _ _) hO hN id loc w v h, ?_⟩
  intro entity a p s c r hWF hcWF hsv hact hproc
  unfold processor.Process at hproc
  rw [run_emit_bind, bind_of_val hsv] at hproc
  simp only [] at hproc
  rw [bind_of_val hact] at hproc
  simp only [] at hproc
  rcases hs : (processor.save sys id loc (some entity) (some c)
      (processor.act sys id loc s a p
        (processor.syncAndValidate sys id loc entity a p w).world).world).res with
    ⟨v, oe⟩ | _ | _
  · rw [bind_of_val hs] at hproc
    cases oe with
    | some err => cases hproc
    | none =>
      have hv := save_success_identity sys hrepo hcopy hupd
        (max (depthOf (some entity)) (depthOf (some c))) (some entity) (some c)
        (le_max_left _ _) (le_max_right _ _) hWF hcWF id loc _ v hs
      subst hv
      simp only [run_pure, Ctl.val.injEq, Prod.mk.injEq, and_true] at hproc
      exact hproc.symm
  · rw [bind_of_panic hs] at hproc
    cases hproc
  · rw [bind_of_outOfFuel hs] at hproc
    cases hproc

/-! ### The hypotheses on the example application -/

theorem replaceTyped_same (entityKey : String) (x : Entity) (m : List (String × Entity))
    (h : m.lookup entityKey = some x) : replaceTyped entityKey x m = some m := by
  induction m with
  | nil => simp at h
  | cons kx rest ih =>
    obtain ⟨k, e⟩ := kx
    unfold replaceTyped
    by_cases hk : k = entityKey
    · subst hk
      simp only [List.lookup_cons, beq_self_eq_true, Option.some.injEq] at h
      subst h
      simp
    · have hk2 : (entityKey == k) = false := by
        simp only [beq_eq_false_iff_ne, ne_eq]
        exact fun h2 => hk h2.symm
      rw [List.lookup_cons, hk2] at h
      simp only [hk, if_false, ih h, Option.map_some']

theorem replaceSub_same (typeKey entityKey : String) (x : Entity)
    (m : List (String × List (String × Entity)))
    (h : lookup2 m typeKey entityKey = some x) : replaceSub typeKey entityKey x m = some m := by
  induction m with
  | nil => simp [lookup2] at h
  | cons tm rest ih =>
    obtain ⟨t, m0⟩ := tm
    unfold replaceSub
    by_cases ht : t = typeKey
    · subst ht
      have h2 : m0.lookup entityKey = some x := by
        simpa [lookup2, List.lookup_cons] using h
      simp only [if_true, replaceTyped_same entityKey x m0 h2, Option.map_some']
    · have ht2 : (typeKey == t) = false := by
        simp only [beq_eq_false_iff_ne, ne_eq]
        exact fun h2 => ht h2.symm
      unfold lookup2 at h ih
      rw [List.lookup_cons, ht2] at h
      simp only [ht, if_false, ih h, Option.map_some']

theorem demoOps_copy_identity : CopyIsIdentity demoOps := fun _ => rfl

theorem demoOps_update_same : UpdateWithSameChild demoOps := by
  intro e typeKey entityKey x h
  simp only [demoOps, replaceSub_same typeKey entityKey x e.SubEntities h]
  cases e
  rfl

/-- The sub-entities of a tree resolve when the direct ones do and those below them do. -/
theorem subEntitiesResolve_of_entries (sys : System W) (e : Entity)
    (h : ∀ y ∈ entries e.SubEntities,
      (∀ i, ∃ j, (sys.processors i).GetProcessorFunc (some y.2.2) = .wrapper j
        ∧ (sys.processors j).E y.2.2.typ = true) ∧ SubEntitiesResolve sys (some y.2.2)) :
    SubEntitiesResolve sys (some e) := by
  intro i path x hp hx
  cases path with
  | nil => exact absurd rfl hp
  | cons k rest =>
    obtain ⟨tk, ek⟩ := k
    rw [descend_cons] at hx
    cases hc : childOf (some e) tk ek with
    | none =>
      rw [hc, descend_none] at hx
      cases hx
    | some c =>
      rw [hc] at hx
      obtain ⟨h1, h2⟩ := h (tk, ek, c) (mem_entries.2 (lookup2_mem _ tk ek c hc))
      cases rest with
      | nil =>
        have hcx : c = x := Option.some.inj hx
        subst hcx
        exact h1 i
      | cons k2 rest2 => exact h2 i (k2 :: rest2) x (by simp) hx

/-- The sub-entities at the same paths of two trees have the same types when the direct ones
have and those below them have. -/
theorem sameTypes_of_entries (e f : Entity)
    (h : ∀ a ∈ entries e.SubEntities, ∀ b ∈ entries f.SubEntities, a.1 = b.1 → a.2.1 = b.2.1 →
      a.2.2.typ = b.2.2.typ ∧ SameTypes (some a.2.2) (some b.2.2)) :
    SameTypes (some e) (some f) := by
  intro path x y hp hx hy
  cases path with
  | nil => exact absurd rfl hp
  | cons k rest =>
    obtain ⟨tk, ek⟩ := k
    rw [descend_cons] at hx hy
    cases hc : childOf (some e) tk ek with
    | none =>
      rw [hc, descend_none] at hx
      cases hx
    | some c =>
      cases hd : childOf (some f) tk ek with
      | none =>
        rw [hd, descend_none] at hy
        cases hy
      | some d =>
        rw [hc] at hx
        rw [hd] at hy
        obtain ⟨h1, h2⟩ := h (tk, ek, c) (mem_entries.2 (lookup2_mem _ tk ek c hc))
          (tk, ek, d) (mem_entries.2 (lookup2_mem _ tk ek d hd)) rfl rfl
        cases rest with
        | nil =>
          have hcx : c = x := Option.some.inj hx
          have hdy : d = y := Option.some.inj hy
          subst hcx
          subst hdy
          exact h1
        | cons k2 rest2 => exact h2 (k2 :: rest2) x y (by simp) hx hy

theorem noRepository_resolves_leaf (t f : Nat) :
    SubEntitiesResolve noRepository (some (.mk t f [])) :=
  subEntitiesResolve_of_entries noRepository _ (fun y hy => by
    simp [entries, Entity.SubEntities] at hy)

theorem noRepository_resolves_demoOrder : SubEntitiesResolve noRepository (some demoOrder) :=
  subEntitiesResolve_of_entries noRepository _ (fun y hy => by
    have hy2 : y = ("items", "1", .mk 2 5 []) := by
      simpa [demoOrder, entries, Entity.SubEntities] using hy
    subst hy2
    exact ⟨fun i => ⟨1, rfl, rfl⟩, noRepository_resolves_leaf 2 5⟩)

theorem noRepository_resolves_approvedOrder :
    SubEntitiesResolve noRepository (some approvedOrder) :=
  subEntitiesResolve_of_entries noRepository _ (fun y hy => by
    have hy2 : y = ("items", "1", .mk 2 15 []) := by
      simpa [approvedOrder, entries, Entity.SubEntities] using hy
    subst hy2
    exact ⟨fun i => ⟨1, rfl, rfl⟩, noRepository_resolves_leaf 2 15⟩)

theorem noRepository_resolves_retypedOrder :
    SubEntitiesResolve noRepository (some retypedOrder) :=
  subEntitiesResolve_of_entries noRepository _ (fun y hy => by
    have hy2 : y = ("items", "1", .mk 1 0 []) := by
      simpa [retypedOrder, entries, Entity.SubEntities] using hy
    subst hy2
    exact ⟨fun i => ⟨0, rfl, rfl⟩, noRepository_resolves_leaf 1 0⟩)

theorem sameTypes_demo_approved : SameTypes (some demoOrder) (some approvedOrder) :=
  sameTypes_of_entries _ _ (fun a ha b hb _ _ => by
    have ha2 : a = ("items", "1", .mk 2 5 []) := by
      simpa [demoOrder, entries, Entity.SubEntities] using ha
    have hb2 : b = ("items", "1", .mk 2 15 []) := by
      simpa [approvedOrder, entries, Entity.SubEntities] using hb
    subst ha2
    subst hb2
    exact ⟨rfl, sameTypes_of_entries _ _ (fun a2 ha3 => by
      simp [entries, Entity.SubEntities] at ha3)⟩)

/-- C11, counterexample: no processor has a Repository, the entity methods are lawful, and
the sub-entity of the old order (a line item) and the sub-entity of the new order (of the
concrete type of the orders) each resolve to the wrapped processor of their type; the `save`
of the order calls the processor of the old line item on the two sub-entities, which rejects
the new one, and `save` returns ErrorInvalidEntityType and no entity. -/
theorem save_without_persistence_counterexample :
    NoRepository noRepository ∧ CopyIsIdentity noRepository.ops
      ∧ UpdateWithSameChild noRepository.ops
      ∧ WFOpt (some demoOrder) ∧ WFOpt (some retypedOrder)
      ∧ SubEntitiesResolve noRepository (some demoOrder)
      ∧ SubEntitiesResolve noRepository (some retypedOrder)
      ∧ (noRepository.processors 0).E retypedOrder.typ = true
      ∧ (processor.save noRepository 0 [] (some demoOrder) (some retypedOrder) (0 : Nat)).res
          = .val (none, some ErrorInvalidEntityType) :=
  ⟨fun _ => rfl, demoOps_copy_identity, demoOps_update_same,
    by simp [WFOpt, demoOrder, Entity.WF, Entity.WFTypes, Entity.WFEnts, keys],
    by simp [WFOpt, retypedOrder, Entity.WF, Entity.WFTypes, Entity.WFEnts, keys],
    noRepository_resolves_demoOrder, noRepository_resolves_retypedOrder, by decide, by decide⟩

/-- C11, example: without repositories, saving the approved demo order against the demo
order returns the approved order. -/
theorem save_without_persistence_witness :
    NoRepository noRepository ∧ CopyIsIdentity noRepository.ops
      ∧ UpdateWithSameChild noRepository.ops
      ∧ WFOpt (some demoOrder) ∧ WFOpt (some approvedOrder)
      ∧ SubEntitiesResolve noRepository (some demoOrder)
      ∧ SubEntitiesResolve noRepository (some approvedOrder)
      ∧ SameTypes (some demoOrder) (some approvedOrder)
      ∧ (processor.save noRepository 0 [] (some demoOrder) (some approvedOrder) (0 : Nat)).res
          = .val (some approvedOrder, none) :=
  have hO : WFOpt (some demoOrder) := by
    simp [WFOpt, demoOrder, Entity.WF, Entity.WFTypes, Entity.WFEnts, keys]
  have hN : WFOpt (some approvedOrder) := by
    simp [WFOpt, approvedOrder, Entity.WF, Entity.WFTypes, Entity.WFEnts, keys]
  ⟨fun _ => rfl, demoOps_copy_identity, demoOps_update_same, hO, hN,
    noRepository_resolves_demoOrder, noRepository_resolves_approvedOrder,
    sameTypes_demo_approved,
    (save_without_persistence noRepository (fun _ => rfl) demoOps_copy_identity
      demoOps_update_same 0 [] 0).1 (some demoOrder) (some approvedOrder) hO hN
      noRepository_resolves_demoOrder noRepository_resolves_approvedOrder
      sameTypes_demo_approved (fun x hx => by
        cases hx
        rfl)⟩

/-! ## The visiting order of the sub-entities -/

/-- The selections do not look at the world. -/
theorem getSyncerForEntityFrom_res (loc : Path) (e : Entity) (l : List (Syncer W)) (i : Nat)
    (w w2 : W) :
    (getSyncerForEntityFrom loc e i l w).res = (getSyncerForEntityFrom loc e i l w2).res := by
  induction l generalizing i with
  | nil => rfl
  | cons s rest ih =>
    unfold getSyncerForEntityFrom
    rw [run_emit_bind, run_emit_bind]
    split
    · rfl
    · exact ih (i + 1)

theorem getStateMachineForEntityFrom_res (loc : Path) (e : Entity) (l : List (StateMachina W))
    (i : Nat) (w w2 : W) :
    (getStateMachineForEntityFrom loc e i l w).res
      = (getStateMachineForEntityFrom loc e i l w2).res := by
  induction l generalizing i with
  | nil => rfl
  | cons s rest ih =>
    unfold getStateMachineForEntityFrom
    rw [run_emit_bind, run_emit_bind]
    split
    · rfl
    · exact ih (i + 1)

theorem getSyncerForEntityAndActionFrom_res (loc : Path) (e : Entity) (a : Action)
    (l : List (Syncer W)) (i : Nat) (w w2 : W) :
    (getSyncerForEntityAndActionFrom loc e a i l w).res
      = (getSyncerForEntityAndActionFrom loc e a i l w2).res := by
  induction l generalizing i with
  | nil => rfl
  | cons s rest ih =>
    unfold getSyncerForEntityAndActionFrom
    rw [run_emit_bind, run_emit_bind]
    split
    · rw [run_emit_bind, run_emit_bind]
      split
      · rfl
      · exact ih (i + 1)
    · exact ih (i + 1)

/-- The syncer that the selection for an action returns is one of the candidates. -/
theorem getSyncerForEntityAndActionFrom_mem (loc : Path) (e : Entity) (a : Action)
    (l : List (Syncer W)) (i : Nat) (w : W) (j : Nat) (s : Syncer W)
    (h : (getSyncerForEntityAndActionFrom loc e a i l w).res = .val (some (j, s))) : s ∈ l := by
  induction l generalizing i with
  | nil => cases h
  | cons x rest ih =>
    unfold getSyncerForEntityAndActionFrom at h
    rw [run_emit_bind] at h
    by_cases hc : x.CanProcess e = true
    · simp only [hc, if_true, run_emit_bind] at h
      by_cases hh : x.HasAction a = true
      · simp only [hh, if_true, run_pure, Ctl.val.injEq, Option.some.injEq, Prod.mk.injEq] at h
        rw [← h.2]
        exact List.mem_cons_self _ _
      · simp only [hh, if_false] at h
        exact List.mem_cons_of_mem _ (ih (i + 1) h)
    · simp only [hc, if_false] at h
      exact List.mem_cons_of_mem _ (ih (i + 1) h)

/-- With deterministic collaborators the sync returns the same in every world. -/
theorem syncPhase_det (cfg : ProcessorConfig W) (hdet : DeterministicConfig cfg) (loc : Path)
    (e c : Entity) (a : Action) (w w2 : W) :
    (syncPhase cfg loc e c a w).res = (syncPhase cfg loc e c a w2).res := by
  have hsel := getSyncerForEntityFrom_res loc c cfg.Syncers 0 w w2
  rcases getSyncerForEntityFrom_spec loc c cfg.Syncers 0 w with ⟨k, s, h1, h2, _, _⟩ | ⟨h1, _⟩
  · rw [Nat.zero_add] at h1
    have h1b : (getSyncerForEntity cfg loc c w2).res = .val (some (k, s)) := by
      unfold getSyncerForEntity
      rw [← hsel]
      exact h1
    by_cases hn : s.NeedSync e a = true
    · rw [syncPhase_of_need cfg loc e c a w k s h1 hn,
        syncPhase_of_need cfg loc e c a w2 k s h1b hn]
      simp only []
      rw [(hdet.2 s (List.getElem?_mem h2)).1 c w w2]
    · have hn2 : s.NeedSync e a = false := by simpa using hn
      rw [syncPhase_of_no_need cfg loc e c a w k s h1 hn2,
        syncPhase_of_no_need cfg loc e c a w2 k s h1b hn2]
  · have h1b : (getSyncerForEntity cfg loc c w2).res = .val none := by
      unfold getSyncerForEntity
      rw [← hsel]
      exact h1
    rw [syncPhase_of_none cfg loc e c a w h1, syncPhase_of_none cfg loc e c a w2 h1b]

/-- With deterministic collaborators the validation returns the same in every world. -/
theorem validatePhase_det (cfg : ProcessorConfig W) (hdet : DeterministicConfig cfg)
    (loc : Path) (e c : Entity) (a : Action) (p : ActionParams) (w w2 : W) :
    (validatePhase cfg loc e c a p w).res = (validatePhase cfg loc e c a p w2).res := by
  have hsel := getStateMachineForEntityFrom_res loc e cfg.StateMachines 0 w w2
  rcases getStateMachineForEntityFrom_spec loc e cfg.StateMachines 0 w with
    ⟨k, sm, h1, h2, _, _⟩ | ⟨h1, _⟩
  · rw [Nat.zero_add] at h1
    have h1b : (getStateMachineForEntity cfg loc e w2).res = .val (some (k, sm), none) := by
      unfold getStateMachineForEntity
      rw [← hsel]
      exact h1
    rw [validatePhase_of_first cfg loc e c a p w k sm h1,
      validatePhase_of_first cfg loc e c a p w2 k sm h1b]
    simp only []
    rw [(hdet.1 sm (List.getElem?_mem h2)).1 c a p w w2]
  · have h1b : (getStateMachineForEntity cfg loc e w2).res
        = .val (none, some ErrorUnprocessableEntity) := by
      unfold getStateMachineForEntity
      rw [← hsel]
      exact h1
    rw [validatePhase_of_none cfg loc e c a p w h1, validatePhase_of_none cfg loc e c a p w2 h1b]

/-- With deterministic collaborators the part of `syncAndValidate` after the sub-entities
returns the same in every world. -/
theorem ownSyncAndValidate_det (cfg : ProcessorConfig W) (hdet : DeterministicConfig cfg)
    (loc : Path) (e c : Entity) (a : Action) (p : ActionParams) (w w2 : W) :
    (ownSyncAndValidate cfg loc e c a p w).res = (ownSyncAndValidate cfg loc e c a p w2).res := by
  have hs := syncPhase_det cfg hdet loc e c a w w2
  obtain ⟨r, hr, _⟩ := syncPhase_source cfg loc e c a w
  have hr2 : (syncPhase cfg loc e c a w2).res = .val r := by
    rw [← hs]
    exact hr
  unfold ownSyncAndValidate
  rw [bind_of_val hr, bind_of_val hr2]
  obtain ⟨s, oe⟩ := r
  cases oe with
  | some err => rfl
  | none => exact validatePhase_det cfg hdet loc e s a p _ _

/-- With deterministic collaborators the part of `act` after the sub-entities returns the
same in every world. -/
theorem transitionPhase_det (cfg : ProcessorConfig W) (hdet : DeterministicConfig cfg)
    (loc : Path) (c : Entity) (a : Action) (p : ActionParams) (w w2 : W) :
    (transitionPhase cfg loc c a p w).res = (transitionPhase cfg loc c a p w2).res := by
  have hsel := getStateMachineForEntityFrom_res loc c cfg.StateMachines 0 w w2
  rcases getStateMachineForEntityFrom_spec loc c cfg.StateMachines 0 w with
    ⟨k, sm, h1, h2, _, _⟩ | ⟨h1, _⟩
  · rw [Nat.zero_add] at h1
    have h1b : (getStateMachineForEntity cfg loc c w2).res = .val (some (k, sm), none) := by
      unfold getStateMachineForEntity
      rw [← hsel]
      exact h1
    have hsm := hdet.1 sm (List.getElem?_mem h2)
    have hsel2 := getSyncerForEntityAndActionFrom_res loc c a cfg.Syncers 0 w w2
    obtain ⟨r, hr⟩ := getSyncerForEntityAndActionFrom_val loc c a cfg.Syncers 0 w
    have hrb : (getSyncerForEntityAndAction cfg loc c a w2).res = .val r := by
      unfold getSyncerForEntityAndAction
      rw [← hsel2]
      exact hr
    cases r with
    | none =>
      rw [transitionPhase_without_syncer cfg loc c a p w k sm h1 hr,
        transitionPhase_without_syncer cfg loc c a p w2 k sm h1b hrb]
      simp only []
      rw [hsm.2 c a p none w w2]
    | some js =>
      obtain ⟨j, s⟩ := js
      have hmem : s ∈ cfg.Syncers :=
        getSyncerForEntityAndActionFrom_mem loc c a cfg.Syncers 0 w j s hr
      rw [transitionPhase_with_syncer cfg loc c a p w k j sm s h1 hr,
        transitionPhase_with_syncer cfg loc c a p w2 k j sm s h1b hrb]
      simp only []
      rw [(hdet.2 s hmem).2 c a p w w2,
        hsm.2 (s.Do c a p w2).1.1 a p (s.Do c a p w2).1.2 (s.Do c a p w).2 (s.Do c a p w2).2]
  · have h1b : (getStateMachineForEntity cfg loc c w2).res
        = .val (none, some ErrorUnprocessableEntity) := by
      unfold getStateMachineForEntity
      rw [← hsel]
      exact h1
    rw [transitionPhase_of_none cfg loc c a p w h1, transitionPhase_of_none cfg loc c a p w2 h1b]

/-- The pair of keys of a fold-back. -/
theorem foldUpdates_cons (ops : EntityOps) (c : Entity) (tk ek : String) (v : Option Entity)
    (rest : List (String × String × Option Entity)) (r : Entity) :
    foldUpdates ops c ((tk, ek, v) :: rest) = some r
      ↔ ∃ u, ops.UpdateSubEntity c tk ek v = .ok u ∧ foldUpdates ops u rest = some r := by
  simp only [foldUpdates]
  cases h : ops.UpdateSubEntity c tk ek v with
  | error err => simp
  | ok u => simp

/-- Fold-backs at distinct pairs of keys that commute can be made in any order. -/
theorem foldUpdates_perm (ops : EntityOps) (hcomm : UpdatesCommute ops)
    (L L2 : List (String × String × Option Entity)) (hperm : L.Perm L2) :
    ∀ (c r : Entity), (L.map (fun t => (t.1, t.2.1))).Nodup →
      foldUpdates ops c L = some r → foldUpdates ops c L2 = some r := by
  induction hperm with
  | nil => exact fun _ _ _ h => h
  | cons x _ ih =>
    intro c r hnd h
    obtain ⟨tk, ek, v⟩ := x
    rw [foldUpdates_cons] at h ⊢
    obtain ⟨u, hu, hrest⟩ := h
    simp only [List.map_cons, List.nodup_cons] at hnd
    exact ⟨u, hu, ih u r hnd.2 hrest⟩
  | swap x y l =>
    intro c r hnd h
    obtain ⟨tk1, ek1, v1⟩ := x
    obtain ⟨tk2, ek2, v2⟩ := y
    rw [foldUpdates_cons] at h
    obtain ⟨a, ha, h2⟩ := h
    rw [foldUpdates_cons] at h2
    obtain ⟨b, hb, hrest⟩ := h2
    have hne : (tk2, ek2) ≠ (tk1, ek1) := by
      simp only [List.map_cons, List.nodup_cons, List.mem_cons, not_or] at hnd
      exact hnd.1.1
    obtain ⟨a2, ha2, hb2⟩ := hcomm c tk2 ek2 v2 tk1 ek1 v1 a b hne ha hb
    rw [foldUpdates_cons]
    refine ⟨a2, ha2, ?_⟩
    rw [foldUpdates_cons]
    exact ⟨b, hb2, hrest⟩
  | trans hp1 _ ih1 ih2 =>
    intro c r hnd h
    refine ih2 c r ?_ (ih1 c r hnd h)
    exact ((hp1.map _).nodup_iff).1 hnd

/-- A loop over the sub-entities that succeeds has made the fold-backs of its list, with
the values that the calls into the sub-processors returned. -/
theorem childLoop_success_fold (sys : System W) (cfg : ProcessorConfig W)
    (sub : ProcessorRef → Path → Entity → Action → ActionParams →
      Eng W (Option Entity × Option GoError))
    (loc : Path) (a : Action) (p : ActionParams)
    (f : String × String × Entity → Option Entity) (l : List (String × String × Entity))
    (hf : ∀ y ∈ l, ∀ w v, (sub (cfg.GetProcessorFunc (some y.2.2)) (loc ++ [(y.1, y.2.1)])
      y.2.2 a p w).res = .val (v, none) → v = f y)
    (c c2 : Entity) (w : W)
    (h : (childLoop sys cfg sub loc a p l c w).res = .val (c2, none)) :
    foldUpdates sys.ops c (l.map (fun y => (y.1, y.2.1, f y))) = some c2 := by
  induction l generalizing c w with
  | nil =>
    simp only [childLoop, pure_res, Ctl.val.injEq, Prod.mk.injEq, and_true] at h
    rw [h]
    rfl
  | cons y rest ih =>
    obtain ⟨tk, ek, x⟩ := y
    rcases childLoop_cons sys cfg sub loc a p tk ek x rest c w with
      ⟨_, hR⟩ | ⟨_, _, _, hcase⟩ | ⟨_, v, u, hS, hU, _, hR⟩
    · rw [hR] at h
      cases h
    · rcases hcase with ⟨_, h2⟩ | ⟨_, h2⟩ | ⟨_, _, _, h2⟩ | ⟨_, _, _, _, h2⟩ | ⟨_, _, _, _, _, h2⟩
      all_goals (rw [h2] at h; cases h)
    · rw [hR] at h
      simp only [] at h
      have hv := hf (tk, ek, x) (List.mem_cons_self _ _) w v hS
      rw [List.map_cons, foldUpdates_cons]
      refine ⟨u, ?_, ih (fun y hy => hf y (List.mem_cons_of_mem _ hy)) u _ h⟩
      rw [← hv]
      exact hU

/-- In a loop over the sub-entities that succeeds, every call into a sub-processor has
returned without error. -/
theorem childLoop_calls_succeed (sys : System W) (cfg : ProcessorConfig W)
    (sub : ProcessorRef → Path → Entity → Action → ActionParams →
      Eng W (Option Entity × Option GoError))
    (loc : Path) (a : Action) (p : ActionParams) (l : List (String × String × Entity))
    (c c2 : Entity) (w : W)
    (h : (childLoop sys cfg sub loc a p l c w).res = .val (c2, none)) :
    ∀ y ∈ l, ∃ w2 v, (sub (cfg.GetProcessorFunc (some y.2.2)) (loc ++ [(y.1, y.2.1)])
      y.2.2 a p w2).res = .val (v, none) := by
  induction l generalizing c w with
  | nil => intro y hy; cases hy
  | cons y rest ih =>
    obtain ⟨tk, ek, x⟩ := y
    rcases childLoop_cons sys cfg sub loc a p tk ek x rest c w with
      ⟨_, hR⟩ | ⟨_, _, _, hcase⟩ | ⟨_, v, u, hS, _, _, hR⟩
    · rw [hR] at h
      cases h
    · rcases hcase with ⟨_, h2⟩ | ⟨_, h2⟩ | ⟨_, _, _, h2⟩ | ⟨_, _, _, _, h2⟩ | ⟨_, _, _, _, _, h2⟩
      all_goals (rw [h2] at h; cases h)
    · rw [hR] at h
      simp only [] at h
      intro z hz
      rcases List.mem_cons.1 hz with hz | hz
      · subst hz
        exact ⟨w, v, hS⟩
      · exact ih u _ h z hz

/-- Two loops over the same sub-entities in two orders, both successful, with calls into the
sub-processors that agree on what they return, return the same entity. -/
theorem childLoop_order_independent (sys : System W) (cfg : ProcessorConfig W)
    (hcomm : UpdatesCommute sys.ops)
    (sub1 sub2 : ProcessorRef → Path → Entity → Action → ActionParams →
      Eng W (Option Entity × Option GoError))
    (loc : Path) (a : Action) (p : ActionParams) (l1 l2 : List (String × String × Entity))
    (hperm : l1.Perm l2) (hnd : (l1.map entryKey).Nodup)
    (h11 : ∀ y ∈ l1, ∀ w w2 v v2,
      (sub1 (cfg.GetProcessorFunc (some y.2.2)) (loc ++ [(y.1, y.2.1)]) y.2.2 a p w).res
        = .val (v, none) →
      (sub1 (cfg.GetProcessorFunc (some y.2.2)) (loc ++ [(y.1, y.2.1)]) y.2.2 a p w2).res
        = .val (v2, none) → v = v2)
    (h12 : ∀ y ∈ l1, ∀ w w2 v v2,
      (sub1 (cfg.GetProcessorFunc (some y.2.2)) (loc ++ [(y.1, y.2.1)]) y.2.2 a p w).res
        = .val (v, none) →
      (sub2 (cfg.GetProcessorFunc (some y.2.2)) (loc ++ [(y.1, y.2.1)]) y.2.2 a p w2).res
        = .val (v2, none) → v = v2)
    (c0 c1 c2 : Entity) (w1 w2 : W)
    (hr1 : (childLoop sys cfg sub1 loc a p l1 c0 w1).res = .val (c1, none))
    (hr2 : (childLoop sys cfg sub2 loc a p l2 c0 w2).res = .val (c2, none)) : c1 = c2 := by
  have hex := childLoop_calls_succeed sys cfg sub1 loc a p l1 c0 c1 w1 hr1
  have hall : ∀ y, ∃ v, y ∈ l1 → ∃ w,
      (sub1 (cfg.GetProcessorFunc (some y.2.2)) (loc ++ [(y.1, y.2.1)]) y.2.2 a p w).res
        = .val (v, none) := by
    intro y
    by_cases hy : y ∈ l1
    · obtain ⟨w, v, h⟩ := hex y hy
      exact ⟨v, fun _ => ⟨w, h⟩⟩
    · exact ⟨none, fun h => absurd h hy⟩
  choose f hf using hall
  have hf1 := childLoop_success_fold sys cfg sub1 loc a p f l1
    (fun y hy w v hs => by
      obtain ⟨w0, h0⟩ := hf y hy
      exact h11 y hy w w0 v (f y) hs h0) c0 c1 w1 hr1
  have hf2 := childLoop_success_fold sys cfg sub2 loc a p f l2
    (fun y hy w v hs => by
      have hy1 : y ∈ l1 := hperm.mem_iff.2 hy
      obtain ⟨w0, h0⟩ := hf y hy1
      exact (h12 y hy1 w0 w (f y) v h0 hs).symm) c0 c2 w2 hr2
  have hnd2 : ((l1.map (fun y => (y.1, y.2.1, f y))).map (fun t => (t.1, t.2.1))).Nodup := by
    rw [List.map_map]
    exact hnd
  have hf3 := foldUpdates_perm sys.ops hcomm _ _ (hperm.map (fun y => (y.1, y.2.1, f y)))
    c0 c1 hnd2 hf1
  rw [hf2] at hf3
  exact (Option.some.inj hf3).symm

/-- When the wrapper's `act` (or `syncAndValidate`) returns without error, the wrapped method
has returned the entity without error. -/
theorem wrapper_act_success (E : Nat → Bool)
    (f : Path → Entity → Action → ActionParams → Eng W (Entity × Option GoError))
    (loc : Path) (e : Entity) (a : Action) (p : ActionParams) (w : W) (v : Option Entity)
    (h : (genericProcessorWrapper.act E f loc e a p w).res = .val (v, none)) :
    ∃ r, (f loc e a p w).res = .val (r, none) ∧ v = some r := by
  unfold genericProcessorWrapper.act at h
  by_cases hE : E e.typ = true
  · simp only [hE, if_true] at h
    rcases hr : (f loc e a p w).res with r | _ | _
    · rw [bind_of_val hr] at h
      simp only [run_pure, Ctl.val.injEq, Prod.mk.injEq] at h
      obtain ⟨r1, r2⟩ := r
      simp only [] at h
      refine ⟨r1, ?_, h.1.symm⟩
      rw [h.2]
    · rw [bind_of_panic hr] at h
      cases h
    · rw [bind_of_outOfFuel hr] at h
      cases h
  · simp only [hE] at h
    simp [run_pure] at h

/-- Calls into a sub-processor agree on what they return when the methods called do. -/
theorem ref_act_agree (sys : System W)
    (self1 self2 : Nat → Path → Entity → Action → ActionParams →
      Eng W (Entity × Option GoError))
    (ref : ProcessorRef) (loc : Path) (x : Entity) (a : Action) (p : ActionParams) (w w2 : W)
    (v v2 : Option Entity)
    (hself : ∀ id r r2, (self1 id loc x a p w).res = .val (r, none) →
      (self2 id loc x a p w2).res = .val (r2, none) → r = r2)
    (h1 : (ProcessorRef.act sys self1 ref loc x a p w).res = .val (v, none))
    (h2 : (ProcessorRef.act sys self2 ref loc x a p w2).res = .val (v2, none)) : v = v2 := by
  unfold ProcessorRef.act at h1 h2
  rw [traced_res] at h1 h2
  cases ref with
  | wrapper id =>
    obtain ⟨r, hr, hv⟩ := wrapper_act_success _ _ loc x a p w v h1
    obtain ⟨r2, hr2, hv2⟩ := wrapper_act_success _ _ loc x a p w2 v2 h2
    rw [hv, hv2, hself id r r2 hr hr2]
  | nilInterface => cases h1
  | nilPointer => cases h1

theorem ref_syncAndValidate_agree (sys : System W)
    (self1 self2 : Nat → Path → Entity → Action → ActionParams →
      Eng W (Entity × Option GoError))
    (ref : ProcessorRef) (loc : Path) (x : Entity) (a : Action) (p : ActionParams) (w w2 : W)
    (v v2 : Option Entity)
    (hself : ∀ id r r2, (self1 id loc x a p w).res = .val (r, none) →
      (self2 id loc x a p w2).res = .val (r2, none) → r = r2)
    (h1 : (ProcessorRef.syncAndValidate sys self1 ref loc x a p w).res = .val (v, none))
    (h2 : (ProcessorRef.syncAndValidate sys self2 ref loc x a p w2).res = .val (v2, none)) :
    v = v2 := by
  unfold ProcessorRef.syncAndValidate at h1 h2
  rw [traced_res] at h1 h2
  cases ref with
  | wrapper id =>
    obtain ⟨r, hr, hv⟩ := wrapper_act_success _ _ loc x a p w v h1
    obtain ⟨r2, hr2, hv2⟩ := wrapper_act_success _ _ loc x a p w2 v2 h2
    rw [hv, hv2, hself id r r2 hr hr2]
  | nilInterface => cases h1
  | nilPointer => cases h1

/-- A successful first part of `syncAndValidate` or `act` is a successful loop started with
the copy. -/
theorem childrenPhaseIn_success (sys : System W) (cfg : ProcessorConfig W)
    (sub : ProcessorRef → Path → Entity → Action → ActionParams →
      Eng W (Option Entity × Option GoError))
    (loc : Path) (l : List (String × String × Entity)) (e : Entity) (a : Action)
    (p : ActionParams) (w : W) (c : Entity)
    (h : (childrenPhaseIn sys cfg sub loc l e a p w).res = .val (c, none)) :
    (childLoop sys cfg sub loc a p l (sys.ops.Copy e) w).res = .val (c, none) := by
  unfold childrenPhaseIn at h
  rw [run_assertType_bind] at h
  by_cases hE : cfg.E (sys.ops.Copy e).typ = true
  · simpa only [hE, if_true] using h
  · simp only [hE] at h
    cases h

/-- Two first parts of `syncAndValidate` or `act` on the same sub-entities in two orders,
both successful, return the same entity. -/
theorem childrenPhaseIn_order_independent (sys : System W) (cfg : ProcessorConfig W)
    (hcomm : UpdatesCommute sys.ops)
    (sub1 sub2 : ProcessorRef → Path → Entity → Action → ActionParams →
      Eng W (Option Entity × Option GoError))
    (loc : Path) (a : Action) (p : ActionParams) (e : Entity) (hWF : e.WF)
    (l1 l2 : List (String × String × Entity))
    (hp1 : l1.Perm (entries e.SubEntities)) (hp2 : l2.Perm (entries e.SubEntities))
    (h11 : ∀ y ∈ entries e.SubEntities, ∀ ref w w2 v v2,
      (sub1 ref (loc ++ [(y.1, y.2.1)]) y.2.2 a p w).res = .val (v, none) →
      (sub1 ref (loc ++ [(y.1, y.2.1)]) y.2.2 a p w2).res = .val (v2, none) → v = v2)
    (h12 : ∀ y ∈ entries e.SubEntities, ∀ ref w w2 v v2,
      (sub1 ref (loc ++ [(y.1, y.2.1)]) y.2.2 a p w).res = .val (v, none) →
      (sub2 ref (loc ++ [(y.1, y.2.1)]) y.2.2 a p w2).res = .val (v2, none) → v = v2)
    (c1 c2 : Entity) (w1 w2 : W)
    (hr1 : (childrenPhaseIn sys cfg sub1 loc l1 e a p w1).res = .val (c1, none))
    (hr2 : (childrenPhaseIn sys cfg sub2 loc l2 e a p w2).res = .val (c2, none)) : c1 = c2 := by
  refine childLoop_order_independent sys cfg hcomm sub1 sub2 loc a p l1 l2
    (hp1.trans hp2.symm) ?_ ?_ ?_ (sys.ops.Copy e) c1 c2 w1 w2
    (childrenPhaseIn_success sys cfg sub1 loc l1 e a p w1 c1 hr1)
    (childrenPhaseIn_success sys cfg sub2 loc l2 e a p w2 c2 hr2)
  · exact ((hp1.map entryKey).nodup_iff).2 (Entity.WF_entries_nodup e hWF)
  · exact fun y hy => h11 y (hp1.mem_iff.1 hy) _
  · exact fun y hy => h12 y (hp1.mem_iff.1 hy) _

/-- The body of `syncAndValidate` after a successful first part, and the first part of a
successful body. -/
theorem syncAndValidateBodyIn_res (sys : System W) (cfg : ProcessorConfig W)
    (sub : ProcessorRef → Path → Entity → Action → ActionParams →
      Eng W (Option Entity × Option GoError))
    (loc : Path) (l : List (String × String × Entity)) (e : Entity) (a : Action)
    (p : ActionParams) (w : W) :
    (∀ c, (childrenPhaseIn sys cfg sub loc l e a p w).res = .val (c, none) →
        (syncAndValidateBodyIn sys cfg sub loc l e a p w).res
          = (ownSyncAndValidate cfg loc e c a p
              (childrenPhaseIn sys cfg sub loc l e a p w).world).res)
      ∧ ∀ r, (syncAndValidateBodyIn sys cfg sub loc l e a p w).res = .val (r, none) →
          ∃ c, (childrenPhaseIn sys cfg sub loc l e a p w).res = .val (c, none) := by
  unfold syncAndValidateBodyIn
  rw [run_emit_bind]
  refine ⟨fun c h => by rw [bind_of_val h], fun r h => ?_⟩
  simp only [] at h
  rcases hr : (childrenPhaseIn sys cfg sub loc l e a p w).res with ⟨c, oe⟩ | _ | _
  · rw [bind_of_val hr] at h
    cases oe with
    | none => exact ⟨c, rfl⟩
    | some err => cases h
  · rw [bind_of_panic hr] at h
    cases h
  · rw [bind_of_outOfFuel hr] at h
    cases h

theorem actBodyIn_res (sys : System W) (cfg : ProcessorConfig W)
    (sub : ProcessorRef → Path → Entity → Action → ActionParams →
      Eng W (Option Entity × Option GoError))
    (loc : Path) (l : List (String × String × Entity)) (e : Entity) (a : Action)
    (p : ActionParams) (w : W) :
    (∀ c, (childrenPhaseIn sys cfg sub loc l e a p w).res = .val (c, none) →
        (actBodyIn sys cfg sub loc l e a p w).res
          = (transitionPhase cfg loc c a p
              (childrenPhaseIn sys cfg sub loc l e a p w).world).res)
      ∧ ∀ r, (actBodyIn sys cfg sub loc l e a p w).res = .val (r, none) →
          ∃ c, (childrenPhaseIn sys cfg sub loc l e a p w).res = .val (c, none) := by
  unfold actBodyIn
  rw [run_emit_bind]
  refine ⟨fun c h => by rw [bind_of_val h], fun r h => ?_⟩
  simp only [] at h
  rcases hr : (childrenPhaseIn sys cfg sub loc l e a p w).res with ⟨c, oe⟩ | _ | _
  · rw [bind_of_val hr] at h
    cases oe with
    | none => exact ⟨c, rfl⟩
    | some err => cases h
  · rw [bind_of_panic hr] at h
    cases h
  · rw [bind_of_outOfFuel hr] at h
    cases h

/-- With deterministic collaborators and commuting fold-backs, two successful runs of
`syncAndValidate` with two visiting orders return the same entity. -/
theorem syncAndValidateIn_agree (sys : System W) (hdet : Deterministic sys)
    (hcomm : UpdatesCommute sys.ops) :
    ∀ (fuel : Nat) (ord1 ord2 : Path → Entity → List (String × String × Entity)),
      VisitingOrder ord1 → VisitingOrder ord2 →
      ∀ (id : Nat) (loc : Path) (e : Entity) (a : Action) (p : ActionParams) (w1 w2 : W)
        (r1 r2 : Entity), e.WF →
        (syncAndValidateIn sys ord1 fuel id loc e a p w1).res = .val (r1, none) →
        (syncAndValidateIn sys ord2 fuel id loc e a p w2).res = .val (r2, none) → r1 = r2 := by
  intro fuel
  induction fuel with
  | zero =>
    intro ord1 ord2 _ _ id loc e a p w1 w2 r1 r2 _ h
    cases h
  | succ n ih =>
    intro ord1 ord2 ho1 ho2 id loc e a p w1 w2 r1 r2 hWF hr1 hr2
    have hb1 := syncAndValidateBodyIn_res sys (sys.processors id)
      (ProcessorRef.syncAndValidate sys (syncAndValidateIn sys ord1 n)) loc (ord1 loc e) e a p w1
    have hb2 := syncAndValidateBodyIn_res sys (sys.processors id)
      (ProcessorRef.syncAndValidate sys (syncAndValidateIn sys ord2 n)) loc (ord2 loc e) e a p w2
    obtain ⟨c1, hc1⟩ := hb1.2 r1 hr1
    obtain ⟨c2, hc2⟩ := hb2.2 r2 hr2
    have hc := childrenPhaseIn_order_independent sys (sys.processors id) hcomm _ _ loc a p e hWF
      (ord1 loc e) (ord2 loc e) (ho1 loc e) (ho2 loc e)
      (fun y hy ref w w2 v v2 h1 h2 =>
        ref_syncAndValidate_agree sys _ _ ref _ y.2.2 a p w w2 v v2
          (fun id2 r r2 => ih ord1 ord1 ho1 ho1 id2 _ y.2.2 a p w w2 r r2
            (WF_of_mem_entries e hWF y hy)) h1 h2)
      (fun y hy ref w w2 v v2 h1 h2 =>
        ref_syncAndValidate_agree sys _ _ ref _ y.2.2 a p w w2 v v2
          (fun id2 r r2 => ih ord1 ord2 ho1 ho2 id2 _ y.2.2 a p w w2 r r2
            (WF_of_mem_entries e hWF y hy)) h1 h2)
      c1 c2 w1 w2 hc1 hc2
    subst hc
    have e1 := hb1.1 c1 hc1
    have e2 := hb2.1 c1 hc2
    have hr1b : (syncAndValidateBodyIn sys (sys.processors id)
        (ProcessorRef.syncAndValidate sys (syncAndValidateIn sys ord1 n)) loc (ord1 loc e)
        e a p w1).res = .val (r1, none) := hr1
    have hr2b : (syncAndValidateBodyIn sys (sys.processors id)
        (ProcessorRef.syncAndValidate sys (syncAndValidateIn sys ord2 n)) loc (ord2 loc e)
        e a p w2).res = .val (r2, none) := hr2
    rw [e1] at hr1b
    rw [e2, ← ownSyncAndValidate_det (sys.processors id) (hdet id) loc e c1 a p _ _, hr1b]
      at hr2b
    simp only [Ctl.val.injEq, Prod.mk.injEq, and_true] at hr2b
    exact hr2b

/-- With deterministic collaborators and commuting fold-backs, two successful runs of `act`
with two visiting orders return the same entity. -/
theorem actIn_agree (sys : System W) (hdet : Deterministic sys)
    (hcomm : UpdatesCommute sys.ops) :
    ∀ (fuel : Nat) (ord1 ord2 : Path → Entity → List (String × String × Entity)),
      VisitingOrder ord1 → VisitingOrder ord2 →
      ∀ (id : Nat) (loc : Path) (e : Entity) (a : Action) (p : ActionParams) (w1 w2 : W)
        (r1 r2 : Entity), e.WF →
        (actIn sys ord1 fuel id loc e a p w1).res = .val (r1, none) →
        (actIn sys ord2 fuel id loc e a p w2).res = .val (r2, none) → r1 = r2 := by
  intro fuel
  induction fuel with
  | zero =>
    intro ord1 ord2 _ _ id loc e a p w1 w2 r1 r2 _ h
    cases h
  | succ n ih =>
    intro ord1 ord2 ho1 ho2 id loc e a p w1 w2 r1 r2 hWF hr1 hr2
    have hb1 := actBodyIn_res sys (sys.processors id)
      (ProcessorRef.act sys (actIn sys ord1 n)) loc (ord1 loc e) e a p w1
    have hb2 := actBodyIn_res sys (sys.processors id)
      (ProcessorRef.act sys (actIn sys ord2 n)) loc (ord2 loc e) e a p w2
    obtain ⟨c1, hc1⟩ := hb1.2 r1 hr1
    obtain ⟨c2, hc2⟩ := hb2.2 r2 hr2
    have hc := childrenPhaseIn_order_independent sys (sys.processors id) hcomm _ _ loc a p e hWF
      (ord1 loc e) (ord2 loc e) (ho1 loc e) (ho2 loc e)
      (fun y hy ref w w2 v v2 h1 h2 =>
        ref_act_agree sys _ _ ref _ y.2.2 a p w w2 v v2
          (fun id2 r r2 => ih ord1 ord1 ho1 ho1 id2 _ y.2.2 a p w w2 r r2
            (WF_of_mem_entries e hWF y hy)) h1 h2)
      (fun y hy ref w w2 v v2 h1 h2 =>
        ref_act_agree sys _ _ ref _ y.2.2 a p w w2 v v2
          (fun id2 r r2 => ih ord1 ord2 ho1 ho2 id2 _ y.2.2 a p w w2 r r2
            (WF_of_mem_entries e hWF y hy)) h1 h2)
      c1 c2 w1 w2 hc1 hc2
    subst hc
    have e1 := hb1.1 c1 hc1
    have e2 := hb2.1 c1 hc2
    have hr1b : (actBodyIn sys (sys.processors id)
        (ProcessorRef.act sys (actIn sys ord1 n)) loc (ord1 loc e) e a p w1).res
        = .val (r1, none) := hr1
    have hr2b : (actBodyIn sys (sys.processors id)
        (ProcessorRef.act sys (actIn sys ord2 n)) loc (ord2 loc e) e a p w2).res
        = .val (r2, none) := hr2
    rw [e1] at hr1b
    rw [e2, ← transitionPhase_det (sys.processors id) (hdet id) loc c1 a p _ _, hr1b] at hr2b
    simp only [Ctl.val.injEq, Prod.mk.injEq, and_true] at hr2b
    exact hr2b

/-! ### Success in one order is success in every order -/

/-- In a loop over the sub-entities that succeeds, every sub-entity has a processor. -/
theorem childLoop_calls_resolved (sys : System W) (cfg : ProcessorConfig W)
    (sub : ProcessorRef → Path → Entity → Action → ActionParams →
      Eng W (Option Entity × Option GoError))
    (loc : Path) (a : Action) (p : ActionParams) (l : List (String × String × Entity))
    (c c2 : Entity) (w : W)
    (h : (childLoop sys cfg sub loc a p l c w).res = .val (c2, none)) :
    ∀ y ∈ l, isNilProcessor (cfg.GetProcessorFunc (some y.2.2)) = false := by
  induction l generalizing c w with
  | nil => intro y hy; cases hy
  | cons y rest ih =>
    obtain ⟨tk, ek, x⟩ := y
    rcases childLoop_cons sys cfg sub loc a p tk ek x rest c w with
      ⟨_, hR⟩ | ⟨_, _, _, hcase⟩ | ⟨hnil, v, u, _, _, _, hR⟩
    · rw [hR] at h
      cases h
    · rcases hcase with ⟨_, h2⟩ | ⟨_, h2⟩ | ⟨_, _, _, h2⟩ | ⟨_, _, _, _, h2⟩ | ⟨_, _, _, _, _, h2⟩
      all_goals (rw [h2] at h; cases h)
    · rw [hR] at h
      simp only [] at h
      intro z hz
      rcases List.mem_cons.1 hz with hz | hz
      · subst hz
        exact hnil
      · exact ih u _ h z hz

/-- A loop over the sub-entities succeeds when every sub-entity has a processor, the calls
into the sub-processors return the values `f`, the fold-backs of these values succeed, and
`UpdateSubEntity` keeps the concrete type. -/
theorem childLoop_of_fold (sys : System W) (cfg : ProcessorConfig W)
    (hkt : UpdateKeepsType sys.ops)
    (sub : ProcessorRef → Path → Entity → Action → ActionParams →
      Eng W (Option Entity × Option GoError))
    (loc : Path) (a : Action) (p : ActionParams)
    (f : String × String × Entity → Option Entity) (l : List (String × String × Entity))
    (hnil : ∀ y ∈ l, isNilProcessor (cfg.GetProcessorFunc (some y.2.2)) = false)
    (hsub : ∀ y ∈ l, ∀ w, (sub (cfg.GetProcessorFunc (some y.2.2)) (loc ++ [(y.1, y.2.1)])
      y.2.2 a p w).res = .val (f y, none))
    (c c2 : Entity) (w : W) (hE : cfg.E c.typ = true)
    (h : foldUpdates sys.ops c (l.map (fun y => (y.1, y.2.1, f y))) = some c2) :
    (childLoop sys cfg sub loc a p l c w).res = .val (c2, none) := by
  induction l generalizing c w with
  | nil =>
    simp only [List.map_nil, foldUpdates, Option.some.injEq] at h
    rw [h]
    rfl
  | cons y rest ih =>
    obtain ⟨tk, ek, x⟩ := y
    rw [List.map_cons, foldUpdates_cons] at h
    obtain ⟨u, hu, hrest⟩ := h
    simp only [] at hu
    have hs := hsub (tk, ek, x) (List.mem_cons_self _ _) w
    have hn := hnil (tk, ek, x) (List.mem_cons_self _ _)
    simp only [] at hs hn
    have hEu : cfg.E u.typ = true := by
      rw [hkt c tk ek _ u hu]
      exact hE
    rcases childLoop_cons sys cfg sub loc a p tk ek x rest c w with
      ⟨h1, _⟩ | ⟨_, _, _, hcase⟩ | ⟨_, v, u2, hS, hU, _, hR⟩
    · rw [hn] at h1
      cases h1
    · rcases hcase with ⟨h2, _⟩ | ⟨h2, _⟩ | ⟨_, _, h2, _⟩ | ⟨v, _, h2, h3, _⟩
        | ⟨v, u2, h2, h3, h4, _⟩
      · rw [hs] at h2
        cases h2
      · rw [hs] at h2
        cases h2
      · rw [hs] at h2
        cases h2
      · rw [hs] at h2
        simp only [Ctl.val.injEq, Prod.mk.injEq, and_true] at h2
        rw [← h2, hu] at h3
        cases h3
      · rw [hs] at h2
        simp only [Ctl.val.injEq, Prod.mk.injEq, and_true] at h2
        rw [← h2, hu] at h3
        have huu : u = u2 := Except.ok.inj h3
        subst huu
        rw [hEu] at h4
        cases h4
    · rw [hs] at hS
      simp only [Ctl.val.injEq, Prod.mk.injEq, and_true] at hS
      rw [← hS, hu] at hU
      have huu : u = u2 := Except.ok.inj hU
      subst huu
      rw [hR]
      exact ih (fun y hy => hnil y (List.mem_cons_of_mem _ hy))
        (fun y hy => hsub y (List.mem_cons_of_mem _ hy)) u _ hEu hrest

/-- A call into a sub-processor returns in one world what it returns in another when the
method called does. -/
theorem ref_act_transfer (sys : System W)
    (self1 self2 : Nat → Path → Entity → Action → ActionParams →
      Eng W (Entity × Option GoError))
    (ref : ProcessorRef) (loc : Path) (x : Entity) (a : Action) (p : ActionParams) (w w2 : W)
    (v : Option Entity)
    (hself : ∀ id r, (self1 id loc x a p w).res = .val (r, none) →
      (self2 id loc x a p w2).res = .val (r, none))
    (h1 : (ProcessorRef.act sys self1 ref loc x a p w).res = .val (v, none)) :
    (ProcessorRef.act sys self2 ref loc x a p w2).res = .val (v, none) := by
  unfold ProcessorRef.act at h1 ⊢
  rw [traced_res] at h1 ⊢
  cases ref with
  | wrapper id =>
    simp only [] at h1 ⊢
    obtain ⟨r, hr, hv⟩ := wrapper_act_success _ _ loc x a p w v h1
    have hE : (sys.processors id).E x.typ = true := by
      by_cases hE : (sys.processors id).E x.typ = true
      · exact hE
      · unfold genericProcessorWrapper.act at h1
        simp only [hE] at h1
        simp [run_pure] at h1
    rw [wrapper_act_of_val _ _ loc x a p w2 hE (r, none) (hself id r hr), hv]
  | nilInterface => cases h1
  | nilPointer => cases h1

theorem ref_syncAndValidate_transfer (sys : System W)
    (self1 self2 : Nat → Path → Entity → Action → ActionParams →
      Eng W (Entity × Option GoError))
    (ref : ProcessorRef) (loc : Path) (x : Entity) (a : Action) (p : ActionParams) (w w2 : W)
    (v : Option Entity)
    (hself : ∀ id r, (self1 id loc x a p w).res = .val (r, none) →
      (self2 id loc x a p w2).res = .val (r, none))
    (h1 : (ProcessorRef.syncAndValidate sys self1 ref loc x a p w).res = .val (v, none)) :
    (ProcessorRef.syncAndValidate sys self2 ref loc x a p w2).res = .val (v, none) := by
  unfold ProcessorRef.syncAndValidate at h1 ⊢
  rw [traced_res] at h1 ⊢
  cases ref with
  | wrapper id =>
    simp only [] at h1 ⊢
    obtain ⟨r, hr, hv⟩ := wrapper_act_success _ _ loc x a p w v h1
    have hE : (sys.processors id).E x.typ = true := by
      by_cases hE : (sys.processors id).E x.typ = true
      · exact hE
      · unfold genericProcessorWrapper.syncAndValidate at h1
        simp only [hE] at h1
        simp [run_pure] at h1
    rw [wrapper_syncAndValidate_of_val _ _ loc x a p w2 hE (r, none) (hself id r hr), hv]
  | nilInterface => cases h1
  | nilPointer => cases h1

/-- A first part of `syncAndValidate` or `act` that succeeds in one visiting order succeeds in
every other, with the same entity, when the calls into the sub-processors that succeed in the
one order succeed in the other, in whatever world, with the same value. -/
theorem childrenPhaseIn_transfer (sys : System W) (cfg : ProcessorConfig W)
    (hcomm : UpdatesCommute sys.ops) (hkt : UpdateKeepsType sys.ops)
    (sub1 sub2 : ProcessorRef → Path → Entity → Action → ActionParams →
      Eng W (Option Entity × Option GoError))
    (loc : Path) (a : Action) (p : ActionParams) (e : Entity) (hWF : e.WF)
    (l1 l2 : List (String × String × Entity))
    (hp1 : l1.Perm (entries e.SubEntities)) (hp2 : l2.Perm (entries e.SubEntities))
    (h11 : ∀ y ∈ entries e.SubEntities, ∀ ref w w2 v v2,
      (sub1 ref (loc ++ [(y.1, y.2.1)]) y.2.2 a p w).res = .val (v, none) →
      (sub1 ref (loc ++ [(y.1, y.2.1)]) y.2.2 a p w2).res = .val (v2, none) → v = v2)
    (h12 : ∀ y ∈ entries e.SubEntities, ∀ ref w w2 v,
      (sub1 ref (loc ++ [(y.1, y.2.1)]) y.2.2 a p w).res = .val (v, none) →
      (sub2 ref (loc ++ [(y.1, y.2.1)]) y.2.2 a p w2).res = .val (v, none))
    (c1 : Entity) (w1 w2 : W)
    (hr1 : (childrenPhaseIn sys cfg sub1 loc l1 e a p w1).res = .val (c1, none)) :
    (childrenPhaseIn sys cfg sub2 loc l2 e a p w2).res = .val (c1, none) := by
  have hE : cfg.E (sys.ops.Copy e).typ = true := by
    by_cases hE : cfg.E (sys.ops.Copy e).typ = true
    · exact hE
    · unfold childrenPhaseIn at hr1
      rw [run_assertType_bind] at hr1
      simp only [hE] at hr1
      cases hr1
  have hl1 := childrenPhaseIn_success sys cfg sub1 loc l1 e a p w1 c1 hr1
  have hex := childLoop_calls_succeed sys cfg sub1 loc a p l1 _ c1 w1 hl1
  have hres := childLoop_calls_resolved sys cfg sub1 loc a p l1 _ c1 w1 hl1
  have hall : ∀ y, ∃ v, y ∈ l1 → ∃ w,
      (sub1 (cfg.GetProcessorFunc (some y.2.2)) (loc ++ [(y.1, y.2.1)]) y.2.2 a p w).res
        = .val (v, none) := by
    intro y
    by_cases hy : y ∈ l1
    · obtain ⟨w, v, h⟩ := hex y hy
      exact ⟨v, fun _ => ⟨w, h⟩⟩
    · exact ⟨none, fun h => absurd h hy⟩
  choose f hf using hall
  have hf1 := childLoop_success_fold sys cfg sub1 loc a p f l1
    (fun y hy w v hs => by
      obtain ⟨w0, h0⟩ := hf y hy
      exact h11 y (hp1.mem_iff.1 hy) _ w w0 v (f y) hs h0) _ c1 w1 hl1
  have hnd : ((l1.map (fun y => (y.1, y.2.1, f y))).map (fun t => (t.1, t.2.1))).Nodup := by
    rw [List.map_map]
    exact ((hp1.map entryKey).nodup_iff).2 (Entity.WF_entries_nodup e hWF)
  have hf2 := foldUpdates_perm sys.ops hcomm _ _
    ((hp1.trans hp2.symm).map (fun y => (y.1, y.2.1, f y))) _ c1 hnd hf1
  have hl2 := childLoop_of_fold sys cfg hkt sub2 loc a p f l2
    (fun y hy => hres y ((hp1.trans hp2.symm).mem_iff.2 hy))
    (fun y hy w => by
      have hy1 : y ∈ l1 := (hp1.trans hp2.symm).mem_iff.2 hy
      obtain ⟨w0, h0⟩ := hf y hy1
      exact h12 y (hp1.mem_iff.1 hy1) _ w0 w (f y) h0) _ c1 w2 hE hf2
  unfold childrenPhaseIn
  rw [run_assertType_bind]
  simp only [hE, if_true]
  exact hl2

/-- With deterministic collaborators, commuting fold-backs and an `UpdateSubEntity` that
keeps the concrete type, a `syncAndValidate` that succeeds with one visiting order succeeds
with every other, in whatever world, and returns the same entity. -/
theorem syncAndValidateIn_transfer (sys : System W) (hdet : Deterministic sys)
    (hcomm : UpdatesCommute sys.ops) (hkt : UpdateKeepsType sys.ops) :
    ∀ (fuel : Nat) (ord1 ord2 : Path → Entity → List (String × String × Entity)),
      VisitingOrder ord1 → VisitingOrder ord2 →
      ∀ (id : Nat) (loc : Path) (e : Entity) (a : Action) (p : ActionParams) (w1 w2 : W)
        (r : Entity), e.WF →
        (syncAndValidateIn sys ord1 fuel id loc e a p w1).res = .val (r, none) →
        (syncAndValidateIn sys ord2 fuel id loc e a p w2).res = .val (r, none) := by
  intro fuel
  induction fuel with
  | zero =>
    intro ord1 ord2 _ _ id loc e a p w1 w2 r _ h
    cases h
  | succ n ih =>
    intro ord1 ord2 ho1 ho2 id loc e a p w1 w2 r hWF hr1
    have hb1 := syncAndValidateBodyIn_res sys (sys.processors id)
      (ProcessorRef.syncAndValidate sys (syncAndValidateIn sys ord1 n)) loc (ord1 loc e) e a p w1
    have hb2 := syncAndValidateBodyIn_res sys (sys.processors id)
      (ProcessorRef.syncAndValidate sys (syncAndValidateIn sys ord2 n)) loc (ord2 loc e) e a p w2
    obtain ⟨c1, hc1⟩ := hb1.2 r hr1
    have hc2 := childrenPhaseIn_transfer sys (sys.processors id) hcomm hkt _
      (ProcessorRef.syncAndValidate sys (syncAndValidateIn sys ord2 n)) loc a p e hWF
      (ord1 loc e) (ord2 loc e) (ho1 loc e) (ho2 loc e)
      (fun y hy ref w w2 v v2 h1 h2 =>
        ref_syncAndValidate_agree sys _ _ ref _ y.2.2 a p w w2 v v2
          (fun id2 r r2 => syncAndValidateIn_agree sys hdet hcomm n ord1 ord1 ho1 ho1 id2 _
            y.2.2 a p w w2 r r2 (WF_of_mem_entries e hWF y hy)) h1 h2)
      (fun y hy ref w w2 v h1 =>
        ref_syncAndValidate_transfer sys _ _ ref _ y.2.2 a p w w2 v
          (fun id2 r => ih ord1 ord2 ho1 ho2 id2 _ y.2.2 a p w w2 r
            (WF_of_mem_entries e hWF y hy)) h1)
      c1 w1 w2 hc1
    have hr1b : (syncAndValidateBodyIn sys (sys.processors id)
        (ProcessorRef.syncAndValidate sys (syncAndValidateIn sys ord1 n)) loc (ord1 loc e)
        e a p w1).res = .val (r, none) := hr1
    show (syncAndValidateBodyIn sys (sys.processors id)
        (ProcessorRef.syncAndValidate sys (syncAndValidateIn sys ord2 n)) loc (ord2 loc e)
        e a p w2).res = .val (r, none)
    rw [hb1.1 c1 hc1] at hr1b
    rw [hb2.1 c1 hc2, ← ownSyncAndValidate_det (sys.processors id) (hdet id) loc e c1 a p _ _]
    exact hr1b

/-- With deterministic collaborators, commuting fold-backs and an `UpdateSubEntity` that
keeps the concrete type, an `act` that succeeds with one visiting order succeeds with every
other, in whatever world, and returns the same entity. -/
theorem actIn_transfer (sys : System W) (hdet : Deterministic sys)
    (hcomm : UpdatesCommute sys.ops) (hkt : UpdateKeepsType sys.ops) :
    ∀ (fuel : Nat) (ord1 ord2 : Path → Entity → List (String × String × Entity)),
      VisitingOrder ord1 → VisitingOrder ord2 →
      ∀ (id : Nat) (loc : Path) (e : Entity) (a : Action) (p : ActionParams) (w1 w2 : W)
        (r : Entity), e.WF →
        (actIn sys ord1 fuel id loc e a p w1).res = .val (r, none) →
        (actIn sys ord2 fuel id loc e a p w2).res = .val (r, none) := by
  intro fuel
  induction fuel with
  | zero =>
    intro ord1 ord2 _ _ id loc e a p w1 w2 r _ h
    cases h
  | succ n ih =>
    intro ord1 ord2 ho1 ho2 id loc e a p w1 w2 r hWF hr1
    have hb1 := actBodyIn_res sys (sys.processors id)
      (ProcessorRef.act sys (actIn sys ord1 n)) loc (ord1 loc e) e a p w1
    have hb2 := actBodyIn_res sys (sys.processors id)
      (ProcessorRef.act sys (actIn sys ord2 n)) loc (ord2 loc e) e a p w2
    obtain ⟨c1, hc1⟩ := hb1.2 r hr1
    have hc2 := childrenPhaseIn_transfer sys (sys.processors id) hcomm hkt _
      (ProcessorRef.act sys (actIn sys ord2 n)) loc a p e hWF
      (ord1 loc e) (ord2 loc e) (ho1 loc e) (ho2 loc e)
      (fun y hy ref w w2 v v2 h1 h2 =>
        ref_act_agree sys _ _ ref _ y.2.2 a p w w2 v v2
          (fun id2 r r2 => actIn_agree sys hdet hcomm n ord1 ord1 ho1 ho1 id2 _
            y.2.2 a p w w2 r r2 (WF_of_mem_entries e hWF y hy)) h1 h2)
      (fun y hy ref w w2 v h1 =>
        ref_act_transfer sys _ _ ref _ y.2.2 a p w w2 v
          (fun id2 r => ih ord1 ord2 ho1 ho2 id2 _ y.2.2 a p w w2 r
            (WF_of_mem_entries e hWF y hy)) h1)
      c1 w1 w2 hc1
    have hr1b : (actBodyIn sys (sys.processors id)
        (ProcessorRef.act sys (actIn sys ord1 n)) loc (ord1 loc e) e a p w1).res
        = .val (r, none) := hr1
    show (actBodyIn sys (sys.processors id)
        (ProcessorRef.act sys (actIn sys ord2 n)) loc (ord2 loc e) e a p w2).res
        = .val (r, none)
    rw [hb1.1 c1 hc1] at hr1b
    rw [hb2.1 c1 hc2, ← transitionPhase_det (sys.processors id) (hdet id) loc c1 a p _ _]
    exact hr1b

/-- C19 (as amended; independence of the child visiting order).  Let the collaborators be
deterministic (what they return depends on their arguments only) and let the calls of
UpdateSubEntity at distinct pairs of keys commute.  For a well-formed entity and two visiting
orders `ord1` and `ord2`, which enumerate the sub-entities of every entity of the tree in any
two ways: when the loop over the sub-entities of syncAndValidate returns without error with
both orders (every sub-entity resolves to a processor, is processed without error and is
folded back without error), it produces the same entity with both, and syncAndValidate
returns the same entity and the same error with both; likewise for act.  The states of the world in
which the two runs start need not be the same.  With the order of `entries` the methods are
`processor.syncAndValidate` and `processor.act`.  If moreover UpdateSubEntity keeps the
concrete type of its receiver, a loop over the sub-entities that succeeds with one order
succeeds with the other, with the same entity. -/
theorem child_order_independence (sys : System W) (hdet : Deterministic sys)
    (hcomm : UpdatesCommute sys.ops)
    (ord1 ord2 : Path → Entity → List (String × String × Entity))
    (h1 : VisitingOrder ord1) (h2 : VisitingOrder ord2) (id : Nat) (loc : Path)
    (entity : Entity) (a : Action) (p : ActionParams) (w1 w2 : W) (hWF : entity.WF) :
    (∀ c1 c2,
        (processor.syncChildrenIn sys ord1 id loc entity a p w1).res = .val (c1, none) →
        (processor.syncChildrenIn sys ord2 id loc entity a p w2).res = .val (c2, none) →
        c1 = c2
          ∧ (processor.syncAndValidateIn sys ord1 id loc entity a p w1).res
            = (processor.syncAndValidateIn sys ord2 id loc entity a p w2).res)
      ∧ (∀ c1 c2,
          (processor.actChildrenIn sys ord1 id loc entity a p w1).res = .val (c1, none) →
          (processor.actChildrenIn sys ord2 id loc entity a p w2).res = .val (c2, none) →
          c1 = c2
            ∧ (processor.actIn sys ord1 id loc entity a p w1).res
              = (processor.actIn sys ord2 id loc entity a p w2).res)
      ∧ processor.syncAndValidateIn sys entriesOrder id loc entity a p
          = processor.syncAndValidate sys id loc entity a p
      ∧ processor.actIn sys entriesOrder id loc entity a p
          = processor.act sys id loc entity a p
      ∧ (UpdateKeepsType sys.ops → ∀ c,
          (processor.syncChildrenIn sys ord1 id loc entity a p w1).res = .val (c, none) →
          (processor.syncChildrenIn sys ord2 id loc entity a p w2).res = .val (c, none))
      ∧ (UpdateKeepsType sys.ops → ∀ c,
          (processor.actChildrenIn sys ord1 id loc entity a p w1).res = .val (c, none) →
          (processor.actChildrenIn sys ord2 id loc entity a p w2).res = .val (c, none)) := by
  obtain ⟨n, hn⟩ : ∃ n, entity.depth = n + 1 := ⟨_, Entity.depth_eq entity⟩
  refine ⟨?_, ?_, ?_, ?_, ?_, ?_⟩
  · intro c1 c2 hc1 hc2
    unfold processor.syncChildrenIn at hc1 hc2
    unfold processor.syncAndValidateIn
    rw [hn] at hc1 hc2 ⊢
    simp only [Nat.add_sub_cancel] at hc1 hc2
    unfold syncChildrenIn at hc1 hc2
    have hc := childrenPhaseIn_order_independent sys (sys.processors id) hcomm _ _ loc a p
      entity hWF (ord1 loc entity) (ord2 loc entity) (h1 loc entity) (h2 loc entity)
      (fun y hy ref w w2 v v2 e1 e2 =>
        ref_syncAndValidate_agree sys _ _ ref _ y.2.2 a p w w2 v v2
          (fun id2 r r2 => syncAndValidateIn_agree sys hdet hcomm n ord1 ord1 h1 h1 id2 _ y.2.2
            a p w w2 r r2 (WF_of_mem_entries entity hWF y hy)) e1 e2)
      (fun y hy ref w w2 v v2 e1 e2 =>
        ref_syncAndValidate_agree sys _ _ ref _ y.2.2 a p w w2 v v2
          (fun id2 r r2 => syncAndValidateIn_agree sys hdet hcomm n ord1 ord2 h1 h2 id2 _ y.2.2
            a p w w2 r r2 (WF_of_mem_entries entity hWF y hy)) e1 e2)
      c1 c2 w1 w2 hc1 hc2
    refine ⟨hc, ?_⟩
    subst hc
    have e1 := (syncAndValidateBodyIn_res sys (sys.processors id)
      (ProcessorRef.syncAndValidate sys (syncAndValidateIn sys ord1 n)) loc (ord1 loc entity)
      entity a p w1).1 c1 hc1
    have e2 := (syncAndValidateBodyIn_res sys (sys.processors id)
      (ProcessorRef.syncAndValidate sys (syncAndValidateIn sys ord2 n)) loc (ord2 loc entity)
      entity a p w2).1 c1 hc2
    show (syncAndValidateBodyIn sys (sys.processors id)
        (ProcessorRef.syncAndValidate sys (syncAndValidateIn sys ord1 n)) loc (ord1 loc entity)
        entity a p w1).res
      = (syncAndValidateBodyIn sys (sys.processors id)
        (ProcessorRef.syncAndValidate sys (syncAndValidateIn sys ord2 n)) loc (ord2 loc entity)
        entity a p w2).res
    rw [e1, e2]
    exact ownSyncAndValidate_det (sys.processors id) (hdet id) loc entity c1 a p _ _
  · intro c1 c2 hc1 hc2
    unfold processor.actChildrenIn at hc1 hc2
    unfold processor.actIn
    rw [hn] at hc1 hc2 ⊢
    simp only [Nat.add_sub_cancel] at hc1 hc2
    unfold actChildrenIn at hc1 hc2
    have hc := childrenPhaseIn_order_independent sys (sys.processors id) hcomm _ _ loc a p
      entity hWF (ord1 loc entity) (ord2 loc entity) (h1 loc entity) (h2 loc entity)
      (fun y hy ref w w2 v v2 e1 e2 =>
        ref_act_agree sys _ _ ref _ y.2.2 a p w w2 v v2
          (fun id2 r r2 => actIn_agree sys hdet hcomm n ord1 ord1 h1 h1 id2 _ y.2.2
            a p w w2 r r2 (WF_of_mem_entries entity hWF y hy)) e1 e2)
      (fun y hy ref w w2 v v2 e1 e2 =>
        ref_act_agree sys _ _ ref _ y.2.2 a p w w2 v v2
          (fun id2 r r2 => actIn_agree sys hdet hcomm n ord1 ord2 h1 h2 id2 _ y.2.2
            a p w w2 r r2 (WF_of_mem_entries entity hWF y hy)) e1 e2)
      c1 c2 w1 w2 hc1 hc2
    refine ⟨hc, ?_⟩
    subst hc
    have e1 := (actBodyIn_res sys (sys.processors id)
      (ProcessorRef.act sys (actIn sys ord1 n)) loc (ord1 loc entity) entity a p w1).1 c1 hc1
    have e2 := (actBodyIn_res sys (sys.processors id)
      (ProcessorRef.act sys (actIn sys ord2 n)) loc (ord2 loc entity) entity a p w2).1 c1 hc2
    show (actBodyIn sys (sys.processors id)
        (ProcessorRef.act sys (actIn sys ord1 n)) loc (ord1 loc entity) entity a p w1).res
      = (actBodyIn sys (sys.processors id)
        (ProcessorRef.act sys (actIn sys ord2 n)) loc (ord2 loc entity) entity a p w2).res
    rw [e1, e2]
    exact transitionPhase_det (sys.processors id) (hdet id) loc c1 a p _ _
  · unfold processor.syncAndValidateIn processor.syncAndValidate
    rw [syncAndValidateIn_entriesOrder]
  · unfold processor.actIn processor.act
    rw [actIn_entriesOrder]
  · intro hkt c hc1
    unfold processor.syncChildrenIn at hc1 ⊢
    rw [hn] at hc1 ⊢
    simp only [Nat.add_sub_cancel] at hc1 ⊢
    unfold syncChildrenIn at hc1 ⊢
    exact childrenPhaseIn_transfer sys (sys.processors id) hcomm hkt _ _ loc a p entity hWF
      (ord1 loc entity) (ord2 loc entity) (h1 loc entity) (h2 loc entity)
      (fun y hy ref w w2 v v2 e1 e2 =>
        ref_syncAndValidate_agree sys _ _ ref _ y.2.2 a p w w2 v v2
          (fun id2 r r2 => syncAndValidateIn_agree sys hdet hcomm n ord1 ord1 h1 h1 id2 _ y.2.2
            a p w w2 r r2 (WF_of_mem_entries entity hWF y hy)) e1 e2)
      (fun y hy ref w w2 v e1 =>
        ref_syncAndValidate_transfer sys _ _ ref _ y.2.2 a p w w2 v
          (fun id2 r => syncAndValidateIn_transfer sys hdet hcomm hkt n ord1 ord2 h1 h2 id2 _
            y.2.2 a p w w2 r (WF_of_mem_entries entity hWF y hy)) e1)
      c w1 w2 hc1
  · intro hkt c hc1
    unfold processor.actChildrenIn at hc1 ⊢
    rw [hn] at hc1 ⊢
    simp only [Nat.add_sub_cancel] at hc1 ⊢
    unfold actChildrenIn at hc1 ⊢
    exact childrenPhaseIn_transfer sys (sys.processors id) hcomm hkt _ _ loc a p entity hWF
      (ord1 loc entity) (ord2 loc entity) (h1 loc entity) (h2 loc entity)
      (fun y hy ref w w2 v v2 e1 e2 =>
        ref_act_agree sys _ _ ref _ y.2.2 a p w w2 v v2
          (fun id2 r r2 => actIn_agree sys hdet hcomm n ord1 ord1 h1 h1 id2 _ y.2.2
            a p w w2 r r2 (WF_of_mem_entries entity hWF y hy)) e1 e2)
      (fun y hy ref w w2 v e1 =>
        ref_act_transfer sys _ _ ref _ y.2.2 a p w w2 v
          (fun id2 r => actIn_transfer sys hdet hcomm hkt n ord1 ord2 h1 h2 id2 _
            y.2.2 a p w w2 r (WF_of_mem_entries entity hWF y hy)) e1)
      c w1 w2 hc1

/-! ### The hypotheses on the example application -/

theorem replaceTyped_comm (k1 k2 : String) (c1 c2 : Entity) (hne : k1 ≠ k2)
    (m m1 m2 : List (String × Entity))
    (h1 : replaceTyped k1 c1 m = some m1) (h2 : replaceTyped k2 c2 m1 = some m2) :
    ∃ m3, replaceTyped k2 c2 m = some m3 ∧ replaceTyped k1 c1 m3 = some m2 := by
  induction m generalizing m1 m2 with
  | nil => simp [replaceTyped] at h1
  | cons kx rest ih =>
    obtain ⟨k, e⟩ := kx
    by_cases hk1 : k = k1
    · subst hk1
      have hk2 : ¬ k = k2 := hne
      simp only [replaceTyped, if_true, Option.some.injEq] at h1
      subst h1
      simp only [replaceTyped, hk2, if_false, Option.map_eq_some'] at h2
      obtain ⟨r2, hr2, hm2⟩ := h2
      subst hm2
      refine ⟨(k, e) :: r2, ?_, ?_⟩
      · simp only [replaceTyped, hk2, if_false, hr2, Option.map_some']
      · simp only [replaceTyped, if_true]
    · simp only [replaceTyped, hk1, if_false, Option.map_eq_some'] at h1
      obtain ⟨r1, hr1, hm1⟩ := h1
      subst hm1
      by_cases hk2 : k = k2
      · subst hk2
        simp only [replaceTyped, if_true, Option.some.injEq] at h2
        subst h2
        refine ⟨(k, c2) :: rest, ?_, ?_⟩
        · simp only [replaceTyped, if_true]
        · simp only [replaceTyped, hk1, if_false, hr1, Option.map_some']
      · simp only [replaceTyped, hk2, if_false, Option.map_eq_some'] at h2
        obtain ⟨r2, hr2, hm2⟩ := h2
        subst hm2
        obtain ⟨r3, hr3, hr4⟩ := ih r1 r2 hr1 hr2
        refine ⟨(k, e) :: r3, ?_, ?_⟩
        · simp only [replaceTyped, hk2, if_false, hr3, Option.map_some']
        · simp only [replaceTyped, hk1, if_false, hr4, Option.map_some']

theorem replaceSub_comm (tk1 ek1 tk2 ek2 : String) (c1 c2 : Entity)
    (hne : (tk1, ek1) ≠ (tk2, ek2)) (m m1 m2 : List (String × List (String × Entity)))
    (h1 : replaceSub tk1 ek1 c1 m = some m1) (h2 : replaceSub tk2 ek2 c2 m1 = some m2) :
    ∃ m3, replaceSub tk2 ek2 c2 m = some m3 ∧ replaceSub tk1 ek1 c1 m3 = some m2 := by
  induction m generalizing m1 m2 with
  | nil => simp [replaceSub] at h1
  | cons tm rest ih =>
    obtain ⟨t, m0⟩ := tm
    by_cases ht1 : t = tk1
    · subst ht1
      simp only [replaceSub, if_true, Option.map_eq_some'] at h1
      obtain ⟨n1, hn1, hm1⟩ := h1
      subst hm1
      by_cases ht2 : t = tk2
      · subst ht2
        have hek : ek1 ≠ ek2 := fun h => hne (by rw [h])
        simp only [replaceSub, if_true, Option.map_eq_some'] at h2
        obtain ⟨n2, hn2, hm2⟩ := h2
        subst hm2
        obtain ⟨n3, hn3, hn4⟩ := replaceTyped_comm ek1 ek2 c1 c2 hek m0 n1 n2 hn1 hn2
        refine ⟨(t, n3) :: rest, ?_, ?_⟩
        · simp only [replaceSub, if_true, hn3, Option.map_some']
        · simp only [replaceSub, if_true, hn4, Option.map_some']
      · simp only [replaceSub, ht2, if_false, Option.map_eq_some'] at h2
        obtain ⟨r2, hr2, hm2⟩ := h2
        subst hm2
        refine ⟨(t, m0) :: r2, ?_, ?_⟩
        · simp only [replaceSub, ht2, if_false, hr2, Option.map_some']
        · simp only [replaceSub, if_true, hn1, Option.map_some']
    · simp only [replaceSub, ht1, if_false, Option.map_eq_some'] at h1
      obtain ⟨r1, hr1, hm1⟩ := h1
      subst hm1
      by_cases ht2 : t = tk2
      · subst ht2
        simp only [replaceSub, if_true, Option.map_eq_some'] at h2
        obtain ⟨n2, hn2, hm2⟩ := h2
        subst hm2
        refine ⟨(t, n2) :: rest, ?_, ?_⟩
        · simp only [replaceSub, if_true, hn2, Option.map_some']
        · simp only [replaceSub, ht1, if_false, hr1, Option.map_some']
      · simp only [replaceSub, ht2, if_false, Option.map_eq_some'] at h2
        obtain ⟨r2, hr2, hm2⟩ := h2
        subst hm2
        obtain ⟨r3, hr3, hr4⟩ := ih r1 r2 hr1 hr2
        refine ⟨(t, m0) :: r3, ?_, ?_⟩
        · simp only [replaceSub, ht2, if_false, hr3, Option.map_some']
        · simp only [replaceSub, ht1, if_false, hr4, Option.map_some']

theorem demoOps_update_ok (e : Entity) (tk ek : String) (v : Option Entity) (u : Entity)
    (h : demoOps.UpdateSubEntity e tk ek v = .ok u) :
    ∃ c s, v = some c ∧ replaceSub tk ek c e.SubEntities = some s
      ∧ u = Entity.mk e.typ e.fields s := by
  cases v with
  | none => simp [demoOps] at h
  | some c =>
    simp only [demoOps] at h
    cases hr : replaceSub tk ek c e.SubEntities with
    | none =>
      rw [hr] at h
      cases h
    | some s =>
      rw [hr] at h
      exact ⟨c, s, rfl, hr, (Except.ok.inj h).symm⟩

theorem demoOps_commute : UpdatesCommute demoOps := by
  intro e tk1 ek1 v1 tk2 ek2 v2 a b hne ha hb
  obtain ⟨c1, s1, hv1, hs1, hau⟩ := demoOps_update_ok e tk1 ek1 v1 a ha
  obtain ⟨c2, s2, hv2, hs2, hbu⟩ := demoOps_update_ok a tk2 ek2 v2 b hb
  subst hv1
  subst hv2
  subst hau
  subst hbu
  obtain ⟨s3, hs3, hs4⟩ := replaceSub_comm tk1 ek1 tk2 ek2 c1 c2 hne e.SubEntities s1 s2 hs1 hs2
  refine ⟨Entity.mk e.typ e.fields s3, ?_, ?_⟩
  · simp only [demoOps, hs3]
  · simp only [demoOps, Entity.SubEntities, hs4]
    rfl

theorem demo_deterministic : Deterministic demo := by
  intro i
  refine ⟨fun sm hsm => ?_, fun s hs => ?_⟩
  · have hsm2 : sm = demoStateMachine := by
      simpa [demo, demoConfig] using hsm
    subst hsm2
    refine ⟨fun e a p w w2 => rfl, fun e a p err w w2 => ?_⟩
    cases err with
    | some _ => rfl
    | none =>
      simp only [demoStateMachine]
      split <;> rfl
  · have hs2 : s = demoSyncer := by
      simpa [demo, demoConfig] using hs
    subst hs2
    exact ⟨fun e w w2 => rfl, fun e a p w w2 => rfl⟩

theorem entriesOrder_visiting : VisitingOrder entriesOrder :=
  fun _ _ => List.Perm.refl _

theorem reverseOrder_visiting : VisitingOrder reverseOrder :=
  fun _ _ => List.reverse_perm _

/-- C19, example: approving the order with two line items, the line items being visited in
the order of the map and in the reverse order, gives the same order after the loop over the
line items, and `act` returns the same.  When two sub-entities fail, the error depends on the
order: with a line item whose sync fails and a sub-entity without a processor, one order
reports the error of the sync and the other ErrorProcessorNotFound. -/
theorem child_order_independence_witness :
    Deterministic demo ∧ UpdatesCommute demo.ops ∧ VisitingOrder entriesOrder
      ∧ VisitingOrder reverseOrder ∧ grownOrder.WF
      ∧ (processor.actChildrenIn demo entriesOrder 0 [] grownOrder "approve" 0 (0 : Nat)).res
          = .val (.mk 1 10 [("items", [("1", .mk 2 15 []), ("2", .mk 2 17 [])])], none)
      ∧ (processor.actChildrenIn demo reverseOrder 0 [] grownOrder "approve" 0 (0 : Nat)).res
          = .val (.mk 1 10 [("items", [("1", .mk 2 15 []), ("2", .mk 2 17 [])])], none)
      ∧ (processor.actIn demo entriesOrder 0 [] grownOrder "approve" 0 (0 : Nat)).res
          = (processor.actIn demo reverseOrder 0 [] grownOrder "approve" 0 (0 : Nat)).res
      ∧ (processor.syncAndValidateIn itemSyncFails entriesOrder 0 [] mixedOrder "approve" 0
            (0 : Nat)).res = .val (mixedOrder, some (GoError.other 5))
      ∧ (processor.syncAndValidateIn itemSyncFails reverseOrder 0 [] mixedOrder "approve" 0
            (0 : Nat)).res = .val (mixedOrder, some ErrorProcessorNotFound) :=
  have hWF : grownOrder.WF := by
    simp [grownOrder, Entity.WF, Entity.WFTypes, Entity.WFEnts, keys]
  have hc1 : (processor.actChildrenIn demo entriesOrder 0 [] grownOrder "approve" 0
      (0 : Nat)).res
      = .val (.mk 1 10 [("items", [("1", .mk 2 15 []), ("2", .mk 2 17 [])])], none) := by
    decide
  have hc2 : (processor.actChildrenIn demo reverseOrder 0 [] grownOrder "approve" 0
      (0 : Nat)).res
      = .val (.mk 1 10 [("items", [("1", .mk 2 15 []), ("2", .mk 2 17 [])])], none) := by
    decide
  ⟨demo_deterministic, demoOps_commute, entriesOrder_visiting, reverseOrder_visiting, hWF,
    hc1, hc2,
    ((child_order_independence demo demo_deterministic demoOps_commute entriesOrder
      reverseOrder entriesOrder_visiting reverseOrder_visiting 0 [] grownOrder "approve" 0 0 0
      hWF).2.1 _ _ hc1 hc2).2,
    by decide, by decide⟩

theorem itemMarks_deterministic : Deterministic itemMarks := by
  intro i
  refine ⟨fun sm hsm => ?_, fun s hs => ?_⟩
  · have hsm2 : sm = demoStateMachine := by
      simpa [itemMarks] using hsm
    subst hsm2
    refine ⟨fun e a p w w2 => rfl, fun e a p err w w2 => ?_⟩
    cases err with
    | some _ => rfl
    | none =>
      simp only [demoStateMachine]
      split <;> rfl
  · by_cases hi : i = 1
    · have hs2 : s = markingSyncer := by
        simpa [itemMarks, hi] using hs
      subst hs2
      exact ⟨fun e w w2 => rfl, fun e a p w w2 => rfl⟩
    · simp [itemMarks, hi] at hs

/-- C19, counterexample: the collaborators are deterministic and the calls of
UpdateSubEntity commute; a single sub-entity of the order fails, the one that has no
processor, and both visiting orders report its error; yet the entity returned with the error
depends on the order: it holds the line item as its Sync marked it when the line item is
visited first, and as it was when the sub-entity without processor is visited first. -/
theorem child_order_counterexample :
    Deterministic itemMarks ∧ UpdatesCommute itemMarks.ops ∧ VisitingOrder entriesOrder
      ∧ VisitingOrder reverseOrder
      ∧ Event.ret [("items", "1")] (some (.mk 2 1 [])) none
        ∈ (processor.syncAndValidateIn itemMarks entriesOrder 0 [] mixedOrder "approve" 0
            (0 : Nat)).trace
      ∧ (processor.syncAndValidateIn itemMarks entriesOrder 0 [] mixedOrder "approve" 0
            (0 : Nat)).res
          = .val (.mk 1 0 [("items", [("1", .mk 2 1 []), ("2", .mk 3 0 [])])],
              some ErrorProcessorNotFound)
      ∧ (processor.syncAndValidateIn itemMarks reverseOrder 0 [] mixedOrder "approve" 0
            (0 : Nat)).res = .val (mixedOrder, some ErrorProcessorNotFound)
      ∧ Entity.mk 1 0 [("items", [("1", .mk 2 1 []), ("2", .mk 3 0 [])])] ≠ mixedOrder :=
  ⟨itemMarks_deterministic, demoOps_commute, entriesOrder_visiting, reverseOrder_visiting,
    by decide, by decide, by decide, by decide⟩

end Theorems

end HSM
